import Mathlib

/-!
# topo-blend: the task engine of `TopoBlenderLib/Task.cpp`

A shallow embedding of `Task` (time window, lazy preparation, execution and
topology finalisation) together with the specification claims settled on it.

Conventions of the embedding

* `double` values are elements of a linearly ordered field `K` with a floor
  function; every concrete evaluation below takes `K := ℚ`, so arithmetic is exact.
* `int` values are mathematical integers: the time line stays far inside the
  `int` range, and signed overflow has no defined behaviour in C++.
* Pointers to nodes and links are their identifiers; a null pointer that gets
  dereferenced, an index outside a container and `front()`/`back()` of an empty
  container are faults, and a faulting run yields `none`.
* Code of other translation units (structure graph, NURBS curves, geodesic
  distances, the Qt item) is a field of `Env` when it computes geometry, and a
  small definition marked `Modelled from the spec` when it edits the graph.
-/

set_option linter.unusedSectionVars false

namespace TopoBlend

/-! ## Vectors and conversions -/

/-- `Vector3` / `Vec3d`: three `double` components. -/
structure Vector3 (K : Type) where
  x : K
  y : K
  z : K
deriving DecidableEq, Repr

/-- `Vec4d`: a local coordinate on a curve or a sheet. -/
structure Vec4d (K : Type) where
  c0 : K
  c1 : K
  c2 : K
  c3 : K
deriving DecidableEq, Repr

namespace Vector3

variable {K : Type} [LinearOrderedField K]

/-- `Vector3(0)`. -/
def zero : Vector3 K := ⟨0, 0, 0⟩

/-- `a + b` on vectors. -/
def add (a b : Vector3 K) : Vector3 K := ⟨a.x + b.x, a.y + b.y, a.z + b.z⟩

/-- `a - b` on vectors. -/
def sub (a b : Vector3 K) : Vector3 K := ⟨a.x - b.x, a.y - b.y, a.z - b.z⟩

/-- `a * s`, a vector scaled by a `double`. -/
def scale (a : Vector3 K) (s : K) : Vector3 K := ⟨a.x * s, a.y * s, a.z * s⟩

/-- `-a`. -/
def neg (a : Vector3 K) : Vector3 K := ⟨-a.x, -a.y, -a.z⟩

/-- `dot(a, b)`. -/
def dot (a b : Vector3 K) : K := a.x * b.x + a.y * b.y + a.z * b.z

/-- `cross(a, b)`. -/
def cross (a b : Vector3 K) : Vector3 K :=
  ⟨a.y * b.z - a.z * b.y, a.z * b.x - a.x * b.z, a.x * b.y - a.y * b.x⟩

end Vector3

/-- Conversion of a `double` to `int`: the fractional part is discarded
(rounding toward zero). -/
def toInt {K : Type} [LinearOrderedField K] [FloorRing K] (x : K) : Int :=
  if 0 ≤ x then ⌊x⌋ else ⌈x⌉

/-- `qMin(a, b)` of Qt: `(a < b) ? a : b`. -/
def qMin {K : Type} [LinearOrder K] (a b : K) : K := if a < b then a else b

/-- `qMax(a, b)` of Qt: `(a < b) ? b : a`. -/
def qMax {K : Type} [LinearOrder K] (a b : K) : K := if a < b then b else a

/-! ## Structure graph -/

/-- `Structure::CURVE` and `Structure::SHEET`, the value of `Node::type()`. -/
inductive NodeType where
  | CURVE
  | SHEET
deriving DecidableEq, Repr

/-- `Task::TaskType` (`Task.h`). -/
inductive TaskType where
  | SHRINK
  | MORPH
  | MERGE
  | SPLIT
  | GROW
deriving DecidableEq, Repr

/-- A `Structure::Node`: identifier, kind, control points (`curve.mCtrlPoint`
of a curve, `surface.mCtrlPoint` of a sheet) and the entries of its property
map that the task engine reads or writes. The control-point counters
`mNumCtrlPoints`, `mNumUCtrlPoints` and `mNumVCtrlPoints` are the sizes of the
stored arrays. -/
structure Node (K : Type) where
  id : String
  type : NodeType
  mCtrlPoint : List (Vector3 K)
  mCtrlPoint2 : List (List (Vector3 K))
  correspond : Option String
  isReady : Option Bool
  samples : Bool
  cached_points : List (Vector3 K)
  cached_normals : List (Vector3 K)
deriving DecidableEq, Repr

/-- A `Structure::Link` between the nodes `n1` and `n2`, with the coordinates
of the attachment on each of them (`coord[0]`, `coord[1]`) and the entries of
its property map that are read. -/
structure Link (K : Type) where
  id : String
  n1 : String
  n2 : String
  coord1 : List (Vec4d K)
  coord2 : List (Vec4d K)
  isCut : Bool
  correspond : Option String
deriving DecidableEq, Repr

/-- A `Structure::Graph`: nodes, edges and the `running_tasks` property. -/
structure Graph (K : Type) where
  nodes : List (Node K)
  edges : List (Link K)
  running_tasks : List String
deriving DecidableEq, Repr

/-- A `GraphDistance::PathPointPair`: a sample of a geodesic path, given as a
node of the graph and a coordinate on it. -/
structure PathPointPair (K : Type) where
  node : String
  coord : Vec4d K
deriving DecidableEq, Repr

/-- `RMF::Frame`: the triple `r, s, t` and the optional `center`. -/
structure Frame (K : Type) where
  r : Vector3 K
  s : Vector3 K
  t : Vector3 K
  center : Vector3 K
deriving DecidableEq, Repr

/-- `RMF`: the polyline `point` and its frames `U`. -/
structure RMF (K : Type) where
  point : List (Vector3 K)
  U : List (Frame K)
deriving DecidableEq, Repr

/-- A `QVariant` that holds control points or deltas: nothing, an
`Array1D_Vector3` or an `Array2D_Vector3`. -/
inductive CtrlVariant (K : Type) where
  | invalid
  | array1D (v : List (Vector3 K))
  | array2D (v : List (List (Vector3 K)))
deriving DecidableEq, Repr

/-- `QVariant::value<Array1D_Vector3>()`: the stored array, or an empty one
when the variant holds something else. -/
def CtrlVariant.value1D {K : Type} : CtrlVariant K → List (Vector3 K)
  | .array1D v => v
  | _ => []

/-- `QVariant::value<Array2D_Vector3>()`. -/
def CtrlVariant.value2D {K : Type} : CtrlVariant K → List (List (Vector3 K))
  | .array2D v => v
  | _ => []

/-- The `property` map of a task (the artifact bag), one field per key used by
`Task.cpp`; `none` is an absent key. The key `nodeID` is set by the scheduler
when the task is created and is always present. -/
structure Property (K : Type) where
  nodeID : String
  orgCtrlPoints : Option (CtrlVariant K)
  deltas : Option (CtrlVariant K)
  path : Option (List (PathPointPair K))
  pathA : Option (List (PathPointPair K))
  pathB : Option (List (PathPointPair K))
  cpIDX : Option Int
  rmf : Option (RMF K)
  cpCoords : Option (List (List K))
  isCutNode : Option Bool
  anchorNode : Option String
deriving DecidableEq, Repr

/-- The state of a `Task`: the two graphs, the operation kind, the artifact
bag, the time fields and the part of the Qt item that the engine reads
(`x()`, `scene() != 0`, the visual rectangle and the resize flag). -/
structure Task (K : Type) where
  active : Graph K
  target : Graph K
  type : TaskType
  taskID : Int
  property : Property K
  start : Int
  length : Int
  currentTime : Int
  isReady : Bool
  isDone : Bool
  x : K
  inScene : Bool
  width : Int
  height : Int
  isResizing : Bool
deriving DecidableEq, Repr

section TimeWindow

variable {K : Type} [LinearOrderedField K]

/-- `Task::stillWorking`. -/
def Task.stillWorking (task : Task K) : Bool :=
  decide (task.currentTime < task.start + task.length)

/-- `Task::reset`. -/
def Task.reset (task : Task K) : Task K :=
  { task with isReady := false, currentTime := task.start }

/-- `Task::endTime`. -/
def Task.endTime (task : Task K) : Int :=
  task.start + task.length

/-- `Task::localT`: the local progress of the task at a tick of the global
time line. -/
def Task.localT (task : Task K) (globalTime : Int) : K :=
  if globalTime ≥ task.start then
    qMin 1 (((globalTime - task.start : Int) : K) / ((task.length : Int) : K))
  else
    -1

/-- `Task::setLength`. -/
def Task.setLength (task : Task K) (newLength : Int) : Task K :=
  let newLength := qMax 1 newLength
  { task with length := newLength, width := newLength }

/-- `Task::isActive`. -/
def Task.isActive (task : Task K) (t : K) : Bool :=
  decide (t ≥ 0) && !task.isDone

end TimeWindow

/-! ## Graph operations used by the task engine -/

section GraphOps

variable {K : Type}

/-- Modelled from the spec: `Structure::Graph::getNode`, the node lookup by id
of the structural graph; `none` is the null pointer. -/
def Graph.getNode (g : Graph K) (id : String) : Option (Node K) :=
  g.nodes.find? (fun n => n.id == id)

/-- Modelled from the spec: `Structure::Link::hasNode`, whether the link is
incident to the node. -/
def Link.hasNode (l : Link K) (id : String) : Bool :=
  l.n1 == id || l.n2 == id

/-- Modelled from the spec: `Structure::Graph::getEdges`, the edge-set query
per node, in the order of the graph's edge list. -/
def Graph.getEdges (g : Graph K) (id : String) : List (Link K) :=
  g.edges.filter (fun l => l.hasNode id)

/-- Modelled from the spec: `Structure::Link::otherNode`, the endpoint of the
link that is not the given node. -/
def Link.otherNode (l : Link K) (id : String) : String :=
  if l.n1 == id then l.n2 else l.n1

/-- Modelled from the spec: `Structure::Link::getCoord`, the attachment
coordinates of the link on the given node. -/
def Link.getCoord (l : Link K) (id : String) : List (Vec4d K) :=
  if l.n1 == id then l.coord1 else l.coord2

/-- Modelled from the spec: `Structure::Link::getCoordOther`, the attachment
coordinates of the link on the endpoint that is not the given node. -/
def Link.getCoordOther (l : Link K) (id : String) : List (Vec4d K) :=
  if l.n1 == id then l.coord2 else l.coord1

/-- Whether a link joins the two given nodes, in either orientation. -/
def Link.joins (l : Link K) (a b : String) : Bool :=
  (l.n1 == a && l.n2 == b) || (l.n1 == b && l.n2 == a)

/-- Modelled from the spec: `Structure::Graph::removeEdge(n1, n2)`, the edge
removal of the structural graph: the first edge that joins the two nodes
leaves the edge list. -/
def Graph.removeEdge (g : Graph K) (a b : String) : Graph K :=
  { g with edges := g.edges.eraseP (fun l => l.joins a b) }

/-- The loop `foreach(link, edges) active->removeEdge(link->n1, link->n2)`. -/
def Graph.removeEdges (g : Graph K) (links : List (Link K)) : Graph K :=
  links.foldl (fun g l => g.removeEdge l.n1 l.n2) g

/-- Modelled from the spec: `Structure::Graph::getEdge(n1, n2)`, the edge
lookup by its two endpoints. -/
def Graph.getEdgeBetween (g : Graph K) (a b : String) : Option (Link K) :=
  g.edges.find? (fun l => l.joins a b)

/-- Modelled from the spec: `Structure::Graph::getEdge(id)`, the edge lookup by
id. -/
def Graph.getEdge (g : Graph K) (id : String) : Option (Link K) :=
  g.edges.find? (fun l => l.id == id)

/-- Modelled from the spec: `Structure::Graph::addEdge(n1, n2, coord1, coord2)`,
the edge creation of the structural graph: a new link between the two nodes,
carrying the two coordinate lists, is appended to the edge list. -/
def Graph.addEdge (g : Graph K) (name : String) (a b : String)
    (coord coordOther : List (Vec4d K)) : Graph K :=
  { g with edges := g.edges ++
      [{ id := name, n1 := a, n2 := b, coord1 := coord, coord2 := coordOther,
         isCut := false, correspond := none }] }

/-- Write a node back into the graph (the effect of an assignment through a
`Structure::Node *`). -/
def Graph.setNode (g : Graph K) (n : Node K) : Graph K :=
  { g with nodes := g.nodes.map (fun m => if m.id == n.id then n else m) }

/-- Modelled from the spec: `Structure::Link::replace(oldNodeID, newNode,
newCoord)`, the edge endpoint replacement: the endpoint with the old id becomes
the new node, attached at the new coordinates. -/
def Link.replace (l : Link K) (oldID newID : String) (newCoord : List (Vec4d K)) : Link K :=
  if l.n1 == oldID then { l with n1 := newID, coord1 := newCoord }
  else if l.n2 == oldID then { l with n2 := newID, coord2 := newCoord }
  else l

/-- Write a link back into the graph (the effect of an assignment through a
`Structure::Link *`). -/
def Graph.setEdge (g : Graph K) (oldId : String) (l : Link K) : Graph K :=
  { g with edges := g.edges.map (fun m => if m.id == oldId then l else m) }

/-- Modelled from the spec: `Structure::Node::controlPoints()`, the control
points of a node as one array (the rows of a sheet one after the other). -/
def Node.controlPoints (n : Node K) : List (Vector3 K) :=
  match n.type with
  | .CURVE => n.mCtrlPoint
  | .SHEET => n.mCtrlPoint2.flatten

end GraphOps

/-- The collaborators of `Task.cpp` that compute geometry and live in other
translation units: the norm and the normalisation of `Vec3d`, the NURBS curve and sheet,
the link positions, the geodesic distance provider, `weld.h`, the spherical
coordinates, `LineSegment.h` and the synthesizer. -/
structure Env (K : Type) where
  norm : Vector3 K → K
  normalized : Vector3 K → Vector3 K
  isCutNode : Graph K → String → Bool
  linkName : String → String → String
  position : Node K → Vec4d K → Vector3 K
  controlPointIndexFromCoord : Node K → Vec4d K → Int
  curveFoldTo : Node K → Vec4d K → Bool → List (Vector3 K) × List (Vector3 K)
  sheetFoldTo : Node K → List (Vec4d K) → Bool →
    List (List (Vector3 K)) × List (List (Vector3 K))
  curveMoveBy : List (Vector3 K) → Vector3 K → List (Vector3 K)
  curveTranslate : List (Vector3 K) → Vector3 K → List (Vector3 K)
  curveTranslateTo : List (Vector3 K) → Vector3 K → Int → List (Vector3 K)
  sheetMoveBy : List (List (Vector3 K)) → Vector3 K → List (List (Vector3 K))
  linkPosition : Graph K → Link K → String → Vector3 K
  linkPositionOther : Graph K → Link K → String → Vector3 K
  smoothPathCoordTo : Graph K → List String → Vector3 K → Vector3 K →
    List (PathPointPair K)
  pathPosition : Graph K → PathPointPair K → Vector3 K
  weld : List (Vector3 K) → List Nat
  qsetOrder : List Nat → List Nat
  globalToLocalSpherical : Vector3 K → Vector3 K → Vector3 K → Vector3 K → K × K
  localSphericalToGlobal : Vector3 K → Vector3 K → Vector3 K → K → K → Vector3 K
  lineLength : Vector3 K → Vector3 K → K
  lineClosestPoint : Vector3 K → Vector3 K → Vector3 K → K × Vector3 K
  linePointAt : Vector3 K → Vector3 K → K → Vector3 K
  blendGeometryCurves : Node K → Option (Node K) → K →
    List (Vector3 K) × List (Vector3 K)
  blendGeometrySheets : Node K → Option (Node K) → K →
    List (Vector3 K) × List (Vector3 K)
  defaultSmoothingIters : Nat

/-! ## Rotation minimizing frames, paths and the curve encoding -/

section Geometry

variable {K : Type} [LinearOrderedField K]

/-- `ZERO_NORM` of `RMF.h`. -/
def ZERO_NORM : K := 1 / 10 ^ 10

/-- `RMF::Frame::Frame(R, S, T)`: the three vectors, normalised. -/
def Frame.ofRST (env : Env K) (R S T : Vector3 K) : Frame K :=
  { r := env.normalized R, s := env.normalized S, t := env.normalized T,
    center := Vector3.zero }

/-- `RMF::Frame::fromTR`. -/
def Frame.fromTR (env : Env K) (T R : Vector3 K) : Frame K :=
  Frame.ofRST env R (Vector3.cross T R) T

/-- `RMF::Frame::fromST`. -/
def Frame.fromST (env : Env K) (S T : Vector3 K) : Frame K :=
  Frame.ofRST env (Vector3.cross S T) S T

/-- `RMF::Frame::orthogonalVector`. -/
def Frame.orthogonalVector (n : Vector3 K) : Vector3 K :=
  if |n.y| ≥ 9 / 10 * |n.x| ∧ |n.z| ≥ 9 / 10 * |n.x| then ⟨0, -n.z, n.y⟩
  else if |n.x| ≥ 9 / 10 * |n.y| ∧ |n.z| ≥ 9 / 10 * |n.y| then ⟨-n.z, 0, n.x⟩
  else ⟨-n.y, n.x, 0⟩

/-- `RMF::Frame::fromT`. -/
def Frame.fromT (env : Env K) (T : Vector3 K) : Frame K :=
  let R := env.normalized (Frame.orthogonalVector (env.normalized T))
  Frame.fromTR env T R

/-- The loop `Estimate tangents` of `RMF::compute`, with the final
`tangent.push_back(tangent.back())`. The bound `point.size() - 1` is unsigned:
on an empty polyline the first iteration reads outside `point`. -/
def RMF.tangents (env : Env K) (point : List (Vector3 K)) : Option (List (Vector3 K)) := do
  if point.length = 0 then none
  else do
    let tangent ← (List.range (point.length - 1)).foldlM
      (fun (tangent : List (Vector3 K)) i => do
        let p1 ← point[i + 1]?
        let p0 ← point[i]?
        let t := p1.sub p0
        if 0 < i ∧ env.norm t < ZERO_NORM then do
          let b ← tangent.getLast?
          some (tangent ++ [b])
        else some (tangent ++ [env.normalized t])) []
    let b ← tangent.getLast?
    some (tangent ++ [b])

/-- One iteration of the double reflection loop of `RMF::compute`. -/
def RMF.step (env : Env K) (point tangent : List (Vector3 K)) (U : List (Frame K)) (i : Nat) :
    Option (List (Frame K)) := do
  let last ← U.getLast?
  let ri := last.r
  let ti := last.t
  let tj ← tangent[i + 1]?
  let p1 ← point[i + 1]?
  let p0 ← point[i]?
  let v1 := p1.sub p0
  if env.norm v1 < ZERO_NORM then some (U ++ [last])
  else
    let c1 := Vector3.dot v1 v1
    let rLi := ri.sub (v1.scale (2 / c1 * Vector3.dot v1 ri))
    let tLi := ti.sub (v1.scale (2 / c1 * Vector3.dot v1 ti))
    let v2 := tj.sub tLi
    let c2 := Vector3.dot v2 v2
    let rj := rLi.sub (v2.scale (2 / c2 * Vector3.dot v2 rLi))
    let sj := Vector3.cross tj rj
    some (U ++ [Frame.fromST env sj tj])

/-- `RMF::RMF(fromPoints)` with `RMF::compute`. -/
def RMF.compute (env : Env K) (point : List (Vector3 K)) : Option (RMF K) := do
  let tangent ← RMF.tangents env point
  let t0 ← tangent.head?
  let firstFrame := Frame.fromT env t0
  let U ← (List.range (point.length - 1)).foldlM (RMF.step env point tangent) [firstFrame]
  let U ← (List.range point.length).foldlM
    (fun (U : List (Frame K)) i => do
      let f ← U[i]?
      let p ← point[i]?
      some (U.set i { f with center := p })) U
  some { point := point, U := U }

/-- One iteration of the smoothing loop of `Task::positionalPath`. -/
def smoothStep (pnts : List (Vector3 K)) : Option (List (Vector3 K)) :=
  if pnts.length = 0 then none
  else some ((List.range pnts.length).map (fun i =>
    if i + 1 = pnts.length then pnts.getD i Vector3.zero
    else if i = 0 then pnts.getD 0 Vector3.zero
    else ((pnts.getD (i - 1) Vector3.zero).add (pnts.getD (i + 1) Vector3.zero)).scale (1 / 2)))

/-- The smoothing loop of `Task::positionalPath`, `smoothingIters` times. -/
def smoothIter : Nat → List (Vector3 K) → Option (List (Vector3 K))
  | 0, pnts => some pnts
  | k + 1, pnts => (smoothStep pnts).bind (smoothIter k)

/-- `Task::positionalPath`. -/
def positionalPath (env : Env K) (active : Graph K) (from_path : List (PathPointPair K))
    (smoothingIters : Nat) : Option (List (Vector3 K)) :=
  smoothIter smoothingIters (from_path.map (env.pathPosition active))

/-- `Task::weldPath`: the entries are moved to their cross-referenced index one
after the other, and the indices kept in the `QSet` are read back in the
iteration order of the set. -/
def weldPath (env : Env K) (active : Graph K) (oldPath : List (PathPointPair K)) :
    Option (List (PathPointPair K)) := do
  let spatialPath := oldPath.map (env.pathPosition active)
  let xrefs := env.weld spatialPath
  let moved ← (List.range xrefs.length).foldlM
    (fun (path : List (PathPointPair K)) i => do
      let x ← xrefs[i]?
      let v ← path[i]?
      if x < path.length then some (path.set x v) else none) oldPath
  let goodPath := env.qsetOrder xrefs.eraseDups
  goodPath.mapM (fun i => moved[i]?)

/-- The statement `if (N % 2 == 0) path.insert(hN, path[hN])` of
`Task::prepareShrinkCurve` and `Task::prepareGrowCurve`. -/
def insertMid {α : Type} (path : List α) : Option (List α) :=
  let N := path.length
  let hN := N / 2
  if N % 2 = 0 then do
    let mid ← path[hN]?
    some (path.take hN ++ mid :: path.drop hN)
  else some path

/-- The split of the path in `Task::prepareShrinkCurve`. -/
def bisectShrink {α : Type} (path : List α) : Option (List α × List α) := do
  let N := path.length
  let path ← insertMid path
  let N := if N % 2 = 0 then N + 1 else N
  let pathA ← (List.range (N / 2)).mapM (fun i => path[i]?)
  let pathB ← (List.range (N / 2)).mapM (fun i => path[N - 1 - i]?)
  some (pathA, pathB)

/-- The split of the path in `Task::prepareGrowCurve`. -/
def bisectGrow {α : Type} (path : List α) : Option (List α × List α) := do
  let N := path.length
  let hN := N / 2
  let path ← insertMid path
  let pathA ← (List.range hN).mapM (fun i => path[hN - 1 - i]?)
  let pathB ← (List.range hN).mapM (fun i => path[hN + 1 + i]?)
  some (pathA, pathB)

/-- `Task::encodeCurve`, on the control points of the node. -/
def encodeCurve (env : Env K) (controlPoints : List (Vector3 K))
    (start fin X Y Z : Vector3 K) : List (List K) :=
  let baseLineLen := env.lineLength start fin
  controlPoints.map (fun p =>
    let closest := env.lineClosestPoint start fin p
    let t := closest.1
    let proj := closest.2
    let dir := p.sub proj
    let offset := if env.norm dir > 0 then env.norm dir / baseLineLen else 0
    let dir := if env.norm dir > 0 then env.normalized dir else dir
    let angles := env.globalToLocalSpherical X Y Z dir
    [1 - t, offset, angles.1, angles.2])

/-- Modelled from the spec: `inverseVectors3`, the negation of every delta
("for SHRINK, deltas are the negation of the GROW deltas"). -/
def inverseVectors3 (deltas : List (Vector3 K)) : List (Vector3 K) :=
  deltas.map Vector3.neg

/-- The body of the loop `Estimate tangents` of `RMF::compute`. -/
def RMF.tangentStep (env : Env K) (point : List (Vector3 K)) (tangent : List (Vector3 K))
    (i : Nat) : Option (List (Vector3 K)) := do
  let p1 ← point[i + 1]?
  let p0 ← point[i]?
  let t := p1.sub p0
  if 0 < i ∧ env.norm t < ZERO_NORM then do
    let b ← tangent.getLast?
    some (tangent ++ [b])
  else some (tangent ++ [env.normalized t])

/-- The body of the loop `RMF Visualization` of `RMF::compute`:
`U[i].center = point[i]`. -/
def RMF.centerStep (point : List (Vector3 K)) (U : List (Frame K)) (i : Nat) :
    Option (List (Frame K)) := do
  let f ← U[i]?
  let p ← point[i]?
  some (U.set i { f with center := p })

/-- The arithmetic of `env` is exact at `v` and `v` can be normalised: the
norm of `v` is not zero, it is the Euclidean length of `v`, and `normalized`
divides `v` by it. -/
def Env.exactAt (env : Env K) (v : Vector3 K) : Bool :=
  decide (env.norm v ≠ 0) && decide (env.norm v * env.norm v = Vector3.dot v v) &&
    decide (env.normalized v = v.scale (1 / env.norm v))

/-- The divisions of the tangent estimate at `i` (loop `Estimate tangents` of
`RMF::compute`) are exact; there is none when the segment is degenerate and
`i > 0`, where the previous tangent is reused. -/
def RMF.tangentExact (env : Env K) (point : List (Vector3 K)) (i : Nat) : Bool :=
  match point[i + 1]?, point[i]? with
  | some p1, some p0 =>
    if 0 < i ∧ env.norm (p1.sub p0) < ZERO_NORM then true else env.exactAt (p1.sub p0)
  | _, _ => true

/-- The divisions of `RMF::Frame::fromT` are exact: the two calls of
`normalized` and the `normalize` of the three vectors of the frame. -/
def Frame.fromTExact (env : Env K) (T : Vector3 K) : Bool :=
  let o := Frame.orthogonalVector (env.normalized T)
  let R := env.normalized o
  env.exactAt T && env.exactAt o && env.exactAt R && env.exactAt (Vector3.cross T R)

/-- Lines 2 to 8 of the double reflection loop of `RMF::compute`: the divisors
`c1` and `c2` of the two quotients, and the vector `sj`. -/
def RMF.reflections (ri ti tj v1 : Vector3 K) : K × K × Vector3 K :=
  let c1 := Vector3.dot v1 v1
  let rLi := ri.sub (v1.scale (2 / c1 * Vector3.dot v1 ri))
  let tLi := ti.sub (v1.scale (2 / c1 * Vector3.dot v1 ti))
  let v2 := tj.sub tLi
  let c2 := Vector3.dot v2 v2
  let rj := rLi.sub (v2.scale (2 / c2 * Vector3.dot v2 rLi))
  let sj := Vector3.cross tj rj
  (c1, c2, sj)

/-- The divisions of iteration `i` of the double reflection loop on the frames
`U` are exact: `c1` and `c2` are not zero and the three vectors of the new
frame can be normalised. There is no division on a degenerate segment, where
the last frame is copied. -/
def RMF.stepExact (env : Env K) (point tangent : List (Vector3 K)) (U : List (Frame K))
    (i : Nat) : Bool :=
  match U.getLast?, tangent[i + 1]?, point[i + 1]?, point[i]? with
  | some last, some tj, some p1, some p0 =>
    if env.norm (p1.sub p0) < ZERO_NORM then true
    else
      let x := RMF.reflections last.r last.t tj (p1.sub p0)
      decide (x.1 ≠ 0) && decide (x.2.1 ≠ 0) && env.exactAt (Vector3.cross x.2.2 tj) &&
        env.exactAt x.2.2 && env.exactAt tj
  | _, _, _, _ => true

/-- The frames of `RMF::compute` after the first frame and `k` iterations of
the double reflection loop. -/
def RMF.framesAfter (env : Env K) (point tangent : List (Vector3 K)) (k : Nat) :
    Option (List (Frame K)) :=
  match tangent.head? with
  | some t0 => (List.range k).foldlM (RMF.step env point tangent) [Frame.fromT env t0]
  | none => none

/-- Every division of `RMF::compute` on `point` is exact: no divisor is zero,
and each vector that is normalised is divided by its Euclidean length. -/
def RMF.exact (env : Env K) (point : List (Vector3 K)) : Bool :=
  match RMF.tangents env point with
  | some tangent =>
    (List.range (point.length - 1)).all (RMF.tangentExact env point) &&
    (match tangent.head? with
      | some t0 => Frame.fromTExact env t0
      | none => false) &&
    (List.range (point.length - 1)).all (fun i =>
      match RMF.framesAfter env point tangent i with
      | some U => RMF.stepExact env point tangent U i
      | none => false)
  | none => false

/-- The triple of a frame is orthonormal: `r`, `s` and `t` have length one
(`v · v = 1`) and are pairwise orthogonal. -/
def Frame.orthonormal (f : Frame K) : Prop :=
  Vector3.dot f.r f.r = 1 ∧ Vector3.dot f.s f.s = 1 ∧ Vector3.dot f.t f.t = 1 ∧
  Vector3.dot f.r f.s = 0 ∧ Vector3.dot f.s f.t = 0 ∧ Vector3.dot f.r f.t = 0

/-- The body of the loop of `Task::weldPath`:
`oldPath[ xrefs[i] ] = oldPath[i]`. -/
def weldStep {α : Type} (xrefs : List Nat) (path : List α) (i : Nat) : Option (List α) := do
  let x ← xrefs[i]?
  let v ← path[i]?
  if x < path.length then some (path.set x v) else none

/-- Modelled from the spec: what `weld` of `weld.h` returns for the positions
`pts` ("merges path samples whose spatial positions coincide", "producing a
cross-reference that collapses duplicate indices to a single canonical
index"): one index per sample, not after the sample itself, the same index
exactly for samples at the same position, and indices that grow with the first
occurrence of the positions. -/
def WeldSpec (pts : List (Vector3 K)) (xrefs : List Nat) : Prop :=
  xrefs.length = pts.length ∧
  (∀ i, i < pts.length → xrefs.getD i 0 ≤ i) ∧
  (∀ i j, i < pts.length → j < pts.length →
    (xrefs.getD i 0 = xrefs.getD j 0 ↔ pts[i]? = pts[j]?)) ∧
  (∀ i j, i < j → j < pts.length → (∀ k, k < j → pts[k]? ≠ pts[j]?) →
    xrefs.getD i 0 < xrefs.getD j 0)

/-- The collaborator `weld` behaves as `WeldSpec` asks on every list of
positions. -/
def Env.welds (env : Env K) : Prop :=
  ∀ pts, WeldSpec pts (env.weld pts)

/-- The condition that `foreach` enumerates the `QSet<int>` of
`Task::weldPath` in ascending order: the enumeration is strictly increasing and
has the elements that were inserted. Qt leaves the order of a `QSet` open, so
this holds for some orders of the set only; it is a premise wherever it is
used. -/
def Env.ascendingSets (env : Env K) : Prop :=
  ∀ xs, (env.qsetOrder xs).Sorted (· < ·) ∧ ∀ a, a ∈ env.qsetOrder xs ↔ a ∈ xs

/-- Modelled from the spec: a cross-reference of `weld` ("collapses duplicate
indices to a single canonical index"), here the index of the first sample at
the same position. -/
def weldXrefs (pts : List (Vector3 K)) : List Nat :=
  pts.map (fun v => pts.indexOf v)

/-- Modelled from the spec: `Line::ClosestPoint` of `LineSegment.h` ("project
it onto the line segment `start→end`, producing a closest-point parameter `t`
and a perpendicular offset vector"): the parameter in `[0, 1]` of the point of
the segment from `a` to `b` that is closest to `p`, and that point. -/
def Line.ClosestPoint (a b p : Vector3 K) : K × Vector3 K :=
  let ab := b.sub a
  let t := qMax 0 (qMin (Vector3.dot (p.sub a) ab / Vector3.dot ab ab) 1)
  (t, a.add (ab.scale t))

/-- Modelled from the spec: `Line::pointAt` of `LineSegment.h` ("the point on
the current segment at parameter"): the point of the segment from `a` to `b`
at the parameter `t`. -/
def Line.pointAt (a b : Vector3 K) (t : K) : Vector3 K :=
  a.add ((b.sub a).scale t)

/-- The direction of the offset of `p` from the segment survives the encoding
in the frame `X, Y, Z`: when it is not zero, the unit direction read back from
its two angles, scaled by its length, is the offset again; and an offset
without length is the zero vector. -/
def Env.keepsOffset (env : Env K) (start fin X Y Z p : Vector3 K) : Prop :=
  let dir := p.sub (Line.ClosestPoint start fin p).2
  if env.norm dir > 0 then
    (env.localSphericalToGlobal X Y Z
      (env.globalToLocalSpherical X Y Z (env.normalized dir)).1
      (env.globalToLocalSpherical X Y Z (env.normalized dir)).2).scale (env.norm dir) = dir
  else dir = Vector3.zero

instance (env : Env K) (start fin X Y Z p : Vector3 K) :
    Decidable (env.keepsOffset start fin X Y Z p) := by
  unfold Env.keepsOffset
  infer_instance

/-- The vectors that `RMF::Frame::fromT` normalises: `T`, the seed
`orthogonalVector(T.normalized())`, the normalised seed `R` (once more, in the
constructor of the frame) and `cross(T, R)`. -/
def Frame.fromTOperands (env : Env K) (T : Vector3 K) : List (Vector3 K) :=
  let o := Frame.orthogonalVector (env.normalized T)
  let R := env.normalized o
  [T, o, R, Vector3.cross T R]

/-- The arithmetic of `env` is exact on the vectors of `vs` that are not zero:
each of them has a positive norm, its Euclidean length, and `normalized`
divides by it. -/
def Env.exactOn (env : Env K) (vs : List (Vector3 K)) : Prop :=
  ∀ v ∈ vs, v ≠ Vector3.zero → env.exactAt v = true ∧ 0 < env.norm v

instance (env : Env K) (vs : List (Vector3 K)) : Decidable (env.exactOn vs) := by
  unfold Env.exactOn
  infer_instance

/-- The `foreach` over the `QSet<int>` of `Task::weldPath` visits every index
that was inserted exactly once; the order of the visit is left open. -/
def Env.enumeratesSets (env : Env K) : Prop :=
  ∀ xs, (env.qsetOrder xs).Nodup ∧ ∀ a, a ∈ env.qsetOrder xs ↔ a ∈ xs

end Geometry

/-! ## Execution stage -/

section Execute

variable {K : Type} [LinearOrderedField K] [FloorRing K]

/-- `Task::node`: the node of the active graph the task works on. -/
def Task.node (task : Task K) : Option (Node K) :=
  task.active.getNode task.property.nodeID

/-- `Task::targetNode`: the counterpart of the node in the target graph, null
when the node has no `correspond` entry. -/
def Task.targetNode (task : Task K) : Option (Node K) := do
  let some n := task.node | none
  let some c := n.correspond | none
  task.target.getNode c

/-- `Task::targetCurve`. -/
def Task.targetCurve (task : Task K) : Option (Node K) := do
  let some n := task.targetNode | none
  if n.type = NodeType.CURVE then some n else none

/-- An assignment through a pointer to a node of the active graph. -/
def Task.setNode (task : Task K) (n : Node K) : Task K :=
  { task with active := task.active.setNode n }

/-- `QVector::operator[]` with an `int` index. -/
def indexAt {α : Type} (xs : List α) (i : Int) : Option α :=
  if i < 0 then none else xs[i.toNat]?

/-- Modelled from the spec: `qRanged(min, v, max)`, the value `v` brought into
the range `[min, max]`. -/
def qRanged (lo v hi : K) : K := qMax lo (qMin v hi)

/-- `RMF::frameAt`. -/
def RMF.frameAt (rmf : RMF K) (t : K) : Option (Frame K) :=
  if rmf.U.length = 0 then none
  else indexAt rmf.U (toInt (qRanged 0 t 1 * (((rmf.U.length : Int) - 1 : Int) : K)))

/-- `Task::geometryMorph`. -/
def Task.geometryMorph (env : Env K) (task : Task K) (t : K) : Option (Task K) :=
  if t < 0 ∨ t > 1 then some task
  else do
    let some n := task.node | none
    if n.samples then
      let blended := match n.type with
        | NodeType.CURVE => env.blendGeometryCurves n task.targetNode t
        | NodeType.SHEET => env.blendGeometrySheets n task.targetNode t
      some (task.setNode { n with cached_points := blended.1, cached_normals := blended.2 })
    else some task

/-- `Task::futureOtherNodeCoord`. -/
def Task.futureOtherNodeCoord (task : Task K) (link : Link K) : Option (String × Vec4d K) := do
  let some _ := task.node | none
  let some tn := task.targetNode | none
  let some tlink := task.target.getEdge (link.correspond.getD "") | none
  let some tfutureOther := task.target.getNode (tlink.otherNode tn.id) | none
  let futureOtherID := tfutureOther.correspond.getD ""
  let some futureOtherCoord := (tlink.getCoordOther tn.id).head? | none
  some (futureOtherID, futureOtherCoord)

/-- `Task::futureLinkPosition`. -/
def Task.futureLinkPosition (env : Env K) (task : Task K) (link : Link K) : Option (Vector3 K) := do
  let some fnc := task.futureOtherNodeCoord link | none
  let some other := task.active.getNode fnc.1 | none
  some (env.position other fnc.2)

/-- `Task::copyTargetEdge`. -/
def Task.copyTargetEdge (env : Env K) (task : Task K) (tlink : Link K) : Option (Task K) := do
  let some n := task.node | none
  let some tn := task.targetNode | none
  let coord := tlink.getCoord tn.id
  let some tOther := task.target.getNode (tlink.otherNode tn.id) | none
  let otherID := tOther.correspond.getD ""
  let some nOther := task.active.getNode otherID | none
  let coordOther := tlink.getCoordOther tn.id
  some { task with
    active := task.active.addEdge (env.linkName n.id nOther.id) n.id nOther.id coord coordOther }

/-- The loop shared by `Task::foldCurve` and `Task::executeCurveConstrained`:
`for (u < mNumCtrlPoints) mCtrlPoint[u] = cpts[u] + (deltas[u] * t)`. -/
def foldPoints (num : Nat) (cpts deltas : List (Vector3 K)) (t : K) :
    Option (List (Vector3 K)) :=
  (List.range num).mapM (fun u => do
    let some c := cpts[u]? | none
    let some d := deltas[u]? | none
    pure (c.add (d.scale t)))

/-- Reading `property["orgCtrlPoints"]` and `property["deltas"]` with the
non-const `operator[]` of `QMap`, which inserts an empty entry for an absent
key. -/
def Property.readFold (p : Property K) : Property K :=
  { p with orgCtrlPoints := some (p.orgCtrlPoints.getD CtrlVariant.invalid),
           deltas := some (p.deltas.getD CtrlVariant.invalid) }

/-- `Task::foldCurve`. -/
def Task.foldCurve (task : Task K) (t : K) : Option (Task K) := do
  let some n := task.node | none
  let cpts := (task.property.orgCtrlPoints.getD CtrlVariant.invalid).value1D
  let deltas := (task.property.deltas.getD CtrlVariant.invalid).value1D
  let task := { task with property := task.property.readFold }
  let some pts := foldPoints n.mCtrlPoint.length cpts deltas t | none
  some (task.setNode { n with mCtrlPoint := pts })

/-- `Task::executeCurveConstrained`. The re-link loop computes values that are
never stored; what remains of it is the `front()` of the coordinates of every
edge that does not lead to the anchor. -/
def Task.executeCurveConstrained (task : Task K) (t : K) : Option (Task K) := do
  let some n := task.node | none
  let cpts := (task.property.orgCtrlPoints.getD CtrlVariant.invalid).value1D
  let deltas := (task.property.deltas.getD CtrlVariant.invalid).value1D
  let anchorNode := task.property.anchorNode.getD ""
  let task := { task with
    property := { task.property.readFold with anchorNode := some anchorNode } }
  let some pts := foldPoints n.mCtrlPoint.length cpts deltas t | none
  let task := task.setNode { n with mCtrlPoint := pts }
  let others := (task.active.getEdges n.id).filter (fun e => e.otherNode n.id != anchorNode)
  let some _ := others.mapM (fun e => (e.getCoord (e.otherNode n.id)).head?) | none
  some task

/-- One row of the sheet loop of `Task::executeGrowShrinkSheet`:
`for (v < mNumVCtrlPoints) mCtrlPoint[u][v] = cpts[u][v] + (deltas[u][v] * t)`. -/
def foldRow (numV : Nat) (row cpts deltas : List (Vector3 K)) (t : K) :
    Option (List (Vector3 K)) := do
  let some pts := foldPoints numV cpts deltas t | none
  if numV ≤ row.length then some (pts ++ row.drop numV) else none

/-- The sheet loop of `Task::executeGrowShrinkSheet` over `u < mNumUCtrlPoints`. -/
def foldGrid (grid cpts deltas : List (List (Vector3 K))) (t : K) :
    Option (List (List (Vector3 K))) :=
  let numV := (grid.head?.map List.length).getD 0
  (List.range grid.length).mapM (fun u => do
    let some row := grid[u]? | none
    if numV = 0 then some row
    else do
      let some c := cpts[u]? | none
      let some d := deltas[u]? | none
      foldRow numV row c d t)

/-- `Task::executeGrowShrinkSheet`. -/
def Task.executeGrowShrinkSheet (env : Env K) (task : Task K) (t : K) : Option (Task K) := do
  let some n := task.node | none
  let some tn := task.targetNode | none
  let edges := task.active.getEdges n.id
  let tedges := task.target.getEdges tn.id
  let some task :=
    (if (task.type = TaskType.SHRINK ∧ edges.length = 1)
        ∨ (task.type = TaskType.GROW ∧ tedges.length = 1) then do
      let cpts := (task.property.orgCtrlPoints.getD CtrlVariant.invalid).value2D
      let deltas := (task.property.deltas.getD CtrlVariant.invalid).value2D
      let task := { task with property := task.property.readFold }
      let some grid := foldGrid n.mCtrlPoint2 cpts deltas t | none
      some (task.setNode { n with mCtrlPoint2 := grid })
    else some task) | none
  if t = 1 then
    match task.type with
    | TaskType.SHRINK => do
      let some cur := task.node | none
      let task := task.setNode { cur with isReady := some false }
      some { task with active := task.active.removeEdges edges }
    | TaskType.GROW => do
      let some tlink := tedges.head? | none
      task.copyTargetEdge env tlink
    | _ => some task
  else some task

/-- The body of the loop of `Task::decodeCurve` for the control point `i`. -/
def decodePoint (env : Env K) (cpCoords : List (List K)) (baseLineLen : K)
    (start fin X Y Z : Vector3 K) (i : Nat) : Option (Vector3 K) := do
  let some row := cpCoords[i]? | none
  let some t := row[0]? | none
  let some offset := row[1]? | none
  let some theta := row[2]? | none
  let some psi := row[3]? | none
  let dir := (env.localSphericalToGlobal X Y Z theta psi).scale (offset * baseLineLen)
  some ((env.linePointAt start fin t).add dir)

/-- `Task::decodeCurve`: the decoded control points, and the task after the
reads of `property["cpCoords"]` and `property["rmf"]`. -/
def Task.decodeCurve (env : Env K) (task : Task K) (start fin X Y Z : Vector3 K) :
    Option (List (Vector3 K) × Task K) := do
  let some n := task.node | none
  let baseLineLen := env.lineLength start fin
  let cpCoords := task.property.cpCoords.getD []
  let rmf := task.property.rmf.getD ⟨[], []⟩
  let task := { task with
    property := { task.property with cpCoords := some cpCoords, rmf := some rmf } }
  let some cpnts := (List.range n.mCtrlPoint.length).mapM
    (decodePoint env cpCoords baseLineLen start fin X Y Z) | none
  some (cpnts, task)

/-- The block `1) SINGLE edge` of `Task::executeMorphCurve`. -/
def Task.morphSingleEdge (env : Env K) (task : Task K) (t : K) (edges : List (Link K)) :
    Option (Task K) := do
  let some edge := edges.head? | none
  let target_curve := task.targetCurve
  let path := task.property.path.getD []
  let cpIDX := task.property.cpIDX.getD 0
  let task := { task with
    property := { task.property with path := some path, cpIDX := some cpIDX } }
  let some task :=
    (if path.length > 0 then do
      let current := toInt (t * (((path.length : Int) - 1 : Int) : K))
      let some sample := indexAt path current | none
      let newPos := env.pathPosition task.active sample
      let some cur := task.node | none
      let task := task.setNode
        { cur with mCtrlPoint := env.curveTranslateTo cur.mCtrlPoint newPos cpIDX }
      let some base := task.active.getNode (edge.otherNode cur.id) | none
      let tbaseNode := base.correspond.getD ""
      let tnodeID := cur.correspond.getD ""
      let some tbaseNode_tnode := task.target.getEdgeBetween tbaseNode tnodeID | none
      let some tc := target_curve | none
      let some c := (tbaseNode_tnode.getCoord tnodeID).head? | none
      let cpIDX_target := env.controlPointIndexFromCoord tc c
      let moved := env.curveTranslateTo tc.mCtrlPoint newPos cpIDX_target
      some { task with target := task.target.setNode { tc with mCtrlPoint := moved } }
    else some task) | none
  let some _ := target_curve | none
  some task

/-- The block `2) TWO edges` of `Task::executeMorphCurve`, after the test that
`pathA` is stored. -/
def Task.morphTwoEdges (env : Env K) (task : Task K) (t : K) : Option (Task K) := do
  let pathA := task.property.pathA.getD []
  let pathB := task.property.pathB.getD []
  let task := { task with property := { task.property with pathB := some pathB } }
  let idxA := toInt (t * (((pathA.length : Int) - 1 : Int) : K))
  let idxB := toInt (t * (((pathB.length : Int) - 1 : Int) : K))
  let some sampleA := indexAt pathA idxA | none
  let some sampleB := indexAt pathB idxB | none
  let pointA := env.pathPosition task.active sampleA
  let pointB := env.pathPosition task.active sampleB
  match task.property.rmf with
  | some rmf => do
    let some fr := rmf.frameAt t | none
    let some decoded := task.decodeCurve env pointA pointB fr.r fr.s fr.t | none
    let some cur := decoded.2.node | none
    some (decoded.2.setNode { cur with mCtrlPoint := decoded.1 })
  | none => some task

/-- The block `When this task is done` of `Task::executeMorphCurve`. -/
def Task.morphFinalize (env : Env K) (task : Task K) (t : K) (nid : String)
    (edges tedges : List (Link K)) : Option (Task K) :=
  if t = 1 then
    match task.type with
    | TaskType.SHRINK =>
      if edges.length = 2 then do
        let some linkA := edges.head? | none
        let some linkB := edges.getLast? | none
        some { task with
          active := (task.active.removeEdge linkA.n1 linkA.n2).removeEdge linkB.n1 linkB.n2 }
      else some task
    | TaskType.GROW => do
      let some tlinkA := tedges.head? | none
      let some tlinkB := tedges.getLast? | none
      let some task := task.copyTargetEdge env tlinkA | none
      task.copyTargetEdge env tlinkB
    | TaskType.MORPH =>
      edges.foldlM (fun (task : Task K) link => do
        let otherNode := link.otherNode nid
        let some fnc := task.futureOtherNodeCoord link | none
        let some newNode := task.active.getNode fnc.1 | none
        some { task with
          active := task.active.setEdge link.id (link.replace otherNode newNode.id [fnc.2]) })
        task
    | _ => some task
  else some task

/-- `Task::executeMorphCurve`. -/
def Task.executeMorphCurve (env : Env K) (task : Task K) (t : K) : Option (Task K) := do
  let some n := task.node | none
  let edges := task.active.getEdges n.id
  let some tn := task.targetNode | none
  let tedges := task.target.getEdges tn.id
  let some task := if edges.length = 1 then task.morphSingleEdge env t edges else some task | none
  if edges.length = 2 ∨ task.type = TaskType.GROW then
    if task.property.pathA.isNone then some task
    else do
      let some task := task.morphTwoEdges env t | none
      task.morphFinalize env t n.id edges tedges
  else task.morphFinalize env t n.id edges tedges

/-- `Task::executeShrinkCurve`. -/
def Task.executeShrinkCurve (env : Env K) (task : Task K) (t : K) : Option (Task K) := do
  let some n := task.node | none
  let edges := task.active.getEdges n.id
  if task.property.isCutNode.isSome then do
    let some task := task.executeCurveConstrained t | none
    let some cur := task.node | none
    some (task.setNode { cur with isReady := some false })
  else do
    let some task :=
      (if edges.length = 1 then task.foldCurve t
      else if edges.length = 2 then task.executeMorphCurve env t
      else some task) | none
    if t = 1 then do
      let some cur := task.node | none
      let task := task.setNode { cur with isReady := some false }
      some { task with active := task.active.removeEdges edges }
    else some task

/-- `Task::executeGrowCurve`. -/
def Task.executeGrowCurve (env : Env K) (task : Task K) (t : K) : Option (Task K) := do
  let some _ := task.node | none
  let some tn := task.targetNode | none
  let tedges := task.target.getEdges tn.id
  if task.property.isCutNode.isSome then task.executeCurveConstrained t
  else do
    let some task := if tedges.length = 1 then task.foldCurve t else some task | none
    if tedges.length = 2 then task.executeMorphCurve env t else some task

end Execute

/-! ## Preparation stage -/

section Prepare

variable {K : Type} [LinearOrderedField K] [FloorRing K]

/-- The first edge whose other endpoint is a sheet, or else the first edge
(`Find first link to a sheet`). -/
def firstSheetLink (g : Graph K) (nid : String) (my_edges : List (Link K)) : Option (Link K) := do
  let some baseLink := my_edges.head? | none
  let found := my_edges.find? (fun e =>
    match g.getNode (e.otherNode nid) with
    | some other => other.type == NodeType.SHEET
    | none => false)
  some (found.getD baseLink)

/-- `Task::prepareShrinkCurveConstraint`. -/
def Task.prepareShrinkCurveConstraint (env : Env K) (task : Task K) : Option (Task K) := do
  let some n := task.node | none
  if task.property.isCutNode.isSome then do
    let some baseLink := firstSheetLink task.active n.id (task.active.getEdges n.id) | none
    let some coordSelf := (baseLink.getCoord n.id).head? | none
    let basenode := baseLink.otherNode n.id
    let folded := env.curveFoldTo n coordSelf false
    let task := task.setNode { n with mCtrlPoint := folded.2 }
    some { task with property := { task.property with
      deltas := some (CtrlVariant.array1D (inverseVectors3 folded.1)),
      orgCtrlPoints := some (CtrlVariant.array1D folded.2),
      anchorNode := some basenode } }
  else some task

/-- `Task::prepareGrowCurveConstraint`. -/
def Task.prepareGrowCurveConstraint (env : Env K) (task : Task K) : Option (Task K) := do
  let some n := task.node | none
  if task.property.isCutNode.isSome then do
    let some tn := task.targetNode | none
    let some tbaseLink := firstSheetLink task.target tn.id (task.target.getEdges tn.id) | none
    let some coordSelf := (tbaseLink.getCoord tn.id).head? | none
    let some tbasenode := task.target.getNode (tbaseLink.otherNode tn.id) | none
    let basenodeID := tbasenode.correspond.getD ""
    let folded := env.curveFoldTo n coordSelf true
    let task := task.setNode { n with mCtrlPoint := folded.2 }
    some { task with property := { task.property with
      deltas := some (CtrlVariant.array1D folded.1),
      orgCtrlPoints := some (CtrlVariant.array1D folded.2),
      anchorNode := some basenodeID } }
  else some task

/-- The block `edges.size() == 1` of `Task::prepareShrinkCurve`. -/
def Task.prepareShrinkCurveSingle (env : Env K) (task : Task K) (n : Node K)
    (edges : List (Link K)) : Option (Task K) := do
  let some l := edges.head? | none
  let base := l.otherNode n.id
  let some _ := (l.getCoord base).head? | none
  let some coordSelf := (l.getCoord n.id).head? | none
  let folded := env.curveFoldTo n coordSelf false
  let task := task.setNode { n with mCtrlPoint := folded.2 }
  some { task with property := { task.property with
    deltas := some (CtrlVariant.array1D (inverseVectors3 folded.1)),
    orgCtrlPoints := some (CtrlVariant.array1D folded.2) } }

/-- The block `edges.size() == 2` of `Task::prepareShrinkCurve`. -/
def Task.prepareShrinkCurveDouble (env : Env K) (task : Task K) (n : Node K)
    (edges : List (Link K)) : Option (Task K) := do
  let some linkA := edges.head? | none
  let some linkB := edges.getLast? | none
  let pointA := env.linkPosition task.active linkA n.id
  let pointB := env.linkPosition task.active linkB n.id
  let path := env.smoothPathCoordTo task.active task.active.running_tasks pointA pointB
  let some _ := path[path.length / 2]? | none
  let some halves := bisectShrink path | none
  let task := { task with property := { task.property with
    pathA := some halves.1, pathB := some halves.2 } }
  let some pnts := positionalPath env task.active halves.1 env.defaultSmoothingIters | none
  let some rmf := RMF.compute env pnts | none
  let task := { task with property := { task.property with rmf := some rmf } }
  let some fr := rmf.U.head? | none
  let some cur := task.node | none
  some { task with property := { task.property with
    cpCoords := some (encodeCurve env cur.controlPoints pointA pointB fr.r fr.s fr.t) } }

/-- `Task::prepareShrinkCurve`. -/
def Task.prepareShrinkCurve (env : Env K) (task : Task K) : Option (Task K) := do
  let some n := task.node | none
  let edges := task.active.getEdges n.id
  if env.isCutNode task.active n.id then
    Task.prepareShrinkCurveConstraint env
      { task with property := { task.property with isCutNode := some true } }
  else do
    let some task :=
      (if edges.length = 1 then task.prepareShrinkCurveSingle env n edges
      else some task) | none
    if edges.length = 2 then task.prepareShrinkCurveDouble env n edges else some task

/-- The block `tedges.size() == 1` of `Task::prepareGrowCurve`. -/
def Task.prepareGrowCurveSingle (env : Env K) (task : Task K) (n tn : Node K)
    (tedges : List (Link K)) : Option (Task K) := do
  let some tl := tedges.head? | none
  let some tbase := task.target.getNode (tl.otherNode tn.id) | none
  let some coordBase := (tl.getCoord tbase.id).head? | none
  let some coordSelf := (tl.getCoord tn.id).head? | none
  let some base := task.active.getNode (tbase.correspond.getD "") | none
  let linkPositionBase := env.position base coordBase
  let cpIDX := env.controlPointIndexFromCoord n coordSelf
  let some cp := indexAt n.mCtrlPoint cpIDX | none
  let placed := { n with mCtrlPoint := env.curveMoveBy n.mCtrlPoint (linkPositionBase.sub cp) }
  let folded := env.curveFoldTo placed coordSelf true
  let task := task.setNode { placed with mCtrlPoint := folded.2 }
  some { task with property := { task.property with
    deltas := some (CtrlVariant.array1D folded.1),
    orgCtrlPoints := some (CtrlVariant.array1D folded.2) } }

/-- The block `tedges.size() == 2` of `Task::prepareGrowCurve`. The copy of
the frames stored on the node for debugging is not part of the node model. -/
def Task.prepareGrowCurveDouble (env : Env K) (task : Task K) (tn : Node K)
    (tedges : List (Link K)) : Option (Task K) := do
  let some tlinkA := tedges.head? | none
  let some tlinkB := tedges.getLast? | none
  let some totherA := task.target.getNode (tlinkA.otherNode tn.id) | none
  let some totherB := task.target.getNode (tlinkB.otherNode tn.id) | none
  let some othercoordA := (tlinkA.getCoord totherA.id).head? | none
  let some othercoordB := (tlinkB.getCoord totherB.id).head? | none
  let some otherA := task.active.getNode (totherA.correspond.getD "") | none
  let some otherB := task.active.getNode (totherB.correspond.getD "") | none
  let pointA := env.position otherA othercoordA
  let pointB := env.position otherB othercoordB
  let path := env.smoothPathCoordTo task.active task.active.running_tasks pointA pointB
  let some path := weldPath env task.active path | none
  let some halves := bisectGrow path | none
  let task := { task with property := { task.property with
    pathA := some halves.1, pathB := some halves.2 } }
  let some pnts := positionalPath env task.active halves.1 2 | none
  let some rmf := RMF.compute env pnts | none
  let task := { task with property := { task.property with rmf := some rmf } }
  let some fr := rmf.U.getLast? | none
  let some cur := task.node | none
  let task := { task with property := { task.property with
    cpCoords := some (encodeCurve env cur.controlPoints pointA pointB fr.r fr.s fr.t) } }
  let some inserted := insertMid path | none
  let some startPointCoord := inserted[inserted.length / 2]? | none
  let startPoint := env.pathPosition task.active startPointCoord
  let half : Vec4d K := ⟨1 / 2, 1 / 2, 1 / 2, 1 / 2⟩
  let folded := { cur with mCtrlPoint := (env.curveFoldTo cur half true).2 }
  let moved := env.curveTranslate folded.mCtrlPoint (startPoint.sub (env.position folded half))
  some (task.setNode { folded with mCtrlPoint := moved })

/-- `Task::prepareGrowCurve`. -/
def Task.prepareGrowCurve (env : Env K) (task : Task K) : Option (Task K) := do
  let some n := task.node | none
  let some tn := task.targetNode | none
  let tedges := task.target.getEdges tn.id
  if env.isCutNode task.target tn.id then
    Task.prepareGrowCurveConstraint env
      { task with property := { task.property with isCutNode := some true } }
  else do
    let some task :=
      (if tedges.length = 1 then task.prepareGrowCurveSingle env n tn tedges
      else some task) | none
    if tedges.length = 2 then task.prepareGrowCurveDouble env tn tedges else some task

/-- The block `1) SINGLE edge` of `Task::prepareMorphCurve`. -/
def Task.prepareMorphCurveSingle (env : Env K) (task : Task K) (n : Node K)
    (edges : List (Link K)) : Option (Task K) := do
  let some link := edges.head? | none
  let startPoint := env.linkPosition task.active link n.id
  let path := env.smoothPathCoordTo task.active task.active.running_tasks
    (env.linkPositionOther task.active link n.id) startPoint
  let some c := (link.getCoord n.id).head? | none
  some { task with property := { task.property with
    path := some path, cpIDX := some (env.controlPointIndexFromCoord n c) } }

/-- The block `2) TWO edges` of `Task::prepareMorphCurve`. The copy of the
frames stored on the node for debugging is not part of the node model. -/
def Task.prepareMorphCurveDouble (env : Env K) (task : Task K) (n : Node K)
    (edges : List (Link K)) : Option (Task K) := do
  let some linkA := edges.head? | none
  let startA := env.linkPosition task.active linkA n.id
  let some endA := task.futureLinkPosition env linkA | none
  let some linkB := edges.getLast? | none
  let startB := env.linkPosition task.active linkB n.id
  let some endB := task.futureLinkPosition env linkB | none
  let pathA := env.smoothPathCoordTo task.active task.active.running_tasks endA startA
  let pathB := env.smoothPathCoordTo task.active task.active.running_tasks endB startB
  let task := { task with property := { task.property with
    pathA := some pathA, pathB := some pathB } }
  let longestPath := if pathB.length > pathA.length then pathB else pathA
  if longestPath.length > 1 then do
    let some pnts := positionalPath env task.active longestPath 2 | none
    let some rmf := RMF.compute env pnts | none
    let some fr := rmf.U.getLast? | none
    some { task with property := { task.property with
      rmf := some rmf,
      cpCoords := some (encodeCurve env n.controlPoints startA startB fr.r fr.s fr.t) } }
  else some task

/-- `Task::prepareMorphCurve`. -/
def Task.prepareMorphCurve (env : Env K) (task : Task K) : Option (Task K) := do
  let some n := task.node | none
  let edges := task.active.getEdges n.id
  let some task :=
    (if edges.length = 1 then task.prepareMorphCurveSingle env n edges else some task) | none
  if edges.length = 2 then task.prepareMorphCurveDouble env n edges else some task

/-- `Task::prepareShrinkSheet`. -/
def Task.prepareShrinkSheet (env : Env K) (task : Task K) : Option (Task K) := do
  let some n := task.node | none
  let edges := task.active.getEdges n.id
  if edges.length = 1 then do
    let some l := edges.head? | none
    let base := l.otherNode n.id
    let shift := (env.linkPosition task.active l base).sub (env.linkPosition task.active l n.id)
    let placed := { n with mCtrlPoint2 := env.sheetMoveBy n.mCtrlPoint2 shift }
    let folded := env.sheetFoldTo placed (l.getCoord n.id) false
    let task := task.setNode { placed with mCtrlPoint2 := folded.2 }
    some { task with property := { task.property with
      deltas := some (CtrlVariant.array2D (folded.1.map inverseVectors3)),
      orgCtrlPoints := some (CtrlVariant.array2D folded.2) } }
  else some task

/-- `Task::prepareGrowSheet`. -/
def Task.prepareGrowSheet (env : Env K) (task : Task K) : Option (Task K) := do
  let some n := task.node | none
  let some tn := task.targetNode | none
  let tedges := task.target.getEdges tn.id
  if tedges.length = 1 then do
    let some tl := tedges.head? | none
    let some _ := task.target.getNode (tl.otherNode tn.id) | none
    let folded := env.sheetFoldTo n (tl.getCoord tn.id) true
    let task := task.setNode { n with mCtrlPoint2 := folded.2 }
    some { task with property := { task.property with
      deltas := some (CtrlVariant.array2D folded.1),
      orgCtrlPoints := some (CtrlVariant.array2D folded.2) } }
  else some task

/-- The two `switch(type)` statements of `Task::prepare`, for a node of the
given kind. -/
def Task.prepareSwitch (env : Env K) (task : Task K) (kind : NodeType) : Option (Task K) :=
  match kind, task.type with
  | NodeType.CURVE, TaskType.GROW => task.prepareGrowCurve env
  | NodeType.CURVE, TaskType.SHRINK => task.prepareShrinkCurve env
  | NodeType.CURVE, _ => task.prepareMorphCurve env
  | NodeType.SHEET, TaskType.GROW => task.prepareGrowSheet env
  | NodeType.SHEET, TaskType.SHRINK => task.prepareShrinkSheet env
  | NodeType.SHEET, _ => some task

/-- `Task::prepare`. -/
def Task.prepare (env : Env K) (task : Task K) : Option (Task K) := do
  let task := { task with start := toInt task.x }
  let task := { task with currentTime := task.start, isDone := false }
  let some n := task.node | none
  let task := { task with property := { task.property with
    orgCtrlPoints := some (CtrlVariant.array1D n.controlPoints) } }
  let some task := task.prepareSwitch env n.type | none
  let task := { task with isReady := true }
  let some cur := task.node | none
  some (task.setNode { cur with isReady := some true })

/-- The two `switch(type)` statements of `Task::execute`, for a node of the
given kind. -/
def Task.executeSwitch (env : Env K) (task : Task K) (t : K) (kind : NodeType) :
    Option (Task K) :=
  match kind, task.type with
  | NodeType.CURVE, TaskType.GROW => task.executeGrowCurve env t
  | NodeType.CURVE, TaskType.SHRINK => task.executeShrinkCurve env t
  | NodeType.CURVE, TaskType.MORPH => task.executeMorphCurve env t
  | NodeType.CURVE, _ => some task
  | NodeType.SHEET, TaskType.GROW => task.executeGrowShrinkSheet env t
  | NodeType.SHEET, TaskType.SHRINK => task.executeGrowShrinkSheet env t
  | NodeType.SHEET, _ => some task

/-- The statement `currentTime = start + (t * length)` of `Task::execute`: the
sum is a `double`, stored in an `int`. -/
def Task.setCurrentTime (task : Task K) (t : K) : Task K :=
  { task with currentTime := toInt ((task.start : K) + t * (task.length : K)) }

/-- `Task::execute`. -/
def Task.execute (env : Env K) (task : Task K) (t : K) : Option (Task K) :=
  if !task.isActive t then some task
  else do
    let some task := if !task.isReady then task.prepare env else some task | none
    let task := task.setCurrentTime t
    let some task := task.geometryMorph env t | none
    let some n := task.node | none
    let some task := task.executeSwitch env t n.type | none
    if t = 1 then some { task with isDone := true } else some task

/-- `Task::itemChange` for `ItemPositionChange`, the hook Qt calls with the
proposed position before it moves the item; the result is the task and the
horizontal position that Qt then adopts. -/
def Task.itemChange (task : Task K) (newX : K) : Task K × K :=
  if task.inScene ∧ ¬ task.isResizing then
    let newX := qMax 0 newX
    ({ task with start := toInt newX, currentTime := 0 }, newX)
  else (task, newX)

/-- `QGraphicsItem::setX`, for an item with `ItemSendsGeometryChanges`. -/
def Task.setX (task : Task K) (newX : K) : Task K :=
  let changed := task.itemChange newX
  { changed.1 with x := changed.2 }

/-- `Task::setStart`. -/
def Task.setStart (task : Task K) (newStart : Int) : Task K :=
  Task.setX { task with start := newStart, currentTime := 0 } (newStart : K)

/-- `Task::Task`: the state of a task right after construction, with the
`nodeID` entry the scheduler stores in the artifact bag. -/
def Task.create (activeGraph targetGraph : Graph K) (taskType : TaskType) (ID : Int)
    (nodeID : String) : Task K :=
  { active := activeGraph, target := targetGraph, type := taskType, taskID := ID,
    property := { nodeID := nodeID, orgCtrlPoints := none, deltas := none, path := none,
                  pathA := none, pathB := none, cpIDX := none, rmf := none,
                  cpCoords := none, isCutNode := none, anchorNode := none },
    start := 0, length := 80, currentTime := 0, isReady := false, isDone := false,
    x := 0, inScene := false, width := 80, height := 17, isResizing := false }

end Prepare

/-! ## What the geometry steps leave alone -/

section FrameDefs

variable {K : Type}

/-- The identity of a node: its id, its kind and its correspondence. -/
def Node.shape (n : Node K) : String × NodeType × Option String :=
  (n.id, n.type, n.correspond)

/-- Two graphs whose node lookups agree on the identity of the node found. -/
def Graph.sameNodes (g g' : Graph K) : Prop :=
  ∀ id, (g'.getNode id).map Node.shape = (g.getNode id).map Node.shape

/-- Two graphs with the same edges and the same node identities. -/
def Graph.sameShape (g g' : Graph K) : Prop :=
  g'.edges = g.edges ∧ g.sameNodes g'

/-- The fields of a task that only `prepare`, `execute` and the setters write. -/
def Task.control (a : Task K) :
    TaskType × Int × Int × Int × Int × Bool × Bool × K × Bool × Int × Int × Bool × String :=
  (a.type, a.taskID, a.start, a.length, a.currentTime, a.isReady, a.isDone, a.x, a.inScene,
    a.width, a.height, a.isResizing, a.property.nodeID)

/-- The task `b` has the control fields of `a`, the node identities of `a` in
the active graph, and the edges and node identities of `a` in the target
graph. -/
def Task.Kept (a b : Task K) : Prop :=
  b.control = a.control ∧ a.active.sameNodes b.active ∧ a.target.sameShape b.target

/-- The task `b` differs from `a` by geometry and artifacts only: it is kept,
and the active graph has the same edges. -/
def Task.Moved (a b : Task K) : Prop :=
  a.Kept b ∧ b.active.edges = a.active.edges

/-- The active graph holds a copy of the target edge `tl` of the target node
`tnid`: an edge from the node `nid` to the counterpart (`correspond`) of the
other endpoint of `tl`, carrying the coordinates of `tl`. -/
def Graph.hasCopyOf (active target : Graph K) (nid tnid : String) (tl : Link K) : Prop :=
  ∃ tOther e, target.getNode (tl.otherNode tnid) = some tOther ∧ e ∈ active.edges ∧
    e.n1 = nid ∧ e.n2 = tOther.correspond.getD "" ∧
    e.coord1 = tl.getCoord tnid ∧ e.coord2 = tl.getCoordOther tnid

/-- The control fields as `prepare` writes them: the window start read from
the item, `currentTime` at the start, not done, ready. -/
def Task.armed [LinearOrderedField K] [FloorRing K] (a : Task K) : Task K :=
  { a with start := toInt a.x, currentTime := toInt a.x, isDone := false, isReady := true }

end FrameDefs

section FrameOfExecute

variable {K : Type}

/-- An entry of the bag after a step that holds what it held before the step:
a stored value is still there, and an absent key may have been added. -/
def keptEntry {α : Type} (x y : Option α) : Prop :=
  ∀ v, x = some v → y = some v

/-- The bag `q` has every entry of the bag `p`, with its value. -/
def Property.keeps (p q : Property K) : Prop :=
  q.nodeID = p.nodeID ∧ keptEntry p.orgCtrlPoints q.orgCtrlPoints ∧
  keptEntry p.deltas q.deltas ∧ keptEntry p.path q.path ∧ keptEntry p.pathA q.pathA ∧
  keptEntry p.pathB q.pathB ∧ keptEntry p.cpIDX q.cpIDX ∧ keptEntry p.rmf q.rmf ∧
  keptEntry p.cpCoords q.cpCoords ∧ keptEntry p.isCutNode q.isCutNode ∧
  keptEntry p.anchorNode q.anchorNode

/-- The task `b` has the entries of the bag of `a` and the target graph of
`a`. -/
def Task.Framed (a b : Task K) : Prop :=
  a.property.keeps b.property ∧ b.target = a.target

/-- The graph `g'` is the graph `g`, or `g` with other control points for the
curve `tc`. -/
def Graph.translated (tc : Option (Node K)) (g g' : Graph K) : Prop :=
  g' = g ∨ ∃ c pts, tc = some c ∧ g' = g.setNode { c with mCtrlPoint := pts }

end FrameOfExecute

section ReachableDefs

variable {K : Type} [LinearOrderedField K] [FloorRing K]

/-- The states of a task that are reached from a freshly constructed task by
`setLength`, `setStart`, `reset`, `prepare` and `execute`. -/
inductive Task.Reachable (env : Env K) : Task K → Prop
  | create (activeGraph targetGraph : Graph K) (taskType : TaskType) (ID : Int)
      (nodeID : String) :
      Task.Reachable env (Task.create activeGraph targetGraph taskType ID nodeID)
  | setLength (a : Task K) (newLength : Int) :
      Task.Reachable env a → Task.Reachable env (a.setLength newLength)
  | setStart (a : Task K) (newStart : Int) :
      Task.Reachable env a → Task.Reachable env (a.setStart newStart)
  | reset (a : Task K) : Task.Reachable env a → Task.Reachable env a.reset
  | prepare (a b : Task K) :
      Task.Reachable env a → a.prepare env = some b → Task.Reachable env b
  | execute (a b : Task K) (t : K) :
      Task.Reachable env a → a.execute env t = some b → Task.Reachable env b

end ReachableDefs

section SampleDefs

variable {K : Type} [LinearOrderedField K] [FloorRing K]

/-- The index of the path sample that `Task::executeMorphCurve` reads at the
local time `t` from a stored path of `size` samples:
`int idx = t * (path.size() - 1)`. -/
def sampleIndex (t : K) (size : Nat) : Int :=
  toInt (t * (((size : Int) - 1 : Int) : K))

end SampleDefs

/-! ## A concrete scene

The end-to-end scenario of the specification: a curve with the control points
`(0,0,0), (1,0,0), (2,0,0)`, attached by one edge to a base curve, shrinks with
the deltas `(0,1,0)`. -/

section Scene

/-- Collaborators for the concrete scene: positions at the origin, a fold that
lifts every control point by `(0,1,0)`, empty geodesic paths. -/
def demoEnv : Env ℚ :=
  { norm := fun v => |v.x| + |v.y| + |v.z|
    normalized := fun v => v
    isCutNode := fun _ _ => false
    linkName := fun a b => a ++ ":" ++ b
    position := fun _ _ => Vector3.zero
    controlPointIndexFromCoord := fun _ _ => 0
    curveFoldTo := fun n _ _ => (n.mCtrlPoint.map (fun _ => ⟨0, -1, 0⟩), n.mCtrlPoint)
    sheetFoldTo := fun n _ _ => (n.mCtrlPoint2.map (fun r => r.map (fun _ => ⟨0, -1, 0⟩)),
      n.mCtrlPoint2)
    curveMoveBy := fun pts d => pts.map (fun p => p.add d)
    curveTranslate := fun pts d => pts.map (fun p => p.add d)
    curveTranslateTo := fun pts _ _ => pts
    sheetMoveBy := fun grid d => grid.map (fun r => r.map (fun p => p.add d))
    linkPosition := fun _ _ _ => Vector3.zero
    linkPositionOther := fun _ _ _ => Vector3.zero
    smoothPathCoordTo := fun _ _ _ _ => []
    pathPosition := fun _ _ => Vector3.zero
    weld := fun pts => List.range pts.length
    qsetOrder := fun xs => xs
    globalToLocalSpherical := fun _ _ _ _ => (0, 0)
    localSphericalToGlobal := fun _ _ _ _ _ => Vector3.zero
    lineLength := fun _ _ => 1
    lineClosestPoint := fun a _ _ => (0, a)
    linePointAt := fun a _ _ => a
    blendGeometryCurves := fun _ _ _ => ([], [])
    blendGeometrySheets := fun _ _ _ => ([], [])
    defaultSmoothingIters := 0 }

/-- A node of the concrete scene. -/
def demoNode (id : String) (type : NodeType) (pts : List (Vector3 ℚ)) (corr : String) : Node ℚ :=
  { id := id, type := type, mCtrlPoint := pts, mCtrlPoint2 := [pts],
    correspond := some corr, isReady := none, samples := false,
    cached_points := [], cached_normals := [] }

/-- The control points of the scenario. -/
def demoPoints : List (Vector3 ℚ) := [⟨0, 0, 0⟩, ⟨1, 0, 0⟩, ⟨2, 0, 0⟩]

/-- The deltas of the scenario. -/
def demoDeltas : List (Vector3 ℚ) := [⟨0, 1, 0⟩, ⟨0, 1, 0⟩, ⟨0, 1, 0⟩]

/-- The attachment coordinate used by the links of the scene. -/
def demoCoord : Vec4d ℚ := ⟨0, 0, 0, 0⟩

/-- A link of the concrete scene. -/
def demoLink (id a b : String) : Link ℚ :=
  { id := id, n1 := a, n2 := b, coord1 := [demoCoord], coord2 := [demoCoord],
    isCut := false, correspond := some id }

/-- The active graph: the curve `c` attached to the base `b`. -/
def demoActive (type : NodeType) : Graph ℚ :=
  { nodes := [demoNode "c" type demoPoints "c", demoNode "b" NodeType.CURVE demoPoints "b"],
    edges := [demoLink "cb" "c" "b"], running_tasks := [] }

/-- The target graph, with the same nodes and the same edge. -/
def demoTarget (type : NodeType) : Graph ℚ := demoActive type

/-- The artifact bag of the scenario, as the single-neighbor preparation
leaves it. -/
def demoBag : Property ℚ :=
  { nodeID := "c", orgCtrlPoints := some (CtrlVariant.array1D demoPoints),
    deltas := some (CtrlVariant.array1D demoDeltas), path := none, pathA := none,
    pathB := none, cpIDX := none, rmf := none, cpCoords := none, isCutNode := none,
    anchorNode := none }

/-- The prepared single-neighbor task of the scenario on the curve `c`. -/
def demoTask (type : TaskType) : Task ℚ :=
  { Task.create (demoActive NodeType.CURVE) (demoTarget NodeType.CURVE) type 0 "c" with
    property := demoBag, isReady := true }

/-- The shrink task of the scenario prepared as a cut node: cut mark and
anchor in the bag. -/
def demoCutTask : Task ℚ :=
  { demoTask TaskType.SHRINK with
    property := { demoBag with isCutNode := some true, anchorNode := some "b" } }

/-- The grow task of the scenario: the curve `c` has no edge in the active
graph yet and one edge in the target graph. -/
def demoGrowTask : Task ℚ :=
  { demoTask TaskType.GROW with
    active := { demoActive NodeType.CURVE with edges := [] } }

/-- The grow task of the scenario prepared as a cut node: cut mark and anchor
in the bag. -/
def demoCutGrowTask : Task ℚ :=
  { demoGrowTask with
    property := { demoBag with isCutNode := some true, anchorNode := some "b" } }

/-- A grow task on a sheet `c` with no edge in the active graph and one edge
in the target graph. -/
def demoGrowSheet : Task ℚ :=
  { Task.create { demoActive NodeType.SHEET with edges := [] } (demoTarget NodeType.SHEET)
      TaskType.GROW 0 "c" with
    property := { demoBag with
      orgCtrlPoints := some (CtrlVariant.array2D [demoPoints]),
      deltas := some (CtrlVariant.array2D [demoDeltas]) },
    isReady := true }

/-- A prepared two-edge grow task on the curve `c`: no edge in the active
graph yet, the two edges of the two-edge scene in the target graph, and
one-sample half paths in the bag. -/
def demoGrowTask2 : Task ℚ :=
  { Task.create
      { nodes := [demoNode "c" NodeType.CURVE demoPoints "c",
                  demoNode "b" NodeType.CURVE demoPoints "b",
                  demoNode "d" NodeType.CURVE demoPoints "d"],
        edges := [], running_tasks := [] }
      { nodes := [demoNode "c" NodeType.CURVE demoPoints "c",
                  demoNode "b" NodeType.CURVE demoPoints "b",
                  demoNode "d" NodeType.CURVE demoPoints "d"],
        edges := [demoLink "cb" "c" "b", demoLink "cd" "c" "d"], running_tasks := [] }
      TaskType.GROW 0 "c" with
    property := { demoBag with
      deltas := none,
      pathA := some [⟨"b", demoCoord⟩], pathB := some [⟨"d", demoCoord⟩] },
    isReady := true }

/-- The active and target graph of the two-edge scene: the curve `c` attached
to the bases `b` and `d`. -/
def demoActive2 : Graph ℚ :=
  { nodes := [demoNode "c" NodeType.CURVE demoPoints "c",
              demoNode "b" NodeType.CURVE demoPoints "b",
              demoNode "d" NodeType.CURVE demoPoints "d"],
    edges := [demoLink "cb" "c" "b", demoLink "cd" "c" "d"], running_tasks := [] }

/-- An artifact bag without a stored path: only the original control points
that `prepare` always stores. -/
def demoBag2 : Property ℚ :=
  { nodeID := "c", orgCtrlPoints := some (CtrlVariant.array1D demoPoints),
    deltas := none, path := none, pathA := none, pathB := none, cpIDX := none,
    rmf := none, cpCoords := none, isCutNode := none, anchorNode := none }

/-- A prepared two-edge task on the curve `c` whose bag holds no path. -/
def demoTask2 (type : TaskType) : Task ℚ :=
  { Task.create demoActive2 demoActive2 type 0 "c" with
    property := demoBag2, isReady := true }

/-- The collaborators of the scene with a working weld: samples are placed at
their first coordinate on the `x` axis, `weld` is `weldXrefs`, and the set of
kept indices is enumerated in ascending order. -/
def demoEnvW : Env ℚ :=
  { demoEnv with
    pathPosition := fun _ s => ⟨s.coord.c0, 0, 0⟩
    weld := weldXrefs
    qsetOrder := fun xs => xs.dedup.insertionSort (· ≤ ·) }

/-- A path that passes the position `(0,0,0)` on the node `b`, goes to
`(1,0,0)`, and comes back to `(0,0,0)` on the node `d`. -/
def demoLoopPath : List (PathPointPair ℚ) :=
  [⟨"b", ⟨0, 0, 0, 0⟩⟩, ⟨"b", ⟨1, 0, 0, 0⟩⟩, ⟨"d", ⟨0, 0, 0, 0⟩⟩]

/-- The collaborators of the scene with the segment queries of the
specification: closest point and point at a parameter on the segment, the
length of a segment along the `x` axis, and spherical angles that only need to
tell the direction `(0,1,0)`. -/
def demoEnvL : Env ℚ :=
  { demoEnv with
    normalized := fun v => v.scale (1 / (|v.x| + |v.y| + |v.z|))
    lineLength := fun a b => |b.x - a.x|
    lineClosestPoint := Line.ClosestPoint
    linePointAt := Line.pointAt
    globalToLocalSpherical := fun _ _ _ _ => (0, 0)
    localSphericalToGlobal := fun _ _ _ _ _ => ⟨0, 1, 0⟩ }

/-- Two control points next to the segment from `(0,0,0)` to `(4,0,0)`: one on
it at a quarter of its length, one above it at three quarters. -/
def demoCurvePoints : List (Vector3 ℚ) := [⟨1, 0, 0⟩, ⟨3, 2, 0⟩]

/-- A task whose curve `c` has the control points `demoCurvePoints` and whose
bag holds their encoding over the segment from `(0,0,0)` to `(4,0,0)` in the
standard frame. -/
def demoEncodedTask : Task ℚ :=
  { Task.create
      { nodes := [demoNode "c" NodeType.CURVE demoCurvePoints "c"], edges := [],
        running_tasks := [] }
      { nodes := [demoNode "c" NodeType.CURVE demoCurvePoints "c"], edges := [],
        running_tasks := [] }
      TaskType.MORPH 0 "c" with
    property := { demoBag2 with
      cpCoords := some (encodeCurve demoEnvL demoCurvePoints ⟨0, 0, 0⟩ ⟨4, 0, 0⟩
        ⟨1, 0, 0⟩ ⟨0, 1, 0⟩ ⟨0, 0, 1⟩) },
    isReady := true }

/-- The collaborators of the scene with a `translateTo` that moves a curve so
that its control point `idx` comes to lie at the new position, and path
samples placed at their first coordinate on the `x` axis. -/
def demoEnvT : Env ℚ :=
  { demoEnv with
    curveTranslateTo := fun pts newPos idx =>
      pts.map (fun p => p.add (newPos.sub (pts.getD idx.toNat Vector3.zero)))
    pathPosition := fun _ s => ⟨s.coord.c0, 0, 0⟩ }

/-- A prepared single-edge morph of the curve `c`: the bag holds a path of one
sample at `(5,0,0)` and the index of the attached control point. -/
def demoMorphTask : Task ℚ :=
  { demoTask TaskType.MORPH with
    property := { demoBag with path := some [⟨"b", ⟨5, 0, 0, 0⟩⟩], cpIDX := some 0 } }

/-- The prepared two-edge grow task of the scene after another task has
already attached the curve `c` by one edge in the active graph. -/
def demoGrowAttached : Task ℚ :=
  { demoGrowTask2 with
    active := { demoGrowTask2.active with edges := [demoLink "cb" "c" "b"] } }

/-- A geodesic path of five samples on the base `b`. -/
def demoPath5 : List (PathPointPair ℚ) :=
  [⟨"b", ⟨0, 0, 0, 0⟩⟩, ⟨"b", ⟨1, 0, 0, 0⟩⟩, ⟨"b", ⟨2, 0, 0, 0⟩⟩, ⟨"b", ⟨3, 0, 0, 0⟩⟩,
   ⟨"b", ⟨4, 0, 0, 0⟩⟩]

/-- The collaborators of the scene with a geodesic path provider that answers
with the five samples of `demoPath5`, placed at their first coordinate on the
`x` axis. -/
def demoEnv5 : Env ℚ :=
  { demoEnv with
    smoothPathCoordTo := fun _ _ _ _ => demoPath5
    pathPosition := fun _ s => ⟨s.coord.c0, 0, 0⟩ }

/-- The two-edge shrink task on the curve `c`, not prepared yet. -/
def demoFreshTask2 : Task ℚ :=
  { demoTask2 TaskType.SHRINK with isReady := false }

/-- A frame of the scene, told apart by its centre `(c, 0, 0)`. -/
def demoFrame (c : ℚ) : Frame ℚ :=
  { r := ⟨1, 0, 0⟩, s := ⟨0, 1, 0⟩, t := ⟨0, 0, 1⟩, center := ⟨c, 0, 0⟩ }

/-- A frame sequence of three frames. -/
def demoRMF3 : RMF ℚ :=
  { point := [⟨0, 0, 0⟩, ⟨1, 0, 0⟩, ⟨2, 0, 0⟩], U := [demoFrame 0, demoFrame 1, demoFrame 2] }

/-- The polyline with a repeated point in the middle. -/
def demoPolyline : List (Vector3 ℚ) := [⟨0, 0, 0⟩, ⟨1, 0, 0⟩, ⟨1, 0, 0⟩, ⟨2, 0, 0⟩]

/-- A polyline that turns twice at right angles. -/
def demoTurns : List (Vector3 ℚ) := [⟨0, 0, 0⟩, ⟨1, 0, 0⟩, ⟨1, 1, 0⟩, ⟨1, 1, 1⟩]

/-- A polyline that goes forth and back and then repeats its last point. -/
def demoReversal : List (Vector3 ℚ) := [⟨0, 0, 0⟩, ⟨1, 0, 0⟩, ⟨0, 0, 0⟩, ⟨0, 0, 0⟩]

/-- A path of three samples on the base `b`, at `(0,0,0)`, `(3,0,0)` and
`(0,0,0)`. -/
def demoSpike : List (PathPointPair ℚ) :=
  [⟨"b", ⟨0, 0, 0, 0⟩⟩, ⟨"b", ⟨3, 0, 0, 0⟩⟩, ⟨"b", ⟨0, 0, 0, 0⟩⟩]

/-- A fresh morph task on the curve `c` of the scene. -/
def demoFreshMorph : Task ℚ :=
  Task.create (demoActive NodeType.CURVE) (demoTarget NodeType.CURVE) TaskType.MORPH 0 "c"

/-- A fresh shrink task on the curve `c`, not in a scene, moved to the window
that starts at `-3` and lasts 2 ticks. -/
def demoEarlyTask : Task ℚ :=
  ((Task.create (demoActive NodeType.CURVE) (demoTarget NodeType.CURVE) TaskType.SHRINK 0
    "c").setStart (-3)).setLength 2

/-- A prepared two-edge morph of the curve `c` whose bag holds the five
samples of `demoPath5` as both half paths and no frames. -/
def demoMorphTask2 : Task ℚ :=
  { demoTask2 TaskType.MORPH with
    property := { demoBag2 with pathA := some demoPath5, pathB := some demoPath5 } }

/-- A polyline on the `x` axis with steps of length 1 and 2. -/
def demoStraight : List (Vector3 ℚ) := [⟨0, 0, 0⟩, ⟨1, 0, 0⟩, ⟨3, 0, 0⟩]

/-- A fresh split task on the curve `c` of the scene. -/
def demoSplitTask : Task ℚ :=
  Task.create (demoActive NodeType.CURVE) (demoTarget NodeType.CURVE) TaskType.SPLIT 0 "c"

/-- A fresh morph task on the sheet `c` of the scene. -/
def demoSheetMorph : Task ℚ :=
  Task.create (demoActive NodeType.SHEET) (demoTarget NodeType.SHEET) TaskType.MORPH 0 "c"

/-- A prepared two-edge grow task on the curve `c` whose bag holds no half
path: no edge in the active graph yet, two edges at the target node. -/
def demoGrowNoPath : Task ℚ :=
  { demoGrowTask2 with property := demoBag2 }

/-- The collaborators of the scene with a working weld and a set of kept
indices that is enumerated in descending order. -/
def demoEnvD : Env ℚ :=
  { demoEnvW with
    qsetOrder := fun xs => (xs.dedup.insertionSort (· ≤ ·)).reverse }

end Scene

/-! ## Claims -/

section Claims

variable {K : Type} [LinearOrderedField K] [FloorRing K]

/-! ### The time window -/

theorem qMin_eq_min (a b : K) : qMin a b = min a b := by
  unfold qMin
  rcases lt_or_le a b with hab | hab
  · rw [if_pos hab, min_eq_left hab.le]
  · rw [if_neg (not_lt.mpr hab), min_eq_right hab]

theorem localT_before (task : Task K) (g : Int) (h : g < task.start) :
    task.localT g = -1 := by
  simp [Task.localT, not_le.mpr h]

theorem localT_from (task : Task K) (g : Int) (h : task.start ≤ g) :
    task.localT g = min 1 (((g : K) - (task.start : K)) / (task.length : K)) := by
  simp [Task.localT, h, qMin_eq_min]

/-- Inside the window the clamp of `localT` is idle. -/
theorem localT_inside (task : Task K) (g : Int) (hlen : 1 ≤ task.length)
    (h1 : task.start ≤ g) (h2 : g ≤ task.start + task.length) :
    task.localT g = ((g : K) - (task.start : K)) / (task.length : K) := by
  have hpos : (0 : K) < (task.length : K) := by exact_mod_cast (by omega : (0 : Int) < task.length)
  have hle : ((g : K) - (task.start : K)) / (task.length : K) ≤ 1 := by
    rw [div_le_one hpos]
    have : ((g : K)) ≤ (task.start : K) + (task.length : K) := by exact_mod_cast h2
    linarith
  rw [localT_from task g h1, min_eq_right hle]

/-! ### Lookups and frames -/

theorem Graph.getNode_id {g : Graph K} {id : String} {n : Node K}
    (h : g.getNode id = some n) : n.id = id := by
  have := List.find?_some h
  simpa using this

theorem Graph.getNode_setNode (g : Graph K) (n' : Node K) (id : String) :
    (g.setNode n').getNode id
      = (g.getNode id).map (fun m => if m.id == n'.id then n' else m) := by
  unfold Graph.getNode Graph.setNode
  simp only [List.find?_map]
  have hcomp : ((fun n : Node K => n.id == id) ∘ fun m => if m.id == n'.id then n' else m)
      = fun n => n.id == id := by
    funext m
    simp only [Function.comp]
    by_cases hm : m.id = n'.id
    · simp [hm]
    · simp [hm]
  rw [hcomp]

/-- After a node is written back under its own id, the lookup of that id
finds the written node. -/
theorem Graph.getNode_setNode_self (g : Graph K) (n n' : Node K)
    (hn : g.getNode n.id = some n) (hid : n'.id = n.id) :
    (g.setNode n').getNode n.id = some n' := by
  rw [Graph.getNode_setNode, hn]
  simp [hid]

theorem Graph.sameNodes_refl (g : Graph K) : g.sameNodes g := fun _ => rfl

theorem Graph.sameNodes_trans {g1 g2 g3 : Graph K} (h12 : g1.sameNodes g2)
    (h23 : g2.sameNodes g3) : g1.sameNodes g3 :=
  fun id => (h23 id).trans (h12 id)

theorem Graph.sameShape_refl (g : Graph K) : g.sameShape g := ⟨rfl, fun _ => rfl⟩

theorem Graph.sameShape_trans {g1 g2 g3 : Graph K} (h12 : g1.sameShape g2)
    (h23 : g2.sameShape g3) : g1.sameShape g3 :=
  ⟨h23.1.trans h12.1, Graph.sameNodes_trans h12.2 h23.2⟩

theorem Graph.sameShape_setNode (g : Graph K) (n n' : Node K)
    (hn : g.getNode n.id = some n) (hs : n'.shape = n.shape) :
    g.sameShape (g.setNode n') := by
  refine ⟨rfl, fun id => ?_⟩
  rw [Graph.getNode_setNode]
  cases hm : g.getNode id with
  | none => rfl
  | some m =>
    have hmid := Graph.getNode_id hm
    have hid' : n'.id = n.id := by
      have := congrArg Prod.fst hs
      simpa [Node.shape] using this
    by_cases hmn : m.id = n'.id
    · have : id = n.id := by rw [← hmid, hmn, hid']
      subst this
      rw [hn] at hm
      cases hm
      simp [hmn, hs]
    · simp [hmn]

/-- A lookup that succeeds in a graph succeeds in every graph with the same
node identities, on a node of the same identity. -/
theorem Graph.sameNodes_getNode {g g' : Graph K} (h : g.sameNodes g') {id : String}
    {n : Node K} (hn : g.getNode id = some n) :
    ∃ n', g'.getNode id = some n' ∧ n'.shape = n.shape := by
  have := h id
  rw [hn] at this
  cases hn' : g'.getNode id with
  | none => rw [hn'] at this; simp at this
  | some n' =>
    rw [hn'] at this
    exact ⟨n', rfl, by simpa using this⟩

theorem Graph.sameNodes_symm {g g' : Graph K} (h : g.sameNodes g') : g'.sameNodes g :=
  fun id => (h id).symm

theorem Task.Kept_refl (a : Task K) : a.Kept a :=
  ⟨rfl, Graph.sameNodes_refl _, Graph.sameShape_refl _⟩

theorem Task.Kept_trans {a b c : Task K} (hab : a.Kept b) (hbc : b.Kept c) : a.Kept c :=
  ⟨hbc.1.trans hab.1, Graph.sameNodes_trans hab.2.1 hbc.2.1,
    Graph.sameShape_trans hab.2.2 hbc.2.2⟩

theorem Task.Moved_refl (a : Task K) : a.Moved a := ⟨Task.Kept_refl a, rfl⟩

theorem Task.Moved_trans {a b c : Task K} (hab : a.Moved b) (hbc : b.Moved c) : a.Moved c :=
  ⟨Task.Kept_trans hab.1 hbc.1, hbc.2.trans hab.2⟩

/-- Writing the task's node back with the same identity is a geometry step. -/
theorem Task.Moved_setNode (a : Task K) (n n' : Node K) (hn : a.node = some n)
    (hs : n'.shape = n.shape) : a.Moved (a.setNode n') := by
  have hid := Graph.getNode_id hn
  have := Graph.sameShape_setNode a.active n n' (by rw [hid]; exact hn) hs
  exact ⟨⟨rfl, this.2, Graph.sameShape_refl _⟩, this.1⟩

theorem Task.node_lookup {a : Task K} {n : Node K} (h : a.node = some n) :
    a.active.getNode n.id = some n := by
  have := Graph.getNode_id h
  rw [this]; exact h

theorem Task.Moved_of (a b : Task K) (hc : b.control = a.control)
    (ha : a.active.sameShape b.active) (ht : a.target.sameShape b.target) : a.Moved b :=
  ⟨⟨hc, ha.2, ht⟩, ha.1⟩

theorem Task.Kept_of (a b : Task K) (hc : b.control = a.control)
    (ha : b.active.nodes = a.active.nodes) (ht : a.target.sameShape b.target) : a.Kept b := by
  refine ⟨hc, fun id => ?_, ht⟩
  unfold Graph.getNode
  rw [ha]

/-- After the task's node is written back under its id, it is the task's node. -/
theorem Task.node_setNode (a : Task K) (n n' : Node K) (hn : a.node = some n)
    (hid : n'.id = n.id) : (a.setNode n').node = some n' := by
  have h := Graph.getNode_id hn
  unfold Task.node Task.setNode
  dsimp only
  rw [← h]
  exact Graph.getNode_setNode_self _ n _ (by rw [h]; exact hn) hid

/-- A change of the artifact bag that keeps `nodeID` is a geometry step. -/
theorem Task.Moved_property (a : Task K) (p : Property K) (hp : p.nodeID = a.property.nodeID) :
    a.Moved { a with property := p } := by
  refine ⟨⟨?_, Graph.sameNodes_refl _, Graph.sameShape_refl _⟩, rfl⟩
  simp [Task.control, hp]

/-- The node of a task is found again after the task is kept. -/
theorem Task.Kept_node {a b : Task K} (h : a.Kept b) {n : Node K} (hn : a.node = some n) :
    ∃ n', b.node = some n' ∧ n'.shape = n.shape := by
  have hid : b.property.nodeID = a.property.nodeID := by
    have := h.1
    simp only [Task.control, Prod.mk.injEq] at this
    exact this.2.2.2.2.2.2.2.2.2.2.2.2
  unfold Task.node at hn ⊢
  rw [hid]
  exact Graph.sameNodes_getNode h.2.1 hn

/-- The target node of a task is found again after the task is kept. -/
theorem Task.Kept_targetNode {a b : Task K} (h : a.Kept b) {tn : Node K}
    (hn : a.targetNode = some tn) :
    ∃ tn', b.targetNode = some tn' ∧ tn'.shape = tn.shape := by
  unfold Task.targetNode at hn
  split at hn
  next n hnode =>
    split at hn
    next c hc =>
      obtain ⟨n', hn', hs'⟩ := Task.Kept_node h hnode
      obtain ⟨tn', htn', hts'⟩ := Graph.sameNodes_getNode h.2.2.2 hn
      refine ⟨tn', ?_, hts'⟩
      have hc' : n'.correspond = some c := by
        have := congrArg (fun s => s.2.2) hs'
        simp only [Node.shape] at this
        rw [this, hc]
      unfold Task.targetNode
      simp only [hn', hc', htn']
    next => simp at hn
  next => simp at hn

/-! ### The geometry steps are frames -/

theorem geometryMorph_moved (env : Env K) (a b : Task K) (t : K)
    (h : a.geometryMorph env t = some b) : a.Moved b := by
  unfold Task.geometryMorph at h
  split at h
  · cases h; exact Task.Moved_refl a
  · split at h
    next n hn =>
      dsimp only at h
      split at h
      · cases h
        exact Task.Moved_setNode a n _ hn (by rfl)
      · cases h; exact Task.Moved_refl a
    next => simp at h

/-- `geometryMorph` writes the cached samples of the node and nothing else. -/
theorem geometryMorph_spec (env : Env K) (a b : Task K) (t : K)
    (h : a.geometryMorph env t = some b) :
    b.property = a.property ∧ b.target = a.target ∧
    ∀ n, a.node = some n → ∃ n', b.node = some n' ∧ n'.shape = n.shape ∧
      n'.mCtrlPoint = n.mCtrlPoint ∧ n'.mCtrlPoint2 = n.mCtrlPoint2 := by
  unfold Task.geometryMorph at h
  split at h
  · cases h; exact ⟨rfl, rfl, fun n hn => ⟨n, hn, rfl, rfl, rfl⟩⟩
  · split at h
    next n hn =>
      dsimp only at h
      split at h
      · cases h
        refine ⟨rfl, rfl, fun m hm => ?_⟩
        rw [hn] at hm; cases hm
        exact ⟨_, Task.node_setNode a n _ hn rfl, rfl, rfl, rfl⟩
      · cases h; exact ⟨rfl, rfl, fun n hn => ⟨n, hn, rfl, rfl, rfl⟩⟩
    next => simp at h

theorem foldCurve_moved (a b : Task K) (t : K) (h : a.foldCurve t = some b) : a.Moved b := by
  unfold Task.foldCurve at h
  split at h
  next n hn =>
    dsimp only at h
    split at h
    next pts hp =>
      cases h
      exact Task.Moved_trans (Task.Moved_property a a.property.readFold rfl)
        (Task.Moved_setNode _ n _ hn (by rfl))
    next => simp at h
  next => simp at h

theorem executeCurveConstrained_moved (a b : Task K) (t : K)
    (h : a.executeCurveConstrained t = some b) : a.Moved b := by
  unfold Task.executeCurveConstrained at h
  split at h
  next n hn =>
    dsimp only at h
    split at h
    next pts hp =>
      split at h
      next =>
        cases h
        exact Task.Moved_trans (Task.Moved_property a _ rfl) (Task.Moved_setNode _ n _ hn (by rfl))
      next => simp at h
    next => simp at h
  next => simp at h

theorem decodeCurve_moved (env : Env K) (a : Task K) (start fin X Y Z : Vector3 K)
    (r : List (Vector3 K) × Task K) (h : a.decodeCurve env start fin X Y Z = some r) :
    a.Moved r.2 := by
  unfold Task.decodeCurve at h
  split at h
  next n hn =>
    dsimp only at h
    split at h
    next pts hp =>
      cases h
      exact Task.Moved_property a _ rfl
    next => simp at h
  next => simp at h

theorem morphTwoEdges_moved (env : Env K) (a b : Task K) (t : K)
    (h : a.morphTwoEdges env t = some b) : a.Moved b := by
  unfold Task.morphTwoEdges at h
  dsimp only at h
  split at h
  next sA hA =>
    split at h
    next sB hB =>
      split at h
      next rmf hr =>
        split at h
        next fr hf =>
          split at h
          next dec hd =>
            split at h
            next cur hc =>
              cases h
              have h1 := decodeCurve_moved env _ _ _ _ _ _ _ hd
              exact Task.Moved_trans (Task.Moved_property a _ rfl)
                (Task.Moved_trans h1 (Task.Moved_setNode _ cur _ hc (by rfl)))
            next => simp at h
          next => simp at h
        next => simp at h
      next =>
        cases h
        exact Task.Moved_property a _ rfl
    next => simp at h
  next => simp at h

theorem Task.targetNode_lookup {a : Task K} {tn : Node K} (h : a.targetNode = some tn) :
    a.target.getNode tn.id = some tn := by
  unfold Task.targetNode at h
  split at h
  next n hn =>
    split at h
    next c hc =>
      have := Graph.getNode_id h
      rw [this]; exact h
    next => simp at h
  next => simp at h

theorem Task.targetCurve_lookup {a : Task K} {tc : Node K} (h : a.targetCurve = some tc) :
    a.target.getNode tc.id = some tc := by
  unfold Task.targetCurve at h
  split at h
  next n hn =>
    split at h
    · cases h; exact Task.targetNode_lookup hn
    · simp at h
  next => simp at h

/-- A change of the edges of the active graph keeps the task. -/
theorem Task.Kept_edges (a : Task K) (g : Graph K) (hg : g.nodes = a.active.nodes) :
    a.Kept { a with active := g } := by
  refine ⟨rfl, fun id => ?_, Graph.sameShape_refl _⟩
  unfold Graph.getNode
  dsimp only
  rw [hg]

/-- A write to a node of the target graph that keeps its identity is a
geometry step. -/
theorem Task.Moved_target (a : Task K) (tc tc' : Node K)
    (h : a.target.getNode tc.id = some tc) (hs : tc'.shape = tc.shape) :
    a.Moved { a with target := a.target.setNode tc' } :=
  ⟨⟨rfl, Graph.sameNodes_refl _, Graph.sameShape_setNode _ tc tc' h hs⟩, rfl⟩

theorem Graph.removeEdges_nodes (g : Graph K) (ls : List (Link K)) :
    (g.removeEdges ls).nodes = g.nodes := by
  unfold Graph.removeEdges
  induction ls generalizing g with
  | nil => rfl
  | cons l ls ih =>
    simp only [List.foldl_cons]
    rw [ih]
    rfl

theorem morphSingleEdge_moved (env : Env K) (a b : Task K) (t : K) (edges : List (Link K))
    (h : a.morphSingleEdge env t edges = some b) : a.Moved b := by
  unfold Task.morphSingleEdge at h
  split at h
  next edge he =>
    dsimp only at h
    split at h
    next mid hmid =>
      split at h
      next tc htc =>
        cases h
        refine Task.Moved_trans (Task.Moved_property a _ rfl) ?_
        split at hmid
        · split at hmid
          next sample hs =>
            split at hmid
            next cur hcur =>
              split at hmid
              next base hb =>
                split at hmid
                next tl htl =>
                  split at hmid
                  next tc2 htc2 =>
                    split at hmid
                    next c hc =>
                      cases hmid
                      exact Task.Moved_of _ _ rfl
                        (Graph.sameShape_setNode a.active cur _ (Task.node_lookup hcur) (by rfl))
                        (Graph.sameShape_setNode a.target tc2 _ (Task.targetCurve_lookup htc2) (by rfl))
                    next => simp at hmid
                  next => simp at hmid
                next => simp at hmid
              next => simp at hmid
            next => simp at hmid
          next => simp at hmid
        · cases hmid
          exact Task.Moved_refl _
      next => simp at h
    next => simp at h
  next => simp at h

/-- `copyTargetEdge` appends one edge to the active graph: from the node of the
task to the counterpart of the other endpoint of the target edge, with the
coordinates of the target edge. -/
theorem copyTargetEdge_spec (env : Env K) (a b : Task K) (tlink : Link K)
    (h : a.copyTargetEdge env tlink = some b) :
    a.Kept b ∧ ∃ n tn tOther e,
      a.node = some n ∧ a.targetNode = some tn ∧
      a.target.getNode (tlink.otherNode tn.id) = some tOther ∧
      b.active.edges = a.active.edges ++ [e] ∧
      e.n1 = n.id ∧ e.n2 = tOther.correspond.getD "" ∧
      e.coord1 = tlink.getCoord tn.id ∧ e.coord2 = tlink.getCoordOther tn.id := by
  unfold Task.copyTargetEdge at h
  split at h
  next n hn =>
    split at h
    next tn htn =>
      dsimp only at h
      split at h
      next tOther hO =>
        split at h
        next nOther hnO =>
          cases h
          refine ⟨Task.Kept_edges a _ rfl, n, tn, tOther, _, hn, htn, hO, rfl, rfl, ?_, rfl, rfl⟩
          exact Graph.getNode_id hnO
        next => simp at h
      next => simp at h
    next => simp at h
  next => simp at h

/-! ### Topology finalisation keeps the task -/

theorem foldlM_kept {α : Type} (f : Task K → α → Option (Task K))
    (hf : ∀ a x b, f a x = some b → a.Kept b) :
    ∀ (xs : List α) (a b : Task K), xs.foldlM f a = some b → a.Kept b := by
  intro xs
  induction xs with
  | nil =>
    intro a b h
    simp only [List.foldlM_nil] at h
    cases h
    exact Task.Kept_refl a
  | cons x xs ih =>
    intro a b h
    simp only [List.foldlM_cons] at h
    cases hx : f a x with
    | none => rw [hx] at h; simp at h
    | some c =>
      rw [hx] at h
      exact Task.Kept_trans (hf a x c hx) (ih c b h)

theorem morphFinalize_kept (env : Env K) (a b : Task K) (t : K) (nid : String)
    (edges tedges : List (Link K)) (h : a.morphFinalize env t nid edges tedges = some b) :
    a.Kept b := by
  unfold Task.morphFinalize at h
  split at h
  · split at h
    · split at h
      · split at h
        next linkA hA =>
          split at h
          next linkB hB =>
            cases h
            exact Task.Kept_of _ _ rfl rfl (Graph.sameShape_refl _)
          next => simp at h
        next => simp at h
      · cases h; exact Task.Kept_refl a
    · split at h
      next tlinkA hA =>
        split at h
        next tlinkB hB =>
          split at h
          next c hc =>
            exact Task.Kept_trans (copyTargetEdge_spec env a c tlinkA hc).1
              (copyTargetEdge_spec env c b tlinkB h).1
          next => simp at h
        next => simp at h
      next => simp at h
    · refine foldlM_kept _ ?_ edges a b h
      intro x l y hxy
      dsimp only at hxy
      split at hxy
      next fnc hf =>
        split at hxy
        next newNode hnn =>
          cases hxy
          exact Task.Kept_of _ _ rfl rfl (Graph.sameShape_refl _)
        next => simp at hxy
      next => simp at hxy
    · cases h; exact Task.Kept_refl a
  · cases h; exact Task.Kept_refl a

theorem executeMorphCurve_kept (env : Env K) (a b : Task K) (t : K)
    (h : a.executeMorphCurve env t = some b) : a.Kept b := by
  unfold Task.executeMorphCurve at h
  split at h
  next n hn =>
    dsimp only at h
    split at h
    next tn htn =>
      split at h
      next c hc =>
        have hac : a.Kept c := by
          split at hc
          · exact (morphSingleEdge_moved env a c t _ hc).1
          · cases hc; exact Task.Kept_refl a
        split at h
        · split at h
          · cases h; exact hac
          · split at h
            next d hd =>
              exact Task.Kept_trans hac (Task.Kept_trans (morphTwoEdges_moved env c d t hd).1
                (morphFinalize_kept env d b t _ _ _ h))
            next => simp at h
        · exact Task.Kept_trans hac (morphFinalize_kept env c b t _ _ _ h)
      next => simp at h
    next => simp at h
  next => simp at h

theorem Task.Kept_setNode_removeEdges (a : Task K) (n : Node K) (hn : a.node = some n)
    (n' : Node K) (hs : n'.shape = n.shape) (ls : List (Link K)) :
    a.Kept { a.setNode n' with active := (a.setNode n').active.removeEdges ls } := by
  have h1 := (Task.Moved_setNode a n n' hn hs).1
  refine Task.Kept_trans h1 ?_
  exact Task.Kept_of _ _ rfl (Graph.removeEdges_nodes _ _) (Graph.sameShape_refl _)

theorem executeShrinkCurve_kept (env : Env K) (a b : Task K) (t : K)
    (h : a.executeShrinkCurve env t = some b) : a.Kept b := by
  unfold Task.executeShrinkCurve at h
  split at h
  next n hn =>
    dsimp only at h
    split at h
    · split at h
      next c hc =>
        split at h
        next cur hcur =>
          cases h
          exact Task.Kept_trans (executeCurveConstrained_moved a c t hc).1
            (Task.Moved_setNode c cur _ hcur (by rfl)).1
        next => simp at h
      next => simp at h
    · split at h
      next c hc =>
        have hac : a.Kept c := by
          split at hc
          · exact (foldCurve_moved a c t hc).1
          · split at hc
            · exact executeMorphCurve_kept env a c t hc
            · cases hc; exact Task.Kept_refl a
        split at h
        · split at h
          next cur hcur =>
            cases h
            exact Task.Kept_trans hac (Task.Kept_setNode_removeEdges c cur hcur _ (by rfl) _)
          next => simp at h
        · cases h; exact hac
      next => simp at h
  next => simp at h

theorem executeGrowCurve_kept (env : Env K) (a b : Task K) (t : K)
    (h : a.executeGrowCurve env t = some b) : a.Kept b := by
  unfold Task.executeGrowCurve at h
  split at h
  next n hn =>
    split at h
    next tn htn =>
      dsimp only at h
      split at h
      · exact (executeCurveConstrained_moved a b t h).1
      · split at h
        next c hc =>
          have hac : a.Kept c := by
            split at hc
            · exact (foldCurve_moved a c t hc).1
            · cases hc; exact Task.Kept_refl a
          split at h
          · exact Task.Kept_trans hac (executeMorphCurve_kept env c b t h)
          · cases h; exact hac
        next => simp at h
    next => simp at h
  next => simp at h

theorem executeGrowShrinkSheet_kept (env : Env K) (a b : Task K) (t : K)
    (h : a.executeGrowShrinkSheet env t = some b) : a.Kept b := by
  unfold Task.executeGrowShrinkSheet at h
  split at h
  next n hn =>
    split at h
    next tn htn =>
      dsimp only at h
      split at h
      next c hc =>
        have hac : a.Moved c := by
          split at hc
          · split at hc
            next grid hg =>
              cases hc
              exact Task.Moved_trans (Task.Moved_property a _ rfl) (Task.Moved_setNode _ n _ hn (by rfl))
            next => simp at hc
          · cases hc; exact Task.Moved_refl a
        split at h
        · split at h
          · split at h
            next cur hcur =>
              cases h
              exact Task.Kept_trans hac.1 (Task.Kept_setNode_removeEdges c cur hcur _ (by rfl) _)
            next => simp at h
          · split at h
            next tlink htl =>
              exact Task.Kept_trans hac.1 (copyTargetEdge_spec env c b tlink h).1
            next => simp at h
          · cases h; exact hac.1
        · cases h; exact hac.1
      next => simp at h
    next => simp at h
  next => simp at h

/-! ### The preparation steps are frames -/

theorem prepareShrinkCurveConstraint_moved (env : Env K) (a b : Task K)
    (h : a.prepareShrinkCurveConstraint env = some b) : a.Moved b := by
  unfold Task.prepareShrinkCurveConstraint at h
  split at h
  next n hn =>
    repeat' first | (split at h) | (dsimp only at h; split at h)
    all_goals first
      | (simp at h; done)
      | (cases h; exact Task.Moved_refl _)
      | (cases h; exact Task.Moved_of _ _ rfl
          (Graph.sameShape_setNode _ n _ (Task.node_lookup hn) (by rfl)) (Graph.sameShape_refl _))
  next => simp at h

theorem prepareGrowCurveConstraint_moved (env : Env K) (a b : Task K)
    (h : a.prepareGrowCurveConstraint env = some b) : a.Moved b := by
  unfold Task.prepareGrowCurveConstraint at h
  split at h
  next n hn =>
    repeat' first | (split at h) | (dsimp only at h; split at h)
    all_goals first
      | (simp at h; done)
      | (cases h; exact Task.Moved_refl _)
      | (cases h; exact Task.Moved_of _ _ rfl
          (Graph.sameShape_setNode _ n _ (Task.node_lookup hn) (by rfl)) (Graph.sameShape_refl _))
  next => simp at h

theorem prepareShrinkCurveSingle_moved (env : Env K) (a b : Task K) (n : Node K)
    (edges : List (Link K)) (hn : a.node = some n)
    (h : a.prepareShrinkCurveSingle env n edges = some b) : a.Moved b := by
  unfold Task.prepareShrinkCurveSingle at h
  repeat' first | (split at h) | (dsimp only at h; split at h)
  all_goals first
    | (simp at h; done)
    | (cases h; exact Task.Moved_of _ _ rfl
        (Graph.sameShape_setNode _ n _ (Task.node_lookup hn) (by rfl)) (Graph.sameShape_refl _))

theorem prepareShrinkCurveDouble_moved (env : Env K) (a b : Task K) (n : Node K)
    (edges : List (Link K))
    (h : a.prepareShrinkCurveDouble env n edges = some b) : a.Moved b := by
  unfold Task.prepareShrinkCurveDouble at h
  repeat' first | (split at h) | (dsimp only at h; split at h)
  all_goals first
    | (simp at h; done)
    | (cases h; exact Task.Moved_of _ _ rfl (Graph.sameShape_refl _) (Graph.sameShape_refl _))

theorem prepareGrowCurveSingle_moved (env : Env K) (a b : Task K) (n tn : Node K)
    (tedges : List (Link K)) (hn : a.node = some n)
    (h : a.prepareGrowCurveSingle env n tn tedges = some b) : a.Moved b := by
  unfold Task.prepareGrowCurveSingle at h
  repeat' first | (split at h) | (dsimp only at h; split at h)
  all_goals first
    | (simp at h; done)
    | (cases h; exact Task.Moved_of _ _ rfl
        (Graph.sameShape_setNode _ n _ (Task.node_lookup hn) (by rfl)) (Graph.sameShape_refl _))

theorem prepareGrowCurveDouble_moved (env : Env K) (a b : Task K) (tn : Node K)
    (tedges : List (Link K))
    (h : a.prepareGrowCurveDouble env tn tedges = some b) : a.Moved b := by
  unfold Task.prepareGrowCurveDouble at h
  repeat' first | (split at h) | (dsimp only at h; split at h)
  all_goals first
    | (simp at h; done)
    | (rename_i cur hcur _ _ _ _ _ _; cases h; exact Task.Moved_of _ _ rfl
        (Graph.sameShape_setNode _ cur _ (Task.node_lookup hcur) (by rfl)) (Graph.sameShape_refl _))

theorem prepareMorphCurveSingle_moved (env : Env K) (a b : Task K) (n : Node K)
    (edges : List (Link K))
    (h : a.prepareMorphCurveSingle env n edges = some b) : a.Moved b := by
  unfold Task.prepareMorphCurveSingle at h
  repeat' first | (split at h) | (dsimp only at h; split at h)
  all_goals first
    | (simp at h; done)
    | (cases h; exact Task.Moved_of _ _ rfl (Graph.sameShape_refl _) (Graph.sameShape_refl _))

theorem prepareMorphCurveDouble_moved (env : Env K) (a b : Task K) (n : Node K)
    (edges : List (Link K))
    (h : a.prepareMorphCurveDouble env n edges = some b) : a.Moved b := by
  unfold Task.prepareMorphCurveDouble at h
  repeat' first | (split at h) | (dsimp only at h; split at h)
  all_goals first
    | (simp at h; done)
    | (cases h; exact Task.Moved_of _ _ rfl (Graph.sameShape_refl _) (Graph.sameShape_refl _))

theorem prepareShrinkSheet_moved (env : Env K) (a b : Task K)
    (h : a.prepareShrinkSheet env = some b) : a.Moved b := by
  unfold Task.prepareShrinkSheet at h
  split at h
  next n hn =>
    repeat' first | (split at h) | (dsimp only at h; split at h)
    all_goals first
      | (simp at h; done)
      | (cases h; exact Task.Moved_refl _)
      | (cases h; exact Task.Moved_of _ _ rfl
          (Graph.sameShape_setNode _ n _ (Task.node_lookup hn) (by rfl)) (Graph.sameShape_refl _))
  next => simp at h

theorem prepareGrowSheet_moved (env : Env K) (a b : Task K)
    (h : a.prepareGrowSheet env = some b) : a.Moved b := by
  unfold Task.prepareGrowSheet at h
  split at h
  next n hn =>
    repeat' first | (split at h) | (dsimp only at h; split at h)
    all_goals first
      | (simp at h; done)
      | (cases h; exact Task.Moved_refl _)
      | (cases h; exact Task.Moved_of _ _ rfl
          (Graph.sameShape_setNode _ n _ (Task.node_lookup hn) (by rfl)) (Graph.sameShape_refl _))
  next => simp at h

theorem prepareShrinkCurve_moved (env : Env K) (a b : Task K)
    (h : a.prepareShrinkCurve env = some b) : a.Moved b := by
  unfold Task.prepareShrinkCurve at h
  split at h
  next n hn =>
    dsimp only at h
    split at h
    · exact Task.Moved_trans (Task.Moved_property a _ (by rfl))
        (prepareShrinkCurveConstraint_moved env _ b h)
    · split at h
      next c hc =>
        have hac : a.Moved c := by
          split at hc
          · exact prepareShrinkCurveSingle_moved env a c n _ hn hc
          · cases hc; exact Task.Moved_refl a
        split at h
        · exact Task.Moved_trans hac (prepareShrinkCurveDouble_moved env c b n _ h)
        · cases h; exact hac
      next => simp at h
  next => simp at h

theorem prepareGrowCurve_moved (env : Env K) (a b : Task K)
    (h : a.prepareGrowCurve env = some b) : a.Moved b := by
  unfold Task.prepareGrowCurve at h
  split at h
  next n hn =>
    split at h
    next tn htn =>
      dsimp only at h
      split at h
      · exact Task.Moved_trans (Task.Moved_property a _ (by rfl))
          (prepareGrowCurveConstraint_moved env _ b h)
      · split at h
        next c hc =>
          have hac : a.Moved c := by
            split at hc
            · exact prepareGrowCurveSingle_moved env a c n tn _ hn hc
            · cases hc; exact Task.Moved_refl a
          split at h
          · exact Task.Moved_trans hac (prepareGrowCurveDouble_moved env c b tn _ h)
          · cases h; exact hac
        next => simp at h
    next => simp at h
  next => simp at h

theorem prepareMorphCurve_moved (env : Env K) (a b : Task K)
    (h : a.prepareMorphCurve env = some b) : a.Moved b := by
  unfold Task.prepareMorphCurve at h
  split at h
  next n hn =>
    dsimp only at h
    split at h
    next c hc =>
      have hac : a.Moved c := by
        split at hc
        · exact prepareMorphCurveSingle_moved env a c n _ hc
        · cases hc; exact Task.Moved_refl a
      split at h
      · exact Task.Moved_trans hac (prepareMorphCurveDouble_moved env c b n _ h)
      · cases h; exact hac
    next => simp at h
  next => simp at h

/-- `prepare` writes the control fields as in `Task.armed`; everything else it
does is a geometry step. -/
theorem prepare_spec (env : Env K) (a b : Task K) (h : a.prepare env = some b) :
    a.armed.Moved b := by
  unfold Task.prepare at h
  dsimp only at h
  split at h
  next n hn =>
    split at h
    next c hc =>
      split at h
      next cur hcur =>
        cases h
        have hac : ∃ X : Task K, X.control = (a.type, a.taskID, toInt a.x, a.length, toInt a.x,
            a.isReady, false, a.x, a.inScene, a.width, a.height, a.isResizing, a.property.nodeID)
            ∧ X.active = a.active ∧ X.target = a.target ∧ X.Moved c := by
          unfold Task.prepareSwitch at hc
          split at hc
          · refine ⟨_, ?_, ?_, ?_, prepareGrowCurve_moved env _ c hc⟩ <;> rfl
          · refine ⟨_, ?_, ?_, ?_, prepareShrinkCurve_moved env _ c hc⟩ <;> rfl
          · refine ⟨_, ?_, ?_, ?_, prepareMorphCurve_moved env _ c hc⟩ <;> rfl
          · refine ⟨_, ?_, ?_, ?_, prepareGrowSheet_moved env _ c hc⟩ <;> rfl
          · refine ⟨_, ?_, ?_, ?_, prepareShrinkSheet_moved env _ c hc⟩ <;> rfl
          · cases hc; refine ⟨_, ?_, ?_, ?_, Task.Moved_refl _⟩ <;> rfl
        obtain ⟨X, hX, hXa, hXt, hXc⟩ := hac
        refine Task.Moved_of _ _ ?_ ?_ ?_
        · have h1 := hXc.1.1
          rw [hX] at h1
          simp only [Task.control, Prod.mk.injEq] at h1 ⊢
          simp [Task.setNode, Task.armed, h1]
        · have e : a.armed.active = X.active := hXa.symm
          rw [e]
          exact Graph.sameShape_trans ⟨hXc.2, hXc.1.2.1⟩
            (Graph.sameShape_setNode c.active cur _ (Task.node_lookup hcur) (by rfl))
        · have e : a.armed.target = X.target := hXt.symm
          rw [e]
          exact hXc.1.2.2
      next => simp at h
    next => simp at h
  next => simp at h

theorem executeSwitch_kept (env : Env K) (g d : Task K) (t : K) (kind : NodeType)
    (hd : g.executeSwitch env t kind = some d) : g.Kept d := by
  unfold Task.executeSwitch at hd
  split at hd
  · exact executeGrowCurve_kept env g d t hd
  · exact executeShrinkCurve_kept env g d t hd
  · exact executeMorphCurve_kept env g d t hd
  · cases hd; exact Task.Kept_refl g
  · exact executeGrowShrinkSheet_kept env g d t hd
  · exact executeGrowShrinkSheet_kept env g d t hd
  · cases hd; exact Task.Kept_refl g

/-- A completed `execute` on an active task, step by step. -/
theorem execute_steps (env : Env K) (a b : Task K) (t : K)
    (hact : a.isActive t = true) (h : a.execute env t = some b) :
    ∃ p g n d, (if a.isReady then some a else a.prepare env) = some p ∧
      (p.setCurrentTime t).geometryMorph env t = some g ∧ g.node = some n ∧
      g.executeSwitch env t n.type = some d ∧
      b = if t = 1 then { d with isDone := true } else d := by
  unfold Task.execute at h
  simp only [hact, Bool.not_true, Bool.false_eq_true, if_false] at h
  split at h
  next p hp =>
    split at h
    next g hg =>
      split at h
      next n hn =>
        split at h
        next d hd =>
          refine ⟨p, g, n, d, ?_, hg, hn, hd, ?_⟩
          · by_cases hr : a.isReady = true
            · simpa [hr] using hp
            · simpa [hr] using hp
          · by_cases ht : t = 1
            · simpa [ht] using h.symm
            · simpa [ht] using h.symm
        next => simp at h
      next => simp at h
    next => simp at h
  next => simp at h

/-- The converse of `execute_steps`: the steps of a run give its result. -/
theorem execute_of_steps (env : Env K) (a p g d : Task K) (n : Node K) (t : K)
    (hact : a.isActive t = true)
    (hp : (if a.isReady then some a else a.prepare env) = some p)
    (hg : (p.setCurrentTime t).geometryMorph env t = some g) (hn : g.node = some n)
    (hd : g.executeSwitch env t n.type = some d) :
    a.execute env t = some (if t = 1 then { d with isDone := true } else d) := by
  unfold Task.execute
  simp only [hact, Bool.not_true, Bool.false_eq_true, if_false]
  have hp' : (if (!a.isReady) = true then a.prepare env else some a) = some p := by
    by_cases hr : a.isReady = true
    · simpa [hr] using hp
    · simpa [hr] using hp
  rw [hp']
  simp only [hg, hn, hd]
  by_cases ht : t = 1
  · simp [ht]
  · simp [ht]

/-- What `execute` does to the control fields of an active task, when it
completes: a task that was not ready has been prepared (window start read from
the item), `currentTime` is the truncation of `start + t * length`, and the
task is done exactly when `t = 1`. -/
theorem execute_control (env : Env K) (a b : Task K) (t : K)
    (hact : a.isActive t = true) (h : a.execute env t = some b) :
    b.type = a.type ∧ b.length = a.length ∧
    b.start = (if a.isReady then a.start else toInt a.x) ∧
    b.currentTime = toInt ((b.start : K) + t * (b.length : K)) ∧
    b.isReady = true ∧ (b.isDone = true ↔ t = 1) ∧
    b.property.nodeID = a.property.nodeID := by
  obtain ⟨p, g, n, d, hp, hg, hn, hd, hb⟩ := execute_steps env a b t hact h
  have h1 := (executeSwitch_kept env g d t _ hd).1
  have h2 := (geometryMorph_moved env _ g t hg).1.1
  have hdone : a.isDone = false := by
    simp [Task.isActive] at hact
    exact hact.2
  simp only [Task.control, Task.setCurrentTime, Prod.mk.injEq] at h1 h2
  by_cases hr : a.isReady = true
  · simp only [hr, if_true, Option.some.injEq] at hp
    subst hp
    by_cases ht : t = 1
    · simp only [ht, if_true] at hb
      subst hb
      simp [h1, h2, hr, ht]
    · simp only [ht, if_false] at hb
      subst hb
      simp [h1, h2, hr, ht, hdone]
  · simp only [hr, Bool.false_eq_true, if_false] at hp
    have h3 := (prepare_spec env a p hp).1.1
    simp only [Task.control, Task.armed, Prod.mk.injEq] at h3
    by_cases ht : t = 1
    · simp only [ht, if_true] at hb
      subst hb
      simp [h1, h2, h3, hr, ht]
    · simp only [ht, if_false] at hb
      subst hb
      simp [h1, h2, h3, hr, ht]

/-! ### The fold -/

theorem mapM_some_of_forall {α β : Type} (f : α → Option β) (g : α → β) :
    ∀ l : List α, (∀ x ∈ l, f x = some (g x)) → l.mapM f = some (l.map g) := by
  intro l
  induction l with
  | nil => intro _; rfl
  | cons a l ih =>
    intro h
    rw [List.mapM_cons, h a (List.mem_cons_self a l), ih (fun x hx => h x (List.mem_cons_of_mem a hx))]
    rfl

/-- With one original point and one delta per control point the fold loop
completes, and control point `u` becomes `cpts[u] + deltas[u] * t`. -/
theorem foldPoints_eq (cpts deltas : List (Vector3 K)) (t : K)
    (hl : deltas.length = cpts.length) :
    foldPoints cpts.length cpts deltas t
      = some (List.zipWith (fun c d => c.add (d.scale t)) cpts deltas) := by
  unfold foldPoints
  rw [mapM_some_of_forall _
    (fun u => (cpts.getD u Vector3.zero).add ((deltas.getD u Vector3.zero).scale t))]
  · congr 1
    apply List.ext_getElem
    · simp [hl]
    · intro i h1 h2
      simp only [List.length_map, List.length_range] at h1
      simp [List.getD_eq_getElem?_getD, List.getElem?_eq_getElem, h1, hl]
  · intro u hu
    have hu' : u < cpts.length := List.mem_range.mp hu
    have hu'' : u < deltas.length := hl ▸ hu'
    simp [List.getD_eq_getElem?_getD, List.getElem?_eq_getElem, hu', hu'']

theorem Property.readFold_eq (p : Property K) (c d : CtrlVariant K)
    (hc : p.orgCtrlPoints = some c) (hd : p.deltas = some d) : p.readFold = p := by
  cases p
  simp only [Property.readFold] at *
  simp [hc, hd]

/-- `foldCurve` on a task whose bag holds one original point and one delta per
control point: the node gets the interpolated points, nothing else changes. -/
theorem foldCurve_spec (a : Task K) (n : Node K) (cpts deltas : List (Vector3 K)) (t : K)
    (hn : a.node = some n)
    (hc : a.property.orgCtrlPoints = some (CtrlVariant.array1D cpts))
    (hd : a.property.deltas = some (CtrlVariant.array1D deltas))
    (hlc : cpts.length = n.mCtrlPoint.length) (hld : deltas.length = n.mCtrlPoint.length) :
    a.foldCurve t = some (a.setNode
      { n with mCtrlPoint := List.zipWith (fun c d => c.add (d.scale t)) cpts deltas }) := by
  unfold Task.foldCurve
  simp only [hn, hc, hd, Option.getD_some, CtrlVariant.value1D]
  rw [← hlc, foldPoints_eq cpts deltas t (hld.trans hlc.symm)]
  simp only [Property.readFold_eq a.property _ _ hc hd]

theorem geometryMorph_total (env : Env K) (a : Task K) (n : Node K) (t : K)
    (hn : a.node = some n) : ∃ g, a.geometryMorph env t = some g := by
  unfold Task.geometryMorph
  simp only [hn]
  split
  · exact ⟨_, rfl⟩
  · split
    · exact ⟨_, rfl⟩
    · exact ⟨_, rfl⟩

/-- The edges of the task's node are the same after a geometry step. -/
theorem Task.Moved_getEdges {a b : Task K} (h : a.Moved b) (id : String) :
    b.active.getEdges id = a.active.getEdges id := by
  unfold Graph.getEdges
  rw [h.2]

theorem Task.Kept_type {a b : Task K} (h : a.Kept b) : b.type = a.type := by
  have := h.1
  simp only [Task.control, Prod.mk.injEq] at this
  exact this.1

theorem Task.Kept_nodeID {a b : Task K} (h : a.Kept b) :
    b.property.nodeID = a.property.nodeID := by
  have := h.1
  simp only [Task.control, Prod.mk.injEq] at this
  exact this.2.2.2.2.2.2.2.2.2.2.2.2

theorem Node.shape_id {n n' : Node K} (h : n'.shape = n.shape) : n'.id = n.id := by
  have := congrArg Prod.fst h
  simpa [Node.shape] using this

theorem Node.shape_type {n n' : Node K} (h : n'.shape = n.shape) : n'.type = n.type := by
  have := congrArg (fun s => s.2.1) h
  simpa [Node.shape] using this

theorem Node.shape_correspond {n n' : Node K} (h : n'.shape = n.shape) :
    n'.correspond = n.correspond := by
  have := congrArg (fun s => s.2.2) h
  simpa [Node.shape] using this

/-! ### Single-neighbor execution -/

/-- After the active steps up to `geometryMorph`, a prepared task has the bag,
the target graph, the kind, the edges and the node geometry it started with. -/
theorem geometryMorph_ready (env : Env K) (a : Task K) (n : Node K) (t : K)
    (hn : a.node = some n) :
    ∃ g n', (a.setCurrentTime t).geometryMorph env t = some g ∧ g.node = some n' ∧
      n'.shape = n.shape ∧ n'.mCtrlPoint = n.mCtrlPoint ∧ n'.mCtrlPoint2 = n.mCtrlPoint2 ∧
      g.property = a.property ∧ g.target = a.target ∧ g.type = a.type ∧
      g.isDone = a.isDone ∧ g.active.edges = a.active.edges ∧
      (a.setCurrentTime t).Moved g ∧ g.targetNode = a.targetNode := by
  have hn' : (a.setCurrentTime t).node = some n := hn
  obtain ⟨g, hg⟩ := geometryMorph_total env (a.setCurrentTime t) n t hn'
  obtain ⟨hp, ht, hnode⟩ := geometryMorph_spec env _ g t hg
  obtain ⟨n', hgn, hs, h1, h2⟩ := hnode n hn'
  have hm := geometryMorph_moved env _ g t hg
  have hc := hm.1.1
  simp only [Task.control, Task.setCurrentTime, Prod.mk.injEq] at hc
  have htn : g.targetNode = a.targetNode := by
    unfold Task.targetNode
    simp only [hgn, hn, ht, Node.shape_correspond hs]
    rfl
  exact ⟨g, n', hg, hgn, hs, h1, h2, hp, ht, hc.1, hc.2.2.2.2.2.2.1, hm.2, hm, htn⟩

theorem Graph.getNode_removeEdges (g : Graph K) (ls : List (Link K)) (id : String) :
    (g.removeEdges ls).getNode id = g.getNode id := by
  unfold Graph.getNode
  rw [Graph.removeEdges_nodes]

theorem Task.node_removeEdges (x : Task K) (ls : List (Link K)) :
    Task.node { x with active := x.active.removeEdges ls } = x.node := by
  unfold Task.node
  exact Graph.getNode_removeEdges _ _ _

theorem executeShrinkCurve_single (env : Env K) (g c : Task K) (n n' : Node K) (t : K)
    (hn : g.node = some n) (hcut : g.property.isCutNode = none)
    (hlen : (g.active.getEdges n.id).length = 1)
    (hf : g.foldCurve t = some c) (hcn : c.node = some n') :
    ∃ d n'', g.executeShrinkCurve env t = some d ∧ d.node = some n'' ∧
      n''.mCtrlPoint = n'.mCtrlPoint := by
  unfold Task.executeShrinkCurve
  simp only [hn, hcut, hlen, Option.isSome_none, Bool.false_eq_true, if_false, if_true, hf]
  by_cases ht : t = 1
  · simp only [ht, if_true, hcn]
    refine ⟨_, { n' with isReady := some false }, rfl, ?_, rfl⟩
    have hk : (c.setNode { n' with isReady := some false }).node
        = some { n' with isReady := some false } :=
      Task.node_setNode c n' _ hcn rfl
    exact (Task.node_removeEdges _ _).trans hk
  · simp only [ht, if_false]
    exact ⟨c, n', rfl, hcn, rfl⟩

theorem executeGrowCurve_single (env : Env K) (g c : Task K) (n tn : Node K) (t : K)
    (hn : g.node = some n) (htn : g.targetNode = some tn)
    (hcut : g.property.isCutNode = none)
    (hlen : (g.target.getEdges tn.id).length = 1)
    (hf : g.foldCurve t = some c) :
    g.executeGrowCurve env t = some c := by
  unfold Task.executeGrowCurve
  simp only [hn, htn, hcut, hlen, Option.isSome_none, Bool.false_eq_true, if_false, if_true, hf]
  simp

theorem executeSwitch_curve_shrink (env : Env K) (g : Task K) (t : K) (kind : NodeType)
    (hk : kind = NodeType.CURVE) (hty : g.type = TaskType.SHRINK) :
    g.executeSwitch env t kind = g.executeShrinkCurve env t := by
  unfold Task.executeSwitch
  rw [hk, hty]

theorem executeSwitch_curve_grow (env : Env K) (g : Task K) (t : K) (kind : NodeType)
    (hk : kind = NodeType.CURVE) (hty : g.type = TaskType.GROW) :
    g.executeSwitch env t kind = g.executeGrowCurve env t := by
  unfold Task.executeSwitch
  rw [hk, hty]

theorem executeSwitch_curve_morph (env : Env K) (g : Task K) (t : K) (kind : NodeType)
    (hk : kind = NodeType.CURVE) (hty : g.type = TaskType.MORPH) :
    g.executeSwitch env t kind = g.executeMorphCurve env t := by
  unfold Task.executeSwitch
  rw [hk, hty]

theorem executeSwitch_sheet (env : Env K) (g : Task K) (t : K) (kind : NodeType)
    (hk : kind = NodeType.SHEET)
    (hty : g.type = TaskType.SHRINK ∨ g.type = TaskType.GROW) :
    g.executeSwitch env t kind = g.executeGrowShrinkSheet env t := by
  unfold Task.executeSwitch
  rcases hty with hty | hty <;> rw [hk, hty]

/-- Marking the task done does not touch its node. -/
theorem Task.node_done (d : Task K) (t : K) :
    Task.node (if t = 1 then { d with isDone := true } else d) = d.node := by
  by_cases ht : t = 1
  · simp only [ht, if_true]; rfl
  · simp only [ht, if_false]

/-! ### The two-edge case without a stored path -/

theorem executeMorphCurve_nopath (env : Env K) (g : Task K) (n tn : Node K) (t : K)
    (hn : g.node = some n) (htn : g.targetNode = some tn)
    (hpath : g.property.pathA = none)
    (h : (g.active.getEdges n.id).length = 2 ∨
      (g.type = TaskType.GROW ∧ (g.active.getEdges n.id).length ≠ 1)) :
    g.executeMorphCurve env t = some g := by
  unfold Task.executeMorphCurve
  have h1 : ¬ (g.active.getEdges n.id).length = 1 := by
    rcases h with h | h
    · omega
    · exact h.2
  have h2 : (g.active.getEdges n.id).length = 2 ∨ g.type = TaskType.GROW := by
    rcases h with h | h
    · exact Or.inl h
    · exact Or.inr h.1
  simp only [hn, htn, h1, if_false, h2, if_true, hpath, Option.isNone_none]

theorem executeShrinkCurve_nopath (env : Env K) (g : Task K) (n tn : Node K) (t : K)
    (hn : g.node = some n) (htn : g.targetNode = some tn)
    (hcut : g.property.isCutNode = none) (hpath : g.property.pathA = none)
    (hlen : (g.active.getEdges n.id).length = 2) :
    ∃ d n', g.executeShrinkCurve env t = some d ∧ d.node = some n' ∧
      n'.mCtrlPoint = n.mCtrlPoint ∧ (t ≠ 1 → d = g) := by
  unfold Task.executeShrinkCurve
  have h1 : ¬ (2 : Nat) = 1 := by decide
  simp only [hn, hcut, Option.isSome_none, Bool.false_eq_true, if_false, h1, hlen, if_true,
    executeMorphCurve_nopath env g n tn t hn htn hpath (Or.inl hlen)]
  by_cases ht : t = 1
  · simp only [ht, if_true, hn]
    refine ⟨_, { n with isReady := some false }, rfl, ?_, rfl, fun h => absurd rfl h⟩
    exact (Task.node_removeEdges _ _).trans (Task.node_setNode g n _ hn rfl)
  · simp only [ht, if_false]
    exact ⟨g, n, rfl, hn, rfl, fun _ => rfl⟩

theorem executeGrowCurve_nopath (env : Env K) (g : Task K) (n tn : Node K) (t : K)
    (hn : g.node = some n) (htn : g.targetNode = some tn)
    (hcut : g.property.isCutNode = none) (hpath : g.property.pathA = none)
    (hty : g.type = TaskType.GROW)
    (hlen : (g.target.getEdges tn.id).length = 2)
    (hact : (g.active.getEdges n.id).length ≠ 1) :
    g.executeGrowCurve env t = some g := by
  unfold Task.executeGrowCurve
  have h1 : ¬ (2 : Nat) = 1 := by decide
  simp only [hn, htn, hcut, Option.isSome_none, Bool.false_eq_true, if_false, h1, hlen, if_true,
    executeMorphCurve_nopath env g n tn t hn htn hpath (Or.inr ⟨hty, hact⟩)]

/-! ### Removing the edges of a node -/

theorem countP_eraseP_self {α : Type} (p : α → Bool) (l : List α) :
    (l.eraseP p).countP p = l.countP p - 1 := by
  induction l with
  | nil => rfl
  | cons x xs ih =>
    by_cases hx : p x = true
    · simp [List.eraseP_cons, hx]
    · simp [List.eraseP_cons, hx, ih]

theorem Link.joins_self (e : Link K) : e.joins e.n1 e.n2 = true := by
  simp [Link.joins]

theorem Link.joins_congr (l e : Link K) (a b : String) (h : l.joins a b = true) :
    e.joins l.n1 l.n2 = e.joins a b := by
  simp only [Link.joins, Bool.or_eq_true, Bool.and_eq_true, beq_iff_eq] at h
  rcases h with ⟨h1, h2⟩ | ⟨h1, h2⟩
  · rw [h1, h2]
  · rw [h1, h2]
    simp only [Link.joins]
    rw [Bool.or_comm]

theorem Link.joins_hasNode (e : Link K) (a b nid : String) (hab : a = nid ∨ b = nid)
    (h : e.joins a b = true) : e.hasNode nid = true := by
  simp only [Link.joins, Bool.or_eq_true, Bool.and_eq_true, beq_iff_eq] at h
  simp only [Link.hasNode, Bool.or_eq_true, beq_iff_eq]
  rcases h with ⟨h1, h2⟩ | ⟨h1, h2⟩ <;> rcases hab with h | h
  · exact Or.inl (h1.trans h)
  · exact Or.inr (h2.trans h)
  · exact Or.inr (h2.trans h)
  · exact Or.inl (h1.trans h)

/-- The removal loop of the finalisation: when, for every pair of endpoints
that involves the node, the graph has no more edges joining the pair than the
list of links handed to the loop, no edge of the node is left. -/
theorem Graph.removeEdges_clears (nid : String) :
    ∀ (ls : List (Link K)) (g : Graph K),
      (∀ a b, (a = nid ∨ b = nid) →
        g.edges.countP (fun e => e.joins a b) ≤ ls.countP (fun e => e.joins a b)) →
      ∀ e ∈ (g.removeEdges ls).edges, e.hasNode nid = false := by
  intro ls
  induction ls with
  | nil =>
    intro g hI e he
    cases hh : e.hasNode nid with
    | false => rfl
    | true =>
      exfalso
      have hab : e.n1 = nid ∨ e.n2 = nid := by
        simpa [Link.hasNode] using hh
      have h0 := hI e.n1 e.n2 hab
      simp only [List.countP_nil, Nat.le_zero_eq, List.countP_eq_zero] at h0
      have he' : e ∈ g.edges := he
      exact h0 e he' (Link.joins_self e)
  | cons l ls ih =>
    intro g hI e he
    have hstep : (g.removeEdges (l :: ls)) = (g.removeEdge l.n1 l.n2).removeEdges ls := rfl
    rw [hstep] at he
    refine ih (g.removeEdge l.n1 l.n2) ?_ e he
    intro a b hab
    have h0 := hI a b hab
    show (g.edges.eraseP (fun x => x.joins l.n1 l.n2)).countP (fun e => e.joins a b) ≤ _
    by_cases hl : l.joins a b = true
    · have hp : (fun x : Link K => x.joins l.n1 l.n2) = (fun e => e.joins a b) := by
        funext x
        exact Link.joins_congr l x a b hl
      rw [hp, countP_eraseP_self]
      rw [List.countP_cons] at h0
      simp only [hl, if_true] at h0
      omega
    · rw [List.countP_cons] at h0
      simp only [hl, Bool.false_eq_true, if_false, Nat.add_zero] at h0
      exact le_trans (List.Sublist.countP_le _ (List.eraseP_sublist _)) h0

/-- The edges of a node, handed to the removal loop, clear every graph whose
edges are among those of the graph they were taken from. -/
theorem Graph.removeEdges_getEdges (g g' : Graph K) (nid : String)
    (hsub : g'.edges.Sublist g.edges) :
    ∀ e ∈ (g'.removeEdges (g.getEdges nid)).edges, e.hasNode nid = false := by
  apply Graph.removeEdges_clears
  intro a b hab
  refine le_trans (List.Sublist.countP_le _ hsub) ?_
  unfold Graph.getEdges
  rw [List.countP_filter]
  apply le_of_eq
  apply List.countP_congr
  intro x _
  constructor
  · intro hx
    simp only [Bool.and_eq_true]
    exact ⟨hx, Link.joins_hasNode x a b nid hab hx⟩
  · intro hx
    simp only [Bool.and_eq_true] at hx
    exact hx.1

theorem morphFinalize_shrink_sublist (env : Env K) (a b : Task K) (t : K) (nid : String)
    (edges tedges : List (Link K)) (hty : a.type = TaskType.SHRINK)
    (h : a.morphFinalize env t nid edges tedges = some b) :
    b.active.edges.Sublist a.active.edges := by
  unfold Task.morphFinalize at h
  rw [hty] at h
  split at h
  · dsimp only at h
    split at h
    · split at h
      next linkA hA =>
        split at h
        next linkB hB =>
          cases h
          exact (List.eraseP_sublist _).trans (List.eraseP_sublist _)
        next => simp at h
      next => simp at h
    · cases h; exact List.Sublist.refl _
  · cases h; exact List.Sublist.refl _

theorem executeMorphCurve_shrink_sublist (env : Env K) (a b : Task K) (t : K)
    (hty : a.type = TaskType.SHRINK) (h : a.executeMorphCurve env t = some b) :
    b.active.edges.Sublist a.active.edges := by
  unfold Task.executeMorphCurve at h
  split at h
  next n hn =>
    dsimp only at h
    split at h
    next tn htn =>
      split at h
      next c hc =>
        have hac : a.Moved c := by
          split at hc
          · exact morphSingleEdge_moved env a c t _ hc
          · cases hc; exact Task.Moved_refl a
        have hcty : c.type = TaskType.SHRINK := (Task.Kept_type hac.1).trans hty
        split at h
        · split at h
          · cases h; rw [hac.2]
          · split at h
            next d hd =>
              have hcd := morphTwoEdges_moved env c d t hd
              have hdty : d.type = TaskType.SHRINK := (Task.Kept_type hcd.1).trans hcty
              have := morphFinalize_shrink_sublist env d b t _ _ _ hdty h
              rw [hcd.2, hac.2] at this
              exact this
            next => simp at h
        · have := morphFinalize_shrink_sublist env c b t _ _ _ hcty h
          rw [hac.2] at this
          exact this
      next => simp at h
    next => simp at h
  next => simp at h

/-- A shrink on a curve that carries no cut mark leaves, at `t = 1`, no edge
at the node of the task. -/
theorem executeShrinkCurve_clears (env : Env K) (g d : Task K)
    (hty : g.type = TaskType.SHRINK) (hcut : g.property.isCutNode = none)
    (h : g.executeShrinkCurve env 1 = some d) :
    ∀ e ∈ d.active.edges, e.hasNode g.property.nodeID = false := by
  unfold Task.executeShrinkCurve at h
  split at h
  next n hn =>
    have hid : n.id = g.property.nodeID := Graph.getNode_id hn
    simp only [hcut, Option.isSome_none, Bool.false_eq_true, if_false, if_true] at h
    split at h
    next c hc =>
      have hsub : c.active.edges.Sublist g.active.edges := by
        split at hc
        · rw [(foldCurve_moved g c 1 hc).2]
        · split at hc
          · exact executeMorphCurve_shrink_sublist env g c 1 hty hc
          · cases hc; exact List.Sublist.refl _
      split at h
      next cur hcur =>
        cases h
        rw [← hid]
        refine Graph.removeEdges_getEdges g.active _ n.id ?_
        exact hsub
      next => simp at h
    next => simp at h
  next => simp at h

/-- A shrink on a sheet leaves, at `t = 1`, no edge at the node of the task. -/
theorem executeGrowShrinkSheet_clears (env : Env K) (g d : Task K)
    (hty : g.type = TaskType.SHRINK)
    (h : g.executeGrowShrinkSheet env 1 = some d) :
    ∀ e ∈ d.active.edges, e.hasNode g.property.nodeID = false := by
  unfold Task.executeGrowShrinkSheet at h
  split at h
  next n hn =>
    have hid : n.id = g.property.nodeID := Graph.getNode_id hn
    split at h
    next tn htn =>
      dsimp only at h
      split at h
      next c hc =>
        have hac : g.Moved c := by
          split at hc
          · split at hc
            next grid hg =>
              cases hc
              exact Task.Moved_trans (Task.Moved_property g _ rfl)
                (Task.Moved_setNode _ n _ hn (by rfl))
            next => simp at hc
          · cases hc; exact Task.Moved_refl g
        have hcty : c.type = TaskType.SHRINK := (Task.Kept_type hac.1).trans hty
        simp only [if_true, hcty] at h
        split at h
        next cur hcur =>
          cases h
          rw [← hid]
          refine Graph.removeEdges_getEdges g.active _ n.id ?_
          show c.active.edges.Sublist g.active.edges
          rw [hac.2]
        next => simp at h
      next => simp at h
    next => simp at h
  next => simp at h

/-! ### The cut mark of a shrink -/

theorem prepareShrinkCurveSingle_isCutNode (env : Env K) (a b : Task K) (n : Node K)
    (edges : List (Link K)) (h : a.prepareShrinkCurveSingle env n edges = some b) :
    b.property.isCutNode = a.property.isCutNode := by
  unfold Task.prepareShrinkCurveSingle at h
  repeat' first | (split at h) | (dsimp only at h; split at h)
  all_goals first
    | (simp at h; done)
    | (cases h; rfl)

theorem prepareShrinkCurveDouble_isCutNode (env : Env K) (a b : Task K) (n : Node K)
    (edges : List (Link K)) (h : a.prepareShrinkCurveDouble env n edges = some b) :
    b.property.isCutNode = a.property.isCutNode := by
  unfold Task.prepareShrinkCurveDouble at h
  repeat' first | (split at h) | (dsimp only at h; split at h)
  all_goals first
    | (simp at h; done)
    | (cases h; rfl)

theorem prepareShrinkCurve_isCutNode (env : Env K) (a b : Task K) (n : Node K)
    (hn : a.node = some n) (hcut : env.isCutNode a.active n.id = false)
    (h : a.prepareShrinkCurve env = some b) :
    b.property.isCutNode = a.property.isCutNode := by
  unfold Task.prepareShrinkCurve at h
  simp only [hn, hcut, Bool.false_eq_true, if_false] at h
  split at h
  next c hc =>
    have hac : c.property.isCutNode = a.property.isCutNode := by
      split at hc
      · exact prepareShrinkCurveSingle_isCutNode env a c n _ hc
      · cases hc; rfl
    split at h
    · exact (prepareShrinkCurveDouble_isCutNode env c b n _ h).trans hac
    · cases h; exact hac
  next => simp at h

/-- `prepare` on a shrink of a curve that the graph does not report as a cut
node leaves the bag without a cut mark. -/
theorem prepare_shrink_isCutNode (env : Env K) (a p : Task K) (n : Node K)
    (hn : a.node = some n) (hcurve : n.type = NodeType.CURVE)
    (hty : a.type = TaskType.SHRINK) (hbag : a.property.isCutNode = none)
    (hcut : env.isCutNode a.active n.id = false)
    (h : a.prepare env = some p) : p.property.isCutNode = none := by
  unfold Task.prepare at h
  dsimp only at h
  have hn' : Task.node { a with start := toInt a.x, currentTime := toInt a.x, isDone := false }
      = some n := hn
  rw [hn'] at h
  dsimp only at h
  split at h
  next c hc =>
    split at h
    next cur hcur =>
      cases h
      unfold Task.prepareSwitch at hc
      rw [hcurve] at hc
      simp only [hty] at hc
      have := prepareShrinkCurve_isCutNode env _ c n (by exact hn) (by exact hcut) hc
      exact this.trans hbag
    next => simp at h
  next => simp at h

theorem Task.Kept_node_rev {a b : Task K} (h : a.Kept b) {n : Node K} (hn : b.node = some n) :
    ∃ n0, a.node = some n0 ∧ n0.shape = n.shape := by
  have hid := Task.Kept_nodeID h
  unfold Task.node at hn ⊢
  rw [hid] at hn
  exact Graph.sameNodes_getNode (Graph.sameNodes_symm h.2.1) hn

/-- The task that `execute` hands to its kind-specific stage: it has the kind,
the `nodeID` and the node identity of the task `execute` was called on, and
the bag of the prepared task. -/
theorem execute_stage_input (env : Env K) (a p g : Task K) (n : Node K) (t : K)
    (hp : (if a.isReady then some a else a.prepare env) = some p)
    (hg : (p.setCurrentTime t).geometryMorph env t = some g) (hn : g.node = some n) :
    g.type = a.type ∧ g.property.nodeID = a.property.nodeID ∧ g.property = p.property ∧
    ∃ n0, a.node = some n0 ∧ n0.shape = n.shape := by
  have hm := (geometryMorph_moved env _ g t hg).1
  have hgp := (geometryMorph_spec env _ g t hg).1
  obtain ⟨n1, hn1, hs1⟩ := Task.Kept_node_rev hm hn
  have hn1' : p.node = some n1 := hn1
  have hty : g.type = p.type := Task.Kept_type (a := p.setCurrentTime t) hm
  have hid : g.property.nodeID = p.property.nodeID :=
    Task.Kept_nodeID (a := p.setCurrentTime t) hm
  by_cases hr : a.isReady = true
  · simp only [hr, if_true, Option.some.injEq] at hp
    subst hp
    exact ⟨hty, hid, hgp, n1, hn1', hs1⟩
  · simp only [hr, Bool.false_eq_true, if_false] at hp
    have hk := (prepare_spec env a p hp).1
    obtain ⟨n0, hn0, hs0⟩ := Task.Kept_node_rev hk hn1'
    have hn0' : a.node = some n0 := hn0
    have e1 : p.type = a.type := Task.Kept_type (a := a.armed) hk
    have e2 : p.property.nodeID = a.property.nodeID := Task.Kept_nodeID (a := a.armed) hk
    refine ⟨hty.trans e1, hid.trans e2, hgp, n0, hn0', ?_⟩
    exact hs0.trans hs1

/-! ### Copying the target edges of a grow -/

theorem Graph.hasCopyOf_mono {g g' T T' : Graph K} {nid tnid : String} {tl : Link K}
    (h : g.hasCopyOf T nid tnid tl) (he : ∀ e ∈ g.edges, e ∈ g'.edges)
    (hT : T.sameNodes T') : g'.hasCopyOf T' nid tnid tl := by
  obtain ⟨tOther, e, hO, hmem, h1, h2, h3, h4⟩ := h
  obtain ⟨tOther', hO', hs⟩ := Graph.sameNodes_getNode hT hO
  exact ⟨tOther', e, hO', he e hmem, h1, by rw [Node.shape_correspond hs]; exact h2, h3, h4⟩

/-- `copyTargetEdge` leaves a copy of the target edge in the active graph and
keeps the edges that were there. -/
theorem copyTargetEdge_copies (env : Env K) (a b : Task K) (tl : Link K) (tn : Node K)
    (htn : a.targetNode = some tn) (h : a.copyTargetEdge env tl = some b) :
    b.active.hasCopyOf a.target a.property.nodeID tn.id tl ∧
    (∀ e ∈ a.active.edges, e ∈ b.active.edges) ∧ a.Kept b := by
  obtain ⟨hk, n, tn', tOther, e, hn, htn', hO, hedges, h1, h2, h3, h4⟩ :=
    copyTargetEdge_spec env a b tl h
  rw [htn] at htn'
  cases htn'
  refine ⟨⟨tOther, e, hO, ?_, h1.trans (Graph.getNode_id hn), h2, h3, h4⟩, ?_, hk⟩
  · rw [hedges]; simp
  · intro x hx
    rw [hedges]; simp [hx]

theorem morphSingleEdge_bag (env : Env K) (a b : Task K) (t : K) (edges : List (Link K))
    (h : a.morphSingleEdge env t edges = some b) :
    b.property.pathA = a.property.pathA := by
  unfold Task.morphSingleEdge at h
  split at h
  next edge he =>
    dsimp only at h
    split at h
    next mid hmid =>
      split at h
      next tc htc =>
        cases h
        split at hmid
        · repeat' first | (split at hmid) | (dsimp only at hmid; split at hmid)
          all_goals first
            | (simp at hmid; done)
            | (cases hmid; rfl)
        · cases hmid; rfl
      next => simp at h
    next => simp at h
  next => simp at h

/-- The finalisation of a grow at `t = 1`: the first and the last edge of the
target node are copied, in this order. -/
theorem morphFinalize_grow (env : Env K) (a b : Task K) (nid : String)
    (edges tedges : List (Link K)) (hty : a.type = TaskType.GROW)
    (h : a.morphFinalize env 1 nid edges tedges = some b) :
    ∃ tlA tlB c, tedges.head? = some tlA ∧ tedges.getLast? = some tlB ∧
      a.copyTargetEdge env tlA = some c ∧ c.copyTargetEdge env tlB = some b := by
  unfold Task.morphFinalize at h
  rw [hty] at h
  simp only [if_true] at h
  split at h
  next tlA hA =>
    split at h
    next tlB hB =>
      split at h
      next c hc => exact ⟨tlA, tlB, c, hA, hB, hc, h⟩
      next => simp at h
    next => simp at h
  next => simp at h

/-- A grow that reaches `executeMorphCurve` at `t = 1` with a stored `pathA`:
after geometry steps, the first and the last edge of the target node are
copied. -/
theorem executeMorphCurve_grow (env : Env K) (a b : Task K) (tn : Node K)
    (hty : a.type = TaskType.GROW) (htn : a.targetNode = some tn)
    (hpath : a.property.pathA.isSome = true)
    (h : a.executeMorphCurve env 1 = some b) :
    ∃ d tlA tlB c, a.Moved d ∧
      (a.target.getEdges tn.id).head? = some tlA ∧
      (a.target.getEdges tn.id).getLast? = some tlB ∧
      d.copyTargetEdge env tlA = some c ∧ c.copyTargetEdge env tlB = some b := by
  unfold Task.executeMorphCurve at h
  split at h
  next n hn =>
    simp only [htn] at h
    split at h
    next c hc =>
      have hac : a.Moved c := by
        split at hc
        · exact morphSingleEdge_moved env a c 1 _ hc
        · cases hc; exact Task.Moved_refl a
      have hcp : c.property.pathA = a.property.pathA := by
        split at hc
        · exact morphSingleEdge_bag env a c 1 _ hc
        · cases hc; rfl
      have hcty : c.type = TaskType.GROW := (Task.Kept_type hac.1).trans hty
      have hnone : c.property.pathA.isNone = false := by
        rw [hcp]
        cases hpa : a.property.pathA with
        | none => rw [hpa] at hpath; simp at hpath
        | some v => rfl
      simp only [hcty, or_true, if_true, hnone, Bool.false_eq_true, if_false] at h
      split at h
      next d hd =>
        have hcd := morphTwoEdges_moved env c d 1 hd
        have hdty : d.type = TaskType.GROW := (Task.Kept_type hcd.1).trans hcty
        obtain ⟨tlA, tlB, e, hA, hB, h1, h2⟩ := morphFinalize_grow env d b _ _ _ hdty h
        exact ⟨d, tlA, tlB, e, Task.Moved_trans hac hcd, hA, hB, h1, h2⟩
      next => simp at h
    next => simp at h
  next => simp at h

theorem Task.targetNode_transfer {a b : Task K}
    (hid : b.property.nodeID = a.property.nodeID)
    (ha : a.active.sameNodes b.active) (ht : a.target.sameNodes b.target)
    {tn : Node K} (hn : a.targetNode = some tn) :
    ∃ tn', b.targetNode = some tn' ∧ tn'.shape = tn.shape := by
  unfold Task.targetNode at hn
  split at hn
  next n hnode =>
    split at hn
    next c hc =>
      have hnode' : a.active.getNode a.property.nodeID = some n := hnode
      obtain ⟨n', hn', hs'⟩ := Graph.sameNodes_getNode ha hnode'
      obtain ⟨tn', htn', hts'⟩ := Graph.sameNodes_getNode ht hn
      refine ⟨tn', ?_, hts'⟩
      have hc' : n'.correspond = some c := by rw [Node.shape_correspond hs', hc]
      have hbn : b.node = some n' := by
        unfold Task.node
        rw [hid]; exact hn'
      unfold Task.targetNode
      simp only [hbn, hc', htn']
    next => simp at hn
  next => simp at hn

/-- The graphs that `execute` hands to its kind-specific stage have the edges
and the node identities of the graphs `execute` was called on. -/
theorem execute_stage_graphs (env : Env K) (a p g : Task K) (t : K)
    (hp : (if a.isReady then some a else a.prepare env) = some p)
    (hg : (p.setCurrentTime t).geometryMorph env t = some g) :
    a.active.sameShape g.active ∧ a.target.sameShape g.target := by
  have hm := geometryMorph_moved env _ g t hg
  have h1 : p.active.sameShape g.active := ⟨hm.2, hm.1.2.1⟩
  have h2 : p.target.sameShape g.target := hm.1.2.2
  by_cases hr : a.isReady = true
  · simp only [hr, if_true, Option.some.injEq] at hp
    subst hp
    exact ⟨h1, h2⟩
  · simp only [hr, Bool.false_eq_true, if_false] at hp
    have hk := prepare_spec env a p hp
    have h3 : a.active.sameShape p.active := ⟨hk.2, hk.1.2.1⟩
    have h4 : a.target.sameShape p.target := hk.1.2.2
    exact ⟨Graph.sameShape_trans h3 h1, Graph.sameShape_trans h4 h2⟩

theorem Graph.sameShape_getEdges {g g' : Graph K} (h : g.sameShape g') (id : String) :
    g'.getEdges id = g.getEdges id := by
  unfold Graph.getEdges
  rw [h.1]

theorem executeGrowCurve_two (env : Env K) (g d : Task K) (tn : Node K) (t : K)
    (htn : g.targetNode = some tn) (hcut : g.property.isCutNode = none)
    (hlen : (g.target.getEdges tn.id).length = 2)
    (h : g.executeGrowCurve env t = some d) : g.executeMorphCurve env t = some d := by
  unfold Task.executeGrowCurve at h
  split at h
  next n hn =>
    have h1 : ¬ (2 : Nat) = 1 := by decide
    simp only [htn, hcut, Option.isSome_none, Bool.false_eq_true, if_false, hlen, h1,
      if_true] at h
    exact h
  next => simp at h

theorem executeGrowShrinkSheet_grow (env : Env K) (g d : Task K) (tn : Node K)
    (hty : g.type = TaskType.GROW) (htn : g.targetNode = some tn)
    (h : g.executeGrowShrinkSheet env 1 = some d) :
    ∃ c tl, g.Moved c ∧ (g.target.getEdges tn.id).head? = some tl ∧
      c.copyTargetEdge env tl = some d := by
  unfold Task.executeGrowShrinkSheet at h
  split at h
  next n hn =>
    simp only [htn] at h
    split at h
    next c hc =>
      have hac : g.Moved c := by
        split at hc
        · split at hc
          next grid hg =>
            cases hc
            exact Task.Moved_trans (Task.Moved_property g _ rfl)
              (Task.Moved_setNode _ n _ hn (by rfl))
          next => simp at hc
        · cases hc; exact Task.Moved_refl g
      have hcty : c.type = TaskType.GROW := (Task.Kept_type hac.1).trans hty
      simp only [if_true, hcty] at h
      split at h
      next tl htl => exact ⟨c, tl, hac, htl, h⟩
      next => simp at h
    next => simp at h
  next => simp at h

theorem prepareGrowCurveDouble_bag (env : Env K) (a b : Task K) (tn : Node K)
    (tedges : List (Link K)) (h : a.prepareGrowCurveDouble env tn tedges = some b) :
    b.property.isCutNode = a.property.isCutNode ∧ b.property.pathA.isSome = true := by
  unfold Task.prepareGrowCurveDouble at h
  repeat' first | (split at h) | (dsimp only at h; split at h)
  all_goals first
    | (simp at h; done)
    | (cases h; exact ⟨rfl, rfl⟩)

theorem prepareGrowCurve_bag (env : Env K) (a b : Task K) (tn : Node K)
    (htn : a.targetNode = some tn) (hcut : env.isCutNode a.target tn.id = false)
    (hlen : (a.target.getEdges tn.id).length = 2)
    (h : a.prepareGrowCurve env = some b) :
    b.property.isCutNode = a.property.isCutNode ∧ b.property.pathA.isSome = true := by
  unfold Task.prepareGrowCurve at h
  split at h
  next n hn =>
    have h1 : ¬ (2 : Nat) = 1 := by decide
    simp only [htn, hcut, Bool.false_eq_true, if_false, hlen, h1, if_true] at h
    exact prepareGrowCurveDouble_bag env a b tn _ h
  next => simp at h

/-- `prepare` on a grow of a curve whose target node has two edges and is not
reported as a cut node stores `pathA` and no cut mark. -/
theorem prepare_grow_bag (env : Env K) (a p : Task K) (n tn : Node K)
    (hn : a.node = some n) (hcurve : n.type = NodeType.CURVE)
    (hty : a.type = TaskType.GROW) (htn : a.targetNode = some tn)
    (hbag : a.property.isCutNode = none)
    (hcut : env.isCutNode a.target tn.id = false)
    (hlen : (a.target.getEdges tn.id).length = 2)
    (h : a.prepare env = some p) :
    p.property.isCutNode = none ∧ p.property.pathA.isSome = true := by
  unfold Task.prepare at h
  dsimp only at h
  have hn' : Task.node { a with start := toInt a.x, currentTime := toInt a.x, isDone := false }
      = some n := hn
  rw [hn'] at h
  dsimp only at h
  split at h
  next c hc =>
    split at h
    next cur hcur =>
      cases h
      unfold Task.prepareSwitch at hc
      rw [hcurve] at hc
      simp only [hty] at hc
      have := prepareGrowCurve_bag env _ c tn (by exact htn) (by exact hcut) (by exact hlen) hc
      exact ⟨this.1.trans hbag, this.2⟩
    next => simp at h
  next => simp at h

theorem mem_of_length_two {α : Type} (l : List α) (a b : α) (hl : l.length = 2)
    (ha : l.head? = some a) (hb : l.getLast? = some b) : ∀ x ∈ l, x = a ∨ x = b := by
  match l, hl with
  | [u, v], _ =>
    simp only [List.head?_cons, Option.some.injEq] at ha
    simp only [List.getLast?_cons_cons, List.getLast?_singleton, Option.some.injEq] at hb
    intro x hx
    simp only [List.mem_cons, List.mem_singleton, List.not_mem_nil, or_false] at hx
    rcases hx with hx | hx
    · exact Or.inl (hx.trans ha)
    · exact Or.inr (hx.trans hb)

theorem insertMid_even {α : Type} (path : List α) (hN : 1 ≤ path.length)
    (he : path.length % 2 = 0) :
    ∃ mid, path[path.length / 2]? = some mid ∧
      insertMid path
        = some (path.take (path.length / 2) ++ mid :: path.drop (path.length / 2)) := by
  have hlt : path.length / 2 < path.length := by omega
  refine ⟨path[path.length / 2], List.getElem?_eq_getElem hlt, ?_⟩
  unfold insertMid
  simp [he, List.getElem?_eq_getElem hlt]

theorem insertMid_odd {α : Type} (path : List α) (ho : path.length % 2 = 1) :
    insertMid path = some path := by
  unfold insertMid
  simp [ho]

theorem insertMid_length {α : Type} (path mid : List α) (hN : 1 ≤ path.length)
    (h : insertMid path = some mid) :
    mid.length = (if path.length % 2 = 0 then path.length + 1 else path.length) := by
  by_cases he : path.length % 2 = 0
  · obtain ⟨m, _, hm⟩ := insertMid_even path hN he
    rw [hm] at h
    cases h
    simp [he]
    omega
  · rw [insertMid_odd path (by omega)] at h
    cases h
    simp [he]

theorem mapM_getElem?_range {α : Type} (l : List α) (f : Nat → Nat) (k : Nat)
    (hf : ∀ i, i < k → f i < l.length) :
    ∃ r, (List.range k).mapM (fun i => l[f i]?) = some r ∧ r.length = k ∧
      ∀ i, i < k → r[i]? = l[f i]? := by
  cases l with
  | nil =>
    cases k with
    | zero => exact ⟨[], rfl, rfl, fun i hi => absurd hi (by omega)⟩
    | succ k => exact absurd (hf 0 (by omega)) (by simp)
  | cons a l =>
    refine ⟨(List.range k).map (fun i => (a :: l).getD (f i) a), ?_, by simp, ?_⟩
    · apply mapM_some_of_forall
      intro x hx
      have hx' := hf x (List.mem_range.mp hx)
      simp [List.getD_eq_getElem?_getD, List.getElem?_eq_getElem hx']
    · intro i hi
      have hx' := hf i hi
      simp [hi, List.getD_eq_getElem?_getD, List.getElem?_eq_getElem hx']

theorem bisectShrink_spec {α : Type} (path : List α) (hN : 1 ≤ path.length) :
    ∃ mid A B, insertMid path = some mid ∧ bisectShrink path = some (A, B) ∧
      A.length = mid.length / 2 ∧ B.length = mid.length / 2 ∧
      ∀ i, i < mid.length / 2 → A[i]? = mid[i]? ∧ B[i]? = mid[mid.length - 1 - i]? := by
  have hmid : ∃ mid, insertMid path = some mid := by
    by_cases he : path.length % 2 = 0
    · obtain ⟨m, _, hm⟩ := insertMid_even path hN he
      exact ⟨_, hm⟩
    · exact ⟨_, insertMid_odd path (by omega)⟩
  obtain ⟨mid, hmid⟩ := hmid
  have hlen := insertMid_length path mid hN hmid
  have hN' : (if path.length % 2 = 0 then path.length + 1 else path.length) = mid.length :=
    hlen.symm
  obtain ⟨A, hA, hAl, hAi⟩ := mapM_getElem?_range mid (fun i => i) (mid.length / 2)
    (fun i hi => by dsimp only; omega)
  obtain ⟨B, hB, hBl, hBi⟩ := mapM_getElem?_range mid (fun i => mid.length - 1 - i)
    (mid.length / 2) (fun i hi => by dsimp only; omega)
  refine ⟨mid, A, B, hmid, ?_, hAl, hBl, fun i hi => ⟨hAi i hi, hBi i hi⟩⟩
  unfold bisectShrink
  simp only [hmid, hN', Option.bind_eq_bind, Option.some_bind, hA, hB]

theorem bisectGrow_spec {α : Type} (path : List α) (hN : 1 ≤ path.length) :
    ∃ mid A B, insertMid path = some mid ∧ bisectGrow path = some (A, B) ∧
      A.length = path.length / 2 ∧ B.length = path.length / 2 ∧
      ∀ i, i < path.length / 2 →
        A[i]? = mid[path.length / 2 - 1 - i]? ∧ B[i]? = mid[path.length / 2 + 1 + i]? := by
  have hmid : ∃ mid, insertMid path = some mid := by
    by_cases he : path.length % 2 = 0
    · obtain ⟨m, _, hm⟩ := insertMid_even path hN he
      exact ⟨_, hm⟩
    · exact ⟨_, insertMid_odd path (by omega)⟩
  obtain ⟨mid, hmid⟩ := hmid
  have hlen := insertMid_length path mid hN hmid
  have hl2 : (path.length % 2 = 0 ∧ mid.length = path.length + 1) ∨
      (path.length % 2 = 1 ∧ mid.length = path.length) := by
    rw [hlen]; split <;> omega
  obtain ⟨A, hA, hAl, hAi⟩ := mapM_getElem?_range mid (fun i => path.length / 2 - 1 - i)
    (path.length / 2) (fun i hi => by dsimp only; omega)
  obtain ⟨B, hB, hBl, hBi⟩ := mapM_getElem?_range mid (fun i => path.length / 2 + 1 + i)
    (path.length / 2) (fun i hi => by dsimp only; omega)
  refine ⟨mid, A, B, hmid, ?_, hAl, hBl, fun i hi => ⟨hAi i hi, hBi i hi⟩⟩
  unfold bisectGrow
  simp only [hmid, Option.bind_eq_bind, Option.some_bind, hA, hB]

theorem prepareShrinkCurveDouble_paths (env : Env K) (a b : Task K) (n : Node K)
    (edges : List (Link K)) (h : a.prepareShrinkCurveDouble env n edges = some b) :
    ∃ linkA linkB halves, edges.head? = some linkA ∧ edges.getLast? = some linkB ∧
      bisectShrink (env.smoothPathCoordTo a.active a.active.running_tasks
        (env.linkPosition a.active linkA n.id) (env.linkPosition a.active linkB n.id))
        = some halves ∧
      b.property.pathA = some halves.1 ∧ b.property.pathB = some halves.2 := by
  unfold Task.prepareShrinkCurveDouble at h
  repeat' first | (split at h) | (dsimp only at h; split at h)
  all_goals first
    | (simp at h; done)
    | (cases h; exact ⟨_, _, _, by assumption, by assumption, by assumption, rfl, rfl⟩)

theorem prepareGrowCurveDouble_paths (env : Env K) (a b : Task K) (tn : Node K)
    (tedges : List (Link K)) (h : a.prepareGrowCurveDouble env tn tedges = some b) :
    ∃ pointA pointB path halves,
      weldPath env a.active
        (env.smoothPathCoordTo a.active a.active.running_tasks pointA pointB) = some path ∧
      bisectGrow path = some halves ∧
      b.property.pathA = some halves.1 ∧ b.property.pathB = some halves.2 := by
  unfold Task.prepareGrowCurveDouble at h
  repeat' first | (split at h) | (dsimp only at h; split at h)
  all_goals first
    | (simp at h; done)
    | (cases h; exact ⟨_, _, _, _, by assumption, by assumption, rfl, rfl⟩)

theorem bisectShrink_nil {α : Type} : bisectShrink ([] : List α) = none := by
  simp [bisectShrink, insertMid]

theorem bisectGrow_nil {α : Type} : bisectGrow ([] : List α) = none := by
  simp [bisectGrow, insertMid]

theorem qRanged_unit (t : K) (h0 : 0 ≤ t) (h1 : t ≤ 1) : qRanged 0 t 1 = t := by
  unfold qRanged qMax qMin
  by_cases h : t < 1
  · rw [if_pos h]
    rcases h0.lt_or_eq with h2 | h2
    · rw [if_pos h2]
    · rw [if_neg (by rw [← h2]; exact lt_irrefl _), h2]
  · have : t = 1 := le_antisymm h1 (not_lt.mp h)
    subst this
    simp

/-- `frameAt` reads the frame at the integer part of `t * (m - 1)`. -/
theorem frameAt_floor (rmf : RMF K) (t : K) (hm : 1 ≤ rmf.U.length) (h0 : 0 ≤ t)
    (h1 : t ≤ 1) :
    rmf.frameAt t = rmf.U[⌊t * ((rmf.U.length : K) - 1)⌋₊]? ∧
      ⌊t * ((rmf.U.length : K) - 1)⌋₊ < rmf.U.length := by
  have hm' : (1 : K) ≤ (rmf.U.length : K) := by exact_mod_cast hm
  have hx : 0 ≤ t * ((rmf.U.length : K) - 1) := mul_nonneg h0 (by linarith)
  have hle : t * ((rmf.U.length : K) - 1) ≤ ((rmf.U.length - 1 : Nat) : K) := by
    rw [Nat.cast_sub hm, Nat.cast_one]
    calc t * ((rmf.U.length : K) - 1) ≤ 1 * ((rmf.U.length : K) - 1) :=
          mul_le_mul_of_nonneg_right h1 (by linarith)
      _ = (rmf.U.length : K) - 1 := one_mul _
  have hfl : ⌊t * ((rmf.U.length : K) - 1)⌋₊ ≤ rmf.U.length - 1 := by
    have := Nat.floor_le_floor hle
    rwa [Nat.floor_natCast] at this
  refine ⟨?_, by omega⟩
  unfold RMF.frameAt
  have hne : ¬ rmf.U.length = 0 := by omega
  rw [if_neg hne, qRanged_unit t h0 h1]
  have hcast : (((rmf.U.length : Int) - 1 : Int) : K) = (rmf.U.length : K) - 1 := by
    push_cast; rfl
  rw [hcast]
  unfold toInt indexAt
  rw [if_pos hx, if_neg (not_lt.mpr (Int.floor_nonneg.mpr hx)), Int.floor_toNat]

/-! ### Rotation minimizing frames -/

/-- A loop `for (i = 0; i < n; i++)` with a body that keeps an invariant
completes, and the invariant holds at the end. -/
theorem foldlM_range_inv {β : Type} (f : β → Nat → Option β) (P : Nat → β → Prop) (n : Nat)
    (init : β) (h0 : P 0 init)
    (hstep : ∀ k b, k < n → P k b → ∃ b', f b k = some b' ∧ P (k + 1) b') :
    ∃ b, (List.range n).foldlM f init = some b ∧ P n b := by
  induction n with
  | zero => exact ⟨init, rfl, h0⟩
  | succ n ih =>
    obtain ⟨b, hb, hP⟩ := ih (fun k b hk hP => hstep k b (by omega) hP)
    obtain ⟨b', hb', hP'⟩ := hstep n b (by omega) hP
    refine ⟨b', ?_, hP'⟩
    rw [List.range_succ, List.foldlM_append, hb]
    simp [hb']

/-- The run of a loop up to `k + 1` is the run up to `k` followed by the body
at `k`. -/
theorem foldlM_range_succ {β : Type} (f : β → Nat → Option β) (k : Nat) (init : β) :
    (List.range (k + 1)).foldlM f init = ((List.range k).foldlM f init).bind (fun b => f b k) := by
  rw [List.range_succ, List.foldlM_append]
  cases (List.range k).foldlM f init with
  | none => rfl
  | some b => simp

theorem RMF.tangents_eq (env : Env K) (point : List (Vector3 K)) :
    RMF.tangents env point
      = if point.length = 0 then none
        else ((List.range (point.length - 1)).foldlM (RMF.tangentStep env point) []).bind
          (fun tangent => tangent.getLast?.bind (fun b => some (tangent ++ [b]))) := rfl

theorem RMF.tangentStep_eq (env : Env K) (point tangent : List (Vector3 K)) (i : Nat)
    (p1 p0 : Vector3 K) (h1 : point[i + 1]? = some p1) (h0 : point[i]? = some p0) :
    RMF.tangentStep env point tangent i
      = if 0 < i ∧ env.norm (p1.sub p0) < ZERO_NORM then
          tangent.getLast?.bind (fun b => some (tangent ++ [b]))
        else some (tangent ++ [env.normalized (p1.sub p0)]) := by
  unfold RMF.tangentStep
  rw [h1, h0]
  rfl

/-- The tangent loop on at least two points: one tangent per point, and the
tangent of a degenerate segment after the first is the previous tangent. -/
theorem RMF.tangents_spec (env : Env K) (point : List (Vector3 K)) (hn : 2 ≤ point.length) :
    ∃ T, RMF.tangents env point = some T ∧ T.length = point.length ∧
      ∀ i p1 p0, 1 ≤ i → point[i + 1]? = some p1 → point[i]? = some p0 →
        env.norm (p1.sub p0) < ZERO_NORM → ∃ x, T[i]? = some x ∧ T[i - 1]? = some x := by
  obtain ⟨T, hT, hlen, hdeg⟩ := foldlM_range_inv (RMF.tangentStep env point)
    (fun k T => T.length = k ∧
      ∀ i p1 p0, 1 ≤ i → i < k → point[i + 1]? = some p1 → point[i]? = some p0 →
        env.norm (p1.sub p0) < ZERO_NORM → ∃ x, T[i]? = some x ∧ T[i - 1]? = some x)
    (point.length - 1) [] ⟨rfl, fun i _ _ _ hi => absurd hi (by omega)⟩
    (by
      rintro k T hk ⟨hlen, hdeg⟩
      have hk1 : k + 1 < point.length := by omega
      have hk0 : k < point.length := by omega
      rw [RMF.tangentStep_eq env point T k _ _ (List.getElem?_eq_getElem hk1)
        (List.getElem?_eq_getElem hk0)]
      by_cases hc : 0 < k ∧ env.norm ((point[k + 1]).sub (point[k])) < ZERO_NORM
      · rw [if_pos hc]
        have hne : T ≠ [] := by
          intro h; rw [h] at hlen; simp at hlen; omega
        have hlast : T.getLast? = some (T.getLast hne) := List.getLast?_eq_getLast T hne
        rw [hlast]
        refine ⟨_, rfl, by simp [hlen], ?_⟩
        intro i p1 p0 hi hik hp1 hp0 hd
        rcases Nat.lt_succ_iff_lt_or_eq.mp hik with hlt | heq
        · obtain ⟨x, hx1, hx2⟩ := hdeg i p1 p0 hi hlt hp1 hp0 hd
          refine ⟨x, ?_, ?_⟩
          · rw [List.getElem?_append_left (by omega)]; exact hx1
          · rw [List.getElem?_append_left (by omega)]; exact hx2
        · subst heq
          refine ⟨T.getLast hne, ?_, ?_⟩
          · rw [List.getElem?_append_right (by omega)]
            simp [hlen]
          · rw [List.getElem?_append_left (by omega), List.getLast_eq_getElem,
              List.getElem?_eq_getElem (by omega)]
            simp [hlen]
      · rw [if_neg hc]
        refine ⟨_, rfl, by simp [hlen], ?_⟩
        intro i p1 p0 hi hik hp1 hp0 hd
        rcases Nat.lt_succ_iff_lt_or_eq.mp hik with hlt | heq
        · obtain ⟨x, hx1, hx2⟩ := hdeg i p1 p0 hi hlt hp1 hp0 hd
          refine ⟨x, ?_, ?_⟩
          · rw [List.getElem?_append_left (by omega)]; exact hx1
          · rw [List.getElem?_append_left (by omega)]; exact hx2
        · subst heq
          exfalso
          apply hc
          rw [List.getElem?_eq_getElem hk1] at hp1
          rw [List.getElem?_eq_getElem hk0] at hp0
          cases hp1
          cases hp0
          exact ⟨by omega, hd⟩)
  have hne : T ≠ [] := by
    intro h; rw [h] at hlen; simp at hlen; omega
  refine ⟨T ++ [T.getLast hne], ?_, by simp [hlen]; omega, ?_⟩
  · rw [RMF.tangents_eq, if_neg (by omega), hT]
    simp [List.getLast?_eq_getLast T hne]
  · intro i p1 p0 hi hp1 hp0 hd
    have hi1 : i + 1 < point.length := by
      by_contra hcon
      rw [List.getElem?_eq_none (by omega)] at hp1
      cases hp1
    obtain ⟨x, hx1, hx2⟩ := hdeg i p1 p0 hi (by omega) hp1 hp0 hd
    refine ⟨x, ?_, ?_⟩
    · rw [List.getElem?_append_left (by omega)]; exact hx1
    · rw [List.getElem?_append_left (by omega)]; exact hx2

theorem RMF.compute_eq (env : Env K) (point : List (Vector3 K)) :
    RMF.compute env point
      = (RMF.tangents env point).bind (fun tangent =>
          tangent.head?.bind (fun t0 =>
            ((List.range (point.length - 1)).foldlM (RMF.step env point tangent)
              [Frame.fromT env t0]).bind (fun U =>
                ((List.range point.length).foldlM (RMF.centerStep point) U).bind (fun U =>
                  some { point := point, U := U })))) := rfl

theorem RMF.step_eq (env : Env K) (point tangent : List (Vector3 K)) (U : List (Frame K))
    (i : Nat) (last : Frame K) (tj p1 p0 : Vector3 K) (hl : U.getLast? = some last)
    (ht : tangent[i + 1]? = some tj) (h1 : point[i + 1]? = some p1) (h0 : point[i]? = some p0) :
    RMF.step env point tangent U i
      = if env.norm (p1.sub p0) < ZERO_NORM then some (U ++ [last])
        else some (U ++ [Frame.fromST env
          (RMF.reflections last.r last.t tj (p1.sub p0)).2.2 tj]) := by
  unfold RMF.step
  rw [hl, ht, h1, h0]
  rfl

theorem RMF.framesAfter_succ (env : Env K) (point tangent : List (Vector3 K)) (k : Nat) :
    RMF.framesAfter env point tangent (k + 1)
      = (RMF.framesAfter env point tangent k).bind (fun U => RMF.step env point tangent U k) := by
  unfold RMF.framesAfter
  cases tangent.head? with
  | none => rfl
  | some t0 => exact foldlM_range_succ _ k _

/-- The double reflection loop on at least two points: after `k` iterations
there are `k + 1` frames, and iteration `k` appends a frame: the last one again
on a degenerate segment, a new one otherwise. -/
theorem RMF.framesAfter_spec (env : Env K) (point T : List (Vector3 K))
    (hT : T.length = point.length) (k : Nat) (hk : k + 1 ≤ point.length) :
    ∃ F, RMF.framesAfter env point T k = some F ∧ F.length = k + 1 := by
  induction k with
  | zero =>
    unfold RMF.framesAfter
    have : T ≠ [] := by intro h; rw [h] at hT; simp at hT; omega
    obtain ⟨t0, T', rfl⟩ := List.exists_cons_of_ne_nil this
    exact ⟨_, rfl, rfl⟩
  | succ k ih =>
    obtain ⟨F, hF, hlen⟩ := ih (by omega)
    have hne : F ≠ [] := by intro h; rw [h] at hlen; simp at hlen
    rw [RMF.framesAfter_succ, hF, Option.some_bind,
      RMF.step_eq env point T F k _ _ _ _ (List.getLast?_eq_getLast F hne)
        (List.getElem?_eq_getElem (by omega)) (List.getElem?_eq_getElem (by omega))
        (List.getElem?_eq_getElem (by omega))]
    split
    · exact ⟨_, rfl, by simp [hlen]⟩
    · exact ⟨_, rfl, by simp [hlen]⟩

/-- Iteration `k` of the double reflection loop keeps the frames it found and
appends one: the last frame on a degenerate segment, a frame built by
`fromST` otherwise. -/
theorem RMF.framesAfter_step (env : Env K) (point T : List (Vector3 K))
    (hT : T.length = point.length) (k : Nat) (hk : k + 2 ≤ point.length) :
    ∃ F last tj p1 p0, RMF.framesAfter env point T k = some F ∧ F.length = k + 1 ∧
      F.getLast? = some last ∧ T[k + 1]? = some tj ∧
      point[k + 1]? = some p1 ∧ point[k]? = some p0 ∧
      RMF.framesAfter env point T (k + 1)
        = some (F ++ [if env.norm (p1.sub p0) < ZERO_NORM then last
            else Frame.fromST env (RMF.reflections last.r last.t tj (p1.sub p0)).2.2 tj]) := by
  obtain ⟨F, hF, hlen⟩ := RMF.framesAfter_spec env point T hT k (by omega)
  have hne : F ≠ [] := by intro h; rw [h] at hlen; simp at hlen
  refine ⟨F, _, _, _, _, hF, hlen, List.getLast?_eq_getLast F hne,
    List.getElem?_eq_getElem (by omega), List.getElem?_eq_getElem (by omega),
    List.getElem?_eq_getElem (by omega), ?_⟩
  rw [RMF.framesAfter_succ, hF, Option.some_bind,
    RMF.step_eq env point T F k _ _ _ _ (List.getLast?_eq_getLast F hne)
      (List.getElem?_eq_getElem (by omega)) (List.getElem?_eq_getElem (by omega))
      (List.getElem?_eq_getElem (by omega))]
  split <;> rfl

/-- The frames found after `k` iterations stay where they are in every later
state of the loop. -/
theorem RMF.framesAfter_prefix (env : Env K) (point T : List (Vector3 K))
    (hT : T.length = point.length) (k m : Nat) (hkm : k ≤ m) (hm : m + 1 ≤ point.length)
    (F G : List (Frame K)) (hF : RMF.framesAfter env point T k = some F)
    (hG : RMF.framesAfter env point T m = some G) :
    ∀ j, j ≤ k → G[j]? = F[j]? := by
  induction m generalizing G with
  | zero =>
    have : k = 0 := by omega
    subst this
    rw [hF] at hG
    cases hG
    intro j _; rfl
  | succ m ih =>
    rcases Nat.lt_or_ge k (m + 1) with hlt | hge
    · obtain ⟨F', last, tj, p1, p0, hF', hlen', _, _, _, _, hstep⟩ :=
        RMF.framesAfter_step env point T hT m (by omega)
      rw [hstep] at hG
      cases hG
      intro j hj
      rw [List.getElem?_append_left (by omega)]
      exact ih (by omega) (by omega) F' hF' j hj
    · have : k = m + 1 := by omega
      subst this
      rw [hF] at hG
      cases hG
      intro j _; rfl

/-- The loop that stores the centres: frame `i` gets the centre `point[i]` and
keeps its triple. -/
theorem RMF.centers_spec (point : List (Vector3 K)) (F : List (Frame K))
    (hlen : F.length = point.length) :
    ∃ U, (List.range point.length).foldlM (RMF.centerStep point) F = some U ∧
      U.length = point.length ∧
      ∀ (i : Nat) (f : Frame K) (p : Vector3 K), F[i]? = some f → point[i]? = some p →
        U[i]? = some { f with center := p } := by
  obtain ⟨U, hU, hl, hlow, _⟩ := foldlM_range_inv (RMF.centerStep point)
    (fun k U => U.length = point.length ∧
      (∀ (i : Nat) (f : Frame K) (p : Vector3 K), i < k → F[i]? = some f → point[i]? = some p →
        U[i]? = some { f with center := p }) ∧
      ∀ i, k ≤ i → U[i]? = F[i]?)
    point.length F ⟨hlen, fun i _ _ hi => absurd hi (by omega), fun _ _ => rfl⟩
    (by
      rintro k U hk ⟨hl, hlow, hhigh⟩
      have hUk : U[k]? = some (F[k]) := by
        rw [hhigh k le_rfl, List.getElem?_eq_getElem (by omega)]
      unfold RMF.centerStep
      rw [hUk, List.getElem?_eq_getElem hk]
      refine ⟨_, rfl, by simp [hl], ?_, ?_⟩
      · intro i f p hi hf hp
        rcases Nat.lt_succ_iff_lt_or_eq.mp hi with hlt | heq
        · rw [List.getElem?_set_ne (by omega)]
          exact hlow i f p hlt hf hp
        · subst heq
          rw [List.getElem?_eq_getElem (by omega)] at hf
          rw [List.getElem?_eq_getElem hk] at hp
          cases hf
          cases hp
          rw [List.getElem?_set_self (by omega)]
      · intro i hi
        rw [List.getElem?_set_ne (by omega)]
        exact hhigh i (by omega))
  exact ⟨U, hU, hl, fun i f p hf hp => hlow i f p (by
    by_contra hcon
    rw [List.getElem?_eq_none (by omega)] at hp
    cases hp) hf hp⟩

/-- `RMF::compute` on at least two points completes: the tangents, the frames
of the double reflection loop, and the stored frames, which are those of the
loop with the centres set. -/
theorem RMF.compute_spec (env : Env K) (point : List (Vector3 K)) (hn : 2 ≤ point.length) :
    ∃ T F U, RMF.tangents env point = some T ∧ T.length = point.length ∧
      RMF.framesAfter env point T (point.length - 1) = some F ∧ F.length = point.length ∧
      RMF.compute env point = some { point := point, U := U } ∧ U.length = point.length ∧
      ∀ (i : Nat) (f : Frame K) (p : Vector3 K), F[i]? = some f → point[i]? = some p →
        U[i]? = some { f with center := p } := by
  obtain ⟨T, hT, hTl, _⟩ := RMF.tangents_spec env point hn
  obtain ⟨F, hF, hFl⟩ := RMF.framesAfter_spec env point T hTl (point.length - 1) (by omega)
  have hFl' : F.length = point.length := by omega
  obtain ⟨U, hU, hUl, hUi⟩ := RMF.centers_spec point F hFl'
  refine ⟨T, F, U, hT, hTl, hF, hFl', ?_, hUl, hUi⟩
  have hne : T ≠ [] := by intro h; rw [h] at hTl; simp at hTl; omega
  obtain ⟨t0, T', rfl⟩ := List.exists_cons_of_ne_nil hne
  have hF' : (List.range (point.length - 1)).foldlM (RMF.step env point (t0 :: T'))
      [Frame.fromT env t0] = some F := hF
  rw [RMF.compute_eq, hT]
  simp only [Option.some_bind, List.head?_cons, hF', hU]

theorem Vector3.dot_scale (a b : Vector3 K) (s t : K) :
    Vector3.dot (a.scale s) (b.scale t) = s * t * Vector3.dot a b := by
  simp only [Vector3.dot, Vector3.scale]
  ring

theorem Vector3.dot_scale_right (a b : Vector3 K) (s : K) :
    Vector3.dot a (b.scale s) = s * Vector3.dot a b := by
  simp only [Vector3.dot, Vector3.scale]
  ring

theorem Vector3.dot_cross_left (a b : Vector3 K) : Vector3.dot (Vector3.cross a b) a = 0 := by
  simp only [Vector3.dot, Vector3.cross]
  ring

theorem Vector3.dot_cross_right (a b : Vector3 K) : Vector3.dot (Vector3.cross a b) b = 0 := by
  simp only [Vector3.dot, Vector3.cross]
  ring

theorem Vector3.dot_comm (a b : Vector3 K) : Vector3.dot a b = Vector3.dot b a := by
  simp only [Vector3.dot]
  ring

theorem Env.exactAt_iff (env : Env K) (v : Vector3 K) :
    env.exactAt v = true ↔
      env.norm v ≠ 0 ∧ env.norm v * env.norm v = Vector3.dot v v ∧
        env.normalized v = v.scale (1 / env.norm v) := by
  unfold Env.exactAt
  simp only [Bool.and_eq_true, decide_eq_true_eq, and_assoc]

/-- A vector normalised exactly has length one. -/
theorem Env.exactAt_unit (env : Env K) (v : Vector3 K) (h : env.exactAt v = true) :
    Vector3.dot (env.normalized v) (env.normalized v) = 1 := by
  obtain ⟨hne, hsq, hnm⟩ := (Env.exactAt_iff env v).mp h
  rw [hnm, Vector3.dot_scale, ← hsq]
  field_simp

/-- Normalising exactly keeps orthogonality. -/
theorem Env.exactAt_dot (env : Env K) (v w : Vector3 K) (hv : env.exactAt v = true)
    (hw : env.exactAt w = true) (h : Vector3.dot v w = 0) :
    Vector3.dot (env.normalized v) (env.normalized w) = 0 := by
  obtain ⟨_, _, hnv⟩ := (Env.exactAt_iff env v).mp hv
  obtain ⟨_, _, hnw⟩ := (Env.exactAt_iff env w).mp hw
  rw [hnv, hnw, Vector3.dot_scale, h, mul_zero]

theorem Frame.ofRST_orthonormal (env : Env K) (R S T : Vector3 K)
    (hR : env.exactAt R = true) (hS : env.exactAt S = true) (hT : env.exactAt T = true)
    (hRS : Vector3.dot R S = 0) (hST : Vector3.dot S T = 0) (hRT : Vector3.dot R T = 0) :
    (Frame.ofRST env R S T).orthonormal :=
  ⟨Env.exactAt_unit env R hR, Env.exactAt_unit env S hS, Env.exactAt_unit env T hT,
    Env.exactAt_dot env R S hR hS hRS, Env.exactAt_dot env S T hS hT hST,
    Env.exactAt_dot env R T hR hT hRT⟩

theorem Frame.orthogonalVector_dot (n : Vector3 K) :
    Vector3.dot (Frame.orthogonalVector n) n = 0 := by
  unfold Frame.orthogonalVector
  split
  · simp only [Vector3.dot]; ring
  · split
    · simp only [Vector3.dot]; ring
    · simp only [Vector3.dot]; ring

/-- The first frame is orthonormal when its divisions are exact. -/
theorem Frame.fromT_orthonormal (env : Env K) (T : Vector3 K)
    (h : Frame.fromTExact env T = true) : (Frame.fromT env T).orthonormal := by
  unfold Frame.fromTExact at h
  simp only [Bool.and_eq_true] at h
  obtain ⟨⟨⟨hT, ho⟩, hR⟩, hS⟩ := h
  unfold Frame.fromT Frame.fromTR
  obtain ⟨hTne, _, hTn⟩ := (Env.exactAt_iff env T).mp hT
  obtain ⟨_, _, hon⟩ := (Env.exactAt_iff env _).mp ho
  have h1 := Frame.orthogonalVector_dot (env.normalized T)
  dsimp only
  generalize Frame.orthogonalVector (env.normalized T) = o at *
  rw [hTn, Vector3.dot_scale_right] at h1
  have hoT : Vector3.dot o T = 0 := by
    rcases mul_eq_zero.mp h1 with h3 | h3
    · exact absurd h3 (one_div_ne_zero hTne)
    · exact h3
  have hRT : Vector3.dot (env.normalized o) T = 0 := by
    rw [hon, Vector3.dot_comm, Vector3.dot_scale_right, Vector3.dot_comm, hoT, mul_zero]
  refine Frame.ofRST_orthonormal env _ _ _ hR hS hT ?_ ?_ hRT
  · rw [Vector3.dot_comm]; exact Vector3.dot_cross_right _ _
  · exact Vector3.dot_cross_left _ _

theorem RMF.reflections_sj_dot (ri ti tj v1 : Vector3 K) :
    Vector3.dot (RMF.reflections ri ti tj v1).2.2 tj = 0 := by
  unfold RMF.reflections
  exact Vector3.dot_cross_left _ _

/-- The frame built by `fromST` in the double reflection loop is orthonormal
when its divisions are exact. -/
theorem Frame.fromST_orthonormal (env : Env K) (S T : Vector3 K)
    (hR : env.exactAt (Vector3.cross S T) = true) (hS : env.exactAt S = true)
    (hT : env.exactAt T = true) (hST : Vector3.dot S T = 0) :
    (Frame.fromST env S T).orthonormal :=
  Frame.ofRST_orthonormal env _ _ _ hR hS hT (Vector3.dot_cross_left _ _) hST
    (Vector3.dot_cross_right _ _)

theorem RMF.stepExact_eq (env : Env K) (point tangent : List (Vector3 K)) (U : List (Frame K))
    (i : Nat) (last : Frame K) (tj p1 p0 : Vector3 K) (hl : U.getLast? = some last)
    (ht : tangent[i + 1]? = some tj) (h1 : point[i + 1]? = some p1) (h0 : point[i]? = some p0) :
    RMF.stepExact env point tangent U i
      = if env.norm (p1.sub p0) < ZERO_NORM then true
        else
          (decide ((RMF.reflections last.r last.t tj (p1.sub p0)).1 ≠ 0) &&
            decide ((RMF.reflections last.r last.t tj (p1.sub p0)).2.1 ≠ 0) &&
            env.exactAt (Vector3.cross (RMF.reflections last.r last.t tj (p1.sub p0)).2.2 tj) &&
            env.exactAt (RMF.reflections last.r last.t tj (p1.sub p0)).2.2 &&
            env.exactAt tj) := by
  unfold RMF.stepExact
  rw [hl, ht, h1, h0]

/-- What an exact run provides: an exact first frame and exact iterations. -/
theorem RMF.exact_unpack (env : Env K) (point T : List (Vector3 K))
    (hT : RMF.tangents env point = some T) (h : RMF.exact env point = true) :
    (∀ i, i < point.length - 1 → RMF.tangentExact env point i = true) ∧
    (∃ t0, T.head? = some t0 ∧ Frame.fromTExact env t0 = true) ∧
    ∀ i F, i < point.length - 1 → RMF.framesAfter env point T i = some F →
      RMF.stepExact env point T F i = true := by
  unfold RMF.exact at h
  rw [hT] at h
  simp only [Bool.and_eq_true, List.all_eq_true, List.mem_range] at h
  obtain ⟨⟨h1, h2⟩, h3⟩ := h
  refine ⟨h1, ?_, ?_⟩
  · cases hh : T.head? with
    | none => rw [hh] at h2; cases h2
    | some t0 => rw [hh] at h2; exact ⟨t0, rfl, h2⟩
  · intro i F hi hF
    have := h3 i hi
    rw [hF] at this
    exact this

/-- Every frame of an exact run of the double reflection loop is orthonormal. -/
theorem RMF.framesAfter_orthonormal (env : Env K) (point T : List (Vector3 K))
    (hTl : T.length = point.length) (hT : RMF.tangents env point = some T)
    (hex : RMF.exact env point = true) (k : Nat) (hk : k + 1 ≤ point.length)
    (F : List (Frame K)) (hF : RMF.framesAfter env point T k = some F) :
    ∀ f ∈ F, f.orthonormal := by
  obtain ⟨_, ⟨t0, ht0, hfirst⟩, hsteps⟩ := RMF.exact_unpack env point T hT hex
  induction k generalizing F with
  | zero =>
    unfold RMF.framesAfter at hF
    rw [ht0] at hF
    cases hF
    intro f hf
    rw [List.mem_singleton] at hf
    subst hf
    exact Frame.fromT_orthonormal env t0 hfirst
  | succ k ih =>
    obtain ⟨F', last, tj, p1, p0, hF', hlen', hlast, htj, hp1, hp0, hstep⟩ :=
      RMF.framesAfter_step env point T hTl k (by omega)
    rw [hstep] at hF
    cases hF
    have hprev := ih (by omega) F' hF'
    have hex' := hsteps k F' (by omega) hF'
    rw [RMF.stepExact_eq env point T F' k last tj p1 p0 hlast htj hp1 hp0] at hex'
    intro f hf
    rcases List.mem_append.mp hf with hf | hf
    · exact hprev f hf
    · rw [List.mem_singleton] at hf
      subst hf
      split
      · exact hprev last (List.mem_of_getLast?_eq_some hlast)
      · rename_i hnd
        rw [if_neg hnd] at hex'
        simp only [Bool.and_eq_true] at hex'
        obtain ⟨⟨⟨_, hR⟩, hS⟩, hTj⟩ := hex'
        exact Frame.fromST_orthonormal env _ _ hR hS hTj (RMF.reflections_sj_dot _ _ _ _)

/-- There is no division in the tangent estimate of a degenerate segment after
the first. -/
theorem RMF.tangentExact_degenerate (env : Env K) (point : List (Vector3 K)) (i : Nat)
    (p1 p0 : Vector3 K) (hi : 1 ≤ i) (hp1 : point[i + 1]? = some p1) (hp0 : point[i]? = some p0)
    (hd : env.norm (p1.sub p0) < ZERO_NORM) : RMF.tangentExact env point i = true := by
  unfold RMF.tangentExact
  rw [hp1, hp0]
  exact if_pos ⟨by omega, hd⟩

/-- There is no division in the iteration of the double reflection loop on a
degenerate segment. -/
theorem RMF.stepExact_degenerate (env : Env K) (point tangent : List (Vector3 K))
    (U : List (Frame K)) (i : Nat) (p1 p0 : Vector3 K) (hp1 : point[i + 1]? = some p1)
    (hp0 : point[i]? = some p0) (hd : env.norm (p1.sub p0) < ZERO_NORM) :
    RMF.stepExact env point tangent U i = true := by
  unfold RMF.stepExact
  rw [hp1, hp0]
  split
  · next last tj q1 q0 _ _ h1 h0 =>
    cases h1
    cases h0
    exact if_pos hd
  · rfl

/-- On a degenerate segment `i` the double reflection loop stores the frame
`i` again as the frame `i + 1`. -/
theorem RMF.frames_degenerate (env : Env K) (point T : List (Vector3 K))
    (G : List (Frame K)) (hTl : T.length = point.length) (i : Nat) (p1 p0 : Vector3 K)
    (hp1 : point[i + 1]? = some p1) (hp0 : point[i]? = some p0)
    (hd : env.norm (p1.sub p0) < ZERO_NORM)
    (hG : RMF.framesAfter env point T (point.length - 1) = some G) :
    ∃ f, G[i]? = some f ∧ G[i + 1]? = some f := by
  have hi1 : i + 1 < point.length := by
    by_contra hcon
    rw [List.getElem?_eq_none (by omega)] at hp1
    cases hp1
  obtain ⟨Fi, last, tj, q1, q0, hFi, hlen, hlast, _, hq1, hq0, hstep⟩ :=
    RMF.framesAfter_step env point T hTl i (by omega)
  rw [hp1] at hq1
  rw [hp0] at hq0
  cases hq1
  cases hq0
  rw [if_pos hd] at hstep
  have hne : Fi ≠ [] := by intro h; rw [h] at hlen; simp at hlen
  have hlast' : Fi[i]? = some last := by
    rw [List.getLast?_eq_getLast Fi hne, List.getLast_eq_getElem] at hlast
    rw [List.getElem?_eq_getElem (by omega)]
    simpa [hlen] using hlast
  have h1 := RMF.framesAfter_prefix env point T hTl i (point.length - 1) (by omega) (by omega)
    Fi G hFi hG i le_rfl
  have h2 := RMF.framesAfter_prefix env point T hTl (i + 1) (point.length - 1) (by omega)
    (by omega) _ G hstep hG (i + 1) le_rfl
  refine ⟨last, by rw [h1, hlast'], ?_⟩
  rw [h2, List.getElem?_append_right (by omega)]
  simp [hlen]

/-! ### Welding a path -/

theorem eraseDups_loop_mem (a : Nat) :
    ∀ (as bs : List Nat), a ∈ List.eraseDups.loop as bs ↔ a ∈ as ∨ a ∈ bs := by
  intro as
  induction as with
  | nil => intro bs; simp [List.eraseDups.loop]
  | cons x as ih =>
    intro bs
    unfold List.eraseDups.loop
    cases h : bs.elem x
    · simp only [ih, List.mem_cons]
      tauto
    · have hx : x ∈ bs := List.elem_iff.mp h
      simp only [ih, List.mem_cons]
      constructor
      · rintro (h1 | h1)
        · exact Or.inl (Or.inr h1)
        · exact Or.inr h1
      · rintro ((h1 | h1) | h1)
        · exact Or.inr (h1 ▸ hx)
        · exact Or.inl h1
        · exact Or.inr h1

theorem mem_eraseDups (a : Nat) (xs : List Nat) : a ∈ xs.eraseDups ↔ a ∈ xs := by
  unfold List.eraseDups
  rw [eraseDups_loop_mem]
  simp

theorem weldPath_eq (env : Env K) (active : Graph K) (oldPath : List (PathPointPair K)) :
    weldPath env active oldPath
      = ((List.range (env.weld (oldPath.map (env.pathPosition active))).length).foldlM
          (weldStep (env.weld (oldPath.map (env.pathPosition active)))) oldPath).bind
          (fun moved =>
            (env.qsetOrder (env.weld (oldPath.map (env.pathPosition active))).eraseDups).mapM
              (fun i => moved[i]?)) := rfl

theorem mem_getD_of_lt (x : List Nat) (i : Nat) (hi : i < x.length) : x.getD i 0 ∈ x := by
  rw [List.getD_eq_getElem _ _ hi]
  exact List.getElem_mem _

theorem exists_getD_of_mem (x : List Nat) (a : Nat) (ha : a ∈ x) :
    ∃ i, i < x.length ∧ x.getD i 0 = a := by
  obtain ⟨i, hi, rfl⟩ := List.mem_iff_getElem.mp ha
  exact ⟨i, hi, List.getD_eq_getElem _ _ hi⟩

/-- The loop of `weldPath` completes: every entry of the result is an entry of
the input, and the slot `xrefs[i]` holds an entry at the position of the
sample `i`. -/
theorem weld_moves {α : Type} (pos : α → Vector3 K) (p : List α) (x : List Nat)
    (hW : WeldSpec (p.map pos) x) :
    ∃ M, (List.range x.length).foldlM (weldStep x) p = some M ∧ M.length = p.length ∧
      (∀ e ∈ M, e ∈ p) ∧
      ∀ i, i < p.length → ∃ e, M[x.getD i 0]? = some e ∧ (p[i]?).map pos = some (pos e) := by
  obtain ⟨hxl, hle, hsame, _⟩ := hW
  rw [List.length_map] at hxl hle hsame
  obtain ⟨M, hM, hl, hmem, _, hpos⟩ := foldlM_range_inv (weldStep x)
    (fun k path => path.length = p.length ∧ (∀ e ∈ path, e ∈ p) ∧
      (∀ m, k ≤ m → path[m]? = p[m]?) ∧
      ∀ i, i < k → ∃ e, path[x.getD i 0]? = some e ∧ (p[i]?).map pos = some (pos e))
    x.length p ⟨rfl, fun _ h => h, fun _ _ => rfl, fun i hi => absurd hi (by omega)⟩
    (by
      rintro k path hk ⟨hl, hmem, hhigh, hlow⟩
      have hkp : k < p.length := by omega
      have hxk : x[k]? = some (x.getD k 0) := by
        rw [List.getElem?_eq_getElem hk, List.getD_eq_getElem _ _ hk]
      have hpk : path[k]? = some (p[k]) := by
        rw [hhigh k le_rfl, List.getElem?_eq_getElem hkp]
      have hlt : x.getD k 0 < path.length := by
        have := hle k hkp
        omega
      unfold weldStep
      rw [hxk, hpk]
      simp only [Option.bind_eq_bind, Option.some_bind, if_pos hlt]
      refine ⟨_, rfl, by simp [hl], ?_, ?_, ?_⟩
      · intro e he
        rcases List.mem_or_eq_of_mem_set he with h1 | h1
        · exact hmem e h1
        · rw [h1]; exact List.getElem_mem _
      · intro m hm
        rw [List.getElem?_set_ne (by have := hle k hkp; omega)]
        exact hhigh m (by omega)
      · intro i hi
        by_cases hxi : x.getD i 0 = x.getD k 0
        · refine ⟨p[k], ?_, ?_⟩
          · rw [hxi, List.getElem?_set_self hlt]
          · have h1 := (hsame i k (by omega) hkp).mp hxi
            rw [List.getElem?_map, List.getElem?_map, List.getElem?_eq_getElem hkp] at h1
            rw [h1]
            rfl
        · have hik : i < k := by
            rcases Nat.lt_succ_iff_lt_or_eq.mp hi with h1 | h1
            · exact h1
            · exact absurd (by rw [h1]) hxi
          obtain ⟨e, he1, he2⟩ := hlow i hik
          refine ⟨e, ?_, he2⟩
          rw [List.getElem?_set_ne (fun h => hxi h.symm)]
          exact he1)
  exact ⟨M, hM, hl, hmem, fun i hi => hpos i (by omega)⟩

/-- Reading a list at indices that are all inside it. -/
theorem mapM_getElem?_list {α : Type} (M : List α) :
    ∀ l : List Nat, (∀ g ∈ l, g < M.length) →
      ∃ out, l.mapM (fun i => M[i]?) = some out ∧ out.length = l.length ∧
        ∀ (a g : Nat), l[a]? = some g → out[a]? = M[g]? := by
  intro l
  induction l with
  | nil => intro _; exact ⟨[], rfl, rfl, fun a g h => by simp at h⟩
  | cons g l ih =>
    intro h
    obtain ⟨out, ho, hl, hi⟩ := ih (fun g' hg' => h g' (List.mem_cons_of_mem g hg'))
    have hg := h g (List.mem_cons_self g l)
    refine ⟨M[g] :: out, ?_, by simp [hl], ?_⟩
    · rw [List.mapM_cons, List.getElem?_eq_getElem hg, ho]
      rfl
    · intro a g' ha
      cases a with
      | zero =>
        simp only [List.getElem?_cons_zero, Option.some.injEq] at ha
        subst ha
        simp [List.getElem?_eq_getElem hg]
      | succ a =>
        simp only [List.getElem?_cons_succ] at ha ⊢
        exact hi a g' ha

/-- A strictly increasing enumeration reads different elements at different
places, in increasing order. -/
theorem sorted_getElem?_lt (good : List Nat) (hs : good.Sorted (· < ·)) (a b ga gb : Nat)
    (hab : a < b) (ha : good[a]? = some ga) (hb : good[b]? = some gb) : ga < gb := by
  obtain ⟨ha', rfl⟩ := List.getElem?_eq_some.mp ha
  obtain ⟨hb', rfl⟩ := List.getElem?_eq_some.mp hb
  exact List.pairwise_iff_getElem.mp hs a b ha' hb' hab

/-- `weldPath` with a weld as specified and a set enumerated in ascending
order: the run completes; the output entry at place `a` sits in the slot
`good[a]` of the moved path, which is the cross-reference of an input sample at
the same position. -/
theorem weldPath_slots (env : Env K) (active : Graph K) (hw : env.welds)
    (hq : env.ascendingSets) (p : List (PathPointPair K)) :
    ∃ (out : List (PathPointPair K)) (good : List Nat),
      weldPath env active p = some out ∧ out.length = good.length ∧
      good.Sorted (· < ·) ∧
      (∀ g, g ∈ good ↔ g ∈ env.weld (p.map (env.pathPosition active))) ∧
      (∀ e ∈ out, e ∈ p) ∧
      (∀ (a : Nat) (e : PathPointPair K), out[a]? = some e → ∃ (g i : Nat) (ei : PathPointPair K),
        good[a]? = some g ∧
        (env.weld (p.map (env.pathPosition active))).getD i 0 = g ∧ p[i]? = some ei ∧
        env.pathPosition active ei = env.pathPosition active e) ∧
      (∀ (i : Nat) (ei : PathPointPair K), p[i]? = some ei → ∃ (a : Nat) (e : PathPointPair K),
        out[a]? = some e ∧
        good[a]? = some ((env.weld (p.map (env.pathPosition active))).getD i 0) ∧
        env.pathPosition active ei = env.pathPosition active e) := by
  have hW := hw (p.map (env.pathPosition active))
  obtain ⟨M, hM, hMl, hMmem, hMpos⟩ := weld_moves (env.pathPosition active) p _ hW
  obtain ⟨hxl, hle, hsame, _⟩ := hW
  rw [List.length_map] at hxl hle hsame
  obtain ⟨hs, hmem⟩ := hq (env.weld (p.map (env.pathPosition active))).eraseDups
  have hmem' : ∀ g, g ∈ env.qsetOrder (env.weld (p.map (env.pathPosition active))).eraseDups
      ↔ g ∈ env.weld (p.map (env.pathPosition active)) := by
    intro g
    rw [hmem, mem_eraseDups]
  have hin : ∀ g ∈ env.qsetOrder (env.weld (p.map (env.pathPosition active))).eraseDups,
      g < M.length := by
    intro g hg
    obtain ⟨i, hi, rfl⟩ := exists_getD_of_mem _ g ((hmem' g).mp hg)
    have := hle i (by omega)
    omega
  obtain ⟨out, hout, hol, hoi⟩ := mapM_getElem?_list M _ hin
  refine ⟨out, env.qsetOrder (env.weld (p.map (env.pathPosition active))).eraseDups, ?_, hol, hs,
    hmem', ?_, ?_, ?_⟩
  · rw [weldPath_eq, hM]
    exact hout
  · intro e he
    obtain ⟨a, ha⟩ := List.mem_iff_getElem?.mp he
    have hlt : a < (env.qsetOrder (env.weld (p.map (env.pathPosition active))).eraseDups).length := by
      obtain ⟨h, _⟩ := List.getElem?_eq_some.mp ha
      omega
    rw [hoi a _ (List.getElem?_eq_getElem hlt)] at ha
    obtain ⟨h, rfl⟩ := List.getElem?_eq_some.mp ha
    exact hMmem _ (List.getElem_mem _)
  · intro a e ha
    have hlt : a < (env.qsetOrder (env.weld (p.map (env.pathPosition active))).eraseDups).length := by
      obtain ⟨h, _⟩ := List.getElem?_eq_some.mp ha
      omega
    have hg := List.getElem?_eq_getElem hlt
    rw [hoi a _ hg] at ha
    obtain ⟨i, hi, hgi⟩ := exists_getD_of_mem _ _ ((hmem' _).mp (List.getElem_mem hlt))
    obtain ⟨e', he1, he2⟩ := hMpos i (by omega)
    rw [hgi, ha] at he1
    cases he1
    refine ⟨_, i, p[i], hg, hgi, List.getElem?_eq_getElem (by omega), ?_⟩
    rw [List.getElem?_eq_getElem (by omega)] at he2
    exact Option.some.inj he2
  · intro i ei hi
    obtain ⟨hi', rfl⟩ := List.getElem?_eq_some.mp hi
    have hgm := (hmem' _).mpr (mem_getD_of_lt (env.weld (p.map (env.pathPosition active))) i
      (by omega))
    obtain ⟨a, ha⟩ := List.mem_iff_getElem?.mp hgm
    obtain ⟨e, he1, he2⟩ := hMpos i hi'
    refine ⟨a, e, ?_, ha, ?_⟩
    · rw [hoi a _ ha]; exact he1
    · rw [List.getElem?_eq_getElem hi'] at he2
      exact Option.some.inj he2

/-- What `weldPath` returns, with a weld as specified and a set enumerated in
ascending order: entries of the input, at pairwise different positions, one
for every position of the input, the positions in the order of their first
occurrence in the input. -/
theorem weldPath_spec (env : Env K) (active : Graph K) (hw : env.welds)
    (hq : env.ascendingSets) (p : List (PathPointPair K)) :
    ∃ out, weldPath env active p = some out ∧
      (∀ e ∈ out, e ∈ p) ∧
      (out.map (env.pathPosition active)).Nodup ∧
      (∀ e ∈ p, env.pathPosition active e ∈ out.map (env.pathPosition active)) ∧
      (∀ (a b : Nat) (ea eb : PathPointPair K), a < b → out[a]? = some ea → out[b]? = some eb →
        ∃ (i : Nat) (ei : PathPointPair K), p[i]? = some ei ∧
          env.pathPosition active ei = env.pathPosition active ea ∧
          ∀ (j : Nat) (ej : PathPointPair K), p[j]? = some ej →
            env.pathPosition active ej = env.pathPosition active eb → i < j) := by
  obtain ⟨out, good, hout, hol, hs, hmem, hsub, hslot, hcover⟩ :=
    weldPath_slots env active hw hq p
  obtain ⟨hxl, hle, hsame, hord⟩ := hw (p.map (env.pathPosition active))
  rw [List.length_map] at hxl hle hsame hord
  have hpts : ∀ (i : Nat) (ei : PathPointPair K), p[i]? = some ei →
      (p.map (env.pathPosition active))[i]? = some (env.pathPosition active ei) := by
    intro i ei h
    rw [List.getElem?_map, h]
    rfl
  have hlt : ∀ (i : Nat) (ei : PathPointPair K), p[i]? = some ei → i < p.length := by
    intro i ei h
    exact (List.getElem?_eq_some.mp h).1
  -- entries at different places of the output have different positions
  have hdiff : ∀ (a b : Nat) (ea eb : PathPointPair K), a < b → out[a]? = some ea →
      out[b]? = some eb → env.pathPosition active ea ≠ env.pathPosition active eb := by
    intro a b ea eb hab ha hb heq
    obtain ⟨ga, ia, eia, hga, hxa, hpa, hposa⟩ := hslot a ea ha
    obtain ⟨gb, ib, eib, hgb, hxb, hpb, hposb⟩ := hslot b eb hb
    have h1 : (p.map (env.pathPosition active))[ia]? = (p.map (env.pathPosition active))[ib]? := by
      rw [hpts ia eia hpa, hpts ib eib hpb, hposa, hposb, heq]
    have h2 := (hsame ia ib (hlt ia eia hpa) (hlt ib eib hpb)).mpr h1
    have h3 := sorted_getElem?_lt good hs a b ga gb hab hga hgb
    omega
  refine ⟨out, hout, hsub, ?_, ?_, ?_⟩
  · rw [List.nodup_iff_getElem?_ne_getElem?]
    intro a b hab hb heq
    rw [List.length_map] at hb
    have ha : a < out.length := by omega
    rw [List.getElem?_map, List.getElem?_map, List.getElem?_eq_getElem ha,
      List.getElem?_eq_getElem hb] at heq
    exact hdiff a b _ _ hab (List.getElem?_eq_getElem ha) (List.getElem?_eq_getElem hb)
      (Option.some.inj heq)
  · intro e he
    obtain ⟨i, hi⟩ := List.mem_iff_getElem?.mp he
    obtain ⟨a, e', ha, _, hpos⟩ := hcover i e hi
    rw [hpos]
    exact List.mem_map.mpr ⟨e', List.mem_iff_getElem?.mpr ⟨a, ha⟩, rfl⟩
  · intro a b ea eb hab ha hb
    obtain ⟨ga, ia, eia, hga, hxa, hpa, hposa⟩ := hslot a ea ha
    obtain ⟨gb, ib, eib, hgb, hxb, hpb, hposb⟩ := hslot b eb hb
    have hgab := sorted_getElem?_lt good hs a b ga gb hab hga hgb
    classical
    have hex : ∃ i, (p.map (env.pathPosition active))[i]? = some (env.pathPosition active ea) :=
      ⟨ia, by rw [hpts ia eia hpa, hposa]⟩
    have hf := Nat.find_spec hex
    have hfmin : ∀ k, k < Nat.find hex →
        (p.map (env.pathPosition active))[k]? ≠ some (env.pathPosition active ea) :=
      fun k hk => Nat.find_min hex hk
    have hflt : Nat.find hex < p.length := by
      have := (List.getElem?_eq_some.mp hf).1
      rwa [List.length_map] at this
    have hxf : (env.weld (p.map (env.pathPosition active))).getD (Nat.find hex) 0 = ga := by
      rw [← hxa]
      exact (hsame _ ia hflt (hlt ia eia hpa)).mpr (by rw [hf, hpts ia eia hpa, hposa])
    refine ⟨Nat.find hex, p[Nat.find hex], List.getElem?_eq_getElem hflt, ?_, ?_⟩
    · have := hf
      rw [List.getElem?_map, List.getElem?_eq_getElem hflt] at this
      exact Option.some.inj this
    · intro j ej hj hposj
      by_contra hcon
      have hjf : j ≤ Nat.find hex := by omega
      have hne : j ≠ Nat.find hex := by
        intro h
        rw [h] at hj
        have h1 := hpts _ ej hj
        rw [hf] at h1
        have h2 : env.pathPosition active ea = env.pathPosition active eb := by
          rw [← hposj]; exact Option.some.inj h1
        exact hdiff a b ea eb hab ha hb h2
      have hxj : (env.weld (p.map (env.pathPosition active))).getD j 0 = gb := by
        rw [← hxb]
        exact (hsame j ib (hlt j ej hj) (hlt ib eib hpb)).mpr
          (by rw [hpts j ej hj, hpts ib eib hpb, hposj, hposb])
      have h4 := hord j (Nat.find hex) (by omega) hflt (fun k hk => by
        rw [hf]; exact hfmin k hk)
      omega

theorem indexOf_getElem_le {α : Type} [DecidableEq α] :
    ∀ (l : List α) (i : Nat) (h : i < l.length), l.indexOf (l[i]) ≤ i := by
  intro l
  induction l with
  | nil => intro i h; simp at h
  | cons a l ih =>
    intro i h
    cases i with
    | zero => simp [List.indexOf_cons]
    | succ i =>
      have hi : i < l.length := by simpa using h
      have := ih i hi
      rw [List.indexOf_cons]
      simp only [List.getElem_cons_succ]
      cases hc : (a == l[i])
      · simp only [cond_false]
        omega
      · simp

/-- The cross-reference `weldXrefs` is a weld as specified. -/
theorem weldXrefs_spec (pts : List (Vector3 K)) : WeldSpec pts (weldXrefs pts) := by
  have hget : ∀ i (h : i < pts.length), (weldXrefs pts).getD i 0 = pts.indexOf (pts[i]) := by
    intro i h
    unfold weldXrefs
    rw [List.getD_eq_getElem _ _ (by simpa using h)]
    simp
  refine ⟨by simp [weldXrefs], ?_, ?_, ?_⟩
  · intro i hi
    rw [hget i hi]
    exact indexOf_getElem_le pts i hi
  · intro i j hi hj
    rw [hget i hi, hget j hj, List.indexOf_inj (List.getElem_mem _) (List.getElem_mem _),
      List.getElem?_eq_getElem hi, List.getElem?_eq_getElem hj]
    exact ⟨fun h => by rw [h], fun h => Option.some.inj h⟩
  · intro i j hij hj hfirst
    rw [hget i (by omega), hget j hj]
    have h1 := indexOf_getElem_le pts i (by omega)
    have h2 : j ≤ pts.indexOf (pts[j]) := by
      by_contra hcon
      have hlt : pts.indexOf (pts[j]) < pts.length := by omega
      have h3 := List.getElem_indexOf hlt
      apply hfirst (pts.indexOf (pts[j])) (by omega)
      rw [List.getElem?_eq_getElem hlt, List.getElem?_eq_getElem hj, h3]
    omega

theorem demoEnvW_welds : demoEnvW.welds := fun pts => weldXrefs_spec pts

theorem demoEnvW_ascendingSets : demoEnvW.ascendingSets := by
  intro xs
  have hp := List.perm_insertionSort (· ≤ ·) xs.dedup
  refine ⟨(List.sorted_insertionSort (· ≤ ·) xs.dedup).lt_of_le
    (hp.nodup_iff.mpr (List.nodup_dedup xs)), fun a => ?_⟩
  show a ∈ List.insertionSort (· ≤ ·) xs.dedup ↔ a ∈ xs
  rw [hp.mem_iff, List.mem_dedup]

/-! ### Encoding and decoding a curve -/

theorem Vector3.ext_iff' (a b : Vector3 K) : a = b ↔ a.x = b.x ∧ a.y = b.y ∧ a.z = b.z := by
  cases a; cases b
  simp

/-- The control point decoded from the encoding of `p`: the point of the
segment at the stored parameter `1 - t` plus the offset of `p`, which is `p`
moved along the segment by `(1 - 2 t)` times the segment. -/
theorem decodePoint_encode (env : Env K) (pts : List (Vector3 K)) (start fin X Y Z : Vector3 K)
    (hline : ∀ p, env.lineClosestPoint start fin p = Line.ClosestPoint start fin p)
    (hat : ∀ s, env.linePointAt start fin s = Line.pointAt start fin s)
    (hlen : env.lineLength start fin ≠ 0)
    (hdir : ∀ p ∈ pts, env.keepsOffset start fin X Y Z p)
    (i : Nat) (hi : i < pts.length) :
    decodePoint env (encodeCurve env pts start fin X Y Z) (env.lineLength start fin)
        start fin X Y Z i
      = some ((pts[i]).add ((fin.sub start).scale (1 - 2 * (Line.ClosestPoint start fin pts[i]).1))) := by
  have hd := hdir (pts[i]) (List.getElem_mem _)
  unfold Env.keepsOffset at hd
  have hrow : (encodeCurve env pts start fin X Y Z)[i]?
      = some [1 - (Line.ClosestPoint start fin pts[i]).1,
          (if env.norm ((pts[i]).sub (Line.ClosestPoint start fin pts[i]).2) > 0 then
            env.norm ((pts[i]).sub (Line.ClosestPoint start fin pts[i]).2)
              / env.lineLength start fin else 0),
          (env.globalToLocalSpherical X Y Z
            (if env.norm ((pts[i]).sub (Line.ClosestPoint start fin pts[i]).2) > 0 then
              env.normalized ((pts[i]).sub (Line.ClosestPoint start fin pts[i]).2)
            else (pts[i]).sub (Line.ClosestPoint start fin pts[i]).2)).1,
          (env.globalToLocalSpherical X Y Z
            (if env.norm ((pts[i]).sub (Line.ClosestPoint start fin pts[i]).2) > 0 then
              env.normalized ((pts[i]).sub (Line.ClosestPoint start fin pts[i]).2)
            else (pts[i]).sub (Line.ClosestPoint start fin pts[i]).2)).2] := by
    unfold encodeCurve
    simp only [List.getElem?_map, List.getElem?_eq_getElem hi, Option.map_some', hline]
  unfold decodePoint
  rw [hrow]
  simp only [List.getElem?_cons_zero, List.getElem?_cons_succ, hat]
  congr 1
  dsimp only at hd
  have hproj : (Line.ClosestPoint start fin pts[i]).2
      = start.add ((fin.sub start).scale (Line.ClosestPoint start fin pts[i]).1) := rfl
  by_cases hpos : env.norm ((pts[i]).sub (Line.ClosestPoint start fin pts[i]).2) > 0
  · rw [if_pos hpos] at hd
    simp only [if_pos hpos]
    have hsc : env.norm ((pts[i]).sub (Line.ClosestPoint start fin pts[i]).2)
        / env.lineLength start fin * env.lineLength start fin
        = env.norm ((pts[i]).sub (Line.ClosestPoint start fin pts[i]).2) := by
      field_simp
    rw [hsc, hd]
    generalize (Line.ClosestPoint start fin pts[i]).1 = t at hproj ⊢
    rw [hproj]
    rw [Vector3.ext_iff']
    simp only [Line.pointAt, Vector3.add, Vector3.sub, Vector3.scale]
    refine ⟨by ring, by ring, by ring⟩
  · rw [if_neg hpos] at hd
    simp only [if_neg hpos, zero_mul]
    rw [Vector3.ext_iff'] at hd
    generalize (Line.ClosestPoint start fin pts[i]).1 = t at hproj hd ⊢
    rw [hproj] at hd
    simp only [Vector3.sub, Vector3.add, Vector3.scale, Vector3.zero] at hd
    obtain ⟨h1, h2, h3⟩ := hd
    rw [Vector3.ext_iff']
    simp only [Line.pointAt, Vector3.add, Vector3.sub, Vector3.scale]
    refine ⟨by linear_combination -h1, by linear_combination -h2, by linear_combination -h3⟩

/-! ### What `execute` leaves of the bag and of the target graph -/

theorem keptEntry_refl {α : Type} (x : Option α) : keptEntry x x := fun _ h => h

theorem keptEntry_trans {α : Type} {x y z : Option α} (h1 : keptEntry x y)
    (h2 : keptEntry y z) : keptEntry x z := fun v h => h2 v (h1 v h)

theorem keptEntry_getD {α : Type} (x : Option α) (d : α) : keptEntry x (some (x.getD d)) := by
  intro v h
  rw [h]
  rfl

theorem Property.keeps_refl (p : Property K) : p.keeps p :=
  ⟨rfl, keptEntry_refl _, keptEntry_refl _, keptEntry_refl _, keptEntry_refl _,
    keptEntry_refl _, keptEntry_refl _, keptEntry_refl _, keptEntry_refl _, keptEntry_refl _,
    keptEntry_refl _⟩

theorem Property.keeps_trans {p q r : Property K} (h1 : p.keeps q) (h2 : q.keeps r) :
    p.keeps r :=
  ⟨h2.1.trans h1.1, keptEntry_trans h1.2.1 h2.2.1, keptEntry_trans h1.2.2.1 h2.2.2.1,
    keptEntry_trans h1.2.2.2.1 h2.2.2.2.1, keptEntry_trans h1.2.2.2.2.1 h2.2.2.2.2.1,
    keptEntry_trans h1.2.2.2.2.2.1 h2.2.2.2.2.2.1,
    keptEntry_trans h1.2.2.2.2.2.2.1 h2.2.2.2.2.2.2.1,
    keptEntry_trans h1.2.2.2.2.2.2.2.1 h2.2.2.2.2.2.2.2.1,
    keptEntry_trans h1.2.2.2.2.2.2.2.2.1 h2.2.2.2.2.2.2.2.2.1,
    keptEntry_trans h1.2.2.2.2.2.2.2.2.2.1 h2.2.2.2.2.2.2.2.2.2.1,
    keptEntry_trans h1.2.2.2.2.2.2.2.2.2.2 h2.2.2.2.2.2.2.2.2.2.2⟩

theorem Property.keeps_readFold (p : Property K) : p.keeps p.readFold :=
  ⟨rfl, keptEntry_getD _ _, keptEntry_getD _ _, keptEntry_refl _, keptEntry_refl _,
    keptEntry_refl _, keptEntry_refl _, keptEntry_refl _, keptEntry_refl _, keptEntry_refl _,
    keptEntry_refl _⟩

theorem Property.keeps_anchor (p : Property K) :
    p.keeps { p.readFold with anchorNode := some (p.anchorNode.getD "") } :=
  ⟨rfl, keptEntry_getD _ _, keptEntry_getD _ _, keptEntry_refl _, keptEntry_refl _,
    keptEntry_refl _, keptEntry_refl _, keptEntry_refl _, keptEntry_refl _, keptEntry_refl _,
    keptEntry_getD _ _⟩

theorem Property.keeps_decode (p : Property K) :
    p.keeps { p with cpCoords := some (p.cpCoords.getD []),
                     rmf := some (p.rmf.getD ⟨[], []⟩) } :=
  ⟨rfl, keptEntry_refl _, keptEntry_refl _, keptEntry_refl _, keptEntry_refl _,
    keptEntry_refl _, keptEntry_refl _, keptEntry_getD _ _, keptEntry_getD _ _,
    keptEntry_refl _, keptEntry_refl _⟩

theorem Property.keeps_single (p : Property K) :
    p.keeps { p with path := some (p.path.getD []), cpIDX := some (p.cpIDX.getD 0) } :=
  ⟨rfl, keptEntry_refl _, keptEntry_refl _, keptEntry_getD _ _, keptEntry_refl _,
    keptEntry_refl _, keptEntry_getD _ _, keptEntry_refl _, keptEntry_refl _,
    keptEntry_refl _, keptEntry_refl _⟩

theorem Property.keeps_pathB (p : Property K) :
    p.keeps { p with pathB := some (p.pathB.getD []) } :=
  ⟨rfl, keptEntry_refl _, keptEntry_refl _, keptEntry_refl _, keptEntry_refl _,
    keptEntry_getD _ _, keptEntry_refl _, keptEntry_refl _, keptEntry_refl _,
    keptEntry_refl _, keptEntry_refl _⟩

theorem Task.Framed_refl (a : Task K) : a.Framed a := ⟨Property.keeps_refl _, rfl⟩

theorem Task.Framed_trans {a b c : Task K} (h1 : a.Framed b) (h2 : b.Framed c) : a.Framed c :=
  ⟨Property.keeps_trans h1.1 h2.1, h2.2.trans h1.2⟩

theorem foldCurve_framed (a b : Task K) (t : K) (h : a.foldCurve t = some b) : a.Framed b := by
  unfold Task.foldCurve at h
  repeat' first | (split at h) | (dsimp only at h; split at h)
  all_goals first
    | (simp at h; done)
    | (cases h; exact ⟨Property.keeps_readFold _, rfl⟩)

theorem executeCurveConstrained_framed (a b : Task K) (t : K)
    (h : a.executeCurveConstrained t = some b) : a.Framed b := by
  unfold Task.executeCurveConstrained at h
  repeat' first | (split at h) | (dsimp only at h; split at h)
  all_goals first
    | (simp at h; done)
    | (cases h; exact ⟨Property.keeps_anchor _, rfl⟩)

theorem copyTargetEdge_framed (env : Env K) (a b : Task K) (tl : Link K)
    (h : a.copyTargetEdge env tl = some b) : a.Framed b := by
  unfold Task.copyTargetEdge at h
  repeat' first | (split at h) | (dsimp only at h; split at h)
  all_goals first
    | (simp at h; done)
    | (cases h; exact Task.Framed_refl _)

theorem decodeCurve_framed (env : Env K) (a : Task K) (start fin X Y Z : Vector3 K)
    (r : List (Vector3 K) × Task K) (h : a.decodeCurve env start fin X Y Z = some r) :
    a.Framed r.2 := by
  unfold Task.decodeCurve at h
  repeat' first | (split at h) | (dsimp only at h; split at h)
  all_goals first
    | (simp at h; done)
    | (cases h; exact ⟨Property.keeps_decode _, rfl⟩)

theorem foldlM_framed {α : Type} (f : Task K → α → Option (Task K))
    (hf : ∀ a x b, f a x = some b → a.Framed b) :
    ∀ (xs : List α) (a b : Task K), xs.foldlM f a = some b → a.Framed b := by
  intro xs
  induction xs with
  | nil =>
    intro a b h
    simp only [List.foldlM_nil] at h
    cases h
    exact Task.Framed_refl a
  | cons x xs ih =>
    intro a b h
    simp only [List.foldlM_cons] at h
    cases hx : f a x with
    | none => rw [hx] at h; simp at h
    | some c =>
      rw [hx] at h
      exact Task.Framed_trans (hf a x c hx) (ih c b h)

theorem executeGrowShrinkSheet_framed (env : Env K) (a b : Task K) (t : K)
    (h : a.executeGrowShrinkSheet env t = some b) : a.Framed b := by
  unfold Task.executeGrowShrinkSheet at h
  split at h
  next n hn =>
    split at h
    next tn htn =>
      dsimp only at h
      split at h
      next mid hmid =>
        have hm : a.Framed mid := by
          split at hmid
          · split at hmid
            next grid hg =>
              cases hmid
              exact ⟨Property.keeps_readFold _, rfl⟩
            next => simp at hmid
          · cases hmid
            exact Task.Framed_refl a
        refine Task.Framed_trans hm ?_
        split at h
        · split at h
          · split at h
            next cur hcur =>
              cases h
              exact Task.Framed_refl _
            next => simp at h
          · split at h
            next tlink htl => exact copyTargetEdge_framed env mid b tlink h
            next => simp at h
          · cases h; exact Task.Framed_refl _
        · cases h; exact Task.Framed_refl _
      next => simp at h
    next => simp at h
  next => simp at h

theorem morphTwoEdges_framed (env : Env K) (a b : Task K) (t : K)
    (h : a.morphTwoEdges env t = some b) : a.Framed b := by
  unfold Task.morphTwoEdges at h
  dsimp only at h
  split at h
  next sampleA hA =>
    split at h
    next sampleB hB =>
      split at h
      next rmf hr =>
        split at h
        next fr hfr =>
          split at h
          next decoded hd =>
            split at h
            next cur hcur =>
              cases h
              have h1 := decodeCurve_framed env _ _ _ _ _ _ _ hd
              refine Task.Framed_trans (b := decoded.2) ?_ ⟨Property.keeps_refl _, rfl⟩
              refine Task.Framed_trans ?_ h1
              exact ⟨Property.keeps_pathB _, rfl⟩
            next => simp at h
          next => simp at h
        next => simp at h
      next =>
        cases h
        exact ⟨Property.keeps_pathB _, rfl⟩
    next => simp at h
  next => simp at h

theorem morphFinalize_framed (env : Env K) (a b : Task K) (t : K) (nid : String)
    (edges tedges : List (Link K)) (h : a.morphFinalize env t nid edges tedges = some b) :
    a.Framed b := by
  unfold Task.morphFinalize at h
  split at h
  · split at h
    · split at h
      · split at h
        next linkA hA =>
          split at h
          next linkB hB =>
            cases h
            exact Task.Framed_refl _
          next => simp at h
        next => simp at h
      · cases h; exact Task.Framed_refl a
    · split at h
      next tlinkA hA =>
        split at h
        next tlinkB hB =>
          split at h
          next c hc =>
            exact Task.Framed_trans (copyTargetEdge_framed env a c tlinkA hc)
              (copyTargetEdge_framed env c b tlinkB h)
          next => simp at h
        next => simp at h
      next => simp at h
    · refine foldlM_framed _ ?_ edges a b h
      intro x l y hxy
      dsimp only at hxy
      split at hxy
      next fnc hf =>
        split at hxy
        next newNode hnn =>
          cases hxy
          exact Task.Framed_refl _
        next => simp at hxy
      next => simp at hxy
    · cases h; exact Task.Framed_refl a
  · cases h; exact Task.Framed_refl a

/-- The single-edge block of `executeMorphCurve` keeps the entries of the bag,
and leaves the target graph as it is or with the target curve translated. -/
theorem morphSingleEdge_framed (env : Env K) (a b : Task K) (t : K) (edges : List (Link K))
    (h : a.morphSingleEdge env t edges = some b) :
    a.property.keeps b.property ∧ Graph.translated a.targetCurve a.target b.target := by
  unfold Task.morphSingleEdge at h
  split at h
  next edge he =>
    dsimp only at h
    split at h
    next mid hmid =>
      split at h
      next tc htc =>
        cases h
        split at hmid
        · split at hmid
          next sample hs =>
            split at hmid
            next cur hcur =>
              split at hmid
              next base hb =>
                split at hmid
                next tl htl =>
                  split at hmid
                  next tc2 htc2 =>
                    split at hmid
                    next c hc =>
                      cases hmid
                      exact ⟨Property.keeps_single _, Or.inr ⟨tc2, _, htc2, rfl⟩⟩
                    next => simp at hmid
                  next => simp at hmid
                next => simp at hmid
              next => simp at hmid
            next => simp at hmid
          next => simp at hmid
        · cases hmid
          exact ⟨Property.keeps_single _, Or.inl rfl⟩
      next => simp at h
    next => simp at h
  next => simp at h

theorem Graph.translated_of_eq {tc : Option (Node K)} {g g' : Graph K} (h : g' = g) :
    Graph.translated tc g g' := Or.inl h

theorem Task.Framed_translated {a b : Task K} (h : a.Framed b) :
    a.property.keeps b.property ∧ Graph.translated a.targetCurve a.target b.target ∧
      (∀ n, a.node = some n → (a.active.getEdges n.id).length ≠ 1 → b.target = a.target) :=
  ⟨h.1, Or.inl h.2, fun _ _ _ => h.2⟩

/-- `executeMorphCurve` keeps the entries of the bag; the target graph stays
as it is unless the node has exactly one edge, in which case the target curve
may be translated. -/
theorem executeMorphCurve_framed (env : Env K) (a b : Task K) (t : K)
    (h : a.executeMorphCurve env t = some b) :
    a.property.keeps b.property ∧ Graph.translated a.targetCurve a.target b.target ∧
      (∀ n, a.node = some n → (a.active.getEdges n.id).length ≠ 1 → b.target = a.target) := by
  unfold Task.executeMorphCurve at h
  split at h
  next n hn =>
    dsimp only at h
    split at h
    next tn htn =>
      split at h
      next mid hmid =>
        have hm : a.property.keeps mid.property ∧
            Graph.translated a.targetCurve a.target mid.target ∧
            ((a.active.getEdges n.id).length ≠ 1 → mid.target = a.target) := by
          split at hmid
          · rename_i h1
            have := morphSingleEdge_framed env a mid t _ hmid
            exact ⟨this.1, this.2, fun hne => absurd h1 hne⟩
          · cases hmid
            exact ⟨Property.keeps_refl _, Or.inl rfl, fun _ => rfl⟩
        have hrest : mid.Framed b := by
          split at h
          · split at h
            · cases h; exact Task.Framed_refl _
            · split at h
              next two htwo =>
                exact Task.Framed_trans (morphTwoEdges_framed env mid two t htwo)
                  (morphFinalize_framed env two b t _ _ _ h)
              next => simp at h
          · exact morphFinalize_framed env mid b t _ _ _ h
        refine ⟨Property.keeps_trans hm.1 hrest.1, ?_, ?_⟩
        · rw [hrest.2]; exact hm.2.1
        · intro n' hn' hne
          rw [hn] at hn'
          cases hn'
          rw [hrest.2]
          exact hm.2.2 hne
      next => simp at h
    next => simp at h
  next => simp at h

theorem executeShrinkCurve_framed (env : Env K) (a b : Task K) (t : K)
    (h : a.executeShrinkCurve env t = some b) : a.Framed b := by
  unfold Task.executeShrinkCurve at h
  split at h
  next n hn =>
    dsimp only at h
    split at h
    · split at h
      next c hc =>
        split at h
        next cur hcur =>
          cases h
          exact Task.Framed_trans (executeCurveConstrained_framed a c t hc) (Task.Framed_refl _)
        next => simp at h
      next => simp at h
    · split at h
      next mid hmid =>
        have hm : a.Framed mid := by
          split at hmid
          · exact foldCurve_framed a mid t hmid
          · split at hmid
            · rename_i h2
              have := executeMorphCurve_framed env a mid t hmid
              exact ⟨this.1, this.2.2 n hn (by rw [h2]; decide)⟩
            · cases hmid; exact Task.Framed_refl _
        split at h
        · split at h
          next cur hcur =>
            cases h
            exact Task.Framed_trans hm (Task.Framed_refl _)
          next => simp at h
        · cases h
          exact hm
      next => simp at h
  next => simp at h

theorem executeGrowCurve_framed (env : Env K) (a b : Task K) (t : K)
    (h : a.executeGrowCurve env t = some b) :
    a.property.keeps b.property ∧ Graph.translated a.targetCurve a.target b.target ∧
      (∀ n, a.node = some n → (a.active.getEdges n.id).length ≠ 1 → b.target = a.target) := by
  unfold Task.executeGrowCurve at h
  split at h
  next n hn =>
    split at h
    next tn htn =>
      dsimp only at h
      split at h
      · exact Task.Framed_translated (executeCurveConstrained_framed a b t h)
      · split at h
        next mid hmid =>
          split at hmid
          · rename_i h1
            have hm := foldCurve_framed a mid t hmid
            rw [if_neg (by rw [h1]; decide)] at h
            cases h
            exact Task.Framed_translated hm
          · cases hmid
            split at h
            · exact executeMorphCurve_framed env a b t h
            · cases h
              exact Task.Framed_translated (Task.Framed_refl _)
        next => simp at h
    next => simp at h
  next => simp at h

/-- The kind-specific stage of `execute` keeps the entries of the bag; the
target graph stays as it is unless the node is a curve with exactly one edge
under a morph or a grow, in which case the target curve may be translated. -/
theorem executeSwitch_framed (env : Env K) (a b : Task K) (t : K) (kind : NodeType)
    (h : a.executeSwitch env t kind = some b) :
    a.property.keeps b.property ∧ Graph.translated a.targetCurve a.target b.target ∧
      ((kind = NodeType.SHEET ∨ a.type = TaskType.SHRINK ∨
        ∀ n, a.node = some n → (a.active.getEdges n.id).length ≠ 1) → b.target = a.target) := by
  unfold Task.executeSwitch at h
  split at h
  · rename_i hty
    have := executeGrowCurve_framed env a b t h
    refine ⟨this.1, this.2.1, ?_⟩
    rintro (h1 | h1 | h1)
    · cases h1
    · rw [hty] at h1; cases h1
    · cases hn : a.node with
      | none =>
        unfold Task.executeGrowCurve at h
        rw [hn] at h
        simp at h
      | some n => exact this.2.2 n hn (h1 n hn)
  · exact ⟨(executeShrinkCurve_framed env a b t h).1, Or.inl (executeShrinkCurve_framed env a b t h).2,
      fun _ => (executeShrinkCurve_framed env a b t h).2⟩
  · rename_i hty
    have := executeMorphCurve_framed env a b t h
    refine ⟨this.1, this.2.1, ?_⟩
    rintro (h1 | h1 | h1)
    · cases h1
    · rw [hty] at h1; cases h1
    · cases hn : a.node with
      | none =>
        unfold Task.executeMorphCurve at h
        rw [hn] at h
        simp at h
      | some n => exact this.2.2 n hn (h1 n hn)
  · cases h
    exact ⟨Property.keeps_refl _, Or.inl rfl, fun _ => rfl⟩
  · have := executeGrowShrinkSheet_framed env a b t h
    exact ⟨this.1, Or.inl this.2, fun _ => this.2⟩
  · have := executeGrowShrinkSheet_framed env a b t h
    exact ⟨this.1, Or.inl this.2, fun _ => this.2⟩
  · cases h
    exact ⟨Property.keeps_refl _, Or.inl rfl, fun _ => rfl⟩

/-! ### Smoothing of a path -/

/-- One smoothing iteration on a non-empty list: the result has the same
length, the same first and last point, and each interior point is the
midpoint of the two neighbours of the previous iteration. -/
theorem smoothStep_spec (pnts : List (Vector3 K)) (hne : pnts ≠ []) :
    ∃ q, smoothStep pnts = some q ∧ q.length = pnts.length ∧
      q.head? = pnts.head? ∧ q.getLast? = pnts.getLast? ∧
      ∀ i, 0 < i → i + 1 < pnts.length →
        q[i]? = some (((pnts.getD (i - 1) Vector3.zero).add
          (pnts.getD (i + 1) Vector3.zero)).scale (1 / 2)) := by
  have hlen : pnts.length ≠ 0 := fun h => hne (List.length_eq_zero.mp h)
  have hpos : 0 < pnts.length := Nat.pos_of_ne_zero hlen
  unfold smoothStep
  rw [if_neg hlen]
  refine ⟨_, rfl, by simp, ?_, ?_, ?_⟩
  · rw [List.head?_eq_getElem?, List.head?_eq_getElem?, List.getElem?_map,
      List.getElem?_range hpos]
    simp only [Option.map_some', List.getD_eq_getElem?_getD]
    rw [List.getElem?_eq_getElem hpos]
    simp
  · rw [List.getLast?_eq_getElem?, List.getLast?_eq_getElem?, List.getElem?_map]
    simp only [List.length_map, List.length_range]
    rw [List.getElem?_range (by omega)]
    have h1 : pnts.length - 1 + 1 = pnts.length := by omega
    simp only [Option.map_some', h1, if_true, List.getD_eq_getElem?_getD]
    rw [List.getElem?_eq_getElem (by omega)]
    simp
  · intro i h0 h1
    rw [List.getElem?_map, List.getElem?_range (by omega)]
    have h2 : i + 1 ≠ pnts.length := by omega
    have h3 : i ≠ 0 := by omega
    simp only [Option.map_some', h2, h3, if_false]

/-- The smoothing loop on a non-empty list keeps the length and both ends. -/
theorem smoothIter_spec (k : Nat) (pnts : List (Vector3 K)) (hne : pnts ≠ []) :
    ∃ q, smoothIter k pnts = some q ∧ q.length = pnts.length ∧
      q.head? = pnts.head? ∧ q.getLast? = pnts.getLast? := by
  induction k generalizing pnts with
  | zero => exact ⟨pnts, rfl, rfl, rfl, rfl⟩
  | succ k ih =>
    obtain ⟨q, hq, hl, hh, ht, _⟩ := smoothStep_spec pnts hne
    have hq0 : q ≠ [] := by
      intro h
      rw [h] at hl
      exact hne (List.length_eq_zero.mp hl.symm)
    obtain ⟨r, hr, hl2, hh2, ht2⟩ := ih q hq0
    refine ⟨r, ?_, hl2.trans hl, hh2.trans hh, ht2.trans ht⟩
    show (smoothStep pnts).bind (smoothIter k) = some r
    rw [hq]
    exact hr

/-- The smoothing loop is the iteration of the smoothing step. -/
theorem smoothIter_iterate (k : Nat) (pnts : List (Vector3 K)) :
    smoothIter k pnts = (fun o => Option.bind o smoothStep)^[k] (some pnts) := by
  have h : ∀ (k : Nat) (o : Option (List (Vector3 K))),
      o.bind (smoothIter k) = (fun o => Option.bind o smoothStep)^[k] o := by
    intro k
    induction k with
    | zero =>
      intro o
      cases o <;> rfl
    | succ k ih =>
      intro o
      rw [Function.iterate_succ_apply, ← ih]
      cases o with
      | none => rfl
      | some p => rfl
  have := h k (some pnts)
  simpa using this

/-! ### The length of the time window -/

theorem setLength_length (a : Task K) (n : Int) : (a.setLength n).length = max 1 n := by
  unfold Task.setLength qMax
  dsimp only
  split
  · rw [max_eq_right]; omega
  · rw [max_eq_left]; omega

theorem setStart_length (a : Task K) (n : Int) : (a.setStart n).length = a.length := by
  unfold Task.setStart Task.setX Task.itemChange
  dsimp only
  split <;> rfl

theorem prepare_length (env : Env K) (a b : Task K) (h : a.prepare env = some b) :
    b.length = a.length := by
  have hc := (prepare_spec env a b h).1.1
  simp only [Task.control, Task.armed, Prod.mk.injEq] at hc
  exact hc.2.2.2.1

theorem execute_length (env : Env K) (a b : Task K) (t : K)
    (h : a.execute env t = some b) : b.length = a.length := by
  by_cases hact : a.isActive t = true
  · exact (execute_control env a b t hact h).2.1
  · have h2 : a.execute env t = some a := by
      simp [Task.execute, hact]
    rw [h2] at h
    cases h
    rfl

theorem reachable_length (env : Env K) (a : Task K) (h : Task.Reachable env a) :
    1 ≤ a.length := by
  induction h with
  | create g g' ty id nid => simp [Task.create]
  | setLength a n _ _ => rw [setLength_length]; exact le_max_left 1 n
  | setStart a n _ ih => rw [setStart_length]; exact ih
  | reset a _ ih => exact ih
  | prepare a b _ hp ih => rw [prepare_length env a b hp]; exact ih
  | execute a b t _ he ih => rw [execute_length env a b t he]; exact ih

/-! ### The clock of a task -/

theorem toInt_of_nonneg (x : K) (h : 0 ≤ x) : toInt x = ⌊x⌋ := by
  unfold toInt
  rw [if_pos h]

theorem toInt_intCast (g : Int) : toInt (g : K) = g := by
  unfold toInt
  split
  · exact Int.floor_intCast g
  · exact Int.ceil_intCast g

theorem toInt_int_add (s : Int) (y : K) (hs : 0 ≤ s) (hy : 0 ≤ y) :
    toInt ((s : K) + y) = s + toInt y := by
  have hs2 : (0 : K) ≤ (s : K) := by exact_mod_cast hs
  rw [toInt_of_nonneg _ (add_nonneg hs2 hy), toInt_of_nonneg _ hy, Int.floor_int_add]

/-- The local time of a tick inside the window is the elapsed fraction. -/
theorem localT_inside_eq (a : Task K) (g : Int) (hlen : 1 ≤ a.length) (h1 : a.start ≤ g)
    (h2 : g ≤ a.start + a.length) :
    a.localT g = ((g - a.start : Int) : K) / ((a.length : Int) : K) ∧ 0 ≤ a.localT g ∧
    (a.start : K) + a.localT g * (a.length : K) = (g : K) := by
  have hL : (0 : K) < (a.length : K) := by
    have : (0 : Int) < a.length := by omega
    exact_mod_cast this
  have hq : ((g - a.start : Int) : K) / ((a.length : Int) : K) ≤ 1 := by
    rw [div_le_one hL]
    have : g - a.start ≤ a.length := by omega
    exact_mod_cast this
  have h0 : (0 : K) ≤ ((g - a.start : Int) : K) / ((a.length : Int) : K) := by
    apply div_nonneg
    · have : (0 : Int) ≤ g - a.start := by omega
      exact_mod_cast this
    · exact hL.le
  have he : a.localT g = ((g - a.start : Int) : K) / ((a.length : Int) : K) := by
    unfold Task.localT qMin
    rw [if_pos h1, if_neg (not_lt.mpr hq)]
  refine ⟨he, he ▸ h0, ?_⟩
  rw [he, div_mul_cancel₀ _ hL.ne']
  push_cast
  ring

/-- The clock after `execute` on an active task whose window start `prepare`
leaves alone. -/
theorem execute_clock (env : Env K) (a b : Task K) (t : K) (hdone : a.isDone = false)
    (hprep : a.isReady = true ∨ toInt a.x = a.start) (ht : 0 ≤ t)
    (h : a.execute env t = some b) :
    b.start = a.start ∧ b.length = a.length ∧
    b.currentTime = toInt ((a.start : K) + t * (a.length : K)) := by
  have hact : a.isActive t = true := by
    simp [Task.isActive, ht, hdone]
  obtain ⟨_, hl, hs, hc, _⟩ := execute_control env a b t hact h
  have hs2 : b.start = a.start := by
    rw [hs]
    rcases hprep with hr | hx
    · rw [if_pos hr]
    · by_cases hr : a.isReady = true
      · rw [if_pos hr]
      · rw [if_neg hr]; exact hx
  refine ⟨hs2, hl, ?_⟩
  rw [hc, hs2, hl]

/-! ### The index of a path sample -/

theorem toInt_mono (x y : K) (h : x ≤ y) : toInt x ≤ toInt y := by
  unfold toInt
  by_cases hx : 0 ≤ x
  · rw [if_pos hx, if_pos (hx.trans h)]
    exact Int.floor_le_floor h
  · rw [if_neg hx]
    by_cases hy : 0 ≤ y
    · rw [if_pos hy]
      have h1 : ⌈x⌉ ≤ 0 := by
        rw [Int.ceil_le]
        exact_mod_cast (not_le.mp hx).le
      have h2 : 0 ≤ ⌊y⌋ := Int.floor_nonneg.mpr hy
      omega
    · rw [if_neg hy]
      exact Int.ceil_le_ceil h

theorem indexAt_eq_none_iff {α : Type} (xs : List α) (i : Int) :
    indexAt xs i = none ↔ i < 0 ∨ (xs.length : Int) ≤ i := by
  unfold indexAt
  by_cases h : i < 0
  · simp [h]
  · rw [if_neg h, List.getElem?_eq_none_iff]
    constructor
    · intro h1; right; omega
    · rintro (h1 | h1) <;> omega

theorem indexAt_nil {α : Type} (i : Int) : indexAt ([] : List α) i = none := by
  rw [indexAt_eq_none_iff]
  rcases lt_or_le i 0 with h | h
  · exact Or.inl h
  · exact Or.inr (by simpa using h)

/-- The sample index for `t ≥ 0` on a non-empty path is `⌊t * (n - 1)⌋`. -/
theorem sampleIndex_floor (t : K) (n : Nat) (hn : 1 ≤ n) (ht : 0 ≤ t) :
    sampleIndex t n = ⌊t * ((n : K) - 1)⌋ ∧ 0 ≤ t * ((n : K) - 1) := by
  have h1 : (((n : Int) - 1 : Int) : K) = (n : K) - 1 := by push_cast; ring
  have h2 : (0 : K) ≤ (n : K) - 1 := by
    have : (1 : K) ≤ (n : K) := by exact_mod_cast hn
    linarith
  unfold sampleIndex
  rw [h1, toInt_of_nonneg _ (mul_nonneg ht h2)]
  exact ⟨rfl, mul_nonneg ht h2⟩

/-- The two accesses `pathA[idxA]` and `pathB[idxB]` of the two-edge block are
made at the sample index of the local time. -/
theorem morphTwoEdges_reads (env : Env K) (task b : Task K) (t : K)
    (h : task.morphTwoEdges env t = some b) :
    (indexAt (task.property.pathA.getD [])
      (sampleIndex t (task.property.pathA.getD []).length)).isSome = true ∧
    (indexAt (task.property.pathB.getD [])
      (sampleIndex t (task.property.pathB.getD []).length)).isSome = true := by
  unfold Task.morphTwoEdges at h
  dsimp only at h
  unfold sampleIndex
  split at h
  next sA hA =>
    split at h
    next sB hB =>
      rw [hA, hB]
      exact ⟨rfl, rfl⟩
    next => simp at h
  next => simp at h

/-- Without stored frames the two-edge block completes as soon as both
accesses are in bounds. -/
theorem morphTwoEdges_plain (env : Env K) (task : Task K) (t : K)
    (hr : task.property.rmf = none)
    (hA : (indexAt (task.property.pathA.getD [])
      (sampleIndex t (task.property.pathA.getD []).length)).isSome = true)
    (hB : (indexAt (task.property.pathB.getD [])
      (sampleIndex t (task.property.pathB.getD []).length)).isSome = true) :
    (task.morphTwoEdges env t).isSome = true := by
  obtain ⟨sA, hA⟩ := Option.isSome_iff_exists.mp hA
  obtain ⟨sB, hB⟩ := Option.isSome_iff_exists.mp hB
  unfold sampleIndex at hA hB
  unfold Task.morphTwoEdges
  dsimp only
  rw [hA, hB]
  dsimp only
  rw [hr]
  rfl

/-! ### Vectors of length one -/

theorem Vector3.dot_self_eq_zero (v : Vector3 K) :
    Vector3.dot v v = 0 ↔ v = Vector3.zero := by
  constructor
  · intro h
    simp only [Vector3.dot] at h
    have hx := mul_self_nonneg v.x
    have hy := mul_self_nonneg v.y
    have hz := mul_self_nonneg v.z
    have h1 : v.x * v.x = 0 := by linarith
    have h2 : v.y * v.y = 0 := by linarith
    have h3 : v.z * v.z = 0 := by linarith
    rw [Vector3.ext_iff']
    exact ⟨mul_self_eq_zero.mp h1, mul_self_eq_zero.mp h2, mul_self_eq_zero.mp h3⟩
  · intro h
    rw [h]
    simp [Vector3.dot, Vector3.zero]

/-- The identity of Lagrange for the cross product. -/
theorem Vector3.cross_dot_self (a b : Vector3 K) :
    Vector3.dot (Vector3.cross a b) (Vector3.cross a b)
      = Vector3.dot a a * Vector3.dot b b - Vector3.dot a b * Vector3.dot a b := by
  simp only [Vector3.dot, Vector3.cross]
  ring

/-- The double cross product with a unit vector `u` gives back a vector `r`
orthogonal to `u`. -/
theorem Vector3.cross_cross_unit (u r : Vector3 K) (hu : Vector3.dot u u = 1)
    (hur : Vector3.dot u r = 0) : Vector3.cross (Vector3.cross u r) u = r := by
  simp only [Vector3.dot] at hu hur
  rw [Vector3.ext_iff']
  simp only [Vector3.cross]
  refine ⟨?_, ?_, ?_⟩
  · linear_combination r.x * hu - u.x * hur
  · linear_combination r.y * hu - u.y * hur
  · linear_combination r.z * hu - u.z * hur

/-- A non-negative norm that is exact at a vector of length one is 1. -/
theorem Env.norm_unit (env : Env K) (v : Vector3 K) (hpos : 0 ≤ env.norm v)
    (hex : env.exactAt v = true) (hu : Vector3.dot v v = 1) : env.norm v = 1 := by
  obtain ⟨_, hsq, _⟩ := (Env.exactAt_iff env v).mp hex
  rw [hu] at hsq
  have h1 : (env.norm v - 1) * (env.norm v + 1) = 0 := by linear_combination hsq
  rcases mul_eq_zero.mp h1 with h2 | h2
  · linarith
  · linarith

/-- Normalising a vector of length one exactly gives the vector back. -/
theorem Env.normalized_unit (env : Env K) (v : Vector3 K) (hpos : 0 ≤ env.norm v)
    (hex : env.exactAt v = true) (hu : Vector3.dot v v = 1) : env.normalized v = v := by
  obtain ⟨_, _, hn⟩ := (Env.exactAt_iff env v).mp hex
  rw [hn, Env.norm_unit env v hpos hex hu, Vector3.ext_iff']
  simp [Vector3.scale]

/-- The seed vector of a vector that is not zero is not zero. -/
theorem Frame.orthogonalVector_ne_zero (n : Vector3 K) (hn : n ≠ Vector3.zero) :
    Frame.orthogonalVector n ≠ Vector3.zero := by
  intro h
  apply hn
  unfold Frame.orthogonalVector at h
  rw [Vector3.ext_iff']
  simp only [Vector3.zero]
  split at h
  next hc =>
    rw [Vector3.ext_iff'] at h
    simp only [Vector3.zero, neg_eq_zero] at h
    obtain ⟨-, hz, hy⟩ := h
    rw [hy, abs_zero] at hc
    have hx : |n.x| ≤ 0 := by linarith [hc.1]
    exact ⟨abs_eq_zero.mp (le_antisymm hx (abs_nonneg _)), hy, hz⟩
  next hc =>
    split at h
    next hc2 =>
      rw [Vector3.ext_iff'] at h
      simp only [Vector3.zero, neg_eq_zero] at h
      obtain ⟨hz, -, hx⟩ := h
      rw [hx, abs_zero] at hc2
      have hy : |n.y| ≤ 0 := by linarith [hc2.1]
      exact ⟨hx, abs_eq_zero.mp (le_antisymm hy (abs_nonneg _)), hz⟩
    next hc2 =>
      rw [Vector3.ext_iff'] at h
      simp only [Vector3.zero, neg_eq_zero] at h
      obtain ⟨hy, hx, -⟩ := h
      exfalso
      apply hc
      rw [hx, hy, abs_zero]
      exact ⟨by simp, by simp⟩

/-- The exactness of `fromT` on a vector that is not zero follows from the
exactness on its operands that are not zero: none of them is zero. -/
theorem Frame.fromTExact_of_exactOn (env : Env K) (T : Vector3 K) (hT : T ≠ Vector3.zero)
    (hE : env.exactOn (Frame.fromTOperands env T)) :
    Frame.fromTExact env T = true ∧ 0 < env.norm T := by
  unfold Env.exactOn Frame.fromTOperands at hE
  dsimp only at hE
  unfold Frame.fromTExact
  dsimp only
  simp only [List.mem_cons, List.mem_singleton, List.not_mem_nil, or_false, forall_eq_or_imp,
    forall_eq] at hE
  obtain ⟨h1, h2, h3, h4⟩ := hE
  obtain ⟨hxT, hpT⟩ := h1 hT
  obtain ⟨hTne, hTsq, hTn⟩ := (Env.exactAt_iff env T).mp hxT
  have huT := Env.exactAt_unit env T hxT
  have hne1 : env.normalized T ≠ Vector3.zero := by
    intro h
    rw [h] at huT
    simp [Vector3.dot, Vector3.zero] at huT
  have ho := Frame.orthogonalVector_ne_zero _ hne1
  have hdot := Frame.orthogonalVector_dot (env.normalized T)
  generalize Frame.orthogonalVector (env.normalized T) = o at *
  obtain ⟨hxo, _⟩ := h2 ho
  obtain ⟨hone, _, hon⟩ := (Env.exactAt_iff env o).mp hxo
  have huR := Env.exactAt_unit env o hxo
  have hne2 : env.normalized o ≠ Vector3.zero := by
    intro h
    rw [h] at huR
    simp [Vector3.dot, Vector3.zero] at huR
  obtain ⟨hxR, _⟩ := h3 hne2
  have hoT : Vector3.dot o T = 0 := by
    rw [hTn, Vector3.dot_scale_right] at hdot
    rcases mul_eq_zero.mp hdot with h5 | h5
    · exact absurd h5 (one_div_ne_zero hTne)
    · exact h5
  have hTR : Vector3.dot T (env.normalized o) = 0 := by
    rw [hon, Vector3.dot_scale_right, Vector3.dot_comm, hoT, mul_zero]
  have hne3 : Vector3.cross T (env.normalized o) ≠ Vector3.zero := by
    intro h
    have h5 := Vector3.cross_dot_self T (env.normalized o)
    rw [h, huR, hTR] at h5
    have h6 : Vector3.dot T T = 0 := by
      simp only [Vector3.dot, Vector3.zero] at h5 ⊢
      linarith
    exact hT ((Vector3.dot_self_eq_zero T).mp h6)
  obtain ⟨hxS, _⟩ := h4 hne3
  refine ⟨?_, hpT⟩
  rw [hxT, hxo, hxR, hxS]
  rfl

/-! ### Frames along a straight line -/

/-- Normalising a positive multiple of `d` exactly, with a non-negative norm,
gives `d` scaled by a positive `k` with `k² (d · d) = 1`. -/
theorem Env.normalized_multiple (env : Env K) (d v : Vector3 K) (c : K)
    (hpos : 0 ≤ env.norm v) (hc : 0 < c) (hv : v = d.scale c) (hex : env.exactAt v = true) :
    env.normalized v = d.scale (c / env.norm v) ∧ 0 < c / env.norm v ∧
    c / env.norm v * (c / env.norm v) * Vector3.dot d d = 1 := by
  obtain ⟨hne, hsq, hn⟩ := (Env.exactAt_iff env v).mp hex
  have hp : 0 < env.norm v := lt_of_le_of_ne hpos (Ne.symm hne)
  refine ⟨?_, div_pos hc hp, ?_⟩
  · rw [hn, hv, Vector3.ext_iff']
    simp only [Vector3.scale]
    refine ⟨by ring, by ring, by ring⟩
  · have h1 : Vector3.dot v v = c * c * Vector3.dot d d := by
      rw [hv, Vector3.dot_scale]
    rw [h1] at hsq
    field_simp
    linear_combination -hsq

/-- The positive scale `k` with `k² D = 1` is unique. -/
theorem unit_scale_unique (D k k' : K) (hk : 0 < k) (hk' : 0 < k') (h : k * k * D = 1)
    (h' : k' * k' * D = 1) : k = k' := by
  have hD : D ≠ 0 := by
    intro h0
    rw [h0, mul_zero] at h
    exact zero_ne_one h
  have h1 : (k - k') * (k + k') * D = 0 := by linear_combination h - h'
  rcases mul_eq_zero.mp h1 with h2 | h2
  · rcases mul_eq_zero.mp h2 with h3 | h3
    · linarith
    · linarith
  · exact absurd h2 hD

/-- The tangent loop on at least two points: one tangent per point, and every
tangent has a property that each tangent computed by a normalisation has. -/
theorem RMF.tangents_all (env : Env K) (point : List (Vector3 K)) (hn : 2 ≤ point.length)
    (P : Vector3 K → Prop)
    (hP : ∀ i p1 p0, point[i + 1]? = some p1 → point[i]? = some p0 →
      ¬ (0 < i ∧ env.norm (p1.sub p0) < ZERO_NORM) → P (env.normalized (p1.sub p0))) :
    ∃ T, RMF.tangents env point = some T ∧ T.length = point.length ∧ ∀ t ∈ T, P t := by
  obtain ⟨T, hT, hlen, hall⟩ := foldlM_range_inv (RMF.tangentStep env point)
    (fun k T => T.length = k ∧ ∀ t ∈ T, P t)
    (point.length - 1) [] ⟨rfl, fun t ht => absurd ht (List.not_mem_nil t)⟩
    (by
      rintro k T hk ⟨hlen, hall⟩
      have hk1 : k + 1 < point.length := by omega
      have hk0 : k < point.length := by omega
      rw [RMF.tangentStep_eq env point T k _ _ (List.getElem?_eq_getElem hk1)
        (List.getElem?_eq_getElem hk0)]
      by_cases hc : 0 < k ∧ env.norm ((point[k + 1]).sub (point[k])) < ZERO_NORM
      · rw [if_pos hc]
        have hne : T ≠ [] := by
          intro h; rw [h] at hlen; simp at hlen; omega
        have hlast : T.getLast? = some (T.getLast hne) := List.getLast?_eq_getLast T hne
        rw [hlast]
        refine ⟨_, rfl, by simp [hlen], ?_⟩
        intro t ht
        rcases List.mem_append.mp ht with h | h
        · exact hall t h
        · rw [List.mem_singleton] at h
          rw [h]
          exact hall _ (List.getLast_mem hne)
      · rw [if_neg hc]
        refine ⟨_, rfl, by simp [hlen], ?_⟩
        intro t ht
        rcases List.mem_append.mp ht with h | h
        · exact hall t h
        · rw [List.mem_singleton] at h
          rw [h]
          exact hP k _ _ (List.getElem?_eq_getElem hk1) (List.getElem?_eq_getElem hk0) hc)
  have hne : T ≠ [] := by
    intro h; rw [h] at hlen; simp at hlen; omega
  refine ⟨T ++ [T.getLast hne], ?_, by simp [hlen]; omega, ?_⟩
  · rw [RMF.tangents_eq, if_neg (by omega), hT]
    simp [List.getLast?_eq_getLast T hne]
  · intro t ht
    rcases List.mem_append.mp ht with h | h
    · exact hall t h
    · rw [List.mem_singleton] at h
      rw [h]
      exact hall _ (List.getLast_mem hne)

/-- The double reflection of a frame vector `r` across a step along the unit
tangent `u`, with the same tangent at both ends: the vector `sj` is
`cross(u, r)`. -/
theorem RMF.reflections_straight (r u v1 : Vector3 K) (m : K) (hm : m ≠ 0)
    (hv : v1 = u.scale m) (hu : Vector3.dot u u = 1) (hur : Vector3.dot u r = 0) :
    (RMF.reflections r u u v1).2.2 = Vector3.cross u r := by
  have hc1 : Vector3.dot v1 v1 = m * m := by
    rw [hv, Vector3.dot_scale, hu, mul_one]
  have h1r : Vector3.dot v1 r = 0 := by
    rw [hv, Vector3.dot_comm, Vector3.dot_scale_right, Vector3.dot_comm, hur, mul_zero]
  have h1u : Vector3.dot v1 u = m := by
    rw [hv, Vector3.dot_comm, Vector3.dot_scale_right, hu, mul_one]
  have hrL : r.sub (v1.scale (2 / Vector3.dot v1 v1 * Vector3.dot v1 r)) = r := by
    rw [h1r, mul_zero, Vector3.ext_iff']
    simp [Vector3.sub, Vector3.scale]
  have htL : u.sub (v1.scale (2 / Vector3.dot v1 v1 * Vector3.dot v1 u)) = u.scale (-1) := by
    rw [hc1, h1u, hv, Vector3.ext_iff']
    simp only [Vector3.sub, Vector3.scale]
    refine ⟨?_, ?_, ?_⟩ <;> field_simp <;> ring
  have hv2 : u.sub (u.scale (-1)) = u.scale 2 := by
    rw [Vector3.ext_iff']
    simp only [Vector3.sub, Vector3.scale]
    refine ⟨by ring, by ring, by ring⟩
  have h2r : Vector3.dot (u.scale 2) r = 0 := by
    rw [Vector3.dot_comm, Vector3.dot_scale_right, Vector3.dot_comm, hur, mul_zero]
  have hrj : r.sub ((u.scale 2).scale
      (2 / Vector3.dot (u.scale 2) (u.scale 2) * Vector3.dot (u.scale 2) r)) = r := by
    rw [h2r, mul_zero, Vector3.ext_iff']
    simp [Vector3.sub, Vector3.scale]
  unfold RMF.reflections
  dsimp only
  rw [hrL, htL, hv2, hrj]

/-- The first frame built from a unit tangent `u`: its `t` is `u`, its `r` is
a unit vector `R` orthogonal to `u`, and the frame is `fromTR(u, R)`. -/
theorem Frame.fromT_unit (env : Env K) (u : Vector3 K) (hpos : ∀ v, 0 ≤ env.norm v)
    (hx : Frame.fromTExact env u = true) (hu : Vector3.dot u u = 1) :
    (Frame.fromT env u).t = u ∧ Vector3.dot u (Frame.fromT env u).r = 0 ∧
    Frame.fromT env u = Frame.fromTR env u (Frame.fromT env u).r := by
  have hon := Frame.fromT_orthonormal env u hx
  unfold Frame.fromTExact at hx
  simp only [Bool.and_eq_true] at hx
  obtain ⟨⟨⟨hxT, hxo⟩, hxR⟩, hxS⟩ := hx
  have hnu : env.normalized u = u := Env.normalized_unit env u (hpos u) hxT hu
  have huR := Env.exactAt_unit env _ hxo
  have hnR := Env.normalized_unit env _ (hpos _) hxR huR
  have ht : (Frame.fromT env u).t = u := by
    unfold Frame.fromT Frame.fromTR Frame.ofRST
    exact hnu
  have hr : (Frame.fromT env u).r
      = env.normalized (Frame.orthogonalVector (env.normalized u)) := by
    unfold Frame.fromT Frame.fromTR Frame.ofRST
    exact hnR
  refine ⟨ht, ?_, ?_⟩
  · have h := hon.2.2.2.2.2
    rw [ht, Vector3.dot_comm] at h
    exact h
  · rw [hr]
    rfl

/-- Along a straight line every frame of the double reflection loop is the
first frame. -/
theorem RMF.framesAfter_straight (env : Env K) (point T : List (Vector3 K)) (u : Vector3 K)
    (hpos : ∀ v, 0 ≤ env.norm v) (hTl : T.length = point.length)
    (hTu : ∀ t ∈ T, t = u) (hu : Vector3.dot u u = 1)
    (hx : Frame.fromTExact env u = true)
    (hline : ∀ i p1 p0, point[i + 1]? = some p1 → point[i]? = some p0 →
      ∃ m, m ≠ 0 ∧ p1.sub p0 = u.scale m)
    (k : Nat) (hk : k + 1 ≤ point.length) (F : List (Frame K))
    (hF : RMF.framesAfter env point T k = some F) :
    ∀ f ∈ F, f = Frame.fromT env u := by
  obtain ⟨ht, hur, hf0⟩ := Frame.fromT_unit env u hpos hx hu
  induction k generalizing F with
  | zero =>
    have hne : T ≠ [] := by
      intro h; rw [h] at hTl; simp at hTl; omega
    have hh : T.head? = some (T.head hne) := List.head?_eq_head hne
    have h0 : T.head hne = u := hTu _ (List.head_mem hne)
    unfold RMF.framesAfter at hF
    rw [hh, h0] at hF
    cases hF
    intro f hf
    rw [List.mem_singleton] at hf
    exact hf
  | succ k ih =>
    obtain ⟨F', last, tj, p1, p0, hF', hlen', hlast, htj, hp1, hp0, hstep⟩ :=
      RMF.framesAfter_step env point T hTl k (by omega)
    rw [hstep] at hF
    cases hF
    have hprev := ih (by omega) F' hF'
    have hl : last = Frame.fromT env u :=
      hprev last (List.mem_of_getLast?_eq_some hlast)
    have htju : tj = u := hTu tj (List.getElem?_mem htj)
    intro f hf
    rcases List.mem_append.mp hf with h | h
    · exact hprev f h
    · rw [List.mem_singleton] at h
      rw [h]
      split
      · exact hl
      · obtain ⟨m, hm, hv⟩ := hline k p1 p0 hp1 hp0
        rw [hl, htju, ht, RMF.reflections_straight _ u _ m hm hv hu hur]
        unfold Frame.fromST
        rw [Vector3.cross_cross_unit u _ hu hur]
        exact hf0.symm

/-- The frames that `RMF::compute` returns on a straight line, when its
divisions are exact and the norm is not negative: the tangent `u = k d` with
`k > 0` and `k² (d · d) = 1`, and every frame is the first frame of `u` placed
at its point. -/
theorem RMF.compute_straight (env : Env K) (point : List (Vector3 K)) (d : Vector3 K)
    (hn : 2 ≤ point.length) (hex : RMF.exact env point = true)
    (hpos : ∀ v, 0 ≤ env.norm v)
    (hline : ∀ i p1 p0, point[i + 1]? = some p1 → point[i]? = some p0 →
      ∃ c, 0 < c ∧ p1.sub p0 = d.scale c) :
    ∃ (U : List (Frame K)) (k : K), RMF.compute env point = some { point := point, U := U } ∧
      U.length = point.length ∧ 0 < k ∧ k * k * Vector3.dot d d = 1 ∧
      (Frame.fromT env (d.scale k)).t = d.scale k ∧
      ∀ (i : Nat) (p : Vector3 K), point[i]? = some p →
        U[i]? = some { Frame.fromT env (d.scale k) with center := p } := by
  obtain ⟨T0, F, U, hT0, hTl0, hF, hFl, hc, hUl, hUi⟩ := RMF.compute_spec env point hn
  obtain ⟨htan, ⟨t0, ht0, hfirst⟩, _⟩ := RMF.exact_unpack env point T0 hT0 hex
  have hp1 : point[0 + 1]? = some (point[1]) := List.getElem?_eq_getElem (by omega)
  have hp0 : point[0]? = some (point[0]) := List.getElem?_eq_getElem (by omega)
  obtain ⟨c0, hc0, hv0⟩ := hline 0 _ _ hp1 hp0
  have hte0 := htan 0 (by omega)
  unfold RMF.tangentExact at hte0
  rw [hp1, hp0] at hte0
  dsimp only at hte0
  rw [if_neg (by omega)] at hte0
  obtain ⟨hnv, hk, hkk⟩ := Env.normalized_multiple env d _ c0 (hpos _) hc0 hv0 hte0
  have hu : Vector3.dot (d.scale (c0 / env.norm ((point[1]).sub (point[0]))))
      (d.scale (c0 / env.norm ((point[1]).sub (point[0])))) = 1 := by
    rw [← hnv]
    exact Env.exactAt_unit env _ hte0
  generalize c0 / env.norm ((point[1]).sub (point[0])) = k at hnv hk hkk hu
  obtain ⟨T, hT, hTl, hTu⟩ := RMF.tangents_all env point hn (fun t => t = d.scale k) (by
    intro i p1 p0 hq1 hq0 hnd
    obtain ⟨c, hc, hv⟩ := hline i p1 p0 hq1 hq0
    have hi : i < point.length - 1 := by
      by_contra hcon
      rw [List.getElem?_eq_none (by omega)] at hq1
      cases hq1
    have hte := htan i hi
    unfold RMF.tangentExact at hte
    rw [hq1, hq0] at hte
    dsimp only at hte
    rw [if_neg hnd] at hte
    obtain ⟨hnv', hk', hkk'⟩ := Env.normalized_multiple env d _ c (hpos _) hc hv hte
    rw [hnv', unit_scale_unique _ _ _ hk' hk hkk' hkk])
  have hTT : T0 = T := by
    rw [hT] at hT0
    exact (Option.some.inj hT0).symm
  subst hTT
  have ht0u : t0 = d.scale k := hTu t0 (List.mem_of_mem_head? ht0)
  rw [ht0u] at hfirst
  have hline2 : ∀ i p1 p0, point[i + 1]? = some p1 → point[i]? = some p0 →
      ∃ m, m ≠ 0 ∧ p1.sub p0 = (d.scale k).scale m := by
    intro i p1 p0 hq1 hq0
    obtain ⟨c, hc, hv⟩ := hline i p1 p0 hq1 hq0
    refine ⟨c / k, (div_pos hc hk).ne', ?_⟩
    rw [hv, Vector3.ext_iff']
    simp only [Vector3.scale]
    have hk0 : k ≠ 0 := hk.ne'
    refine ⟨?_, ?_, ?_⟩ <;> field_simp <;> ring
  have hall := RMF.framesAfter_straight env point T0 (d.scale k) hpos hTl hTu hu hfirst hline2
    (point.length - 1) (by omega) F hF
  refine ⟨U, k, hc, hUl, hk, hkk,
    (Frame.fromT_unit env (d.scale k) hpos hfirst hu).1, ?_⟩
  intro i p hp
  have hi : i < point.length := by
    by_contra hcon
    rw [List.getElem?_eq_none (by omega)] at hp
    cases hp
  have h1 := hUi i (F[i]) p (List.getElem?_eq_getElem (by omega)) hp
  rw [h1, hall (F[i]) (List.getElem_mem _)]

/-! ### Operation kinds without an execute branch -/

theorem prepareMorphCurveSingle_active (env : Env K) (a b : Task K) (n : Node K)
    (edges : List (Link K)) (h : a.prepareMorphCurveSingle env n edges = some b) :
    b.active = a.active ∧ b.property.nodeID = a.property.nodeID := by
  unfold Task.prepareMorphCurveSingle at h
  repeat' first | (split at h) | (dsimp only at h; split at h)
  all_goals first
    | (simp at h; done)
    | (cases h; exact ⟨rfl, rfl⟩)

theorem prepareMorphCurveDouble_active (env : Env K) (a b : Task K) (n : Node K)
    (edges : List (Link K)) (h : a.prepareMorphCurveDouble env n edges = some b) :
    b.active = a.active ∧ b.property.nodeID = a.property.nodeID := by
  unfold Task.prepareMorphCurveDouble at h
  repeat' first | (split at h) | (dsimp only at h; split at h)
  all_goals first
    | (simp at h; done)
    | (cases h; exact ⟨rfl, rfl⟩)

/-- `prepareMorphCurve` writes artifacts only: the active graph is the one
before the call. -/
theorem prepareMorphCurve_active (env : Env K) (a b : Task K)
    (h : a.prepareMorphCurve env = some b) :
    b.active = a.active ∧ b.property.nodeID = a.property.nodeID := by
  unfold Task.prepareMorphCurve at h
  split at h
  next n hn =>
    dsimp only at h
    split at h
    next c hc =>
      have hac : c.active = a.active ∧ c.property.nodeID = a.property.nodeID := by
        split at hc
        · exact prepareMorphCurveSingle_active env a c n _ hc
        · cases hc; exact ⟨rfl, rfl⟩
      split at h
      · obtain ⟨h1, h2⟩ := prepareMorphCurveDouble_active env c b n _ h
        exact ⟨h1.trans hac.1, h2.trans hac.2⟩
      · cases h; exact hac
    next => simp at h
  next => simp at h

/-- The preparation switch for a split or a merge of a curve, and for a
morph, a split or a merge of a sheet, leaves the active graph alone. -/
theorem prepareSwitch_plain (env : Env K) (a b : Task K) (kind : NodeType)
    (h : a.prepareSwitch env kind = some b)
    (hk : (kind = NodeType.CURVE ∧ (a.type = TaskType.SPLIT ∨ a.type = TaskType.MERGE)) ∨
      (kind = NodeType.SHEET ∧
        (a.type = TaskType.MORPH ∨ a.type = TaskType.SPLIT ∨ a.type = TaskType.MERGE))) :
    b.active = a.active ∧ b.property.nodeID = a.property.nodeID := by
  unfold Task.prepareSwitch at h
  split at h
  · rename_i h1 h2; rcases hk with ⟨_, h3 | h3⟩ | ⟨h4, _⟩
    · rw [h2] at h3; cases h3
    · rw [h2] at h3; cases h3
    · cases h4
  · rename_i h1 h2; rcases hk with ⟨_, h3 | h3⟩ | ⟨h4, _⟩
    · rw [h2] at h3; cases h3
    · rw [h2] at h3; cases h3
    · cases h4
  · exact prepareMorphCurve_active env a b h
  · rename_i h1 h2; rcases hk with ⟨h4, _⟩ | ⟨_, h3 | h3 | h3⟩
    · cases h4
    · rw [h2] at h3; cases h3
    · rw [h2] at h3; cases h3
    · rw [h2] at h3; cases h3
  · rename_i h1 h2; rcases hk with ⟨h4, _⟩ | ⟨_, h3 | h3 | h3⟩
    · cases h4
    · rw [h2] at h3; cases h3
    · rw [h2] at h3; cases h3
    · rw [h2] at h3; cases h3
  · cases h; exact ⟨rfl, rfl⟩

/-- The execution switch for these kinds does nothing. -/
theorem executeSwitch_plain (env : Env K) (g : Task K) (t : K) (kind : NodeType)
    (hk : (kind = NodeType.CURVE ∧ (g.type = TaskType.SPLIT ∨ g.type = TaskType.MERGE)) ∨
      (kind = NodeType.SHEET ∧
        (g.type = TaskType.MORPH ∨ g.type = TaskType.SPLIT ∨ g.type = TaskType.MERGE))) :
    g.executeSwitch env t kind = some g := by
  unfold Task.executeSwitch
  rcases hk with ⟨h1, h2 | h2⟩ | ⟨h1, h2 | h2 | h2⟩ <;> rw [h1, h2]

/-- `prepare` for a kind without a branch of its own: the active graph is the
one before the call with the node marked ready. -/
theorem prepare_plain (env : Env K) (a p : Task K) (n : Node K) (hn : a.node = some n)
    (hk : (n.type = NodeType.CURVE ∧ (a.type = TaskType.SPLIT ∨ a.type = TaskType.MERGE)) ∨
      (n.type = NodeType.SHEET ∧
        (a.type = TaskType.MORPH ∨ a.type = TaskType.SPLIT ∨ a.type = TaskType.MERGE)))
    (h : a.prepare env = some p) :
    p.active = a.active.setNode { n with isReady := some true } ∧
    p.property.nodeID = a.property.nodeID ∧
    p.node = some { n with isReady := some true } := by
  have key : p.active = a.active.setNode { n with isReady := some true } ∧
      p.property.nodeID = a.property.nodeID := by
    unfold Task.prepare at h
    dsimp only at h
    split at h
    next n0 hn0 =>
      have e0 : n0 = n := by
        have h1 : a.node = some n0 := hn0
        rw [hn] at h1
        exact (Option.some.inj h1).symm
      subst e0
      split at h
      next c hc =>
        obtain ⟨hca, hcid⟩ := prepareSwitch_plain env _ c n0.type hc hk
        split at h
        next cur hcur =>
          have e1 : cur = n0 := by
            have h1 : c.active.getNode c.property.nodeID = some cur := hcur
            rw [hca, hcid] at h1
            have h2 : a.active.getNode a.property.nodeID = some n0 := hn
            rw [h2] at h1
            exact (Option.some.inj h1).symm
          subst e1
          cases h
          refine ⟨?_, hcid⟩
          show c.active.setNode _ = _
          rw [hca]
        next => simp at h
      next => simp at h
    next => simp at h
  refine ⟨key.1, key.2, ?_⟩
  unfold Task.node
  rw [key.1, key.2]
  have hid : a.property.nodeID = n.id := (Graph.getNode_id hn).symm
  rw [hid]
  exact Graph.getNode_setNode_self _ n _ (by rw [← hid]; exact hn) rfl

/-- The preparation of a morph, a split or a merge of a sheet completes. -/
theorem prepare_sheet_total (env : Env K) (a : Task K) (n : Node K) (hn : a.node = some n)
    (hk : n.type = NodeType.SHEET ∧
      (a.type = TaskType.MORPH ∨ a.type = TaskType.SPLIT ∨ a.type = TaskType.MERGE)) :
    ∃ p, a.prepare env = some p := by
  have hsw : ∀ x : Task K, x.type = a.type → x.prepareSwitch env n.type = some x := by
    intro x hx
    unfold Task.prepareSwitch
    rcases hk with ⟨h1, h2 | h2 | h2⟩ <;> rw [h1, hx, h2]
  unfold Task.prepare
  simp only [Task.node] at hn ⊢
  rw [hn]
  simp only [hsw]
  rw [hn]
  exact ⟨_, rfl⟩

/-- The state in which `execute` enters its geometry steps, for a kind without
a branch of its own: the edges of the active graph and the control points of
the node are the ones before the call. -/
theorem execute_entry_plain (env : Env K) (a p : Task K) (n : Node K) (hn : a.node = some n)
    (hk : (n.type = NodeType.CURVE ∧ (a.type = TaskType.SPLIT ∨ a.type = TaskType.MERGE)) ∨
      (n.type = NodeType.SHEET ∧
        (a.type = TaskType.MORPH ∨ a.type = TaskType.SPLIT ∨ a.type = TaskType.MERGE)))
    (hp : (if a.isReady then some a else a.prepare env) = some p) :
    p.active.edges = a.active.edges ∧ p.type = a.type ∧
    ∃ m, p.node = some m ∧ m.shape = n.shape ∧ m.mCtrlPoint = n.mCtrlPoint ∧
      m.mCtrlPoint2 = n.mCtrlPoint2 := by
  by_cases hr : a.isReady = true
  · simp only [hr, if_true, Option.some.injEq] at hp
    subst hp
    exact ⟨rfl, rfl, n, hn, rfl, rfl, rfl⟩
  · simp only [hr, Bool.false_eq_true, if_false] at hp
    obtain ⟨h1, _, h3⟩ := prepare_plain env a p n hn hk hp
    have hty : p.type = a.type := Task.Kept_type (a := a.armed) (prepare_spec env a p hp).1
    refine ⟨?_, hty, _, h3, rfl, rfl, rfl⟩
    rw [h1]
    rfl

/-! ### A grow that copies no edge -/

/-- Without a stored `pathA` the two-edge step of a grow returns before the
target edges are copied: the edges of the active graph are the ones before. -/
theorem executeMorphCurve_grow_nopath (env : Env K) (a b : Task K) (t : K)
    (hty : a.type = TaskType.GROW) (hpath : a.property.pathA = none)
    (h : a.executeMorphCurve env t = some b) : b.active.edges = a.active.edges := by
  unfold Task.executeMorphCurve at h
  split at h
  next n hn =>
    split at h
    next tn htn =>
      dsimp only at h
      split at h
      next c hc =>
        have hac : a.Moved c := by
          split at hc
          · exact morphSingleEdge_moved env a c t _ hc
          · cases hc; exact Task.Moved_refl a
        have hcp : c.property.pathA = a.property.pathA := by
          split at hc
          · exact morphSingleEdge_bag env a c t _ hc
          · cases hc; rfl
        have hcty : c.type = TaskType.GROW := (Task.Kept_type hac.1).trans hty
        have hnone : c.property.pathA.isNone = true := by
          rw [hcp, hpath]
          rfl
        simp only [hcty, or_true, if_true, hnone] at h
        cases h
        exact hac.2
      next => simp at h
    next => simp at h
  next => simp at h

/-- The grow of a cut node runs the constrained motion only: the edges of the
active graph are the ones before. -/
theorem executeGrowCurve_cut (env : Env K) (a b : Task K) (t : K)
    (hcut : a.property.isCutNode.isSome = true)
    (h : a.executeGrowCurve env t = some b) : b.active.edges = a.active.edges := by
  unfold Task.executeGrowCurve at h
  split at h
  next n hn =>
    split at h
    next tn htn =>
      simp only [hcut, if_true] at h
      exact (executeCurveConstrained_moved a b t h).2
    next => simp at h
  next => simp at h

/-- A prepared grow on a curve that is a cut node, or that has two target
edges and no stored `pathA`, completes `execute` with the edges of the active
graph it had. -/
theorem execute_grow_no_copy (env : Env K) (task b : Task K) (n tn : Node K) (t : K)
    (hty : task.type = TaskType.GROW) (hnd : task.isDone = false) (ht : 0 ≤ t)
    (hr : task.isReady = true)
    (hn : task.node = some n) (htn : task.targetNode = some tn)
    (hcurve : n.type = NodeType.CURVE)
    (hc : task.property.isCutNode.isSome = true ∨
      (task.property.isCutNode = none ∧ task.property.pathA = none ∧
        (task.target.getEdges tn.id).length = 2))
    (h : task.execute env t = some b) : b.active.edges = task.active.edges := by
  have hact : task.isActive t = true := by simp [Task.isActive, hnd, ht]
  obtain ⟨p, g, n', d, hp, hg, hgn, hd, hb⟩ := execute_steps env task b t hact h
  obtain ⟨hgty, hgid, hgp, n0, hn0, hs0⟩ := execute_stage_input env task p g n' t hp hg hgn
  obtain ⟨hA, hT⟩ := execute_stage_graphs env task p g t hp hg
  rw [hn] at hn0
  cases hn0
  have hgty' : g.type = TaskType.GROW := hgty.trans hty
  obtain ⟨tng, htng, hstng⟩ := Task.targetNode_transfer hgid hA.2 hT.2 htn
  have hidg : tng.id = tn.id := Node.shape_id hstng
  have hge : g.target.getEdges tng.id = task.target.getEdges tn.id := by
    rw [Graph.sameShape_getEdges hT, hidg]
  have hk : n'.type = NodeType.CURVE := by rw [← Node.shape_type hs0]; exact hcurve
  rw [executeSwitch_curve_grow env g t _ hk hgty'] at hd
  simp only [hr, if_true, Option.some.injEq] at hp
  subst hp
  have hde : d.active.edges = g.active.edges := by
    rcases hc with hc | ⟨hc1, hc2, hc3⟩
    · exact executeGrowCurve_cut env g d t (by rw [hgp]; exact hc) hd
    · have hm := executeGrowCurve_two env g d tng t htng (by rw [hgp]; exact hc1)
        (by rw [hge]; exact hc3) hd
      exact executeMorphCurve_grow_nopath env g d t hgty' (by rw [hgp]; exact hc2) hm
  have hbe : b.active.edges = d.active.edges := by
    rw [hb]
    by_cases h1 : t = 1
    · simp only [h1, if_true]
    · simp only [h1, if_false]
  rw [hbe, hde]
  exact hA.1

/-! ### Welding a path, whatever the order of the set -/

theorem Env.ascendingSets_enumerates (env : Env K) (hq : env.ascendingSets) :
    env.enumeratesSets := fun xs => ⟨(hq xs).1.nodup, (hq xs).2⟩

/-- The loop of `weldPath` completes, and the slot `xrefs[i]` holds the last
entry of the input with the cross-reference of the sample `i`. -/
theorem weld_moves_last {α : Type} (pos : α → Vector3 K) (p : List α) (x : List Nat)
    (hW : WeldSpec (p.map pos) x) :
    ∃ M, (List.range x.length).foldlM (weldStep x) p = some M ∧ M.length = p.length ∧
      ∀ i, i < p.length → ∃ L, L < p.length ∧ i ≤ L ∧ x.getD L 0 = x.getD i 0 ∧
        (∀ j, L < j → j < p.length → x.getD j 0 ≠ x.getD i 0) ∧
        M[x.getD i 0]? = p[L]? := by
  obtain ⟨hxl, hle, _, _⟩ := hW
  rw [List.length_map] at hxl hle
  obtain ⟨M, hM, hl, _, hlast⟩ := foldlM_range_inv (weldStep x)
    (fun k path => path.length = p.length ∧ (∀ m, k ≤ m → path[m]? = p[m]?) ∧
      ∀ i, i < k → ∃ L, L < k ∧ i ≤ L ∧ x.getD L 0 = x.getD i 0 ∧
        (∀ j, L < j → j < k → x.getD j 0 ≠ x.getD i 0) ∧ path[x.getD i 0]? = p[L]?)
    x.length p ⟨rfl, fun _ _ => rfl, fun i hi => absurd hi (by omega)⟩
    (by
      rintro k path hk ⟨hl, hhigh, hlow⟩
      have hkp : k < p.length := by omega
      have hxk : x[k]? = some (x.getD k 0) := by
        rw [List.getElem?_eq_getElem hk, List.getD_eq_getElem _ _ hk]
      have hpk : path[k]? = some (p[k]) := by
        rw [hhigh k le_rfl, List.getElem?_eq_getElem hkp]
      have hlt : x.getD k 0 < path.length := by
        have := hle k hkp
        omega
      unfold weldStep
      rw [hxk, hpk]
      simp only [Option.bind_eq_bind, Option.some_bind, if_pos hlt]
      refine ⟨_, rfl, by simp [hl], ?_, ?_⟩
      · intro m hm
        rw [List.getElem?_set_ne (by have := hle k hkp; omega)]
        exact hhigh m (by omega)
      · intro i hi
        by_cases hxi : x.getD i 0 = x.getD k 0
        · refine ⟨k, by omega, by omega, hxi.symm, fun j h1 h2 => absurd h2 (by omega), ?_⟩
          rw [hxi, List.getElem?_set_self hlt, List.getElem?_eq_getElem hkp]
        · have hik : i < k := by
            rcases Nat.lt_succ_iff_lt_or_eq.mp hi with h1 | h1
            · exact h1
            · exact absurd (by rw [h1]) hxi
          obtain ⟨L, hL1, hL2, hL3, hL4, hL5⟩ := hlow i hik
          refine ⟨L, by omega, hL2, hL3, ?_, ?_⟩
          · intro j h1 h2
            rcases Nat.lt_succ_iff_lt_or_eq.mp h2 with h3 | h3
            · exact hL4 j h1 h3
            · rw [h3]; exact fun h => hxi h.symm
          · rw [List.getElem?_set_ne (fun h => hxi h.symm)]
            exact hL5)
  refine ⟨M, hM, hl, fun i hi => ?_⟩
  obtain ⟨L, hL1, hL2, hL3, hL4, hL5⟩ := hlast i (by omega)
  exact ⟨L, by omega, hL2, hL3, fun j h1 h2 => hL4 j h1 (by omega), hL5⟩

/-- `weldPath` with a weld as specified and a set whose indices are each
visited once: the run completes, and the output entry at place `a` is the last
entry of the input whose cross-reference is the index visited at place `a`. -/
theorem weldPath_slots_any (env : Env K) (active : Graph K) (hw : env.welds)
    (he : env.enumeratesSets) (p : List (PathPointPair K)) :
    ∃ out : List (PathPointPair K), weldPath env active p = some out ∧
      out.length
        = (env.qsetOrder (env.weld (p.map (env.pathPosition active))).eraseDups).length ∧
      ∀ (a g : Nat),
        (env.qsetOrder (env.weld (p.map (env.pathPosition active))).eraseDups)[a]? = some g →
        ∃ (L : Nat) (e : PathPointPair K), p[L]? = some e ∧ out[a]? = some e ∧
          (env.weld (p.map (env.pathPosition active))).getD L 0 = g ∧
          ∀ j, L < j → j < p.length →
            (env.weld (p.map (env.pathPosition active))).getD j 0 ≠ g := by
  have hW := hw (p.map (env.pathPosition active))
  obtain ⟨M, hM, hMl, hMlast⟩ := weld_moves_last (env.pathPosition active) p _ hW
  obtain ⟨hxl, hle, _, _⟩ := hW
  rw [List.length_map] at hxl hle
  obtain ⟨_, hmem⟩ := he (env.weld (p.map (env.pathPosition active))).eraseDups
  have hmem' : ∀ g, g ∈ env.qsetOrder (env.weld (p.map (env.pathPosition active))).eraseDups
      ↔ g ∈ env.weld (p.map (env.pathPosition active)) := by
    intro g
    rw [hmem, mem_eraseDups]
  have hin : ∀ g ∈ env.qsetOrder (env.weld (p.map (env.pathPosition active))).eraseDups,
      g < M.length := by
    intro g hg
    obtain ⟨i, hi, rfl⟩ := exists_getD_of_mem _ g ((hmem' g).mp hg)
    have := hle i (by omega)
    omega
  obtain ⟨out, hout, hol, hoi⟩ := mapM_getElem?_list M _ hin
  refine ⟨out, ?_, hol, ?_⟩
  · rw [weldPath_eq, hM]
    exact hout
  · intro a g ha
    obtain ⟨i, hi, hgi⟩ := exists_getD_of_mem _ g ((hmem' g).mp (List.getElem?_mem ha))
    obtain ⟨L, hL1, _, hL3, hL4, hL5⟩ := hMlast i (by omega)
    refine ⟨L, p[L], List.getElem?_eq_getElem hL1, ?_, by rw [hL3, hgi], ?_⟩
    · rw [hoi a g ha, ← hgi, hL5, List.getElem?_eq_getElem hL1]
    · intro j h1 h2
      rw [← hgi]
      exact hL4 j h1 h2

/-- What `weldPath` returns, with a weld as specified and a set whose indices
are each visited once: entries of the input, at pairwise different positions,
one for every position of the input, each the last entry of the input at its
position. -/
theorem weldPath_any (env : Env K) (active : Graph K) (hw : env.welds)
    (he : env.enumeratesSets) (p : List (PathPointPair K)) :
    ∃ out, weldPath env active p = some out ∧
      (∀ e ∈ out, e ∈ p) ∧
      (out.map (env.pathPosition active)).Nodup ∧
      (∀ e ∈ p, env.pathPosition active e ∈ out.map (env.pathPosition active)) ∧
      (∀ e ∈ out, ∃ i, p[i]? = some e ∧ ∀ (j : Nat) (ej : PathPointPair K), i < j →
        p[j]? = some ej → env.pathPosition active ej ≠ env.pathPosition active e) := by
  obtain ⟨out, hout, hol, hslot⟩ := weldPath_slots_any env active hw he p
  obtain ⟨hxl, hle, hsame, _⟩ := hw (p.map (env.pathPosition active))
  rw [List.length_map] at hxl hle hsame
  obtain ⟨hnd, hmem⟩ := he (env.weld (p.map (env.pathPosition active))).eraseDups
  have hpts : ∀ (i : Nat) (ei : PathPointPair K), p[i]? = some ei →
      (p.map (env.pathPosition active))[i]? = some (env.pathPosition active ei) := by
    intro i ei h
    rw [List.getElem?_map, h]
    rfl
  have hlt : ∀ (i : Nat) (ei : PathPointPair K), p[i]? = some ei → i < p.length := by
    intro i ei h
    exact (List.getElem?_eq_some.mp h).1
  -- the slot behind every place of the output
  have hplace : ∀ (a : Nat) (e : PathPointPair K), out[a]? = some e →
      ∃ (g L : Nat),
        (env.qsetOrder (env.weld (p.map (env.pathPosition active))).eraseDups)[a]? = some g ∧
        p[L]? = some e ∧ (env.weld (p.map (env.pathPosition active))).getD L 0 = g ∧
        ∀ j, L < j → j < p.length →
          (env.weld (p.map (env.pathPosition active))).getD j 0 ≠ g := by
    intro a e ha
    have hlt2 : a <
        (env.qsetOrder (env.weld (p.map (env.pathPosition active))).eraseDups).length := by
      obtain ⟨h, _⟩ := List.getElem?_eq_some.mp ha
      omega
    obtain ⟨L, e', h1, h2, h3, h4⟩ := hslot a _ (List.getElem?_eq_getElem hlt2)
    rw [ha] at h2
    cases h2
    exact ⟨_, L, List.getElem?_eq_getElem hlt2, h1, h3, h4⟩
  refine ⟨out, hout, ?_, ?_, ?_, ?_⟩
  · intro e he'
    obtain ⟨a, ha⟩ := List.mem_iff_getElem?.mp he'
    obtain ⟨_, L, _, hL, _, _⟩ := hplace a e ha
    exact List.getElem?_mem hL
  · rw [List.nodup_iff_getElem?_ne_getElem?]
    intro a b hab hb heq
    rw [List.length_map] at hb
    have ha : a < out.length := by omega
    rw [List.getElem?_map, List.getElem?_map, List.getElem?_eq_getElem ha,
      List.getElem?_eq_getElem hb] at heq
    have heq' : env.pathPosition active (out[a]) = env.pathPosition active (out[b]) :=
      Option.some.inj heq
    obtain ⟨ga, La, hga, hpa, hxa, _⟩ := hplace a _ (List.getElem?_eq_getElem ha)
    obtain ⟨gb, Lb, hgb, hpb, hxb, _⟩ := hplace b _ (List.getElem?_eq_getElem hb)
    have h1 : (p.map (env.pathPosition active))[La]? = (p.map (env.pathPosition active))[Lb]? := by
      rw [hpts La _ hpa, hpts Lb _ hpb, heq']
    have h2 := (hsame La Lb (hlt La _ hpa) (hlt Lb _ hpb)).mpr h1
    have h3 : ga = gb := by rw [← hxa, ← hxb, h2]
    rw [h3] at hga
    exact (List.nodup_iff_getElem?_ne_getElem?.mp hnd) a b hab
      (List.getElem?_eq_some.mp hgb).1 (hga.trans hgb.symm)
  · intro e he'
    obtain ⟨i, hi⟩ := List.mem_iff_getElem?.mp he'
    have hi' := hlt i e hi
    have hgm := (hmem _).mpr ((mem_eraseDups _ _).mpr
      (mem_getD_of_lt (env.weld (p.map (env.pathPosition active))) i (by omega)))
    obtain ⟨a, ha⟩ := List.mem_iff_getElem?.mp hgm
    obtain ⟨L, e', h1, h2, h3, _⟩ := hslot a _ ha
    have h4 := (hsame L i (hlt L e' h1) hi').mp h3
    rw [hpts L e' h1, hpts i e hi] at h4
    rw [← Option.some.inj h4]
    exact List.mem_map.mpr ⟨e', List.getElem?_mem h2, rfl⟩
  · intro e he'
    obtain ⟨a, ha⟩ := List.mem_iff_getElem?.mp he'
    obtain ⟨g, L, _, hL, hxL, hlast⟩ := hplace a e ha
    refine ⟨L, hL, fun j ej hj hpj heq => ?_⟩
    have hj' := hlt j ej hpj
    apply hlast j hj hj'
    rw [← hxL]
    apply (hsame j L hj' (hlt L e hL)).mpr
    rw [hpts j ej hpj, hpts L e hL, heq]

theorem demoEnvD_welds : demoEnvD.welds := fun pts => weldXrefs_spec pts

theorem demoEnvD_enumeratesSets : demoEnvD.enumeratesSets := by
  intro xs
  have hp := List.perm_insertionSort (· ≤ ·) xs.dedup
  refine ⟨List.nodup_reverse.mpr (hp.nodup_iff.mpr (List.nodup_dedup xs)), fun a => ?_⟩
  show a ∈ (List.insertionSort (· ≤ ·) xs.dedup).reverse ↔ a ∈ xs
  rw [List.mem_reverse, hp.mem_iff, List.mem_dedup]

/-! ### The claims -/

/-- C1: for a task of length at least 1 and every tick `g`, `localT g` is `-1`
when `g < start` and otherwise the smaller of `1` and the exact quotient
`(g - start) / length`. -/
theorem localT_eq (task : Task K) (g : Int) (_hlen : 1 ≤ task.length) :
    (g < task.start → task.localT g = -1) ∧
    (task.start ≤ g →
      task.localT g = min 1 (((g : K) - (task.start : K)) / (task.length : K))) :=
  ⟨localT_before task g, localT_from task g⟩

/-- C1, on the scene: with the window `(0, 80)`, tick `-5` is before the start
and tick `20` is a quarter of the way. -/
theorem localT_eq_witness :
    (1 : Int) ≤ (demoTask TaskType.SHRINK).length ∧
    (demoTask TaskType.SHRINK).localT (-5) = -1 ∧
    (demoTask TaskType.SHRINK).localT 20
      = min 1 ((((20 : Int) : ℚ) - (((demoTask TaskType.SHRINK).start : Int) : ℚ))
          / (((demoTask TaskType.SHRINK).length : Int) : ℚ)) :=
  ⟨by decide,
   (localT_eq (demoTask TaskType.SHRINK) (-5) (by decide)).1 (by decide),
   (localT_eq (demoTask TaskType.SHRINK) 20 (by decide)).2 (by decide)⟩

/-- C2: for a window `(start, length)` with `length ≥ 1`, `localT` is `-1`
below `start`, is `0` at `start` and `1` at `start + length`, is strictly
increasing on the ticks of `[start, start + length]`, and is `1` from
`start + length` on. -/
theorem localT_monotone (task : Task K) (hlen : 1 ≤ task.length) :
    (∀ g, g < task.start → task.localT g = -1) ∧
    task.localT task.start = 0 ∧
    task.localT (task.start + task.length) = 1 ∧
    (∀ g1 g2, task.start ≤ g1 → g1 < g2 → g2 ≤ task.start + task.length →
      task.localT g1 < task.localT g2) ∧
    (∀ g, task.start + task.length ≤ g → task.localT g = 1) := by
  have hpos : (0 : K) < (task.length : K) := by exact_mod_cast (by omega : (0 : Int) < task.length)
  refine ⟨fun g hg => localT_before task g hg, ?_, ?_, ?_, ?_⟩
  · rw [localT_inside task task.start hlen le_rfl (by omega)]
    simp
  · rw [localT_inside task _ hlen (by omega) le_rfl]
    push_cast
    field_simp
  · intro g1 g2 h1 h12 h2
    rw [localT_inside task g1 hlen h1 (by omega), localT_inside task g2 hlen (by omega) h2]
    have : (g1 : K) < (g2 : K) := by exact_mod_cast h12
    exact div_lt_div_of_pos_right (by linarith) hpos
  · intro g hg
    rw [localT_from task g (by omega)]
    apply min_eq_left
    rw [le_div_iff₀ hpos]
    have : (task.start : K) + (task.length : K) ≤ (g : K) := by exact_mod_cast hg
    linarith

/-- C2, on the scene: the window `(0, 80)` of the shrink task. -/
theorem localT_monotone_witness :
    (1 : Int) ≤ (demoTask TaskType.SHRINK).length ∧
    (demoTask TaskType.SHRINK).localT (demoTask TaskType.SHRINK).start = 0 ∧
    (demoTask TaskType.SHRINK).localT 20 < (demoTask TaskType.SHRINK).localT 21 :=
  ⟨by decide,
   (localT_monotone (demoTask TaskType.SHRINK) (by decide)).2.1,
   (localT_monotone (demoTask TaskType.SHRINK) (by decide)).2.2.2.1 20 21
     (by decide) (by decide) (by decide)⟩

/-- C5: `isActive t` holds exactly when `t ≥ 0` and the task is not done, and
`execute t` on a task that is not active returns the task as it was: every
field, the artifact bag and both graphs are untouched and `prepare` is not
run. -/
theorem execute_inactive (env : Env K) (task : Task K) (t : K) :
    (task.isActive t = true ↔ (0 ≤ t ∧ task.isDone = false)) ∧
    (task.isActive t = false → task.execute env t = some task) := by
  constructor
  · simp [Task.isActive]
  · intro h
    simp [Task.execute, h]

/-- C6: after `reset` the task is not ready, `currentTime` is `start`, and the
window `(start, length)` is the one before the call. -/
theorem reset_spec (task : Task K) :
    task.reset.isReady = false ∧ task.reset.currentTime = task.start ∧
    task.reset.start = task.start ∧ task.reset.length = task.length := by
  simp [Task.reset]

/-- C3: for a task whose bag holds one original control point and one delta
per control point of its node, the fold step completes for every `t` and
leaves control point `u` at `orgCtrlPoints[u] + deltas[u] * t`; and when the
task is a prepared single-neighbor curve task (a shrink with one edge at the
node, or a grow with one edge at the target node, no cut mark), `execute t` on
the active task completes with the node at exactly these control points. -/
theorem fold_interpolates (env : Env K) (task : Task K) (n : Node K)
    (cpts deltas : List (Vector3 K)) (t : K)
    (hn : task.node = some n)
    (hc : task.property.orgCtrlPoints = some (CtrlVariant.array1D cpts))
    (hd : task.property.deltas = some (CtrlVariant.array1D deltas))
    (hlc : cpts.length = n.mCtrlPoint.length) (hld : deltas.length = n.mCtrlPoint.length) :
    (∃ b n', task.foldCurve t = some b ∧ b.node = some n' ∧
      n'.mCtrlPoint = List.zipWith (fun c d => c.add (d.scale t)) cpts deltas) ∧
    (n.type = NodeType.CURVE → task.isReady = true → task.property.isCutNode = none →
      task.isActive t = true →
      ((task.type = TaskType.SHRINK ∧ (task.active.getEdges n.id).length = 1) ∨
       (task.type = TaskType.GROW ∧ ∃ tn, task.targetNode = some tn ∧
          (task.target.getEdges tn.id).length = 1)) →
      ∃ b n', task.execute env t = some b ∧ b.node = some n' ∧
        n'.mCtrlPoint = List.zipWith (fun c d => c.add (d.scale t)) cpts deltas) := by
  constructor
  · exact ⟨_, _, foldCurve_spec task n cpts deltas t hn hc hd hlc hld,
      Task.node_setNode task n _ hn rfl, rfl⟩
  · intro hcurve hready hcut hact hsingle
    obtain ⟨g, n2, hg, hgn, hs, h1, _, hp, htg, hty, _, hedges, hm, htn⟩ :=
      geometryMorph_ready env task n t hn
    have hc' : g.property.orgCtrlPoints = some (CtrlVariant.array1D cpts) := by rw [hp]; exact hc
    have hd' : g.property.deltas = some (CtrlVariant.array1D deltas) := by rw [hp]; exact hd
    have hcut' : g.property.isCutNode = none := by rw [hp]; exact hcut
    have hf := foldCurve_spec g n2 cpts deltas t hgn hc' hd' (by rw [h1]; exact hlc)
      (by rw [h1]; exact hld)
    have hcn := Task.node_setNode g n2
      { n2 with mCtrlPoint := List.zipWith (fun c d => c.add (d.scale t)) cpts deltas } hgn rfl
    have hkind : n2.type = NodeType.CURVE := by rw [Node.shape_type hs]; exact hcurve
    have hp0 : (if task.isReady then some task else task.prepare env) = some task := by
      simp [hready]
    rcases hsingle with ⟨hty1, hlen⟩ | ⟨hty1, tn, htn1, hlen⟩
    · have hlen' : (g.active.getEdges n2.id).length = 1 := by
        unfold Graph.getEdges
        rw [hedges, Node.shape_id hs]
        exact hlen
      obtain ⟨d, n'', hd1, hdn, hpts⟩ :=
        executeShrinkCurve_single env g _ n2 _ t hgn hcut' hlen' hf hcn
      have hsw : g.executeSwitch env t n2.type = some d := by
        rw [executeSwitch_curve_shrink env g t _ hkind (hty.trans hty1)]; exact hd1
      refine ⟨_, n'', execute_of_steps env task task g d n2 t hact hp0 hg hgn hsw, ?_, hpts⟩
      rw [Task.node_done]; exact hdn
    · have hlen' : (g.target.getEdges tn.id).length = 1 := by rw [htg]; exact hlen
      have hd1 := executeGrowCurve_single env g _ n2 tn t hgn (htn.trans htn1) hcut' hlen' hf
      rw [← executeSwitch_curve_grow env g t n2.type hkind (hty.trans hty1)] at hd1
      refine ⟨_, { n2 with
          mCtrlPoint := List.zipWith (fun c d => c.add (d.scale t)) cpts deltas },
        execute_of_steps env task task g _ n2 t hact hp0 hg hgn hd1, ?_, rfl⟩
      rw [Task.node_done]; exact hcn

/-- C3, on the scenario of the specification: original points
`(0,0,0), (1,0,0), (2,0,0)`, deltas `(0,1,0)`, and `execute (1/2)` leaves the
node at `(0,1/2,0), (1,1/2,0), (2,1/2,0)`. -/
theorem fold_interpolates_witness :
    ∃ b n', (demoTask TaskType.SHRINK).execute demoEnv (1 / 2) = some b ∧ b.node = some n' ∧
      n'.mCtrlPoint = [⟨0, 1 / 2, 0⟩, ⟨1, 1 / 2, 0⟩, ⟨2, 1 / 2, 0⟩] := by
  obtain ⟨b, n', hb, hn', hpts⟩ :=
    (fold_interpolates demoEnv (demoTask TaskType.SHRINK)
      (demoNode "c" NodeType.CURVE demoPoints "c") demoPoints demoDeltas (1 / 2)
      (by decide!) rfl rfl rfl rfl).2 rfl rfl rfl (by decide!) (Or.inl ⟨rfl, by decide!⟩)
  refine ⟨b, n', hb, hn', ?_⟩
  rw [hpts]
  decide!

/-- C4: for a task that is not done and every `t ≥ 0` (also `t > 1`), a
completed `execute t` leaves `isDone` true exactly when `t = 1`; and `prepare`,
`reset`, `setLength` and `setStart` leave `isDone` false (`localT` computes a
value and writes nothing). -/
theorem isDone_iff_one (env : Env K) (a : Task K) (t : K)
    (hnd : a.isDone = false) (ht : 0 ≤ t) :
    (∀ b, a.execute env t = some b → (b.isDone = true ↔ t = 1)) ∧
    (∀ p, a.prepare env = some p → p.isDone = false) ∧
    a.reset.isDone = false ∧
    (∀ k, (a.setLength k).isDone = false) ∧
    (∀ k, (a.setStart k).isDone = false) := by
  have hact : a.isActive t = true := by simp [Task.isActive, hnd, ht]
  refine ⟨fun b hb => (execute_control env a b t hact hb).2.2.2.2.2.1, ?_, ?_, ?_, ?_⟩
  · intro p hp
    have h := (prepare_spec env a p hp).1.1
    simp only [Task.control, Task.armed, Prod.mk.injEq] at h
    exact h.2.2.2.2.2.2.1
  · simpa [Task.reset] using hnd
  · intro k
    simpa [Task.setLength] using hnd
  · intro k
    unfold Task.setStart Task.setX Task.itemChange
    dsimp only
    split <;> simpa using hnd

/-- C4, on the scene: the shrink task completes at `t = 1`, `t = 1/2` and
`t = 2`, and is done only after `t = 1`. -/
theorem isDone_iff_one_witness :
    (∃ b, (demoTask TaskType.SHRINK).execute demoEnv 1 = some b ∧ b.isDone = true) ∧
    (∃ b, (demoTask TaskType.SHRINK).execute demoEnv (1 / 2) = some b ∧ b.isDone = false) ∧
    (∃ b, (demoTask TaskType.SHRINK).execute demoEnv 2 = some b ∧ b.isDone = false) := by
  have h1 : ((demoTask TaskType.SHRINK).execute demoEnv 1).isSome = true := by decide!
  have h2 : ((demoTask TaskType.SHRINK).execute demoEnv (1 / 2)).isSome = true := by decide!
  have h3 : ((demoTask TaskType.SHRINK).execute demoEnv 2).isSome = true := by decide!
  obtain ⟨b1, hb1⟩ := Option.isSome_iff_exists.mp h1
  obtain ⟨b2, hb2⟩ := Option.isSome_iff_exists.mp h2
  obtain ⟨b3, hb3⟩ := Option.isSome_iff_exists.mp h3
  refine ⟨⟨b1, hb1, ?_⟩, ⟨b2, hb2, ?_⟩, ⟨b3, hb3, ?_⟩⟩
  · exact ((isDone_iff_one demoEnv (demoTask TaskType.SHRINK) 1 rfl (by norm_num)).1 b1 hb1).2 rfl
  · have h := (isDone_iff_one demoEnv (demoTask TaskType.SHRINK) (1 / 2) rfl (by norm_num)).1 b2 hb2
    cases hd : b2.isDone with
    | false => rfl
    | true => exact absurd (h.1 hd) (by norm_num)
  · have h := (isDone_iff_one demoEnv (demoTask TaskType.SHRINK) 2 rfl (by norm_num)).1 b3 hb3
    cases hd : b3.isDone with
    | false => rfl
    | true => exact absurd (h.1 hd) (by norm_num)

/-- C7, refuted as stated: the shrink task of the scene run to completion is
done; after `reset` it is still done, so it is not active at `t = 1/2` and
`execute (1/2)` returns it untouched, not prepared again. -/
theorem reset_keeps_done_counterexample :
    ∃ b, (demoTask TaskType.SHRINK).execute demoEnv 1 = some b ∧ b.isDone = true ∧
      b.reset.isDone = true ∧ b.reset.isActive (1 / 2) = false ∧
      b.reset.execute demoEnv (1 / 2) = some b.reset ∧ b.reset.isReady = false := by
  have h1 : ((demoTask TaskType.SHRINK).execute demoEnv 1).isSome = true := by decide!
  obtain ⟨b, hb⟩ := Option.isSome_iff_exists.mp h1
  have hd : b.isDone = true :=
    ((execute_control demoEnv _ b 1 (by decide!) hb).2.2.2.2.2.1).2 rfl
  have hr : b.reset.isDone = true := by simpa [Task.reset] using hd
  have ha : b.reset.isActive (1 / 2) = false := by simp [Task.isActive, hr]
  refine ⟨b, hb, hd, hr, ha, ?_, by simp [Task.reset]⟩
  unfold Task.execute
  simp only [ha, Bool.not_false, if_true]

/-- C7, amended: `reset` sets `isReady` to false and `currentTime` to `start`
and leaves `isDone` and the window as they were. For a task that is not done
this is the lifecycle state of a never-run task: it is active for every
`t ≥ 0`, and a following `execute t` that completes has prepared the task again
(`isReady` true, window start read from the item) and advanced `currentTime`
to the truncation of `start + t * length`. For a done task `isDone` stays true,
the task is active for no `t`, and `execute t` returns it untouched. -/
theorem reset_rewinds (env : Env K) (a : Task K) (t : K) :
    a.reset.isReady = false ∧ a.reset.currentTime = a.start ∧ a.reset.isDone = a.isDone ∧
    a.reset.start = a.start ∧ a.reset.length = a.length ∧
    (a.isDone = false → 0 ≤ t →
      a.reset.isActive t = true ∧
      ∀ b, a.reset.execute env t = some b →
        b.isReady = true ∧ b.start = toInt a.x ∧ b.length = a.length ∧
        b.currentTime = toInt ((b.start : K) + t * (b.length : K))) ∧
    (a.isDone = true →
      a.reset.isActive t = false ∧ a.reset.execute env t = some a.reset) := by
  refine ⟨rfl, rfl, rfl, rfl, rfl, ?_, ?_⟩
  · intro hnd ht
    have hact : a.reset.isActive t = true := by simp [Task.isActive, Task.reset, hnd, ht]
    refine ⟨hact, fun b hb => ?_⟩
    have h := execute_control env a.reset b t hact hb
    refine ⟨h.2.2.2.2.1, ?_, h.2.1, h.2.2.2.1⟩
    have := h.2.2.1
    simpa [Task.reset] using this
  · intro hd
    have ha : a.reset.isActive t = false := by simp [Task.isActive, Task.reset, hd]
    exact ⟨ha, by simp [Task.execute, ha]⟩

/-- C7 amended, on the scene: the prepared shrink task, reset before it ever
completed, is prepared again by `execute (1/2)` and stands at tick `40`. -/
theorem reset_rewinds_witness :
    ∃ b, (demoTask TaskType.SHRINK).reset.execute demoEnv (1 / 2) = some b ∧
      b.isReady = true ∧ b.currentTime = 40 := by
  have h1 : ((demoTask TaskType.SHRINK).reset.execute demoEnv (1 / 2)).isSome = true := by
    decide!
  obtain ⟨b, hb⟩ := Option.isSome_iff_exists.mp h1
  have h := ((reset_rewinds demoEnv (demoTask TaskType.SHRINK) (1 / 2)).2.2.2.2.2.1
    rfl (by norm_num)).2 b hb
  refine ⟨b, hb, h.1, ?_⟩
  rw [h.2.2.2, h.2.1, h.2.2.1]
  decide!

/-- C10, refuted as stated: the prepared two-edge shrink task of the scene has
no stored path; `execute 1` completes, but the task is done afterwards and the
two edges of its node are gone. -/
theorem missing_path_counterexample :
    (demoTask2 TaskType.SHRINK).property.pathA = none ∧
    ((demoTask2 TaskType.SHRINK).active.getEdges "c").length = 2 ∧
    ∃ b, (demoTask2 TaskType.SHRINK).execute demoEnv 1 = some b ∧ b.isDone = true ∧
      b.active.edges = [] := by
  refine ⟨rfl, by decide!, ?_⟩
  have h1 : ((demoTask2 TaskType.SHRINK).execute demoEnv 1).isSome = true := by decide!
  obtain ⟨b, hb⟩ := Option.isSome_iff_exists.mp h1
  refine ⟨b, hb, ?_, ?_⟩
  · exact ((execute_control demoEnv _ b 1 (by decide!) hb).2.2.2.2.2.1).2 rfl
  · have h2 : (((demoTask2 TaskType.SHRINK).execute demoEnv 1).map
        (fun b => b.active.edges)) = some [] := by decide!
    rw [hb] at h2
    simpa using h2

/-- C10, amended: for a prepared two-edge curve task (two edges at the node for
a shrink or a morph, two edges at the target node for a grow whose node does
not have exactly one edge yet) whose node and target node exist, that carries
no cut mark and no stored `pathA`, `execute t` completes for every `t ≥ 0` and
leaves the control points of the node unchanged; the task is done afterwards
exactly when `t = 1`; and the edges of the active graph are unchanged when
`t ≠ 1` or the task is not a shrink. -/
theorem missing_path_noop (env : Env K) (task : Task K) (n tn : Node K) (t : K)
    (hn : task.node = some n) (hcurve : n.type = NodeType.CURVE)
    (htn : task.targetNode = some tn)
    (hready : task.isReady = true) (hnd : task.isDone = false) (ht : 0 ≤ t)
    (hcut : task.property.isCutNode = none) (hpath : task.property.pathA = none)
    (htwo : ((task.type = TaskType.SHRINK ∨ task.type = TaskType.MORPH) ∧
        (task.active.getEdges n.id).length = 2) ∨
      (task.type = TaskType.GROW ∧ (task.target.getEdges tn.id).length = 2 ∧
        (task.active.getEdges n.id).length ≠ 1)) :
    ∃ b n', task.execute env t = some b ∧ b.node = some n' ∧
      n'.mCtrlPoint = n.mCtrlPoint ∧ (b.isDone = true ↔ t = 1) ∧
      ((t ≠ 1 ∨ task.type ≠ TaskType.SHRINK) → b.active.edges = task.active.edges) := by
  have hact : task.isActive t = true := by simp [Task.isActive, hnd, ht]
  obtain ⟨g, n2, hg, hgn, hs, h1, _, hp, htg, hty, _, hedges, hm, htn'⟩ :=
    geometryMorph_ready env task n t hn
  have hcut' : g.property.isCutNode = none := by rw [hp]; exact hcut
  have hpath' : g.property.pathA = none := by rw [hp]; exact hpath
  have hkind : n2.type = NodeType.CURVE := by rw [Node.shape_type hs]; exact hcurve
  have hp0 : (if task.isReady then some task else task.prepare env) = some task := by
    simp [hready]
  have hge : g.active.getEdges n2.id = task.active.getEdges n.id := by
    unfold Graph.getEdges
    rw [hedges, Node.shape_id hs]
  have htn2 : g.targetNode = some tn := htn'.trans htn
  have key : ∃ d n', g.executeSwitch env t n2.type = some d ∧ d.node = some n' ∧
      n'.mCtrlPoint = n.mCtrlPoint ∧
      ((t ≠ 1 ∨ task.type ≠ TaskType.SHRINK) → d = g) := by
    rcases htwo with ⟨hk, hlen⟩ | ⟨hk, hlen, hne⟩
    · rcases hk with hk | hk
      · obtain ⟨d, n', hd, hdn, hpts, hsame⟩ :=
          executeShrinkCurve_nopath env g n2 tn t hgn htn2 hcut' hpath' (hge ▸ hlen)
        refine ⟨d, n', ?_, hdn, hpts.trans h1, ?_⟩
        · rw [executeSwitch_curve_shrink env g t _ hkind (hty.trans hk)]; exact hd
        · intro h
          rcases h with h | h
          · exact hsame h
          · exact absurd hk h
      · refine ⟨g, n2, ?_, hgn, h1, fun _ => rfl⟩
        rw [executeSwitch_curve_morph env g t _ hkind (hty.trans hk)]
        exact executeMorphCurve_nopath env g n2 tn t hgn htn2 hpath' (Or.inl (hge ▸ hlen))
    · refine ⟨g, n2, ?_, hgn, h1, fun _ => rfl⟩
      rw [executeSwitch_curve_grow env g t _ hkind (hty.trans hk)]
      exact executeGrowCurve_nopath env g n2 tn t hgn htn2 hcut' hpath' (hty.trans hk)
        (by rw [htg]; exact hlen) (by rw [hge]; exact hne)
  obtain ⟨d, n', hd, hdn, hpts, hsame⟩ := key
  have hex := execute_of_steps env task task g d n2 t hact hp0 hg hgn hd
  refine ⟨_, n', hex, ?_, hpts, (execute_control env task _ t hact hex).2.2.2.2.2.1, ?_⟩
  · rw [Task.node_done]; exact hdn
  · intro h
    rw [hsame h]
    by_cases ht1 : t = 1
    · simp only [ht1, if_true]; exact hedges
    · simp only [ht1, if_false]; exact hedges

/-- C10 amended, on the scene: the two-edge morph task without a path, at
`t = 1/2`, keeps its control points and its two edges and is not done. -/
theorem missing_path_noop_witness :
    ∃ b n', (demoTask2 TaskType.MORPH).execute demoEnv (1 / 2) = some b ∧ b.node = some n' ∧
      n'.mCtrlPoint = demoPoints ∧ b.isDone = false ∧
      b.active.edges = demoActive2.edges := by
  obtain ⟨b, n', hb, hn', hpts, hdone, hedges⟩ :=
    missing_path_noop demoEnv (demoTask2 TaskType.MORPH)
      (demoNode "c" NodeType.CURVE demoPoints "c") (demoNode "c" NodeType.CURVE demoPoints "c")
      (1 / 2) (by decide!) rfl (by decide!) rfl rfl (by norm_num) rfl rfl
      (Or.inl ⟨Or.inr rfl, by decide!⟩)
  refine ⟨b, n', hb, hn', hpts, ?_, hedges (Or.inl (by norm_num))⟩
  cases hd : b.isDone with
  | false => rfl
  | true => exact absurd (hdone.1 hd) (by norm_num)

/-- C8, refuted as stated: the shrink task of the scene, prepared as a cut
node (cut mark and anchor in the bag), completes `execute 1` and is done, and
the edge of its node is still in the active graph. -/
theorem shrink_cut_counterexample :
    demoCutTask.type = TaskType.SHRINK ∧
    ∃ b, demoCutTask.execute demoEnv 1 = some b ∧
      b.isDone = true ∧ b.active.edges = [demoLink "cb" "c" "b"] ∧
      (demoLink "cb" "c" "b").hasNode "c" = true := by
  have h1 : (demoCutTask.execute demoEnv 1).isSome = true := by decide!
  obtain ⟨b, hb⟩ := Option.isSome_iff_exists.mp h1
  refine ⟨rfl, b, hb, ?_, ?_, by decide!⟩
  · exact ((execute_control demoEnv _ b 1 (by decide!) hb).2.2.2.2.2.1).2 rfl
  · have h2 : ((demoCutTask.execute demoEnv 1).map (fun b => b.active.edges))
        = some [demoLink "cb" "c" "b"] := by decide!
    rw [hb] at h2
    simpa using h2

/-- C8, amended: for a shrink task that is not done, on a sheet node or on a
curve node that is not a cut node (no cut mark in the bag and, while the task
is still to be prepared, a negative cut-node test of the graph), a completed
`execute 1` leaves the task done and the active graph without any edge
incident to the node of the task. -/
theorem shrink_removes_edges (env : Env K) (task b : Task K)
    (hty : task.type = TaskType.SHRINK) (hnd : task.isDone = false)
    (hcut : ∀ n, task.node = some n → n.type = NodeType.CURVE →
      task.property.isCutNode = none ∧
      (task.isReady = false → env.isCutNode task.active n.id = false))
    (h : task.execute env 1 = some b) :
    b.isDone = true ∧ ∀ e ∈ b.active.edges, e.hasNode task.property.nodeID = false := by
  have hact : task.isActive 1 = true := by simp [Task.isActive, hnd]
  refine ⟨((execute_control env task b 1 hact h).2.2.2.2.2.1).2 rfl, ?_⟩
  obtain ⟨p, g, n, d, hp, hg, hn, hd, hb⟩ := execute_steps env task b 1 hact h
  obtain ⟨hgty, hgid, hgp, n0, hn0, hs0⟩ := execute_stage_input env task p g n 1 hp hg hn
  have hgty' : g.type = TaskType.SHRINK := hgty.trans hty
  simp only [if_true] at hb
  subst hb
  show ∀ e ∈ d.active.edges, e.hasNode task.property.nodeID = false
  rw [← hgid]
  cases hk : n.type with
  | CURVE =>
    rw [executeSwitch_curve_shrink env g 1 _ hk hgty'] at hd
    have hk0 : n0.type = NodeType.CURVE := (Node.shape_type hs0).symm ▸ hk
    obtain ⟨hbag, henv⟩ := hcut n0 hn0 hk0
    have hpc : p.property.isCutNode = none := by
      by_cases hr : task.isReady = true
      · simp only [hr, if_true, Option.some.injEq] at hp
        subst hp
        exact hbag
      · have hr' : task.isReady = false := by simpa using hr
        simp only [hr, Bool.false_eq_true, if_false] at hp
        exact prepare_shrink_isCutNode env task p n0 hn0 hk0 hty hbag (henv hr') hp
    exact executeShrinkCurve_clears env g d hgty' (by rw [hgp]; exact hpc) hd
  | SHEET =>
    rw [executeSwitch_sheet env g 1 _ hk (Or.inl hgty')] at hd
    exact executeGrowShrinkSheet_clears env g d hgty' hd

/-- C8 amended, on the scene: the shrink task of the scenario is done after
`execute 1` and the active graph has no edge left at the curve `c`. -/
theorem shrink_removes_edges_witness :
    ∃ b, (demoTask TaskType.SHRINK).execute demoEnv 1 = some b ∧ b.isDone = true ∧
      ∀ e ∈ b.active.edges, e.hasNode "c" = false := by
  have h1 : ((demoTask TaskType.SHRINK).execute demoEnv 1).isSome = true := by decide!
  obtain ⟨b, hb⟩ := Option.isSome_iff_exists.mp h1
  have h := shrink_removes_edges demoEnv (demoTask TaskType.SHRINK) b rfl rfl
    (fun _ _ _ => ⟨rfl, fun hr => absurd hr (by decide)⟩) hb
  exact ⟨b, hb, h.1, h.2⟩

/-- C11, refuted as stated: on a polyline of one point the tangent loop has no
iteration, `tangent.back()` is read from an empty vector, and the construction
does not complete. -/
theorem rmf_single_point_counterexample :
    ([⟨0, 0, 0⟩] : List (Vector3 ℚ)).length = 1 ∧
    (List.range (([⟨0, 0, 0⟩] : List (Vector3 ℚ)).length - 1)).foldlM
      (RMF.tangentStep demoEnv [⟨0, 0, 0⟩]) [] = some [] ∧
    ([] : List (Vector3 ℚ)).getLast? = none ∧
    RMF.tangents demoEnv [⟨0, 0, 0⟩] = none ∧
    RMF.compute demoEnv [⟨0, 0, 0⟩] = none :=
  ⟨rfl, rfl, rfl, rfl, rfl⟩

/-- C11, amended: for every polyline of `n ≥ 2` points the construction of the
RMF completes (no read outside a container) and yields exactly `n` frames,
frame `i` with the centre `point[i]`. -/
theorem rmf_frames_count (env : Env K) (point : List (Vector3 K)) (hn : 2 ≤ point.length) :
    ∃ rmf, RMF.compute env point = some rmf ∧ rmf.point = point ∧
      rmf.U.length = point.length ∧
      ∀ i, i < point.length → ∃ f, rmf.U[i]? = some f ∧ point[i]? = some f.center := by
  obtain ⟨T, F, U, _, _, _, hFl, hc, hUl, hUi⟩ := RMF.compute_spec env point hn
  refine ⟨_, hc, rfl, hUl, fun i hi => ?_⟩
  exact ⟨_, hUi i (F[i]) (point[i]) (List.getElem?_eq_getElem (by omega))
    (List.getElem?_eq_getElem hi), List.getElem?_eq_getElem hi⟩

/-- C11 amended, on the scene: the polyline with the repeated point has four
points and gets four frames. -/
theorem rmf_frames_count_witness :
    2 ≤ demoPolyline.length ∧
    ∃ rmf, RMF.compute demoEnv demoPolyline = some rmf ∧ rmf.U.length = 4 := by
  obtain ⟨rmf, h, _, hl, _⟩ := rmf_frames_count demoEnv demoPolyline (by decide)
  exact ⟨by decide, rmf, h, hl⟩

/-- C12: for every polyline of at least two points on which every division of
`RMF::compute` is exact (no divisor is zero, and every vector that is
normalised is divided by its Euclidean length, as in real arithmetic on
pairwise distinct points), the construction completes and every frame it
produces is orthonormal: `r`, `s`, `t` have length one and are pairwise
orthogonal. -/
theorem rmf_frames_orthonormal (env : Env K) (point : List (Vector3 K))
    (hn : 2 ≤ point.length) (hex : RMF.exact env point = true) :
    ∃ rmf, RMF.compute env point = some rmf ∧ ∀ f ∈ rmf.U, f.orthonormal := by
  obtain ⟨T, F, U, hT, hTl, hF, hFl, hc, hUl, hUi⟩ := RMF.compute_spec env point hn
  refine ⟨_, hc, ?_⟩
  intro f hf
  obtain ⟨i, hi, rfl⟩ := List.mem_iff_getElem.mp hf
  have hi' : i < point.length := by
    have : i < U.length := hi
    omega
  have hUi' := hUi i (F[i]) (point[i]) (List.getElem?_eq_getElem (by omega))
    (List.getElem?_eq_getElem hi')
  have hget : U[i]? = some (U[i]) := List.getElem?_eq_getElem (by omega)
  rw [hget] at hUi'
  have hfi : F[i] ∈ F := List.getElem_mem _
  have ho := RMF.framesAfter_orthonormal env point T hTl hT hex (point.length - 1) (by omega)
    F hF (F[i]) hfi
  have heq : U[i] = { F[i] with center := point[i] } := Option.some.inj hUi'
  show Frame.orthonormal (U[i])
  rw [heq]
  exact ho

/-- C12, on the scene: the polyline with two right-angle turns is computed
exactly, and its frames are orthonormal. -/
theorem rmf_frames_orthonormal_witness :
    2 ≤ demoTurns.length ∧ RMF.exact demoEnv demoTurns = true ∧
    ∃ rmf, RMF.compute demoEnv demoTurns = some rmf ∧ ∀ f ∈ rmf.U, f.orthonormal :=
  ⟨by decide, by decide!, rmf_frames_orthonormal demoEnv demoTurns (by decide) (by decide!)⟩

/-- C13, refuted as stated: the polyline `(0,0,0), (1,0,0), (0,0,0), (0,0,0)`
has a degenerate segment at index `2`, and iteration `0` of the double
reflection loop divides by `c2 = 0` (the direction is reversed), so the frames
from index `1` on are not defined. -/
theorem rmf_degenerate_counterexample :
    demoReversal[2 + 1]? = some ⟨0, 0, 0⟩ ∧ demoReversal[2]? = some ⟨0, 0, 0⟩ ∧
    demoEnv.norm ((⟨0, 0, 0⟩ : Vector3 ℚ).sub ⟨0, 0, 0⟩) < ZERO_NORM ∧
    RMF.tangents demoEnv demoReversal = some [⟨1, 0, 0⟩, ⟨-1, 0, 0⟩, ⟨-1, 0, 0⟩, ⟨-1, 0, 0⟩] ∧
    RMF.framesAfter demoEnv demoReversal [⟨1, 0, 0⟩, ⟨-1, 0, 0⟩, ⟨-1, 0, 0⟩, ⟨-1, 0, 0⟩] 0
      = some [{ r := ⟨0, 0, 1⟩, s := ⟨0, -1, 0⟩, t := ⟨1, 0, 0⟩, center := ⟨0, 0, 0⟩ }] ∧
    (RMF.reflections (⟨0, 0, 1⟩ : Vector3 ℚ) ⟨1, 0, 0⟩ ⟨-1, 0, 0⟩ ⟨1, 0, 0⟩).2.1 = 0 ∧
    RMF.stepExact demoEnv demoReversal [⟨1, 0, 0⟩, ⟨-1, 0, 0⟩, ⟨-1, 0, 0⟩, ⟨-1, 0, 0⟩]
      [{ r := ⟨0, 0, 1⟩, s := ⟨0, -1, 0⟩, t := ⟨1, 0, 0⟩, center := ⟨0, 0, 0⟩ }] 0 = false ∧
    RMF.exact demoEnv demoReversal = false := by
  refine ⟨rfl, rfl, by decide!, by decide!, by decide!, by decide!, by decide!, by decide!⟩

/-- C13, amended: for every polyline and every index `i ≥ 1` whose segment
`point[i+1] - point[i]` is shorter than `ZERO_NORM`, the construction
completes, the tangent at `i` is the tangent at `i - 1`, the frame `i + 1` has
the `r`, `s`, `t` of the frame `i`, and neither the tangent estimate at `i` nor
iteration `i` of the double reflection loop divides at all, so that the
segment itself leaves no component undefined. -/
theorem rmf_degenerate_segment (env : Env K) (point : List (Vector3 K)) (i : Nat)
    (p1 p0 : Vector3 K) (hi : 1 ≤ i) (hp1 : point[i + 1]? = some p1)
    (hp0 : point[i]? = some p0) (hd : env.norm (p1.sub p0) < ZERO_NORM) :
    ∃ T rmf x f g, RMF.tangents env point = some T ∧ T[i]? = some x ∧ T[i - 1]? = some x ∧
      RMF.compute env point = some rmf ∧ rmf.U[i]? = some f ∧ rmf.U[i + 1]? = some g ∧
      g.r = f.r ∧ g.s = f.s ∧ g.t = f.t ∧
      RMF.tangentExact env point i = true ∧
      ∀ U, RMF.stepExact env point T U i = true := by
  have hi1 : i + 1 < point.length := by
    by_contra hcon
    rw [List.getElem?_eq_none (by omega)] at hp1
    cases hp1
  obtain ⟨T, hT, hTl, hdeg⟩ := RMF.tangents_spec env point (by omega)
  obtain ⟨T', F, U, hT', _, hF, hFl, hc, hUl, hUi⟩ := RMF.compute_spec env point (by omega)
  rw [hT] at hT'
  cases hT'
  obtain ⟨x, hx1, hx2⟩ := hdeg i p1 p0 hi hp1 hp0 hd
  obtain ⟨f, hf1, hf2⟩ := RMF.frames_degenerate env point T F hTl i p1 p0 hp1 hp0 hd hF
  exact ⟨T, _, x, _, _, hT, hx1, hx2, hc, hUi i f p0 hf1 hp0, hUi (i + 1) f p1 hf2 hp1,
    rfl, rfl, rfl, RMF.tangentExact_degenerate env point i p1 p0 hi hp1 hp0 hd,
    fun U => RMF.stepExact_degenerate env point T U i p1 p0 hp1 hp0 hd⟩

/-- C13 amended, on the polyline of the specification
`(0,0,0), (1,0,0), (1,0,0), (2,0,0)`: the segment at index `1` is degenerate,
and frame `2` has the triple of frame `1`. -/
theorem rmf_degenerate_segment_witness :
    demoPolyline[1 + 1]? = some ⟨1, 0, 0⟩ ∧ demoPolyline[1]? = some ⟨1, 0, 0⟩ ∧
    demoEnv.norm ((⟨1, 0, 0⟩ : Vector3 ℚ).sub ⟨1, 0, 0⟩) < ZERO_NORM ∧
    ∃ rmf f g, RMF.compute demoEnv demoPolyline = some rmf ∧ rmf.U[1]? = some f ∧
      rmf.U[2]? = some g ∧ g.r = f.r ∧ g.s = f.s ∧ g.t = f.t ∧
      RMF.exact demoEnv demoPolyline = true := by
  obtain ⟨T, rmf, x, f, g, _, _, _, hc, hf, hg, h1, h2, h3, _, _⟩ :=
    rmf_degenerate_segment demoEnv demoPolyline 1 ⟨1, 0, 0⟩ ⟨1, 0, 0⟩ (by decide) rfl rfl
      (by decide!)
  exact ⟨rfl, rfl, by decide!, rmf, f, g, hc, hf, hg, h1, h2, h3, by decide!⟩

/-- C14, refuted as stated: with three stored frames and `t = 9/10` the scaled
position is `9/5`, whose nearest index is `2`; `frameAt` returns the frame at
index `1`, which is another frame. -/
theorem frameAt_nearest_counterexample :
    demoRMF3.U.length = 3 ∧ (0 : ℚ) ≤ 9 / 10 ∧ (9 / 10 : ℚ) ≤ 1 ∧
    demoRMF3.frameAt (9 / 10) = demoRMF3.U[1]? ∧
    demoRMF3.U[1]? = some (demoFrame 1) ∧ demoRMF3.U[2]? = some (demoFrame 2) ∧
    demoFrame 2 ≠ demoFrame 1 ∧
    |(2 : ℚ) - 9 / 10 * (3 - 1)| < |(1 : ℚ) - 9 / 10 * (3 - 1)| := by
  refine ⟨rfl, by norm_num, by norm_num, by decide!, rfl, rfl, by decide!, ?_⟩
  rw [abs_lt]
  constructor <;> norm_num [abs_of_neg]

/-- C14, amended: for an RMF with `m ≥ 1` frames and `t` in `[0, 1]`,
`frameAt t` returns, without interpolation, the stored frame whose index is
the integer part of the scaled position `t * (m - 1)` (the position rounded
down, not to the nearest index); `frameAt 0` is the first frame and
`frameAt 1` the last. -/
theorem frameAt_truncates (rmf : RMF K) (t : K) (hm : 1 ≤ rmf.U.length) (h0 : 0 ≤ t)
    (h1 : t ≤ 1) :
    (∃ f, rmf.frameAt t = some f ∧ rmf.U[⌊t * ((rmf.U.length : K) - 1)⌋₊]? = some f) ∧
    rmf.frameAt 0 = rmf.U.head? ∧ rmf.frameAt 1 = rmf.U.getLast? := by
  refine ⟨?_, ?_, ?_⟩
  · obtain ⟨h, hlt⟩ := frameAt_floor rmf t hm h0 h1
    exact ⟨rmf.U[⌊t * ((rmf.U.length : K) - 1)⌋₊], by rw [h, List.getElem?_eq_getElem hlt],
      List.getElem?_eq_getElem hlt⟩
  · rw [(frameAt_floor rmf 0 hm le_rfl zero_le_one).1, zero_mul, Nat.floor_zero,
      List.head?_eq_getElem?]
  · rw [(frameAt_floor rmf 1 hm zero_le_one le_rfl).1, one_mul, List.getLast?_eq_getElem?]
    congr 1
    have : (rmf.U.length : K) - 1 = ((rmf.U.length - 1 : Nat) : K) := by
      rw [Nat.cast_sub hm, Nat.cast_one]
    rw [this, Nat.floor_natCast]

/-- C14 amended, on the scene: with three frames, `frameAt (9/10)` is the
frame at index `⌊9/5⌋ = 1`. -/
theorem frameAt_truncates_witness :
    1 ≤ demoRMF3.U.length ∧ (0 : ℚ) ≤ 9 / 10 ∧ (9 / 10 : ℚ) ≤ 1 ∧
    ∃ f, demoRMF3.frameAt (9 / 10) = some f ∧
      demoRMF3.U[⌊(9 / 10 : ℚ) * ((demoRMF3.U.length : ℚ) - 1)⌋₊]? = some f :=
  ⟨by decide, by norm_num, by norm_num,
    (frameAt_truncates demoRMF3 (9 / 10) (by decide) (by norm_num) (by norm_num)).1⟩

/-- C15, what the code does: for a curve whose bag holds the encoding of its
control points over the segment from `start` to `end` in the frame `X, Y, Z`,
with the segment queries of the specification, a segment that has a length,
and offsets that survive the spherical encoding, `decodeCurve` with the same
segment and frame completes and returns every control point `p` moved along
the segment by `(1 - 2 t)` times the segment, `t` being the closest-point
parameter of `p`: the point is mirrored about the middle of the segment, and
comes back unchanged only where `t = 1/2` or the segment is a point. -/
theorem decode_encode_mirror (env : Env K) (task : Task K) (n : Node K)
    (start fin X Y Z : Vector3 K) (hn : task.node = some n) (hc : n.type = NodeType.CURVE)
    (hcp : task.property.cpCoords = some (encodeCurve env n.controlPoints start fin X Y Z))
    (hline : ∀ p, env.lineClosestPoint start fin p = Line.ClosestPoint start fin p)
    (hat : ∀ s, env.linePointAt start fin s = Line.pointAt start fin s)
    (hlen : env.lineLength start fin ≠ 0)
    (hdir : ∀ p ∈ n.controlPoints, env.keepsOffset start fin X Y Z p) :
    ∃ r, task.decodeCurve env start fin X Y Z = some r ∧
      r.1 = n.controlPoints.map (fun p =>
        p.add ((fin.sub start).scale (1 - 2 * (Line.ClosestPoint start fin p).1))) := by
  have hpts : n.controlPoints = n.mCtrlPoint := by
    unfold Node.controlPoints
    rw [hc]
  rw [hpts] at hcp hdir ⊢
  have hm := mapM_some_of_forall
    (decodePoint env (encodeCurve env n.mCtrlPoint start fin X Y Z) (env.lineLength start fin)
      start fin X Y Z)
    (fun i => (n.mCtrlPoint.getD i Vector3.zero).add ((fin.sub start).scale
      (1 - 2 * (Line.ClosestPoint start fin (n.mCtrlPoint.getD i Vector3.zero)).1)))
    (List.range n.mCtrlPoint.length)
    (fun i hi => by
      have hi' := List.mem_range.mp hi
      rw [decodePoint_encode env n.mCtrlPoint start fin X Y Z hline hat hlen hdir i hi']
      dsimp only
      rw [List.getD_eq_getElem _ _ hi'])
  unfold Task.decodeCurve
  rw [hn]
  simp only [hcp, Option.getD_some, hm]
  refine ⟨_, rfl, ?_⟩
  apply List.ext_getElem
  · simp
  · intro i h1 h2
    simp only [List.length_map] at h2
    simp [List.getElem?_eq_getElem h2]

/-- C15, at the failing input: the control points `(1,0,0), (3,2,0)` encoded
over the segment from `(0,0,0)` to `(4,0,0)` in the standard frame are stored
with the parameters `3/4` and `1/4`, and decoded with the same segment and
frame they come back as `(3,0,0), (1,2,0)`, which are not the original control
points. -/
theorem decode_encode_mirror_witness :
    encodeCurve demoEnvL demoCurvePoints ⟨0, 0, 0⟩ ⟨4, 0, 0⟩ ⟨1, 0, 0⟩ ⟨0, 1, 0⟩ ⟨0, 0, 1⟩
      = [[3 / 4, 0, 0, 0], [1 / 4, 1 / 2, 0, 0]] ∧
    (∃ r, demoEncodedTask.decodeCurve demoEnvL ⟨0, 0, 0⟩ ⟨4, 0, 0⟩ ⟨1, 0, 0⟩ ⟨0, 1, 0⟩ ⟨0, 0, 1⟩
        = some r ∧ r.1 = [⟨3, 0, 0⟩, ⟨1, 2, 0⟩]) ∧
    ([⟨3, 0, 0⟩, ⟨1, 2, 0⟩] : List (Vector3 ℚ)) ≠ demoCurvePoints := by
  refine ⟨by decide!, ?_, by decide!⟩
  obtain ⟨r, hr, hr1⟩ := decode_encode_mirror demoEnvL demoEncodedTask
    (demoNode "c" NodeType.CURVE demoCurvePoints "c") ⟨0, 0, 0⟩ ⟨4, 0, 0⟩ ⟨1, 0, 0⟩ ⟨0, 1, 0⟩
    ⟨0, 0, 1⟩ (by decide!) rfl rfl (fun _ => rfl) (fun _ => rfl) (by decide!)
    (by decide!)
  refine ⟨r, hr, ?_⟩
  rw [hr1]
  decide!

/-- C17, refuted as stated: on the geodesic path of five samples the two-edge
preparation of a shrink stores two half-paths of two samples each, and so does
the split of the grow preparation, while the upper half of five is three. -/
theorem bisect_balance_counterexample :
    demoPath5.length = 5 ∧ (5 + 1) / 2 = 3 ∧
    (∃ b A B, demoFreshTask2.prepare demoEnv5 = some b ∧
      b.property.pathA = some A ∧ b.property.pathB = some B ∧
      A.length = 2 ∧ B.length = 2) ∧
    (∃ A B, bisectGrow demoPath5 = some (A, B) ∧ A.length = 2 ∧ B.length = 2) := by
  refine ⟨rfl, rfl, ?_, ?_⟩
  · have h1 : (demoFreshTask2.prepare demoEnv5).isSome
        = true := by decide!
    obtain ⟨b, hb⟩ := Option.isSome_iff_exists.mp h1
    have h2 : (demoFreshTask2.prepare demoEnv5).map
        (fun (b : Task ℚ) => (b.property.pathA.map List.length, b.property.pathB.map List.length))
        = some (some 2, some 2) := by decide!
    rw [hb] at h2
    simp only [Option.map_some', Option.some.injEq, Prod.mk.injEq] at h2
    obtain ⟨hA, hB⟩ := h2
    cases hpA : b.property.pathA with
    | none => rw [hpA] at hA; cases hA
    | some A =>
      cases hpB : b.property.pathB with
      | none => rw [hpB] at hB; cases hB
      | some B =>
        rw [hpA] at hA
        rw [hpB] at hB
        exact ⟨b, A, B, hb, hpA, hpB, by simpa using hA, by simpa using hB⟩
  · exact ⟨[⟨"b", ⟨1, 0, 0, 0⟩⟩, ⟨"b", ⟨0, 0, 0, 0⟩⟩], [⟨"b", ⟨3, 0, 0, 0⟩⟩, ⟨"b", ⟨4, 0, 0, 0⟩⟩],
      by decide!, rfl, rfl⟩

/-- C17, amended: for every path of `N ≥ 1` samples the split of
`prepareShrinkCurve` and the split of `prepareGrowCurve` complete and give two
half-paths of `⌊N/2⌋` samples each (for odd `N` the middle sample belongs to
neither);
and these are the half-paths that the two-edge preparation stores as `pathA`
and `pathB`. -/
theorem bisect_halves_floor (env : Env K) (a b : Task K) (n : Node K)
    (edges : List (Link K)) :
    (∀ path : List (PathPointPair K), 1 ≤ path.length →
      (∃ A B, bisectShrink path = some (A, B) ∧
        A.length = path.length / 2 ∧ B.length = path.length / 2) ∧
      (∃ A B, bisectGrow path = some (A, B) ∧
        A.length = path.length / 2 ∧ B.length = path.length / 2)) ∧
    (a.prepareShrinkCurveDouble env n edges = some b →
      ∃ path A B, 1 ≤ path.length ∧ bisectShrink path = some (A, B) ∧
        b.property.pathA = some A ∧ b.property.pathB = some B ∧
        A.length = path.length / 2 ∧ B.length = path.length / 2) ∧
    (a.prepareGrowCurveDouble env n edges = some b →
      ∃ path A B, 1 ≤ path.length ∧ bisectGrow path = some (A, B) ∧
        b.property.pathA = some A ∧ b.property.pathB = some B ∧
        A.length = path.length / 2 ∧ B.length = path.length / 2) := by
  have hS : ∀ path : List (PathPointPair K), 1 ≤ path.length →
      ∃ A B, bisectShrink path = some (A, B) ∧
        A.length = path.length / 2 ∧ B.length = path.length / 2 := by
    intro path hN
    obtain ⟨mid, A, B, hmid, hAB, hA, hB, _⟩ := bisectShrink_spec path hN
    have hlen := insertMid_length path mid hN hmid
    have hhalf : mid.length / 2 = path.length / 2 := by
      rw [hlen]; split <;> omega
    exact ⟨A, B, hAB, hA.trans hhalf, hB.trans hhalf⟩
  have hG : ∀ path : List (PathPointPair K), 1 ≤ path.length →
      ∃ A B, bisectGrow path = some (A, B) ∧
        A.length = path.length / 2 ∧ B.length = path.length / 2 := by
    intro path hN
    obtain ⟨mid, A, B, _, hAB, hA, hB, _⟩ := bisectGrow_spec path hN
    exact ⟨A, B, hAB, hA, hB⟩
  refine ⟨fun path hN => ⟨hS path hN, hG path hN⟩, ?_, ?_⟩
  · intro h
    obtain ⟨linkA, linkB, halves, _, _, hb, hA, hB⟩ :=
      prepareShrinkCurveDouble_paths env a b n edges h
    have hN : 1 ≤ (env.smoothPathCoordTo a.active a.active.running_tasks
        (env.linkPosition a.active linkA n.id) (env.linkPosition a.active linkB n.id)).length := by
      rcases Nat.eq_zero_or_pos (env.smoothPathCoordTo a.active a.active.running_tasks
        (env.linkPosition a.active linkA n.id) (env.linkPosition a.active linkB n.id)).length
        with h0 | h0
      · rw [List.length_eq_zero.mp h0, bisectShrink_nil] at hb
        cases hb
      · exact h0
    obtain ⟨A, B, hAB, hAl, hBl⟩ := hS _ hN
    rw [hb] at hAB
    cases hAB
    exact ⟨_, _, _, hN, hb, hA, hB, hAl, hBl⟩
  · intro h
    obtain ⟨_, _, path, halves, _, hb, hA, hB⟩ := prepareGrowCurveDouble_paths env a b n edges h
    have hN : 1 ≤ path.length := by
      rcases Nat.eq_zero_or_pos path.length with h0 | h0
      · rw [List.length_eq_zero.mp h0, bisectGrow_nil] at hb
        cases hb
      · exact h0
    obtain ⟨A, B, hAB, hAl, hBl⟩ := hG _ hN
    rw [hb] at hAB
    cases hAB
    exact ⟨_, _, _, hN, hb, hA, hB, hAl, hBl⟩

/-- C17 amended, on the scene: the path of five samples splits into two halves
of two samples, in the shrink preparation and in the grow split. -/
theorem bisect_halves_floor_witness :
    (1 ≤ demoPath5.length) ∧
    (∃ A B, bisectShrink demoPath5 = some (A, B) ∧ A.length = 5 / 2 ∧ B.length = 5 / 2) ∧
    (∃ A B, bisectGrow demoPath5 = some (A, B) ∧ A.length = 5 / 2 ∧ B.length = 5 / 2) ∧
    ∃ (b : Task ℚ) (path A B : List (PathPointPair ℚ)),
      1 ≤ path.length ∧ bisectShrink path = some (A, B) ∧
      b.property.pathA = some A ∧ b.property.pathB = some B ∧
      A.length = path.length / 2 ∧ B.length = path.length / 2 := by
  have h1 : ((demoTask2 TaskType.SHRINK).prepareShrinkCurveDouble demoEnv5
      (demoNode "c" NodeType.CURVE demoPoints "c")
      ((demoTask2 TaskType.SHRINK).active.getEdges "c")).isSome = true := by decide!
  obtain ⟨b, hb⟩ := Option.isSome_iff_exists.mp h1
  have h := bisect_halves_floor demoEnv5 (demoTask2 TaskType.SHRINK) b
    (demoNode "c" NodeType.CURVE demoPoints "c") ((demoTask2 TaskType.SHRINK).active.getEdges "c")
  exact ⟨by decide, (h.1 demoPath5 (by decide)).1, (h.1 demoPath5 (by decide)).2,
    b, h.2.1 hb⟩

/-- C18, refuted as stated: the prepared single-edge morph of the scene
completes `execute (1/2)` and the control points of the target curve `c` have
moved from `(0,0,0), (1,0,0), (2,0,0)` to `(5,0,0), (6,0,0), (7,0,0)`; and the
prepared two-edge grow whose curve already has one edge completes
`execute (1/2)` with the keys `path` and `cpIDX` added to its bag. -/
theorem execute_frame_counterexample :
    demoMorphTask.isReady = true ∧
    (demoMorphTask.target.getNode "c").map Node.mCtrlPoint = some demoPoints ∧
    (∃ b, demoMorphTask.execute demoEnvT (1 / 2) = some b ∧
      (b.target.getNode "c").map Node.mCtrlPoint = some [⟨5, 0, 0⟩, ⟨6, 0, 0⟩, ⟨7, 0, 0⟩]) ∧
    demoGrowAttached.isReady = true ∧ demoGrowAttached.property.path = none ∧
    demoGrowAttached.property.cpIDX = none ∧
    ∃ b, demoGrowAttached.execute demoEnvT (1 / 2) = some b ∧
      b.property.path = some [] ∧ b.property.cpIDX = some 0 := by
  refine ⟨rfl, by decide!, ?_, rfl, rfl, rfl, ?_⟩
  · have h1 : (demoMorphTask.execute demoEnvT (1 / 2)).isSome = true := by decide!
    obtain ⟨b, hb⟩ := Option.isSome_iff_exists.mp h1
    have h2 : (demoMorphTask.execute demoEnvT (1 / 2)).map
        (fun (b : Task ℚ) => (b.target.getNode "c").map Node.mCtrlPoint)
        = some (some [⟨5, 0, 0⟩, ⟨6, 0, 0⟩, ⟨7, 0, 0⟩]) := by decide!
    rw [hb] at h2
    exact ⟨b, hb, by simpa using h2⟩
  · have h1 : (demoGrowAttached.execute demoEnvT (1 / 2)).isSome = true := by decide!
    obtain ⟨b, hb⟩ := Option.isSome_iff_exists.mp h1
    have h2 : (demoGrowAttached.execute demoEnvT (1 / 2)).map
        (fun (b : Task ℚ) => (b.property.path, b.property.cpIDX))
        = some (some [], some 0) := by decide!
    rw [hb] at h2
    simp only [Option.map_some', Option.some.injEq, Prod.mk.injEq] at h2
    exact ⟨b, hb, h2.1, h2.2⟩

/-- C18, amended: for a prepared task and every `t`, a completed `execute t`
leaves the kind and the window of the task and keeps it prepared; every entry
of the artifact bag keeps its value (keys that are read while absent are
added); the edges of the target graph are unchanged; and the target graph is
the one before the call, or that graph with other control points for the
target curve, which happens only for a morph or a grow of a curve with exactly
one edge in the active graph. -/
theorem execute_frame (env : Env K) (a b : Task K) (t : K) (hr : a.isReady = true)
    (h : a.execute env t = some b) :
    b.type = a.type ∧ b.start = a.start ∧ b.length = a.length ∧ b.isReady = true ∧
    a.property.keeps b.property ∧
    b.target.edges = a.target.edges ∧
    Graph.translated a.targetCurve a.target b.target ∧
    ((∀ n, a.node = some n → n.type = NodeType.SHEET ∨ a.type = TaskType.SHRINK ∨
        (a.active.getEdges n.id).length ≠ 1) → b.target = a.target) := by
  have hedges : ∀ g : Graph K, Graph.translated a.targetCurve a.target g →
      g.edges = a.target.edges := by
    rintro g (rfl | ⟨c, pts, _, rfl⟩) <;> rfl
  by_cases hact : a.isActive t = true
  · obtain ⟨p, g, n, d, hp, hg, hn, hd, hb⟩ := execute_steps env a b t hact h
    obtain ⟨hty, _, _, n0, hn0, hs0⟩ := execute_stage_input env a p g n t hp hg hn
    have hc := execute_control env a b t hact h
    simp only [hr, if_true, Option.some.injEq] at hp
    subst hp
    obtain ⟨g', n', hg', hn', _, _, _, hprop, htarget, _, _, hge, _, htn⟩ :=
      geometryMorph_ready env a n0 t hn0
    rw [hg] at hg'
    cases hg'
    rw [hn] at hn'
    cases hn'
    have htc : g.targetCurve = a.targetCurve := by
      unfold Task.targetCurve
      rw [htn]
    obtain ⟨hk, htr, hcond⟩ := executeSwitch_framed env g d t n.type hd
    rw [hprop] at hk
    rw [htc, htarget] at htr
    rw [htarget] at hcond
    have hbd : b.property = d.property ∧ b.target = d.target := by
      rw [hb]; split <;> exact ⟨rfl, rfl⟩
    rw [hr] at hc
    refine ⟨hc.1, by simpa using hc.2.2.1, hc.2.1, hc.2.2.2.2.1, ?_, ?_, ?_, ?_⟩
    · rw [hbd.1]; exact hk
    · rw [hbd.2]; exact hedges _ htr
    · rw [hbd.2]; exact htr
    · intro hall
      rw [hbd.2]
      apply hcond
      rcases hall n0 hn0 with h1 | h1 | h1
      · exact Or.inl (by rw [← Node.shape_type hs0]; exact h1)
      · exact Or.inr (Or.inl (hty.trans h1))
      · refine Or.inr (Or.inr ?_)
        intro m hm
        rw [hn] at hm
        cases hm
        unfold Graph.getEdges
        rw [hge, ← Node.shape_id hs0]
        exact h1
  · have hb : b = a := by
      have hf : a.isActive t = false := by simpa using hact
      unfold Task.execute at h
      simp only [hf, Bool.not_false, if_true, Option.some.injEq] at h
      exact h.symm
    subst hb
    exact ⟨rfl, rfl, rfl, hr, Property.keeps_refl _, rfl, Or.inl rfl, fun _ => rfl⟩

/-- C18 amended, on the scene: the prepared single-neighbor shrink completes
`execute (1/2)` with the bag entries and the target graph it had. -/
theorem execute_frame_witness :
    (demoTask TaskType.SHRINK).isReady = true ∧
    ∃ b, (demoTask TaskType.SHRINK).execute demoEnv (1 / 2) = some b ∧
      (demoTask TaskType.SHRINK).property.keeps b.property ∧
      b.target = (demoTask TaskType.SHRINK).target := by
  have h1 : ((demoTask TaskType.SHRINK).execute demoEnv (1 / 2)).isSome = true := by decide!
  obtain ⟨b, hb⟩ := Option.isSome_iff_exists.mp h1
  have h := execute_frame demoEnv (demoTask TaskType.SHRINK) b (1 / 2) rfl hb
  exact ⟨rfl, b, hb, h.2.2.2.2.1, h.2.2.2.2.2.2.2 (fun _ _ => Or.inr (Or.inl rfl))⟩

/-! ### Smoothing of a path -/

/-- C21: for every non-empty path and every iteration count `k`,
`positionalPath` returns as many points as the path has samples, its first and
last point are the first and last position of the unsmoothed path, and with
`k = 0` the result is the list of the sample positions. -/
theorem positionalPath_fixed_ends (env : Env K) (active : Graph K)
    (from_path : List (PathPointPair K)) (k : Nat) (hne : from_path ≠ []) :
    ∃ pnts, positionalPath env active from_path k = some pnts ∧
      pnts.length = from_path.length ∧
      pnts.head? = (from_path.map (env.pathPosition active)).head? ∧
      pnts.getLast? = (from_path.map (env.pathPosition active)).getLast? ∧
      positionalPath env active from_path 0 =
        some (from_path.map (env.pathPosition active)) := by
  have hne2 : from_path.map (env.pathPosition active) ≠ [] := by
    intro h
    exact hne (List.map_eq_nil_iff.mp h)
  obtain ⟨q, hq, hl, hh, ht⟩ := smoothIter_spec k _ hne2
  exact ⟨q, hq, by rw [hl, List.length_map], hh, ht, rfl⟩

/-- C21, on the scene: two smoothing iterations on the five samples of
`demoPath5` keep the five points and both ends. -/
theorem positionalPath_fixed_ends_witness :
    demoPath5 ≠ [] ∧
    ∃ pnts, positionalPath demoEnv5 (demoActive NodeType.CURVE) demoPath5 2 = some pnts ∧
      pnts.length = demoPath5.length ∧
      pnts.head? = (demoPath5.map (demoEnv5.pathPosition (demoActive NodeType.CURVE))).head? ∧
      pnts.getLast? =
        (demoPath5.map (demoEnv5.pathPosition (demoActive NodeType.CURVE))).getLast? ∧
      positionalPath demoEnv5 (demoActive NodeType.CURVE) demoPath5 0 =
        some (demoPath5.map (demoEnv5.pathPosition (demoActive NodeType.CURVE))) :=
  ⟨by decide, positionalPath_fixed_ends demoEnv5 (demoActive NodeType.CURVE) demoPath5 2
    (by decide)⟩

/-- C22: one smoothing iteration of `positionalPath` on a non-empty list
replaces every interior point `i` by the midpoint `(p[i-1] + p[i+1]) / 2` of
its two neighbours, taken from the values of the previous iteration; the point
itself does not enter the average. `k` iterations are the `k`-fold composition
of that step on the sample positions. -/
theorem smooth_neighbour_midpoint (env : Env K) (active : Graph K)
    (from_path : List (PathPointPair K)) (k : Nat) (pnts : List (Vector3 K))
    (hne : pnts ≠ []) :
    (∃ q, smoothStep pnts = some q ∧ q.length = pnts.length ∧
      ∀ i, 0 < i → i + 1 < pnts.length →
        q[i]? = some (((pnts.getD (i - 1) Vector3.zero).add
          (pnts.getD (i + 1) Vector3.zero)).scale (1 / 2))) ∧
    positionalPath env active from_path k =
      (fun o => Option.bind o smoothStep)^[k]
        (some (from_path.map (env.pathPosition active))) := by
  obtain ⟨q, hq, hl, _, _, hi⟩ := smoothStep_spec pnts hne
  exact ⟨⟨q, hq, hl, hi⟩, smoothIter_iterate k _⟩

/-- C22 amended, on the scene: one iteration on the control points of the
scene, and two iterations on the five samples of `demoPath5`. -/
theorem smooth_neighbour_midpoint_witness :
    demoPoints ≠ [] ∧
    ((∃ q, smoothStep demoPoints = some q ∧ q.length = demoPoints.length ∧
      ∀ i, 0 < i → i + 1 < demoPoints.length →
        q[i]? = some (((demoPoints.getD (i - 1) Vector3.zero).add
          (demoPoints.getD (i + 1) Vector3.zero)).scale (1 / 2))) ∧
    positionalPath demoEnv5 (demoActive NodeType.CURVE) demoPath5 2 =
      (fun o => Option.bind o smoothStep)^[2]
        (some (demoPath5.map (demoEnv5.pathPosition (demoActive NodeType.CURVE))))) :=
  ⟨by decide, smooth_neighbour_midpoint demoEnv5 (demoActive NodeType.CURVE) demoPath5 2
    demoPoints (by decide)⟩

/-- C22, as stated, fails: on the samples `(0,0,0)`, `(3,0,0)`, `(0,0,0)` one
smoothing iteration puts the interior point at `(0,0,0)`, the midpoint of its
neighbours, and not at `(1,0,0)`, the average of the three points. -/
theorem smooth_average_counterexample :
    positionalPath demoEnv5 (demoActive NodeType.CURVE) demoSpike 1 =
      some [⟨0, 0, 0⟩, ⟨0, 0, 0⟩, ⟨0, 0, 0⟩] ∧
    (((({ x := 0, y := 0, z := 0 } : Vector3 ℚ).add ⟨3, 0, 0⟩).add ⟨0, 0, 0⟩).scale (1 / 3)) =
      ⟨1, 0, 0⟩ ∧
    positionalPath demoEnv5 (demoActive NodeType.CURVE) demoSpike 1 ≠
      some [⟨0, 0, 0⟩, ⟨1, 0, 0⟩, ⟨0, 0, 0⟩] := by
  refine ⟨by decide!, by decide!, by decide!⟩

/-! ### The length of the time window -/

/-- C23: a task is constructed with length 80, `setLength n` stores
`max 1 n`, and `setStart`, `reset`, `prepare` and `execute` leave the length as
it is (`localT` only reads the task); so in every state reached through these
operations the length is at least 1 and the divisor `double(length)` of
`localT` is not zero. -/
theorem length_invariant (env : Env K) :
    (∀ (g g' : Graph K) (ty : TaskType) (id : Int) (nid : String),
      (Task.create g g' ty id nid).length = 80) ∧
    (∀ (a : Task K) (n : Int), (a.setLength n).length = max 1 n) ∧
    (∀ (a : Task K) (n : Int), (a.setStart n).length = a.length) ∧
    (∀ a : Task K, a.reset.length = a.length) ∧
    (∀ a b : Task K, a.prepare env = some b → b.length = a.length) ∧
    (∀ (a b : Task K) (t : K), a.execute env t = some b → b.length = a.length) ∧
    (∀ a : Task K, Task.Reachable env a →
      1 ≤ a.length ∧ ((a.length : Int) : K) ≠ 0 ∧
      ∀ g : Int, a.start ≤ g →
        a.localT g = qMin 1 (((g - a.start : Int) : K) / ((a.length : Int) : K))) := by
  refine ⟨fun _ _ _ _ _ => rfl, setLength_length, setStart_length, fun _ => rfl,
    prepare_length env, execute_length env, fun a h => ?_⟩
  have h1 := reachable_length env a h
  refine ⟨h1, ?_, fun g hg => ?_⟩
  · have : (0 : Int) < a.length := by omega
    exact_mod_cast this.ne'
  · unfold Task.localT
    rw [if_pos hg]

/-- C23, on the scene: a fresh morph of the curve `c` after `setLength (-5)`,
`setStart 7` and `reset` has length 1, and `execute (1/2)` on it completes
with length 1. -/
theorem length_invariant_witness :
    ∃ b, (((demoFreshMorph.setLength (-5)).setStart 7).reset).execute demoEnv (1 / 2) = some b ∧
      b.length = 1 ∧ 1 ≤ b.length ∧ Task.Reachable demoEnv b := by
  have h1 : ((((demoFreshMorph.setLength (-5)).setStart 7).reset).execute demoEnv
      (1 / 2)).isSome = true := by decide!
  obtain ⟨b, hb⟩ := Option.isSome_iff_exists.mp h1
  have hr : Task.Reachable demoEnv b :=
    Task.Reachable.execute _ b (1 / 2)
      (Task.Reachable.reset _ (Task.Reachable.setStart _ 7 (Task.Reachable.setLength _ (-5)
        (Task.Reachable.create (demoActive NodeType.CURVE) (demoTarget NodeType.CURVE)
          TaskType.MORPH 0 "c")))) hb
  have h := length_invariant demoEnv
  have h2 : b.length = 1 := by
    rw [h.2.2.2.2.2.1 _ b _ hb]
    decide!
  exact ⟨b, hb, h2, (h.2.2.2.2.2.2 b hr).1, hr⟩

/-! ### The clock of a task -/

/-- C24: for a task that is not done, has length at least 1 and whose window
start `prepare` leaves alone, `execute t` with `t ≥ 0` stores
`currentTime = trunc(start + t * length)`. When `start ≥ 0` this is
`start + trunc(t * length)`, `stillWorking` holds afterwards exactly when
`t < 1`, and for `t ≤ 1` the clock is at `endTime` exactly when `t = 1`. For
every start and every tick `g` of the window, `execute (localT g)` leaves
`currentTime = g`. -/
theorem execute_localT_consistent (env : Env K) (a : Task K) (hdone : a.isDone = false)
    (hlen : 1 ≤ a.length) (hprep : a.isReady = true ∨ toInt a.x = a.start) :
    (∀ (t : K) (b : Task K), 0 ≤ t → a.execute env t = some b →
      b.currentTime = toInt ((a.start : K) + t * (a.length : K))) ∧
    (0 ≤ a.start → ∀ (t : K) (b : Task K), 0 ≤ t → a.execute env t = some b →
      b.currentTime = a.start + toInt (t * (a.length : K)) ∧
      (b.stillWorking = true ↔ t < 1) ∧
      (t ≤ 1 → (b.currentTime = b.endTime ↔ t = 1))) ∧
    (∀ (g : Int) (b : Task K), a.start ≤ g → g ≤ a.start + a.length →
      a.execute env (a.localT g) = some b → b.currentTime = g) := by
  have hL : (0 : K) < (a.length : K) := by
    have : (0 : Int) < a.length := by omega
    exact_mod_cast this
  refine ⟨fun t b ht h => (execute_clock env a b t hdone hprep ht h).2.2, ?_, ?_⟩
  · intro hs t b ht h
    obtain ⟨h1, h2, h3⟩ := execute_clock env a b t hdone hprep ht h
    have hy : (0 : K) ≤ t * (a.length : K) := mul_nonneg ht hL.le
    have hc : b.currentTime = a.start + toInt (t * (a.length : K)) := by
      rw [h3, toInt_int_add _ _ hs hy]
    have hfl : toInt (t * (a.length : K)) < a.length ↔ t < 1 := by
      rw [toInt_of_nonneg _ hy, Int.floor_lt]
      constructor
      · intro h4
        by_contra h5
        have h6 : (a.length : K) ≤ t * (a.length : K) := by
          have := mul_le_mul_of_nonneg_right (not_lt.mp h5) hL.le
          simpa using this
        exact absurd h4 (not_lt.mpr h6)
      · intro h4
        have := mul_lt_mul_of_pos_right h4 hL
        simpa using this
    refine ⟨hc, ?_, fun ht1 => ?_⟩
    · unfold Task.stillWorking
      rw [decide_eq_true_iff, hc, h1, h2, ← hfl]
      omega
    · unfold Task.endTime
      rw [hc, h1, h2]
      constructor
      · intro h4
        have h5 : ¬ toInt (t * (a.length : K)) < a.length := by omega
        rw [hfl] at h5
        exact le_antisymm ht1 (not_lt.mp h5)
      · intro h4
        rw [h4, one_mul, toInt_intCast]
  · intro g b h1 h2 h
    obtain ⟨_, h0, he⟩ := localT_inside_eq a g hlen h1 h2
    have h3 := (execute_clock env a b _ hdone hprep h0 h).2.2
    rw [h3, he, toInt_intCast]

/-- C24 amended, on the scene: the prepared shrink of the scene, whose window
starts at 0 and lasts 80 ticks, completes `execute (1/2)` with the clock at 40
and still working, and `execute (localT 60)` with the clock at 60. -/
theorem execute_localT_consistent_witness :
    (demoTask TaskType.SHRINK).isDone = false ∧ 1 ≤ (demoTask TaskType.SHRINK).length ∧
    0 ≤ (demoTask TaskType.SHRINK).start ∧
    (∃ b, (demoTask TaskType.SHRINK).execute demoEnv (1 / 2) = some b ∧
      b.currentTime = 40 ∧ b.stillWorking = true) ∧
    ∃ b, (demoTask TaskType.SHRINK).execute demoEnv ((demoTask TaskType.SHRINK).localT 60)
      = some b ∧ b.currentTime = 60 := by
  have h := execute_localT_consistent demoEnv (demoTask TaskType.SHRINK) rfl (by decide)
    (Or.inl rfl)
  have h1 : ((demoTask TaskType.SHRINK).execute demoEnv (1 / 2)).isSome = true := by decide!
  obtain ⟨b, hb⟩ := Option.isSome_iff_exists.mp h1
  have h2 : ((demoTask TaskType.SHRINK).execute demoEnv
      ((demoTask TaskType.SHRINK).localT 60)).isSome = true := by decide!
  obtain ⟨c, hc⟩ := Option.isSome_iff_exists.mp h2
  have h3 := h.2.1 (by decide) (1 / 2) b (by norm_num) hb
  refine ⟨rfl, by decide, by decide, ⟨b, hb, ?_, h3.2.1.mpr (by norm_num)⟩,
    ⟨c, hc, h.2.2 60 c (by decide) (by decide) hc⟩⟩
  rw [h3.1]
  decide!

/-- C24, as stated, fails for a window that starts before 0: the fresh shrink
of the scene moved to `start = -3` with length 2 keeps its start through
`prepare` and completes `execute (3/4)` with `currentTime = -1`, which is
`trunc(-3 + 3/2)` and not `-3 + trunc(3/2) = -2`; the clock is then at the end
of the window, so `stillWorking` is false although `3/4 < 1`. -/
theorem execute_clock_counterexample :
    demoEarlyTask.isDone = false ∧ demoEarlyTask.length = 2 ∧ demoEarlyTask.start = -3 ∧
    toInt demoEarlyTask.x = demoEarlyTask.start ∧
    demoEarlyTask.start + toInt ((3 / 4 : ℚ) * (demoEarlyTask.length : ℚ)) = -2 ∧
    ∃ b, demoEarlyTask.execute demoEnv (3 / 4) = some b ∧ b.start = -3 ∧
      b.currentTime = -1 ∧ b.stillWorking = false := by
  refine ⟨rfl, by decide!, by decide!, by decide!, by decide!, ?_⟩
  have h1 : (demoEarlyTask.execute demoEnv (3 / 4)).isSome = true := by decide!
  obtain ⟨b, hb⟩ := Option.isSome_iff_exists.mp h1
  have h2 : (demoEarlyTask.execute demoEnv (3 / 4)).map
      (fun (b : Task ℚ) => (b.start, b.currentTime, b.stillWorking))
      = some (-3, -1, false) := by decide!
  rw [hb] at h2
  simp only [Option.map_some', Option.some.injEq, Prod.mk.injEq] at h2
  exact ⟨b, hb, h2.1, h2.2.1, h2.2.2⟩

/-! ### The index of a path sample -/

/-- C25: for a stored half path of `n ≥ 1` samples the index
`trunc(t * (n - 1))` that `executeMorphCurve` reads lies in `[0, n - 1]` for
every `t` in `[0, 1]`, so the access is in bounds and the two-edge block
without stored frames completes; the index is 0 at `t = 0`, `n - 1` at `t = 1`
and non-decreasing in `t`. For `t > 1` the index is outside the path exactly
when `t * (n - 1) ≥ n`. On an empty path every index is outside and the
two-edge block faults. -/
theorem sample_index_bounds (path : List (PathPointPair K)) (hne : path ≠ []) :
    (∀ t : K, 0 ≤ t → t ≤ 1 →
      0 ≤ sampleIndex t path.length ∧ sampleIndex t path.length ≤ (path.length : Int) - 1 ∧
      (indexAt path (sampleIndex t path.length)).isSome = true) ∧
    (∀ (env : Env K) (task : Task K) (pathB : List (PathPointPair K)) (t : K),
      0 ≤ t → t ≤ 1 → pathB ≠ [] → task.property.pathA = some path →
      task.property.pathB = some pathB → task.property.rmf = none →
      (task.morphTwoEdges env t).isSome = true) ∧
    sampleIndex (0 : K) path.length = 0 ∧
    sampleIndex (1 : K) path.length = (path.length : Int) - 1 ∧
    (∀ t t' : K, t ≤ t' → sampleIndex t path.length ≤ sampleIndex t' path.length) ∧
    (∀ t : K, 1 < t → (indexAt path (sampleIndex t path.length) = none ↔
      (path.length : K) ≤ t * ((path.length : K) - 1))) ∧
    (∀ t : K, indexAt ([] : List (PathPointPair K)) (sampleIndex t 0) = none) ∧
    (∀ (env : Env K) (task : Task K) (t : K), task.property.pathA.getD [] = [] →
      task.morphTwoEdges env t = none) := by
  have key : ∀ (p : List (PathPointPair K)), p ≠ [] → ∀ t : K, 0 ≤ t → t ≤ 1 →
      0 ≤ sampleIndex t p.length ∧ sampleIndex t p.length ≤ (p.length : Int) - 1 ∧
      (indexAt p (sampleIndex t p.length)).isSome = true := by
    intro p hp t h0 h1
    have hn : 1 ≤ p.length := Nat.pos_of_ne_zero (fun h => hp (List.length_eq_zero.mp h))
    obtain ⟨hf, hx⟩ := sampleIndex_floor t p.length hn h0
    have hc : (((p.length : Int) - 1 : Int) : K) = (p.length : K) - 1 := by push_cast; ring
    have hm : (0 : K) ≤ (p.length : K) - 1 := by
      have : (1 : K) ≤ (p.length : K) := by exact_mod_cast hn
      linarith
    have hlo : 0 ≤ sampleIndex t p.length := by
      rw [hf]; exact Int.floor_nonneg.mpr hx
    have hhi : sampleIndex t p.length ≤ (p.length : Int) - 1 := by
      rw [hf]
      have h2 : t * ((p.length : K) - 1) ≤ (((p.length : Int) - 1 : Int) : K) := by
        rw [hc]
        have := mul_le_mul_of_nonneg_right h1 hm
        simpa using this
      have h3 := Int.floor_le_floor h2
      rwa [Int.floor_intCast] at h3
    refine ⟨hlo, hhi, ?_⟩
    rw [Option.isSome_iff_ne_none, Ne, indexAt_eq_none_iff]
    omega
  have hn : 1 ≤ path.length := Nat.pos_of_ne_zero (fun h => hne (List.length_eq_zero.mp h))
  have hm : (0 : K) ≤ (path.length : K) - 1 := by
    have : (1 : K) ≤ (path.length : K) := by exact_mod_cast hn
    linarith
  have hc : (((path.length : Int) - 1 : Int) : K) = (path.length : K) - 1 := by
    push_cast; ring
  refine ⟨key path hne, ?_, ?_, ?_, ?_, ?_, ?_, ?_⟩
  · intro env task pathB t h0 h1 hB hpa hpb hr
    apply morphTwoEdges_plain env task t hr
    · rw [hpa]; exact (key path hne t h0 h1).2.2
    · rw [hpb]; exact (key pathB hB t h0 h1).2.2
  · unfold sampleIndex
    rw [zero_mul, toInt_of_nonneg _ le_rfl, Int.floor_zero]
  · unfold sampleIndex
    rw [one_mul, toInt_intCast]
  · intro t t' h
    unfold sampleIndex
    apply toInt_mono
    rw [hc]
    exact mul_le_mul_of_nonneg_right h hm
  · intro t ht
    obtain ⟨hf, hx⟩ := sampleIndex_floor t path.length hn (by linarith)
    rw [indexAt_eq_none_iff, hf]
    have h0 : 0 ≤ ⌊t * ((path.length : K) - 1)⌋ := Int.floor_nonneg.mpr hx
    constructor
    · rintro (h | h)
      · omega
      · have := Int.le_floor.mp h
        exact_mod_cast this
    · intro h
      right
      rw [Int.le_floor]
      exact_mod_cast h
  · intro t
    exact indexAt_nil _
  · intro env task t h
    unfold Task.morphTwoEdges
    dsimp only
    rw [h, indexAt_nil]

/-- C25 amended, on the scene: the index into the five samples of `demoPath5`
at `t = 1/2` is 2, and the two-edge morph of the scene completes there. -/
theorem sample_index_bounds_witness :
    demoPath5 ≠ [] ∧ sampleIndex (1 / 2 : ℚ) demoPath5.length = 2 ∧
    (indexAt demoPath5 (sampleIndex (1 / 2 : ℚ) demoPath5.length)).isSome = true ∧
    (demoMorphTask2.morphTwoEdges demoEnv5 (1 / 2)).isSome = true :=
  ⟨by decide, by decide!,
    ((sample_index_bounds demoPath5 (by decide)).1 (1 / 2) (by norm_num) (by norm_num)).2.2,
    (sample_index_bounds demoPath5 (by decide)).2.1 demoEnv5 demoMorphTask2 demoPath5 (1 / 2)
      (by norm_num) (by norm_num) (by decide) rfl rfl rfl⟩

/-- C25, as stated, fails for `t` just above 1: with the five samples of
`demoPath5` and `t = 101/100` the index is `trunc(4.04) = 4`, the last sample
of the path, and the active two-edge morph of the scene completes
`execute (101/100)`. -/
theorem sample_index_counterexample :
    (1 : ℚ) < 101 / 100 ∧ demoMorphTask2.isActive (101 / 100) = true ∧
    demoMorphTask2.property.pathA = some demoPath5 ∧ demoPath5.length = 5 ∧
    sampleIndex (101 / 100 : ℚ) demoPath5.length = 4 ∧
    indexAt demoPath5 (sampleIndex (101 / 100 : ℚ) demoPath5.length) =
      some ⟨"b", ⟨4, 0, 0, 0⟩⟩ ∧
    (demoMorphTask2.execute demoEnv5 (101 / 100)).isSome = true := by
  refine ⟨by norm_num, by decide!, rfl, rfl, by decide!, by decide!, by decide!⟩

/-! ### The seed vector of the first frame -/

/-- C28: for every vector `n` that is not zero, `Frame::orthogonalVector(n)`
is not zero and its dot product with `n` is exactly 0; so for every `T` that
is not zero, when the normalisation is exact on the operands of `fromT` that
are not zero, no operand is zero and `Frame::fromT(T)` is an orthonormal
triple with `t = T / |T|`. -/
theorem orthogonalVector_seed (env : Env K) (n T : Vector3 K) (hn : n ≠ Vector3.zero)
    (hT : T ≠ Vector3.zero) (hE : env.exactOn (Frame.fromTOperands env T)) :
    Frame.orthogonalVector n ≠ Vector3.zero ∧
    Vector3.dot (Frame.orthogonalVector n) n = 0 ∧
    (∀ v ∈ Frame.fromTOperands env T, v ≠ Vector3.zero) ∧
    (Frame.fromT env T).orthonormal ∧
    (Frame.fromT env T).t = T.scale (1 / env.norm T) ∧
    0 < env.norm T ∧ env.norm T * env.norm T = Vector3.dot T T := by
  obtain ⟨hx, hp⟩ := Frame.fromTExact_of_exactOn env T hT hE
  have hx2 := hx
  unfold Frame.fromTExact at hx2
  simp only [Bool.and_eq_true] at hx2
  obtain ⟨⟨⟨hxT, hxo⟩, hxR⟩, hxS⟩ := hx2
  obtain ⟨_, hsq, hnT⟩ := (Env.exactAt_iff env T).mp hxT
  have hnz : ∀ v : Vector3 K, env.exactAt v = true → v ≠ Vector3.zero := by
    intro v hv h
    obtain ⟨h1, h2, _⟩ := (Env.exactAt_iff env v).mp hv
    rw [h] at h1 h2
    have h3 : env.norm (Vector3.zero : Vector3 K) * env.norm Vector3.zero = 0 := by
      rw [h2]; simp [Vector3.dot, Vector3.zero]
    exact h1 (mul_self_eq_zero.mp h3)
  refine ⟨Frame.orthogonalVector_ne_zero n hn, Frame.orthogonalVector_dot n, ?_,
    Frame.fromT_orthonormal env T hx, hnT, hp, hsq⟩
  intro v hv
  unfold Frame.fromTOperands at hv
  simp only [List.mem_cons, List.mem_singleton, List.not_mem_nil, or_false] at hv
  rcases hv with h | h | h | h
  · rw [h]; exact hT
  · rw [h]; exact hnz _ hxo
  · rw [h]; exact hnz _ hxR
  · rw [h]; exact hnz _ hxS

/-- C28, on the scene: the seed of `(3,0,4)` is `(-4,0,3)`, and the first
frame of `T = (0,0,2)` is orthonormal with `t = (0,0,1)`. -/
theorem orthogonalVector_seed_witness :
    ({ x := 3, y := 0, z := 4 } : Vector3 ℚ) ≠ Vector3.zero ∧
    ({ x := 0, y := 0, z := 2 } : Vector3 ℚ) ≠ Vector3.zero ∧
    demoEnvL.exactOn (Frame.fromTOperands demoEnvL ⟨0, 0, 2⟩) ∧
    Frame.orthogonalVector ({ x := 3, y := 0, z := 4 } : Vector3 ℚ) = ⟨-4, 0, 3⟩ ∧
    (Frame.fromT demoEnvL ⟨0, 0, 2⟩).orthonormal ∧
    (Frame.fromT demoEnvL ⟨0, 0, 2⟩).t = ⟨0, 0, 1⟩ := by
  have h := orthogonalVector_seed demoEnvL ⟨3, 0, 4⟩ ⟨0, 0, 2⟩ (by decide) (by decide)
    (by decide!)
  exact ⟨by decide, by decide, by decide!, by decide!, h.2.2.2.1, by decide!⟩

/-! ### Frames along a straight line -/

/-- C26: for every polyline of at least two points whose consecutive
differences are all positive multiples of one direction `d`, when every
division of `RMF::compute` is exact and the norm is not negative, every frame
that `RMF::compute` returns has the `r`, `s` and `t` of the first frame, and
`t` is `d / |d|`: the multiple `k d` with `k > 0` and `k² (d · d) = 1`. -/
theorem rmf_straight_line (env : Env K) (point : List (Vector3 K)) (d : Vector3 K)
    (hn : 2 ≤ point.length) (hex : RMF.exact env point = true)
    (hpos : ∀ v, 0 ≤ env.norm v)
    (hline : ∀ i p1 p0, point[i + 1]? = some p1 → point[i]? = some p0 →
      ∃ c, 0 < c ∧ p1.sub p0 = d.scale c) :
    ∃ (rmf : RMF K) (f0 : Frame K) (k : K), RMF.compute env point = some rmf ∧
      rmf.U.length = point.length ∧ rmf.U.head? = some f0 ∧
      0 < k ∧ k * k * Vector3.dot d d = 1 ∧ f0.t = d.scale k ∧
      ∀ f ∈ rmf.U, f.r = f0.r ∧ f.s = f0.s ∧ f.t = f0.t := by
  obtain ⟨U, k, hc, hUl, hk, hkk, ht, hU⟩ := RMF.compute_straight env point d hn hex hpos hline
  have h0 : point[0]? = some (point[0]) := List.getElem?_eq_getElem (by omega)
  refine ⟨_, { Frame.fromT env (d.scale k) with center := point[0] }, k, hc, hUl, ?_, hk, hkk,
    ht, ?_⟩
  · show U.head? = _
    rw [List.head?_eq_getElem?]
    exact hU 0 _ h0
  · intro f hf
    obtain ⟨i, hi, rfl⟩ := List.mem_iff_getElem.mp hf
    have hi' : i < point.length := by
      have : i < U.length := hi
      omega
    have h1 := hU i _ (List.getElem?_eq_getElem hi')
    have hget : U[i]? = some (U[i]) := List.getElem?_eq_getElem (by omega)
    rw [hget] at h1
    have heq : U[i] = { Frame.fromT env (d.scale k) with center := point[i] } :=
      Option.some.inj h1
    show (U[i]).r = _ ∧ (U[i]).s = _ ∧ (U[i]).t = _
    rw [heq]
    exact ⟨rfl, rfl, rfl⟩

/-- C26, on the scene: the polyline on the `x` axis with steps 1 and 2 is
computed exactly, and its three frames have the tangent `(1,0,0)`. -/
theorem rmf_straight_line_witness :
    2 ≤ demoStraight.length ∧ RMF.exact demoEnvL demoStraight = true ∧
    (RMF.compute demoEnvL demoStraight).map (fun (rmf : RMF ℚ) =>
      rmf.U.map (fun (f : Frame ℚ) => f.t)) = some [⟨1, 0, 0⟩, ⟨1, 0, 0⟩, ⟨1, 0, 0⟩] ∧
    ∃ (rmf : RMF ℚ) (f0 : Frame ℚ) (k : ℚ), RMF.compute demoEnvL demoStraight = some rmf ∧
      rmf.U.length = demoStraight.length ∧ rmf.U.head? = some f0 ∧
      0 < k ∧ k * k * Vector3.dot ⟨2, 0, 0⟩ ⟨2, 0, 0⟩ = 1 ∧ f0.t = Vector3.scale ⟨2, 0, 0⟩ k ∧
      ∀ f ∈ rmf.U, f.r = f0.r ∧ f.s = f0.s ∧ f.t = f0.t := by
  refine ⟨by decide, by decide!, by decide!,
    rmf_straight_line demoEnvL demoStraight ⟨2, 0, 0⟩ (by decide) (by decide!) ?_ ?_⟩
  · intro v
    show (0 : ℚ) ≤ |v.x| + |v.y| + |v.z|
    positivity
  · intro i p1 p0 h1 h0
    match i with
    | 0 =>
      cases h1
      cases h0
      exact ⟨1 / 2, by norm_num, by decide!⟩
    | 1 =>
      cases h1
      cases h0
      exact ⟨1, by norm_num, by decide!⟩
    | i + 2 =>
      simp [demoStraight] at h1

/-! ### Operation kinds without an execute branch -/

/-- C27: for a split or a merge task on a curve node, and for a morph, a
split or a merge task on a sheet node, a completed `execute t` with `t ≥ 0`
leaves the edges of the active graph and the control points of the node as
they were, and after `execute 1` the task is done. The call completes when
the task is ready or the node is a sheet. -/
theorem execute_no_branch (env : Env K) (a : Task K) (n : Node K) (t : K)
    (hn : a.node = some n)
    (hk : (n.type = NodeType.CURVE ∧ (a.type = TaskType.SPLIT ∨ a.type = TaskType.MERGE)) ∨
      (n.type = NodeType.SHEET ∧
        (a.type = TaskType.MORPH ∨ a.type = TaskType.SPLIT ∨ a.type = TaskType.MERGE)))
    (ht : 0 ≤ t) :
    (∀ b, a.execute env t = some b →
      b.active.edges = a.active.edges ∧
      (∃ n', b.node = some n' ∧ n'.mCtrlPoint = n.mCtrlPoint ∧
        n'.mCtrlPoint2 = n.mCtrlPoint2 ∧ n'.controlPoints = n.controlPoints) ∧
      (t = 1 → b.isDone = true)) ∧
    ((a.isReady = true ∨ n.type = NodeType.SHEET) → ∃ b, a.execute env t = some b) := by
  have hcp : ∀ m : Node K, m.shape = n.shape → m.mCtrlPoint = n.mCtrlPoint →
      m.mCtrlPoint2 = n.mCtrlPoint2 → m.controlPoints = n.controlPoints := by
    intro m hs h1 h2
    unfold Node.controlPoints
    rw [Node.shape_type hs, h1, h2]
  by_cases hact : a.isActive t = true
  · have hsw : ∀ (p g : Task K) (m n' : Node K), p.type = a.type → m.shape = n.shape →
        g.type = p.type → n'.shape = m.shape → g.executeSwitch env t n'.type = some g := by
      intro p g m n' h1 h2 h3 h4
      apply executeSwitch_plain
      rw [Node.shape_type h4, Node.shape_type h2, h3, h1]
      exact hk
    constructor
    · intro b h
      obtain ⟨p, g, n', d, hp, hg, hn', hd, hb⟩ := execute_steps env a b t hact h
      obtain ⟨he, hty, m, hm, hms, hm1, hm2⟩ := execute_entry_plain env a p n hn hk hp
      obtain ⟨g2, n2, hg2, hgn2, hs2, h1, h2, _, _, hgt, _, hge, _, _⟩ :=
        geometryMorph_ready env p m t hm
      rw [hg] at hg2
      cases hg2
      rw [hn'] at hgn2
      cases hgn2
      rw [hsw p g m n' hty hms hgt hs2] at hd
      cases hd
      have hnode : b.node = some n' := by
        rw [hb, Task.node_done]; exact hn'
      refine ⟨?_, ⟨n', hnode, h1.trans hm1, h2.trans hm2,
        hcp n' (hs2.trans hms) (h1.trans hm1) (h2.trans hm2)⟩, ?_⟩
      · rw [hb]
        by_cases h1 : t = 1
        · simp only [h1, if_true]; exact hge.trans he
        · simp only [h1, if_false]; exact hge.trans he
      · intro h1
        rw [hb]
        simp only [h1, if_true]
    · intro hr
      have hp : ∃ p, (if a.isReady then some a else a.prepare env) = some p := by
        by_cases hr2 : a.isReady = true
        · exact ⟨a, by simp [hr2]⟩
        · rcases hr with hr | hr
          · exact absurd hr hr2
          · rcases hk with ⟨h1, _⟩ | hk
            · rw [h1] at hr; cases hr
            · obtain ⟨p, hp⟩ := prepare_sheet_total env a n hn hk
              exact ⟨p, by simp [hr2, hp]⟩
      obtain ⟨p, hp⟩ := hp
      obtain ⟨he, hty, m, hm, hms, hm1, hm2⟩ := execute_entry_plain env a p n hn hk hp
      obtain ⟨g, n', hg, hgn, hs2, _, _, _, _, hgt, _, _, _, _⟩ :=
        geometryMorph_ready env p m t hm
      exact ⟨_, execute_of_steps env a p g g n' t hact hp hg hgn (hsw p g m n' hty hms hgt hs2)⟩
  · have h2 : a.execute env t = some a := by
      simp [Task.execute, hact]
    have hdone : a.isDone = true := by
      simp [Task.isActive, ht] at hact
      exact hact
    refine ⟨fun b h => ?_, fun _ => ⟨a, h2⟩⟩
    rw [h2] at h
    cases h
    exact ⟨rfl, ⟨n, hn, rfl, rfl, rfl⟩, fun _ => hdone⟩

/-- C27, on the scene: the fresh split of the curve `c` completes `execute 1`
done, with the edge and the control points of the scene; the fresh morph of
the sheet `c` completes `execute (1/2)`. -/
theorem execute_no_branch_witness :
    demoSplitTask.node = some (demoNode "c" NodeType.CURVE demoPoints "c") ∧
    (∃ b, demoSplitTask.execute demoEnv 1 = some b ∧
      b.active.edges = [demoLink "cb" "c" "b"] ∧ b.isDone = true ∧
      ∃ n', b.node = some n' ∧ n'.controlPoints = demoPoints) ∧
    ∃ b, demoSheetMorph.execute demoEnv (1 / 2) = some b := by
  have hn : demoSplitTask.node = some (demoNode "c" NodeType.CURVE demoPoints "c") := by
    decide!
  have h := execute_no_branch demoEnv demoSplitTask _ 1 hn (Or.inl ⟨rfl, Or.inl rfl⟩)
    (by norm_num)
  have h1 : (demoSplitTask.execute demoEnv 1).isSome = true := by decide!
  obtain ⟨b, hb⟩ := Option.isSome_iff_exists.mp h1
  obtain ⟨he, ⟨n', hn', _, _, hcp⟩, hd⟩ := h.1 b hb
  refine ⟨hn, ⟨b, hb, he, hd rfl, n', hn', hcp⟩, ?_⟩
  have hn2 : demoSheetMorph.node = some (demoNode "c" NodeType.SHEET demoPoints "c") := by
    decide!
  exact (execute_no_branch demoEnv demoSheetMorph _ (1 / 2) hn2
    (Or.inr ⟨rfl, Or.inl rfl⟩) (by norm_num)).2 (Or.inr rfl)

/-- C9, refuted as stated: the grow task of the scene prepared as a cut node
completes `execute 1` and is done, and the active graph has no edge although
the target node `c` has the edge `cb`; the same holds for the plain prepared
grow task on the curve, whose target node has that one edge, and for the
prepared grow task whose target node has two edges and whose bag holds no
`pathA`. -/
theorem grow_counterexample :
    demoCutGrowTask.type = TaskType.GROW ∧
    demoCutGrowTask.target.getEdges "c" = [demoLink "cb" "c" "b"] ∧
    (∃ b, demoCutGrowTask.execute demoEnv 1 = some b ∧ b.isDone = true ∧
      b.active.edges = []) ∧
    demoGrowTask.type = TaskType.GROW ∧
    demoGrowTask.target.getEdges "c" = [demoLink "cb" "c" "b"] ∧
    (∃ b, demoGrowTask.execute demoEnv 1 = some b ∧ b.isDone = true ∧
      b.active.edges = []) ∧
    demoGrowNoPath.type = TaskType.GROW ∧ demoGrowNoPath.isReady = true ∧
    demoGrowNoPath.property.isCutNode = none ∧ demoGrowNoPath.property.pathA = none ∧
    demoGrowNoPath.target.getEdges "c" = [demoLink "cb" "c" "b", demoLink "cd" "c" "d"] ∧
    ∃ b, demoGrowNoPath.execute demoEnv 1 = some b ∧ b.isDone = true ∧
      b.active.edges = [] := by
  refine ⟨rfl, by decide!, ?_, rfl, by decide!, ?_, rfl, rfl, rfl, rfl, by decide!, ?_⟩
  · have h1 : (demoCutGrowTask.execute demoEnv 1).isSome = true := by decide!
    obtain ⟨b, hb⟩ := Option.isSome_iff_exists.mp h1
    refine ⟨b, hb, ?_, ?_⟩
    · exact ((execute_control demoEnv _ b 1 (by decide!) hb).2.2.2.2.2.1).2 rfl
    · have h2 : ((demoCutGrowTask.execute demoEnv 1).map (fun b => b.active.edges))
          = some [] := by decide!
      rw [hb] at h2
      simpa using h2
  · have h1 : (demoGrowTask.execute demoEnv 1).isSome = true := by decide!
    obtain ⟨b, hb⟩ := Option.isSome_iff_exists.mp h1
    refine ⟨b, hb, ?_, ?_⟩
    · exact ((execute_control demoEnv _ b 1 (by decide!) hb).2.2.2.2.2.1).2 rfl
    · have h2 : ((demoGrowTask.execute demoEnv 1).map (fun b => b.active.edges))
          = some [] := by decide!
      rw [hb] at h2
      simpa using h2
  · have h1 : (demoGrowNoPath.execute demoEnv 1).isSome = true := by decide!
    obtain ⟨b, hb⟩ := Option.isSome_iff_exists.mp h1
    refine ⟨b, hb, ?_, ?_⟩
    · exact ((execute_control demoEnv _ b 1 (by decide!) hb).2.2.2.2.2.1).2 rfl
    · have h2 : ((demoGrowNoPath.execute demoEnv 1).map (fun b => b.active.edges))
          = some [] := by decide!
      rw [hb] at h2
      simpa using h2

/-- C9, amended: let a grow task that is not done complete `execute 1`, with
its node and its target node in place. On a curve node that is not a cut node
(no cut mark in the bag, and a negative cut-node test of the target graph if
the task is still to be prepared) whose target node has exactly two edges and
whose bag holds `pathA` when the step runs (`prepare` stores it; a task that is
already prepared has to hold it), the active graph afterwards holds a copy of
each of the two target edges: an edge from the node of the task to the
counterpart of the other endpoint, with the coordinates of the target edge. On
a sheet node the active graph holds such a copy of the first edge of the target
node (every edge, when there is exactly one). A prepared grow on a curve whose
bag holds the cut mark, or whose target node has two edges while its bag holds
no `pathA`, copies no edge: the edges of the active graph are the ones before
the call. -/
theorem grow_copies_edges (env : Env K) (task b : Task K) (n tn : Node K)
    (hty : task.type = TaskType.GROW) (hnd : task.isDone = false)
    (hn : task.node = some n) (htn : task.targetNode = some tn)
    (h : task.execute env 1 = some b) :
    (n.type = NodeType.CURVE → task.property.isCutNode = none →
      (task.isReady = true → task.property.pathA.isSome = true) →
      (task.isReady = false → env.isCutNode task.target tn.id = false) →
      (task.target.getEdges tn.id).length = 2 →
      ∀ tl ∈ task.target.getEdges tn.id,
        b.active.hasCopyOf task.target task.property.nodeID tn.id tl) ∧
    (n.type = NodeType.SHEET →
      ∀ tl, (task.target.getEdges tn.id).head? = some tl →
        b.active.hasCopyOf task.target task.property.nodeID tn.id tl) ∧
    (n.type = NodeType.CURVE → task.isReady = true →
      (task.property.isCutNode.isSome = true ∨
        (task.property.isCutNode = none ∧ task.property.pathA = none ∧
          (task.target.getEdges tn.id).length = 2)) →
      b.active.edges = task.active.edges) := by
  have hconj : (n.type = NodeType.CURVE → task.property.isCutNode = none →
      (task.isReady = true → task.property.pathA.isSome = true) →
      (task.isReady = false → env.isCutNode task.target tn.id = false) →
      (task.target.getEdges tn.id).length = 2 →
      ∀ tl ∈ task.target.getEdges tn.id,
        b.active.hasCopyOf task.target task.property.nodeID tn.id tl) ∧
    (n.type = NodeType.SHEET →
      ∀ tl, (task.target.getEdges tn.id).head? = some tl →
        b.active.hasCopyOf task.target task.property.nodeID tn.id tl) := by
    have hact : task.isActive 1 = true := by simp [Task.isActive, hnd]
    obtain ⟨p, g, n', d, hp, hg, hgn, hd, hb⟩ := execute_steps env task b 1 hact h
    obtain ⟨hgty, hgid, hgp, n0, hn0, hs0⟩ := execute_stage_input env task p g n' 1 hp hg hgn
    obtain ⟨hA, hT⟩ := execute_stage_graphs env task p g 1 hp hg
    rw [hn] at hn0
    cases hn0
    have hgty' : g.type = TaskType.GROW := hgty.trans hty
    obtain ⟨tng, htng, hstng⟩ := Task.targetNode_transfer hgid hA.2 hT.2 htn
    have hidg : tng.id = tn.id := Node.shape_id hstng
    have hge : g.target.getEdges tng.id = task.target.getEdges tn.id := by
      rw [Graph.sameShape_getEdges hT, hidg]
    simp only [if_true] at hb
    subst hb
    constructor
    · intro hcurve hbag hpathR hcutenv hlen tl htl
      have hk : n'.type = NodeType.CURVE := by rw [← Node.shape_type hs0]; exact hcurve
      rw [executeSwitch_curve_grow env g 1 _ hk hgty'] at hd
      have hpb : p.property.isCutNode = none ∧ p.property.pathA.isSome = true := by
        by_cases hr : task.isReady = true
        · simp only [hr, if_true, Option.some.injEq] at hp
          subst hp
          exact ⟨hbag, hpathR hr⟩
        · have hr' : task.isReady = false := by simpa using hr
          simp only [hr, Bool.false_eq_true, if_false] at hp
          exact prepare_grow_bag env task p n tn hn hcurve hty htn hbag (hcutenv hr') hlen hp
      have hm := executeGrowCurve_two env g d tng 1 htng (by rw [hgp]; exact hpb.1)
        (by rw [hge]; exact hlen) hd
      obtain ⟨d0, tlA, tlB, c, hgd0, hA', hB', hc1, hc2⟩ :=
        executeMorphCurve_grow env g d tng hgty' htng (by rw [hgp]; exact hpb.2) hm
      rw [hge] at hA' hB'
      obtain ⟨tnd, htnd, hstnd⟩ := Task.Kept_targetNode hgd0.1 htng
      obtain ⟨hcopy1, hsub1, hk1⟩ := copyTargetEdge_copies env d0 c tlA tnd htnd hc1
      obtain ⟨tnc, htnc, hstnc⟩ := Task.Kept_targetNode hk1 htnd
      obtain ⟨hcopy2, hsub2, hk2⟩ := copyTargetEdge_copies env c d tlB tnc htnc hc2
      have hidd : tnd.id = tn.id := (Node.shape_id hstnd).trans hidg
      have hidc : tnc.id = tn.id := (Node.shape_id hstnc).trans hidd
      have hnid0 : d0.property.nodeID = task.property.nodeID :=
        (Task.Kept_nodeID hgd0.1).trans hgid
      have hnidc : c.property.nodeID = task.property.nodeID := (Task.Kept_nodeID hk1).trans hnid0
      have hT0 : d0.target.sameNodes task.target :=
        Graph.sameNodes_symm (Graph.sameNodes_trans hT.2 hgd0.1.2.2.2)
      have hTc : c.target.sameNodes task.target :=
        Graph.sameNodes_symm
          (Graph.sameNodes_trans (Graph.sameNodes_trans hT.2 hgd0.1.2.2.2) hk1.2.2.2)
      rw [hidd, hnid0] at hcopy1
      rw [hidc, hnidc] at hcopy2
      rcases mem_of_length_two _ tlA tlB hlen hA' hB' tl htl with e | e
      · rw [e]
        exact Graph.hasCopyOf_mono hcopy1 hsub2 hT0
      · rw [e]
        exact Graph.hasCopyOf_mono hcopy2 (fun _ hx => hx) hTc
    · intro hsheet tl htl
      have hk : n'.type = NodeType.SHEET := by rw [← Node.shape_type hs0]; exact hsheet
      rw [executeSwitch_sheet env g 1 _ hk (Or.inr hgty')] at hd
      obtain ⟨c, tl', hgc, hhead, hcopy⟩ := executeGrowShrinkSheet_grow env g d tng hgty' htng hd
      rw [hge, htl] at hhead
      cases hhead
      obtain ⟨tnc, htnc, hstnc⟩ := Task.Kept_targetNode hgc.1 htng
      obtain ⟨hcopy1, _, _⟩ := copyTargetEdge_copies env c d tl tnc htnc hcopy
      have hidc : tnc.id = tn.id := (Node.shape_id hstnc).trans hidg
      have hnidc : c.property.nodeID = task.property.nodeID := (Task.Kept_nodeID hgc.1).trans hgid
      have hTc : c.target.sameNodes task.target :=
        Graph.sameNodes_symm (Graph.sameNodes_trans hT.2 hgc.1.2.2.2)
      rw [hidc, hnidc] at hcopy1
      exact Graph.hasCopyOf_mono hcopy1 (fun _ hx => hx) hTc
  exact ⟨hconj.1, hconj.2, fun hcurve hr hc =>
    execute_grow_no_copy env task b n tn 1 hty hnd zero_le_one hr hn htn hcurve hc h⟩

/-- C9 amended, on the scene: the prepared two-edge grow task completes
`execute 1`, and the active graph then holds a copy of both target edges of
the curve `c`. -/
theorem grow_copies_edges_witness :
    ∃ b, demoGrowTask2.execute demoEnv 1 = some b ∧
      b.active.hasCopyOf demoGrowTask2.target "c" "c" (demoLink "cb" "c" "b") ∧
      b.active.hasCopyOf demoGrowTask2.target "c" "c" (demoLink "cd" "c" "d") := by
  have h1 : (demoGrowTask2.execute demoEnv 1).isSome = true := by decide!
  obtain ⟨b, hb⟩ := Option.isSome_iff_exists.mp h1
  have h := (grow_copies_edges demoEnv demoGrowTask2 b
    (demoNode "c" NodeType.CURVE demoPoints "c") (demoNode "c" NodeType.CURVE demoPoints "c")
    rfl rfl (by decide!) (by decide!) hb).1 rfl rfl (fun _ => rfl)
    (fun hr => absurd hr (by decide)) (by decide!)
  exact ⟨b, hb, h _ (by decide!), h _ (by decide!)⟩

/-! ### Welding a path -/

/-- C19, refuted as stated: the path `b@0, b@1, d@0` comes back to its first
position on another node; with the set of kept indices enumerated in ascending
order `weldPath` returns `d@0, b@1`, which is not a subsequence of the input.
With the set enumerated in descending order the path of five samples at five
different positions comes back reversed, which is not a subsequence of the
input either. -/
theorem weld_order_counterexample :
    demoEnvW.welds ∧ demoEnvW.ascendingSets ∧
    demoEnvW.weld (demoLoopPath.map (demoEnvW.pathPosition (demoActive NodeType.CURVE)))
      = [0, 1, 0] ∧
    weldPath demoEnvW (demoActive NodeType.CURVE) demoLoopPath
      = some [⟨"d", ⟨0, 0, 0, 0⟩⟩, ⟨"b", ⟨1, 0, 0, 0⟩⟩] ∧
    ¬ List.Sublist ([⟨"d", ⟨0, 0, 0, 0⟩⟩, ⟨"b", ⟨1, 0, 0, 0⟩⟩] : List (PathPointPair ℚ))
      demoLoopPath ∧
    demoEnvD.welds ∧ demoEnvD.enumeratesSets ∧
    weldPath demoEnvD (demoActive NodeType.CURVE) demoPath5 = some demoPath5.reverse ∧
    ¬ List.Sublist demoPath5.reverse demoPath5 :=
  ⟨demoEnvW_welds, demoEnvW_ascendingSets, by decide!, by decide!, by decide!,
    demoEnvD_welds, demoEnvD_enumeratesSets, by decide!, by decide!⟩

/-- C19, amended: with a weld as the specification describes it and a set of
kept indices whose `foreach` visits each index once, `weldPath` completes for
every path; each output entry is an input entry; no two output entries have
the same position; every position of the input occurs in the output; the entry
kept for a position is the last input entry at that position; and the output
lists the kept entries in the order in which `foreach` enumerates the set: the
entry at place `a` is the last input entry whose cross-reference is the index
enumerated at place `a`. When every set is enumerated in ascending order, the
positions of the output come in the order of their first occurrence in the
input (the position of an earlier output entry occurs in the input before
every occurrence of the position of a later one). -/
theorem weld_first_positions (env : Env K) (active : Graph K) (hw : env.welds)
    (he : env.enumeratesSets) (p : List (PathPointPair K)) :
    ∃ out, weldPath env active p = some out ∧
      (∀ e ∈ out, e ∈ p) ∧
      (out.map (env.pathPosition active)).Nodup ∧
      (∀ e ∈ p, env.pathPosition active e ∈ out.map (env.pathPosition active)) ∧
      (∀ e ∈ out, ∃ i, p[i]? = some e ∧ ∀ (j : Nat) (ej : PathPointPair K), i < j →
        p[j]? = some ej → env.pathPosition active ej ≠ env.pathPosition active e) ∧
      out.length
        = (env.qsetOrder (env.weld (p.map (env.pathPosition active))).eraseDups).length ∧
      (∀ (a g : Nat),
        (env.qsetOrder (env.weld (p.map (env.pathPosition active))).eraseDups)[a]? = some g →
        ∃ (L : Nat) (e : PathPointPair K), p[L]? = some e ∧ out[a]? = some e ∧
          (env.weld (p.map (env.pathPosition active))).getD L 0 = g ∧
          ∀ j, L < j → j < p.length →
            (env.weld (p.map (env.pathPosition active))).getD j 0 ≠ g) ∧
      (env.ascendingSets →
        ∀ (a b : Nat) (ea eb : PathPointPair K), a < b → out[a]? = some ea →
          out[b]? = some eb →
          ∃ (i : Nat) (ei : PathPointPair K), p[i]? = some ei ∧
            env.pathPosition active ei = env.pathPosition active ea ∧
            ∀ (j : Nat) (ej : PathPointPair K), p[j]? = some ej →
              env.pathPosition active ej = env.pathPosition active eb → i < j) := by
  obtain ⟨out, hout, h1, h2, h3, h4⟩ := weldPath_any env active hw he p
  obtain ⟨out', hout', hl, hslot⟩ := weldPath_slots_any env active hw he p
  rw [hout] at hout'
  cases hout'
  refine ⟨out, hout, h1, h2, h3, h4, hl, hslot, fun hq => ?_⟩
  obtain ⟨out'', hout'', _, _, _, h5⟩ := weldPath_spec env active hw hq p
  rw [hout] at hout''
  cases hout''
  exact h5

/-- C19 amended, on the scene: with the descending enumeration the path that
returns to its first position is welded to `b@1, d@0`: two entries of the
input at two different positions, `d@0` being the last entry at the position
`(0,0,0)`. -/
theorem weld_first_positions_witness :
    demoEnvD.welds ∧ demoEnvD.enumeratesSets ∧
    weldPath demoEnvD (demoActive NodeType.CURVE) demoLoopPath
      = some [⟨"b", ⟨1, 0, 0, 0⟩⟩, ⟨"d", ⟨0, 0, 0, 0⟩⟩] ∧
    ∃ out, weldPath demoEnvD (demoActive NodeType.CURVE) demoLoopPath = some out ∧
      (∀ e ∈ out, e ∈ demoLoopPath) ∧
      (out.map (demoEnvD.pathPosition (demoActive NodeType.CURVE))).Nodup ∧
      (∀ e ∈ demoLoopPath, demoEnvD.pathPosition (demoActive NodeType.CURVE) e
        ∈ out.map (demoEnvD.pathPosition (demoActive NodeType.CURVE))) := by
  obtain ⟨out, h1, h2, h3, h4, _⟩ := weld_first_positions demoEnvD (demoActive NodeType.CURVE)
    demoEnvD_welds demoEnvD_enumeratesSets demoLoopPath
  exact ⟨demoEnvD_welds, demoEnvD_enumeratesSets, by decide!, out, h1, h2, h3, h4⟩

/-- C20: for every path of `N ≥ 1` samples the splits of `prepareShrinkCurve`
and of `prepareGrowCurve` first duplicate the sample at `N/2` exactly when `N`
is even, so that the split runs over an odd number of samples; every read is
inside the path (the splits complete, and each entry of a half is a sample
that was read); and the two halves have the same length, `N/2` samples each:
in the shrink the first and the mirrored last samples, in the grow the samples
on either side of the middle, walking outwards. -/
theorem bisect_equal_halves (path : List (PathPointPair K)) (hN : 1 ≤ path.length) :
    ∃ mid A B A' B', insertMid path = some mid ∧
      (path.length % 2 = 0 → ∃ m, path[path.length / 2]? = some m ∧
        mid = path.take (path.length / 2) ++ m :: path.drop (path.length / 2)) ∧
      (path.length % 2 = 1 → mid = path) ∧
      mid.length % 2 = 1 ∧ mid.length / 2 = path.length / 2 ∧
      bisectShrink path = some (A, B) ∧
      A.length = path.length / 2 ∧ B.length = path.length / 2 ∧ A.length = B.length ∧
      (∀ i, i < path.length / 2 → ∃ a b, A[i]? = some a ∧ mid[i]? = some a ∧
        B[i]? = some b ∧ mid[mid.length - 1 - i]? = some b) ∧
      bisectGrow path = some (A', B') ∧
      A'.length = path.length / 2 ∧ B'.length = path.length / 2 ∧ A'.length = B'.length ∧
      (∀ i, i < path.length / 2 → ∃ a b, A'[i]? = some a ∧
        mid[path.length / 2 - 1 - i]? = some a ∧
        B'[i]? = some b ∧ mid[path.length / 2 + 1 + i]? = some b) := by
  obtain ⟨mid, A, B, hmid, hAB, hA, hB, hi⟩ := bisectShrink_spec path hN
  obtain ⟨mid', A', B', hmid', hAB', hA', hB', hi'⟩ := bisectGrow_spec path hN
  rw [hmid] at hmid'
  cases hmid'
  have hlen := insertMid_length path mid hN hmid
  have hl2 : (path.length % 2 = 0 ∧ mid.length = path.length + 1) ∨
      (path.length % 2 = 1 ∧ mid.length = path.length) := by
    by_cases he : path.length % 2 = 0
    · left; rw [if_pos he] at hlen; exact ⟨he, hlen⟩
    · right; rw [if_neg he] at hlen; exact ⟨by omega, hlen⟩
  have hhalf : mid.length / 2 = path.length / 2 := by omega
  have hsome : ∀ j, j < mid.length → ∃ e, mid[j]? = some e :=
    fun j hj => ⟨_, List.getElem?_eq_getElem hj⟩
  refine ⟨mid, A, B, A', B', hmid, ?_, ?_, by omega, hhalf, hAB, hA.trans hhalf,
    hB.trans hhalf, hA.trans hB.symm, ?_, hAB', hA', hB', hA'.trans hB'.symm, ?_⟩
  · intro he
    obtain ⟨m, hm, hins⟩ := insertMid_even path hN he
    rw [hmid] at hins
    cases hins
    exact ⟨m, hm, rfl⟩
  · intro ho
    have := insertMid_odd path ho
    rw [hmid] at this
    cases this
    rfl
  · intro i hlt
    obtain ⟨h1, h2⟩ := hi i (by omega)
    obtain ⟨a, h3⟩ := hsome i (by omega)
    obtain ⟨b, h4⟩ := hsome (mid.length - 1 - i) (by omega)
    exact ⟨a, b, h1.trans h3, h3, h2.trans h4, h4⟩
  · intro i hlt
    obtain ⟨h1, h2⟩ := hi' i hlt
    obtain ⟨a, h3⟩ := hsome (path.length / 2 - 1 - i) (by omega)
    obtain ⟨b, h4⟩ := hsome (path.length / 2 + 1 + i) (by omega)
    exact ⟨a, b, h1.trans h3, h3, h2.trans h4, h4⟩

/-- C20, on the scene: the path of five samples is split as it is, into
halves of two samples each: the first two and the mirrored last two in the
shrink, the two on either side of the middle in the grow. -/
theorem bisect_equal_halves_witness :
    1 ≤ demoPath5.length ∧
    bisectShrink demoPath5
      = some ([⟨"b", ⟨0, 0, 0, 0⟩⟩, ⟨"b", ⟨1, 0, 0, 0⟩⟩],
              [⟨"b", ⟨4, 0, 0, 0⟩⟩, ⟨"b", ⟨3, 0, 0, 0⟩⟩]) ∧
    bisectGrow demoPath5
      = some ([⟨"b", ⟨1, 0, 0, 0⟩⟩, ⟨"b", ⟨0, 0, 0, 0⟩⟩],
              [⟨"b", ⟨3, 0, 0, 0⟩⟩, ⟨"b", ⟨4, 0, 0, 0⟩⟩]) ∧
    ∃ A B A' B', bisectShrink demoPath5 = some (A, B) ∧ A.length = 2 ∧ B.length = 2 ∧
      bisectGrow demoPath5 = some (A', B') ∧ A'.length = 2 ∧ B'.length = 2 := by
  obtain ⟨_, A, B, A', B', _, _, _, _, _, h1, h2, h3, _, _, h4, h5, h6, _, _⟩ :=
    bisect_equal_halves demoPath5 (by decide)
  exact ⟨by decide, by decide!, by decide!, A, B, A', B', h1, h2, h3, h4, h5, h6⟩

end Claims

end TopoBlend
